import Mathlib

/-! # The binary hash map keychain (`LLD::BinaryHashMap`), the data thread
(`LLP::DataThread`), the page-locking macros and the paging of `Objects::List` of LLL-TAO

A shallow embedding of `src/LLD/hashmap.cpp`, `src/LLD/keychain/hashmap.h`,
`src/LLD/bloom.cpp` and `src/Util/templates/bitarray.h` (namespace `LLD`), of
`src/LLP/data.cpp` (namespace `LLP`), of `src/Util/include/allocators.h` (namespace `Util`)
and of `src/TAO/API/types/objects/list.cpp` (namespace `TAO.API`); the last three have their
own conventions at their heads.

Conventions of the embedding.

* Bytes, registers and all machine integers are natural numbers; a reduction modulo
  `2 ^ w` is written wherever the C++ type can wrap for values the program can reach
  (`uint32_t nFilePos`, the `int16_t` file counters, the `uint16_t nFile` of `write_key`).
* The disk is a pair of directories (`_hashmap.NNNNN` and `_bloom.NNNNN`), each a list of
  optional byte sequences indexed by the file number; `none` is a missing file, and opening
  a missing file is the I/O failure that `Get`, `Put` and `Erase` model; `Streams.Put` adds
  the failure of the two streams that the last part of `Put` constructs.  The LRU caches of
  open streams only save re-opening a file and are left out.
* A stream read copies the bytes that are available over the start of the buffer; a stream
  write past the end of a file fills the gap with zero bytes.
* `XXH64` and the `FLAGS::APPEND` mask come from headers that are not part of the sources at
  hand and are fields of `Config`.  The bit capacity of a bloom filter is a field of `Config`
  too, so that the theorems on the keychain hold for every capacity; the capacity that the
  constructor computes in floating point is `bloomBits`.
-/

namespace LLD

/-! ## Bit arrays (`Util/templates/bitarray.h`) -/

/-- The class `BitArray`: 64-bit registers and the range of modified registers. -/
structure BitArray where
  nModifiedBegin : Nat
  nModifiedEnd : Nat
  vRegisters : List Nat
  fModified : Bool
deriving DecidableEq, Repr

namespace BitArray

/-- The constructor `BitArray(nElements)`: `nElements / 64 + 1` zero registers. -/
def create (nElements : Nat) : BitArray :=
  { nModifiedBegin := 0, nModifiedEnd := 0,
    vRegisters := List.replicate (nElements / 64 + 1) 0, fModified := false }

/-- The method `is_set`: `vRegisters[nIndex / 64] & (uint64_t(1) << (nIndex % 64))` as a
boolean. -/
def is_set (a : BitArray) (nIndex : Nat) : Bool :=
  (a.vRegisters.getD (nIndex / 64) 0 &&& (1 <<< (nIndex % 64))) != 0

/-- The bookkeeping shared by `set_bit` and `clear_bit`: widen the modified range so that it
holds `nRegister` and raise the modified flag; `nRegister + 1` is a `uint32_t` sum. -/
def mark (a : BitArray) (nRegister : Nat) : BitArray :=
  if !a.fModified then
    { a with nModifiedBegin := nRegister, nModifiedEnd := (nRegister + 1) % 2 ^ 32,
             fModified := true }
  else
    { a with
      nModifiedBegin := if nRegister < a.nModifiedBegin then nRegister else a.nModifiedBegin,
      nModifiedEnd :=
        if nRegister ≥ a.nModifiedEnd then (nRegister + 1) % 2 ^ 32 else a.nModifiedEnd }

/-- The method `set_bit`; `nRegister` is a `uint32_t`. -/
def set_bit (a : BitArray) (nIndex : Nat) : BitArray :=
  let nRegister := (nIndex / 64) % 2 ^ 32
  let b := a.mark nRegister
  let nValue := b.vRegisters.getD nRegister 0 ||| (1 <<< (nIndex % 64))
  { b with vRegisters := List.set b.vRegisters nRegister nValue }

/-- The method `clear_bit`; `~(uint64_t(1) << k)` is `2 ^ 64 - 1 - 2 ^ k`. -/
def clear_bit (a : BitArray) (nIndex : Nat) : BitArray :=
  let nRegister := (nIndex / 64) % 2 ^ 32
  let b := a.mark nRegister
  let nValue := b.vRegisters.getD nRegister 0 &&& (2 ^ 64 - 1 - (1 <<< (nIndex % 64)))
  { b with vRegisters := List.set b.vRegisters nRegister nValue }

/-- The method `Size`: the size of the registers in bytes. -/
def Size (a : BitArray) : Nat := a.vRegisters.length * 8

/-- The method `ModifiedSize`: `(nModifiedEnd - nModifiedBegin) * 8` in `uint64_t`. -/
def ModifiedSize (a : BitArray) : Nat :=
  ((a.nModifiedEnd + 2 ^ 64 - a.nModifiedBegin) * 8) % 2 ^ 64

/-- The method `ModifiedOffset`: `nModifiedBegin * 8` in `uint64_t`. -/
def ModifiedOffset (a : BitArray) : Nat := (a.nModifiedBegin * 8) % 2 ^ 64

end BitArray

/-- The `nWidth` little-endian bytes of `nValue` (the value is reduced modulo
`2 ^ (8 * nWidth)`). -/
def leBytes : Nat → Nat → List Nat
  | 0, _ => []
  | nWidth + 1, nValue => nValue % 256 :: leBytes nWidth (nValue / 256)

/-- The value of a little-endian byte sequence. -/
def leValue : List Nat → Nat
  | [] => 0
  | b :: bs => b + 256 * leValue bs

/-- The method `BitArray::Bytes` read over `Size()` bytes: the registers in memory order,
eight little-endian bytes each. -/
def BitArray.Bytes (a : BitArray) : List Nat :=
  a.vRegisters.flatMap (leBytes 8)

/-- The registers held by a byte image (the inverse of `BitArray.Bytes`). -/
def registersOfBytes : Nat → List Nat → List Nat
  | 0, _ => []
  | n + 1, bytes => leValue (bytes.take 8) :: registersOfBytes n (bytes.drop 8)

/-! ## Bloom filter (`LLD/bloom.cpp`) and occupancy filter (`LLD/keychain/hashmap.h`) -/

/-- The class `BloomFilter`: a bit array and the modulus of its three hash functions. -/
structure BloomFilter extends BitArray where
  HASHMAP_TOTAL_BUCKETS : Nat
deriving DecidableEq, Repr

/-- The class `HashMapFilter`: the bit array of occupied buckets of one hashmap file. -/
structure HashMapFilter extends BitArray where
deriving DecidableEq, Repr

namespace BloomFilter

/-- The constructor `BloomFilter(nBuckets)`, given the bit capacity
`(nBuckets * 3) / 0.693147` it computes in floating point. -/
def create (nBits : Nat) : BloomFilter :=
  { toBitArray := BitArray.create nBits, HASHMAP_TOTAL_BUCKETS := nBits }

/-- The method `BloomFilter::get_bucket`. -/
def get_bucket (XXH64 : List Nat → Nat → Nat) (f : BloomFilter) (vKey : List Nat)
    (nK : Nat) : Nat :=
  (XXH64 vKey nK % 2 ^ 64) % f.HASHMAP_TOTAL_BUCKETS

/-- The method `BloomFilter::Insert`: set the bits of the three hashes. -/
def Insert (XXH64 : List Nat → Nat → Nat) (f : BloomFilter) (vKey : List Nat) :
    BloomFilter :=
  [0, 1, 2].foldl
    (fun g nK => { g with toBitArray := g.toBitArray.set_bit (get_bucket XXH64 g vKey nK) }) f

/-- The method `BloomFilter::Has`: all three bits are set. -/
def Has (XXH64 : List Nat → Nat → Nat) (f : BloomFilter) (vKey : List Nat) : Bool :=
  [0, 1, 2].all (fun nK => f.toBitArray.is_set (get_bucket XXH64 f vKey nK))

end BloomFilter

namespace HashMapFilter

/-- The constructor `HashMapFilter(nElements)`. -/
def create (nElements : Nat) : HashMapFilter :=
  { toBitArray := BitArray.create nElements }

/-- The method `HashMapFilter::Has`. -/
def Has (f : HashMapFilter) (nBucket : Nat) : Bool := f.toBitArray.is_set nBucket

/-- The method `HashMapFilter::Insert`. -/
def Insert (f : HashMapFilter) (nBucket : Nat) : HashMapFilter :=
  { f with toBitArray := f.toBitArray.set_bit nBucket }

/-- The method `HashMapFilter::Erase`. -/
def Erase (f : HashMapFilter) (nBucket : Nat) : HashMapFilter :=
  { f with toBitArray := f.toBitArray.clear_bit nBucket }

end HashMapFilter

/-! ## Sector keys -/

/-- Modelled from the spec: the values `STATE::EMPTY = 0` of `LLD/include/enum.h`. -/
def STATE_EMPTY : Nat := 0

/-- Modelled from the spec: the value `STATE::READY = 1` of `LLD/include/enum.h`. -/
def STATE_READY : Nat := 1

/-- Modelled from the spec: the class `SectorKey` of the keychain headers, with the fields of
the on-disk record and the caller's uncompressed key. -/
structure SectorKey where
  nState : Nat
  nSectorFile : Nat
  nSectorStart : Nat
  nSectorSize : Nat
  nLength : Nat
  vKey : List Nat
deriving DecidableEq, Repr

namespace SectorKey

/-- Modelled from the spec: `SectorKey::Ready`, the state is `READY`. -/
def Ready (c : SectorKey) : Bool := c.nState == STATE_READY

/-- The fields fit their integer types: one byte of state, 16-bit file and length, 32-bit
start and size (13 header bytes in all). -/
def Fits (c : SectorKey) : Prop :=
  c.nState < 2 ^ 8 ∧ c.nSectorFile < 2 ^ 16 ∧ c.nSectorStart < 2 ^ 32 ∧
    c.nSectorSize < 2 ^ 32 ∧ c.nLength < 2 ^ 16

instance (c : SectorKey) : Decidable c.Fits := by
  unfold Fits; infer_instance

/-- Modelled from the spec: the serialization `ssKey << cKey` of the 13 header bytes, little
endian, in the order state, sector file, sector start, sector size, length. -/
def serialize (c : SectorKey) : List Nat :=
  leBytes 1 c.nState ++ leBytes 2 c.nSectorFile ++ leBytes 4 c.nSectorStart ++
    leBytes 4 c.nSectorSize ++ leBytes 2 c.nLength

/-- Modelled from the spec: the deserialization `ssKey >> cKey` from the bytes at the read
position; the key of `cKey` is not part of the stream and is kept. -/
def deserialize (vBytes : List Nat) (c : SectorKey) : SectorKey :=
  { c with
    nState := leValue (vBytes.take 1),
    nSectorFile := leValue ((vBytes.drop 1).take 2),
    nSectorStart := leValue ((vBytes.drop 3).take 4),
    nSectorSize := leValue ((vBytes.drop 7).take 4),
    nLength := leValue ((vBytes.drop 11).take 2) }

end SectorKey

/-! ## Files -/

/-- A directory of numbered files: entry `i` is the content of file number `i`, `none` when
that file does not exist. -/
abbrev Directory := List (Option (List Nat))

/-- The content of file number `i`, if the file exists. -/
def lookupFile (d : Directory) (i : Nat) : Option (List Nat) := d.getD i none

/-- Create or replace file number `i`. -/
def storeFile (d : Directory) (i : Nat) (vBytes : List Nat) : Directory :=
  List.set (d ++ List.replicate (i + 1 - d.length) none) i (some vBytes)

/-- The effect of `seekp(nPos)` and `write` of `vData` on the bytes of a file. -/
def writeAt (file : List Nat) (nPos : Nat) (vData : List Nat) : List Nat :=
  (file ++ List.replicate (nPos - file.length) 0).take nPos ++ vData ++
    file.drop (nPos + vData.length)

/-- The effect of `seekg(nPos)` and `read` of `vBuffer.size()` bytes on the buffer. -/
def readAt (file : List Nat) (nPos : Nat) (vBuffer : List Nat) : List Nat :=
  let vRead := (file.drop nPos).take vBuffer.length
  vRead ++ vBuffer.drop vRead.length

/-! ## The keychain (`LLD/hashmap.cpp`) -/

/-- The constants of a keychain. -/
structure Config where
  /-- The member `HASHMAP_TOTAL_BUCKETS` (a `uint32_t`). -/
  HASHMAP_TOTAL_BUCKETS : Nat
  /-- The member `HASHMAP_FLAGS`. -/
  HASHMAP_FLAGS : Nat
  /-- The mask `FLAGS::APPEND` of `LLD/include/enum.h`. -/
  APPEND : Nat
  /-- The bit capacity `(nBuckets * 3) / 0.693147` of the bloom filters. -/
  BLOOM_BITS : Nat
  /-- The hash `XXH64(data, seed)` of `LLD/hash/xxh3.h`. -/
  XXH64 : List Nat → Nat → Nat

/-- The member `HASHMAP_MAX_KEY_SIZE`, set to 32 by the constructor. -/
def HASHMAP_MAX_KEY_SIZE : Nat := 32

/-- The member `HASHMAP_KEY_ALLOCATION`, set to `HASHMAP_MAX_KEY_SIZE + 13`. -/
def HASHMAP_KEY_ALLOCATION : Nat := HASHMAP_MAX_KEY_SIZE + 13

/-- The constant `HASHMAP_MAX_KEYS_LINEAR_PROBE`. -/
def HASHMAP_MAX_KEYS_LINEAR_PROBE : Nat := 16

/-- The state of a keychain: the in-memory filters and the two directories on disk. -/
structure BinaryHashMap where
  vHashmaps : List (BloomFilter × HashMapFilter)
  hashmapFiles : Directory
  bloomFiles : Directory
deriving DecidableEq, Repr

/-- The inner `for` loop of a round of `compress_key`, from index `i` on:
`vData[i] = vData[i] ^ vData[i << 1]` in place while `i < nSize2`. -/
def xorLoop (nSize2 : Nat) : Nat → Nat → List Nat → List Nat
  | 0, _, vData => vData
  | nSteps + 1, i, vData =>
    if (i <<< 1) < (nSize2 <<< 1) then
      xorLoop nSize2 nSteps (i + 1) (List.set vData i (vData.getD i 0 ^^^ vData.getD (i <<< 1) 0))
    else
      xorLoop nSize2 nSteps (i + 1) vData

/-- The call `vData.resize(n)`. -/
def resize (vData : List Nat) (n : Nat) : List Nat :=
  vData.take n ++ List.replicate (n - vData.length) 0

/-- The `while` loop of `compress_key`, with a bound on the number of rounds. -/
def compressLoop (nSize : Nat) : Nat → List Nat → List Nat
  | 0, vData => vData
  | nRounds + 1, vData =>
    if vData.length > nSize then
      let nSize2 := vData.length >>> 1
      compressLoop nSize nRounds
        (resize (xorLoop nSize2 nSize2 0 vData) (max (nSize2 % 2 ^ 16) nSize))
    else vData

/-- The method `compress_key`; every round shortens the key, so `vData.size()` rounds are
enough. -/
def compress_key (vData : List Nat) (nSize : Nat) : List Nat :=
  compressLoop nSize vData.length vData

/-- The method `BinaryHashMap::get_bucket`. -/
def get_bucket (cfg : Config) (vKey : List Nat) : Nat :=
  ((cfg.XXH64 vKey 0 % 2 ^ 64) / 7) % cfg.HASHMAP_TOTAL_BUCKETS

/-- The `uint32_t nFilePos = nBucket * HASHMAP_KEY_ALLOCATION` of `Get`, `Put` and `Erase`. -/
def filePos (nBucket : Nat) : Nat := (nBucket * HASHMAP_KEY_ALLOCATION) % 2 ^ 32

/-- The number of slots of the probe window,
`std::min(HASHMAP_MAX_KEYS_LINEAR_PROBE, HASHMAP_TOTAL_BUCKETS - nBucket)`. -/
def windowKeys (cfg : Config) (nBucket : Nat) : Nat :=
  min HASHMAP_MAX_KEYS_LINEAR_PROBE (cfg.HASHMAP_TOTAL_BUCKETS - nBucket)

/-- The fresh buffer `vBucket` of `Get`, `Put` and `Erase`. -/
def newBucketBuffer (cfg : Config) (nBucket : Nat) : List Nat :=
  List.replicate (HASHMAP_KEY_ALLOCATION * windowKeys cfg nBucket) 0

/-- The file numbers visited by `for(int16_t i = vHashmaps.size() - 1; i >= 0; --i)`, in
order.  The start value `vHashmaps.size() - 1` is reduced to an `int16_t`: it is `-1` for an
empty vector, and otherwise the low 16 bits of `nSize - 1`, negative from `2 ^ 15` on. -/
def descendingFiles (nSize : Nat) : List Nat :=
  match nSize with
  | 0 => []
  | n + 1 => if n % 2 ^ 16 < 2 ^ 15 then (List.range (n % 2 ^ 16 + 1)).reverse else []

/-- The file numbers visited by `for(int16_t i = 0; i < vHashmaps.size(); ++i)`, in order;
the counter leaves the loop when it passes `32767`. -/
def ascendingFiles (nSize : Nat) : List Nat :=
  List.range (min nSize (2 ^ 15))

/-- The test `std::equal(vBucket.begin() + nOffset + 13, vBucket.begin() + nOffset + 13 +
vKeyCompressed.size(), vKeyCompressed.begin())`. -/
def keyMatches (vBucket : List Nat) (nOffset : Nat) (vKeyCompressed : List Nat) : Bool :=
  (vBucket.drop (nOffset + 13)).take vKeyCompressed.length == vKeyCompressed

/-- The method `write_key`: open hashmap file `nFile` (a `uint16_t`) and write `vData` at
`nFilePos`; `false` when the file cannot be opened. -/
def write_key (s : BinaryHashMap) (vData : List Nat) (nFile nFilePos : Nat) :
    Bool × BinaryHashMap :=
  match lookupFile s.hashmapFiles (nFile % 2 ^ 16) with
  | none => (false, s)
  | some file =>
    let files := storeFile s.hashmapFiles (nFile % 2 ^ 16) (writeAt file nFilePos vData)
    (true, { s with hashmapFiles := files })

/-- Apply `f` to element `i` of a list (`v[i] = f(v[i])`). -/
def modifyAt {α : Type} (l : List α) (i : Nat) (f : α → α) : List α :=
  match l[i]? with
  | some a => List.set l i (f a)
  | none => l

/-- The inner loop of `Get` over the slots `nKey` of the window held in `vBucket`: skip the
slots whose occupancy bit is clear, deserialize a slot whose key bytes match, and return it
when it is ready. -/
def getSlots (occupancy : HashMapFilter) (vBucket vKeyCompressed : List Nat) (nBucket : Nat) :
    List Nat → SectorKey → Bool × SectorKey
  | [], cKey => (false, cKey)
  | nKey :: rest, cKey =>
    if !occupancy.Has (nBucket + nKey) then
      getSlots occupancy vBucket vKeyCompressed nBucket rest cKey
    else
      let nOffset := nKey * HASHMAP_KEY_ALLOCATION
      if keyMatches vBucket nOffset vKeyCompressed then
        let cRead := SectorKey.deserialize (vBucket.drop nOffset) cKey
        if !cRead.Ready then getSlots occupancy vBucket vKeyCompressed nBucket rest cRead
        else (true, cRead)
      else getSlots occupancy vBucket vKeyCompressed nBucket rest cKey

/-- The outer loop of `Get` over the files `i`; the buffer `vBucket` is shared by all
iterations. -/
def getFiles (cfg : Config) (s : BinaryHashMap) (vKeyCompressed : List Nat) (nBucket : Nat) :
    List Nat → List Nat → SectorKey → Bool × SectorKey
  | [], _, cKey => (false, cKey)
  | i :: rest, vBucket, cKey =>
    match s.vHashmaps[i]? with
    | none => getFiles cfg s vKeyCompressed nBucket rest vBucket cKey
    | some (bloom, occupancy) =>
      if !bloom.Has cfg.XXH64 cKey.vKey then
        getFiles cfg s vKeyCompressed nBucket rest vBucket cKey
      else
        match lookupFile s.hashmapFiles i with
        | none => (false, cKey)
        | some file =>
          let vRead := readAt file (filePos nBucket) vBucket
          let nMaxKeys := vRead.length / HASHMAP_KEY_ALLOCATION
          let r := getSlots occupancy vRead vKeyCompressed nBucket (List.range nMaxKeys) cKey
          if r.1 then r else getFiles cfg s vKeyCompressed nBucket rest vRead r.2

/-- The method `BinaryHashMap::Get`; `cKey` is the caller's object the result is written to. -/
def Get (cfg : Config) (s : BinaryHashMap) (vKey : List Nat) (cKey : SectorKey) :
    Bool × SectorKey :=
  let nBucket := get_bucket cfg vKey
  getFiles cfg s (compress_key vKey HASHMAP_MAX_KEY_SIZE) nBucket
    (descendingFiles s.vHashmaps.length) (newBucketBuffer cfg nBucket)
    { cKey with vKey := vKey }

/-- The inner loop of the overwrite path of `Put` and of `Erase` over the slots `nKey`: the
first slot whose occupancy bit is set and that passes the test
`vBucket[nKey] == STATE::EMPTY || std::equal(...)`. -/
def matchSlot (occupancy : HashMapFilter) (vBucket vKeyCompressed : List Nat) (nBucket : Nat) :
    List Nat → Option Nat
  | [] => none
  | nKey :: rest =>
    if !occupancy.Has (nBucket + nKey) then
      matchSlot occupancy vBucket vKeyCompressed nBucket rest
    else if vBucket.getD nKey 0 == STATE_EMPTY ||
        keyMatches vBucket (nKey * HASHMAP_KEY_ALLOCATION) vKeyCompressed then
      some nKey
    else matchSlot occupancy vBucket vKeyCompressed nBucket rest

/-- The outcome of the scan of the overwrite path of `Put` and of `Erase`. -/
inductive Scan where
  /-- A hashmap file could not be opened. -/
  | failed
  /-- No slot passed the test. -/
  | absent
  /-- Slot `nKey` of the window of file `i` passed the test. -/
  | found (i nKey : Nat)
deriving DecidableEq, Repr

/-- The outer loop of the overwrite path of `Put` and of `Erase` over the files `i`. -/
def scanFiles (cfg : Config) (s : BinaryHashMap) (vKey vKeyCompressed : List Nat)
    (nBucket : Nat) : List Nat → List Nat → Scan
  | [], _ => Scan.absent
  | i :: rest, vBucket =>
    match s.vHashmaps[i]? with
    | none => scanFiles cfg s vKey vKeyCompressed nBucket rest vBucket
    | some (bloom, occupancy) =>
      if !bloom.Has cfg.XXH64 vKey then
        scanFiles cfg s vKey vKeyCompressed nBucket rest vBucket
      else
        match lookupFile s.hashmapFiles i with
        | none => Scan.failed
        | some file =>
          let vRead := readAt file (filePos nBucket) vBucket
          let nMaxKeys := vRead.length / HASHMAP_KEY_ALLOCATION
          match matchSlot occupancy vRead vKeyCompressed nBucket (List.range nMaxKeys) with
          | some nKey => Scan.found i nKey
          | none => scanFiles cfg s vKey vKeyCompressed nBucket rest vRead

/-- The inner loop of the append path of `Put`: the first slot of the window whose occupancy
bit is clear. -/
def freeSlot (occupancy : HashMapFilter) (nBucket : Nat) : List Nat → Option Nat
  | [] => none
  | nKey :: rest =>
    if occupancy.Has (nBucket + nKey) then freeSlot occupancy nBucket rest else some nKey

/-- The outer loop of the append path of `Put`: the first file, oldest first, with a free
slot in the window, and that slot. -/
def appendSlot (cfg : Config) (s : BinaryHashMap) (nBucket : Nat) : List Nat → Option (Nat × Nat)
  | [] => none
  | i :: rest =>
    match s.vHashmaps[i]? with
    | none => appendSlot cfg s nBucket rest
    | some (_, occupancy) =>
      match freeSlot occupancy nBucket (List.range (windowKeys cfg nBucket)) with
      | some nKey => some (i, nKey)
      | none => appendSlot cfg s nBucket rest

/-- The statements `vHashmaps[i].first.Insert(vKey); vHashmaps[i].second.Insert(nIndex)`. -/
def insertFilters (cfg : Config) (s : BinaryHashMap) (i : Nat) (vKey : List Nat)
    (nIndex : Nat) : BinaryHashMap :=
  { s with vHashmaps :=
             modifyAt s.vHashmaps i (fun p => (p.1.Insert cfg.XXH64 vKey, p.2.Insert nIndex)) }

/-- The statement `vHashmaps[i].second.Erase(nIndex)`. -/
def eraseFilter (s : BinaryHashMap) (i nIndex : Nat) : BinaryHashMap :=
  { s with vHashmaps := modifyAt s.vHashmaps i (fun p => (p.1, p.2.Erase nIndex)) }

/-- The first step of the last part of `Put`: create hashmap file number `vHashmaps.size()`
(zero filled) unless it exists, and, unless bloom file number `vHashmaps.size()` exists,
add an empty pair of filters and write its bloom file. -/
def extendFiles (cfg : Config) (s : BinaryHashMap) : BinaryHashMap :=
  let nNew := s.vHashmaps.length
  let s1 :=
    if (lookupFile s.hashmapFiles nNew).isSome then s
    else
      let vSpace := List.replicate (cfg.HASHMAP_TOTAL_BUCKETS * HASHMAP_KEY_ALLOCATION) 0
      { s with hashmapFiles := storeFile s.hashmapFiles nNew vSpace }
  if (lookupFile s1.bloomFiles nNew).isSome then s1
  else
    let bloom := BloomFilter.create cfg.BLOOM_BITS
    let occupancy := HashMapFilter.create cfg.HASHMAP_TOTAL_BUCKETS
    { s1 with
      vHashmaps := s1.vHashmaps ++ [(bloom, occupancy)],
      bloomFiles := storeFile s1.bloomFiles nNew
                      (bloom.toBitArray.Bytes ++ occupancy.toBitArray.Bytes) }

/-- The `uint32_t nLastIndex = vHashmaps.size() - 1` of the last part of `Put`
(`2 ^ 32 - 1` for an empty vector). -/
def lastIndex (s : BinaryHashMap) : Nat :=
  match s.vHashmaps.length with
  | 0 => 2 ^ 32 - 1
  | n + 1 => n % 2 ^ 32

/-- The last part of `Put`, reached when no file has a free slot in the window: after
`extendFiles`, insert the key and the bucket in the filters of the last file and write the
record at the bucket of that file. -/
def putNewFile (cfg : Config) (s : BinaryHashMap) (vKey vRecord : List Nat) (nBucket : Nat) :
    Bool × BinaryHashMap :=
  let s2 := extendFiles cfg s
  let nLastIndex := lastIndex s2
  write_key (insertFilters cfg s2 nLastIndex vKey nBucket) vRecord nLastIndex (filePos nBucket)

/-- The place where `Put` writes the record. -/
inductive PutPath where
  /-- A hashmap file could not be opened in the overwrite scan: `Put` returns false. -/
  | failed
  /-- The overwrite path writes in place at slot `nKey` of the window of file `i`. -/
  | overwrite (i nKey : Nat)
  /-- The append path claims the free slot `nKey` of the window of file `i`. -/
  | append (i nKey : Nat)
  /-- No file has a free slot in the window: the last part of `Put` runs. -/
  | newFile
deriving DecidableEq, Repr

/-- The control flow of `Put` up to the write: the overwrite scan when the `APPEND` flag is
not set, then the scan for a free slot, oldest file first. -/
def putPath (cfg : Config) (s : BinaryHashMap) (cKey : SectorKey) : PutPath :=
  let nBucket := get_bucket cfg cKey.vKey
  let vKeyCompressed := compress_key cKey.vKey HASHMAP_MAX_KEY_SIZE
  let overwrite :=
    if cfg.HASHMAP_FLAGS &&& cfg.APPEND == 0 then
      scanFiles cfg s cKey.vKey vKeyCompressed nBucket (descendingFiles s.vHashmaps.length)
        (newBucketBuffer cfg nBucket)
    else Scan.absent
  match overwrite with
  | Scan.failed => PutPath.failed
  | Scan.found i nKey => PutPath.overwrite i nKey
  | Scan.absent =>
    match appendSlot cfg s nBucket (ascendingFiles s.vHashmaps.length) with
    | some (i, nKey) => PutPath.append i nKey
    | none => PutPath.newFile

/-- The bytes `ssKey.Bytes()` that `Put` writes: the serialized header followed by the
compressed key. -/
def putRecord (cKey : SectorKey) : List Nat :=
  cKey.serialize ++ compress_key cKey.vKey HASHMAP_MAX_KEY_SIZE

/-- The method `BinaryHashMap::Put`. -/
def Put (cfg : Config) (s : BinaryHashMap) (cKey : SectorKey) : Bool × BinaryHashMap :=
  let nBucket := get_bucket cfg cKey.vKey
  let nFilePos := filePos nBucket
  match putPath cfg s cKey with
  | PutPath.failed => (false, s)
  | PutPath.overwrite i nKey =>
    write_key s (putRecord cKey) i (nFilePos + nKey * HASHMAP_KEY_ALLOCATION)
  | PutPath.append i nKey =>
    write_key (insertFilters cfg s i cKey.vKey (nBucket + nKey)) (putRecord cKey) i
      (nFilePos + nKey * HASHMAP_KEY_ALLOCATION)
  | PutPath.newFile => putNewFile cfg s cKey.vKey (putRecord cKey) nBucket

/-- The method `BinaryHashMap::Flush`: the two modified flags of every file are lowered. -/
def Flush (s : BinaryHashMap) : BinaryHashMap :=
  { s with vHashmaps := s.vHashmaps.map (fun p =>
      ({ p.1 with fModified := if p.1.fModified then false else p.1.fModified },
       { p.2 with fModified := if p.2.fModified then false else p.2.fModified })) }

/-- The method `BinaryHashMap::Erase`. -/
def Erase (cfg : Config) (s : BinaryHashMap) (vKey : List Nat) : Bool × BinaryHashMap :=
  let nBucket := get_bucket cfg vKey
  let nFilePos := filePos nBucket
  let vKeyCompressed := compress_key vKey HASHMAP_MAX_KEY_SIZE
  match scanFiles cfg s vKey vKeyCompressed nBucket (descendingFiles s.vHashmaps.length)
      (newBucketBuffer cfg nBucket) with
  | Scan.failed => (false, s)
  | Scan.absent => (false, s)
  | Scan.found i nKey =>
    let vEmpty := List.replicate HASHMAP_KEY_ALLOCATION 0
    write_key (eraseFilter s i (nBucket + nKey)) vEmpty i
      (nFilePos + nKey * HASHMAP_KEY_ALLOCATION)

/-- The loop of `Initialize` that loads `_bloom.NNNNN` for `NNNNN = i, i + 1, ...` until a
file is missing; each file restores one bloom filter and one occupancy filter. -/
def loadFilters (cfg : Config) (bloomFiles : Directory) :
    Nat → Nat → List (BloomFilter × HashMapFilter)
  | 0, _ => []
  | nFuel + 1, i =>
    match lookupFile bloomFiles i with
    | none => []
    | some file =>
      let bloom := BloomFilter.create cfg.BLOOM_BITS
      let occupancy := HashMapFilter.create cfg.HASHMAP_TOTAL_BUCKETS
      let vFirst := readAt file 0 bloom.toBitArray.Bytes
      let vSecond := readAt file bloom.toBitArray.Size occupancy.toBitArray.Bytes
      ({ bloom with vRegisters := registersOfBytes bloom.vRegisters.length vFirst },
       { occupancy with vRegisters := registersOfBytes occupancy.vRegisters.length vSecond })
        :: loadFilters cfg bloomFiles nFuel (i + 1)

/-- The method `BinaryHashMap::Initialize` as the database constructor calls it (with
`vHashmaps` empty) on a base directory with the given files. -/
def Initialize (cfg : Config) (hashmapFiles bloomFiles : Directory) : BinaryHashMap :=
  let s1 : BinaryHashMap :=
    match lookupFile bloomFiles 0 with
    | none =>
      let bloom := BloomFilter.create cfg.BLOOM_BITS
      let occupancy := HashMapFilter.create cfg.HASHMAP_TOTAL_BUCKETS
      { vHashmaps := [(bloom, occupancy)],
        hashmapFiles := hashmapFiles,
        bloomFiles := storeFile bloomFiles 0
                        (bloom.toBitArray.Bytes ++ occupancy.toBitArray.Bytes) }
    | some _ =>
      { vHashmaps := loadFilters cfg bloomFiles (bloomFiles.length + 1) 0,
        hashmapFiles := hashmapFiles,
        bloomFiles := bloomFiles }
  match lookupFile s1.hashmapFiles 0 with
  | none =>
    let vSpace :=
      List.replicate ((cfg.HASHMAP_TOTAL_BUCKETS * HASHMAP_KEY_ALLOCATION) % 2 ^ 32) 0
    { s1 with hashmapFiles := storeFile s1.hashmapFiles 0 vSpace }
  | some _ => s1

/-- A keychain opened on an empty base directory. -/
def fresh (cfg : Config) : BinaryHashMap := Initialize cfg [] []

/-- The public operations of a keychain. -/
inductive Op where
  | put (cKey : SectorKey)
  | erase (vKey : List Nat)
  | get (vKey : List Nat)
  | flush
deriving DecidableEq, Repr

/-- The state after one operation. -/
def step (cfg : Config) (s : BinaryHashMap) : Op → BinaryHashMap
  | Op.put cKey => (Put cfg s cKey).2
  | Op.erase vKey => (Erase cfg s vKey).2
  | Op.get _ => s
  | Op.flush => Flush s

/-- The state after a sequence of operations. -/
def run (cfg : Config) (s : BinaryHashMap) (ops : List Op) : BinaryHashMap :=
  ops.foldl (step cfg) s

/-! ## Well-formed configurations and states -/

/-- The constants fit their types and are not zero: the bucket count is a non-zero
`uint32_t`, and the bit capacity of a bloom filter is positive and small enough for the
`uint32_t` register index of `set_bit`. -/
def Config.Valid (cfg : Config) : Prop :=
  0 < cfg.HASHMAP_TOTAL_BUCKETS ∧ cfg.HASHMAP_TOTAL_BUCKETS < 2 ^ 32 ∧
    0 < cfg.BLOOM_BITS ∧ cfg.BLOOM_BITS < 2 ^ 38

instance (cfg : Config) : Decidable cfg.Valid := by
  unfold Config.Valid; infer_instance

/-- The keychain is in append mode: `HASHMAP_FLAGS & FLAGS::APPEND` is not zero. -/
def Config.AppendMode (cfg : Config) : Prop := (cfg.HASHMAP_FLAGS &&& cfg.APPEND) ≠ 0

instance (cfg : Config) : Decidable cfg.AppendMode := by
  unfold Config.AppendMode; infer_instance

/-- A bloom filter as the constructor sizes it for bit capacity `m`. -/
def BloomFilter.Sized (m : Nat) (f : BloomFilter) : Prop :=
  f.HASHMAP_TOTAL_BUCKETS = m ∧ f.vRegisters.length = m / 64 + 1

/-- An occupancy filter as the constructor sizes it for `n` buckets. -/
def HashMapFilter.Sized (n : Nat) (f : HashMapFilter) : Prop :=
  f.vRegisters.length = n / 64 + 1

/-- The product `HASHMAP_TOTAL_BUCKETS * HASHMAP_KEY_ALLOCATION` fits 32 bits, so that no
`nFilePos` wraps. -/
def Config.NoWrap (cfg : Config) : Prop :=
  cfg.HASHMAP_TOTAL_BUCKETS * HASHMAP_KEY_ALLOCATION < 2 ^ 32

instance (cfg : Config) : Decidable cfg.NoWrap := by
  unfold Config.NoWrap; infer_instance

/-- The occupancy bit of bucket `nIndex` in the filter of file `i` (false when there is no
such filter). -/
def occupied (s : BinaryHashMap) (i nIndex : Nat) : Bool :=
  match s.vHashmaps[i]? with
  | some p => p.2.Has nIndex
  | none => false

/-- The answer of the bloom filter of file `i` for the key (false when there is no such
filter). -/
def bloomHas (cfg : Config) (s : BinaryHashMap) (i : Nat) (vKey : List Nat) : Bool :=
  match s.vHashmaps[i]? with
  | some p => p.1.Has cfg.XXH64 vKey
  | none => false

/-- Byte `p` of hashmap file `i` on disk (zero past the end of the file and for a missing
file). -/
def fileByte (s : BinaryHashMap) (i p : Nat) : Nat :=
  ((lookupFile s.hashmapFiles i).getD []).getD p 0

/-- The file `Put` writes the record to, when it reaches a write. -/
def putFile (cfg : Config) (s : BinaryHashMap) (cKey : SectorKey) : Option Nat :=
  match putPath cfg s cKey with
  | PutPath.failed => none
  | PutPath.overwrite i _ => some i
  | PutPath.append i _ => some i
  | PutPath.newFile => some (lastIndex (extendFiles cfg s))

/-- A state as `Initialize` and the operations build it: every pair of filters has the size
the constructors give, every file that has filters is on disk with
`HASHMAP_TOTAL_BUCKETS * HASHMAP_KEY_ALLOCATION` bytes, and no hashmap or bloom file with a
higher number exists. -/
structure WellFormed (cfg : Config) (s : BinaryHashMap) : Prop where
  sized : ∀ (i : Nat) (p : BloomFilter × HashMapFilter), s.vHashmaps[i]? = some p →
    p.1.Sized cfg.BLOOM_BITS ∧ p.2.Sized cfg.HASHMAP_TOTAL_BUCKETS
  present : ∀ i, i < s.vHashmaps.length → ∃ file, lookupFile s.hashmapFiles i = some file ∧
    file.length = cfg.HASHMAP_TOTAL_BUCKETS * HASHMAP_KEY_ALLOCATION
  absent : ∀ i, s.vHashmaps.length ≤ i →
    lookupFile s.hashmapFiles i = none ∧ lookupFile s.bloomFiles i = none

/-- A ready record for the key is held by slot `nIndex` of file `i`, where `Get` looks for
it: the bloom filter of the file answers yes, the occupancy bit is set, the state byte on
disk is `READY` and the key bytes on disk start with the compressed key. -/
def Stored (cfg : Config) (s : BinaryHashMap) (vKey : List Nat) (i nIndex : Nat) : Prop :=
  i < s.vHashmaps.length ∧
  get_bucket cfg vKey ≤ nIndex ∧ nIndex < get_bucket cfg vKey + windowKeys cfg (get_bucket cfg vKey) ∧
  bloomHas cfg s i vKey = true ∧ occupied s i nIndex = true ∧
  fileByte s i (nIndex * HASHMAP_KEY_ALLOCATION) = STATE_READY ∧
  ∀ t, t < (compress_key vKey HASHMAP_MAX_KEY_SIZE).length →
    fileByte s i (nIndex * HASHMAP_KEY_ALLOCATION + 13 + t) =
      (compress_key vKey HASHMAP_MAX_KEY_SIZE).getD t 0

/-- The probe windows of two keys have no bucket in common. -/
def WindowsDisjoint (cfg : Config) (vKey1 vKey2 : List Nat) : Prop :=
  get_bucket cfg vKey1 + windowKeys cfg (get_bucket cfg vKey1) ≤ get_bucket cfg vKey2 ∨
    get_bucket cfg vKey2 + windowKeys cfg (get_bucket cfg vKey2) ≤ get_bucket cfg vKey1

instance (cfg : Config) (vKey1 vKey2 : List Nat) : Decidable (WindowsDisjoint cfg vKey1 vKey2) := by
  unfold WindowsDisjoint; infer_instance

/-- The difference between two states `s` and `t` made by one write of `vData` into slot
`nIndex` of file `i` that leaves the occupancy bit of the slot at `fBit`: the state `t` is
well formed, no file is lost, every other occupancy bit and every byte outside the written
range is the same, and no bloom filter loses a key. -/
structure Written (cfg : Config) (s t : BinaryHashMap) (i nIndex : Nat) (vData : List Nat)
    (fBit : Bool) : Prop where
  wellFormed : WellFormed cfg t
  length_le : s.vHashmaps.length ≤ t.vHashmaps.length
  file_lt : i < t.vHashmaps.length
  occupancy : ∀ j c, occupied t j c = if j = i ∧ c = nIndex then fBit else occupied s j c
  bytes : ∀ j p, fileByte t j p =
    if j = i ∧ nIndex * HASHMAP_KEY_ALLOCATION ≤ p ∧
        p < nIndex * HASHMAP_KEY_ALLOCATION + vData.length then
      vData.getD (p - nIndex * HASHMAP_KEY_ALLOCATION) 0
    else fileByte s j p
  bloom : ∀ j k, bloomHas cfg s j k = true → bloomHas cfg t j k = true

/-- An operation that cannot touch the slots of the probe window of `vKey`: `Get`, `Flush`,
an `Erase` of a key whose probe window is disjoint from that of `vKey`, and a `Put` that
either runs in append mode (it only claims free slots) or is of a key whose probe window is
disjoint from that of `vKey`. -/
def Op.Spares (cfg : Config) (vKey : List Nat) : Op → Prop
  | Op.put cKey => cfg.AppendMode ∨ WindowsDisjoint cfg cKey.vKey vKey
  | Op.erase vErased => WindowsDisjoint cfg vErased vKey
  | Op.get _ => True
  | Op.flush => True

instance (cfg : Config) (vKey : List Nat) (op : Op) : Decidable (op.Spares cfg vKey) := by
  cases op <;> unfold Op.Spares <;> infer_instance

/-- The operation is not a `Put` of a record whose state is not `READY`. -/
def Op.ReadyPut : Op → Prop
  | Op.put cKey => cKey.nState = STATE_READY
  | _ => True

instance (op : Op) : Decidable op.ReadyPut := by
  cases op <;> unfold Op.ReadyPut <;> infer_instance

/-- Every record put by the operations has state `READY`. -/
def PutsReady (ops : List Op) : Prop := ∀ op, op ∈ ops → op.ReadyPut

instance (ops : List Op) : Decidable (PutsReady ops) := by
  unfold PutsReady; infer_instance

/-- The occupancy bits agree with the disk: the bit of a bucket is set exactly when the
state byte of the slot of that bucket is not `EMPTY`. -/
def OccupancyAgrees (cfg : Config) (s : BinaryHashMap) : Prop :=
  ∀ f b, b < cfg.HASHMAP_TOTAL_BUCKETS →
    (occupied s f b = true ↔ fileByte s f (b * HASHMAP_KEY_ALLOCATION) ≠ STATE_EMPTY)

/-! ## Concrete keychains for the examples -/

/-- The values of `XXH64` for the seeds 0, 1 and 2 on the keys of the examples. -/
def exampleHashes : List (List Nat × List Nat) :=
  [([1], [9962287286179718960, 7980969389705539621, 10860547225554270933]),
   ([1, 2], [8827404902424034886, 10613030859857035425, 7409052975962628168]),
   ([3], [2244420788148980662, 6993971443056282110, 16117751061378006490]),
   ([4], [7258072237907732274, 13385673124951684028, 9676001274710896088]),
   ([6], [6383495792609164197, 9729461339687801740, 16300856664966401600]),
   ([11], [17695417848494312630, 7294960839486492561, 3457143654128788191]),
   ([13], [2339868140515455883, 9759890557666867873, 5798354800187387705]),
   ([20], [5420872468942746807, 4901652057198105884, 13659831982780027635]),
   (List.replicate 40 171, [17730574251167514646, 4115488973916921818, 17137208898453660164]),
   (List.replicate 39 171 ++ [0], [9467779272564501583, 17388339139419209481, 17477625506499079893]),
   (List.replicate 39 171 ++ [48], [13345049767967910678, 17979788796289392053, 13724856727427094420]),
   ([31], [5512279645721818373, 509833413804707651, 9944866396599913772]),
   ([35], [2284541518523215397, 9538289189693387419, 292109196413056064]),
   ([40], [14562244668011624869, 9198990984352590783, 11404598578680107608]),
   ([41], [15744549514892775363, 7098960317665147613, 15366137801431253008]),
   ([42], [765293966243412708, 10166580154009344938, 10939014704610323054]),
   ([56], [12485775574321252452, 9069202918895132966, 7988799832378767635]),
   ([63], [3188411554067864324, 9940198940977547839, 5308286094385835005]),
   ([71], [7622816676894411104, 14703211064121778670, 13281816374007749544]),
   ([79], [4535048076977605827, 1236072784562965766, 291419892767018274]),
   ([92], [7451285447589077808, 2896265505455760221, 5934868184226360469]),
   ([95], [17552047500025573814, 13224079390477791618, 1074249750789115480]),
   ([101], [5326286198865496372, 13178792371147560699, 16719846794544985069]),
   ([121], [13923454618160480178, 8931186994943583664, 15505327494679258824]),
   ([127], [5319249177565392720, 9300657898945792176, 7623311191890587190]),
   ([133], [1777302235603094484, 12150509872579033106, 2655289464779168467]),
   ([143], [3276356706608329685, 11675734002872141643, 15461817446981568434]),
   ([172], [9742656992869668786, 13195963576348500335, 3776670209583745129]),
   ([0], [16804241149081757544, 8581916712539923537, 15539852542053899821])]

/-- The hash `XXH64` on the keys of the examples (zero on every other input, which the
examples do not hash). -/
def exampleXXH64 (vKey : List Nat) (nSeed : Nat) : Nat :=
  match exampleHashes.find? (fun e => e.1 == vKey) with
  | some e => e.2.getD nSeed 0
  | none => 0

/-- A keychain with `nBuckets` buckets, bloom filters of `nBits` bits (the truncated value
of `(nBuckets * 3) / 0.693147`) and the given flags, with `FLAGS::APPEND` taken to be the
bit `1 << 1`. -/
def exampleConfig (nBuckets nBits nFlags : Nat) : Config :=
  { HASHMAP_TOTAL_BUCKETS := nBuckets, HASHMAP_FLAGS := nFlags, APPEND := 2,
    BLOOM_BITS := nBits, XXH64 := exampleXXH64 }

/-- A ready record for the key: sector file, start and size as given, the length of the key
as length. -/
def readyKey (vKey : List Nat) (nFile nStart nSize : Nat) : SectorKey :=
  { nState := STATE_READY, nSectorFile := nFile, nSectorStart := nStart, nSectorSize := nSize,
    nLength := vKey.length, vKey := vKey }

/-- The object a caller passes to `Get` before the call. -/
def blankKey : SectorKey :=
  { nState := STATE_EMPTY, nSectorFile := 0, nSectorStart := 0, nSectorSize := 0, nLength := 0,
    vKey := [] }

/-- Seventeen keys of one byte whose bucket is 0 on a keychain of 16 buckets. -/
def exampleBucketZero : List (List Nat) :=
  [[31], [35], [40], [41], [42], [56], [63], [71], [79], [92], [95], [101], [121], [127],
   [133], [143], [172]]

/-- A `Put` of a ready record for each of the first sixteen keys of `exampleBucketZero`. -/
def exampleSixteenPuts : List Op :=
  (exampleBucketZero.take 16).map (fun vKey => Op.put (readyKey vKey 5 100 42))

/-- The 13 header bytes of slot `nIndex` of hashmap file `i` on disk. -/
def slotHeader (s : BinaryHashMap) (i nIndex : Nat) : List Nat :=
  (List.range 13).map (fun t => fileByte s i (nIndex * HASHMAP_KEY_ALLOCATION + t))

/-- Two states agree on the probe window of a key: they have the same number of files and, in
every file, the bloom filter gives the same answer for the key and every slot of the probe
window has the same occupancy bit and the same `HASHMAP_KEY_ALLOCATION` bytes on disk. -/
def SameWindow (cfg : Config) (s t : BinaryHashMap) (vKey : List Nat) : Prop :=
  s.vHashmaps.length = t.vHashmaps.length ∧
  ∀ f, f < s.vHashmaps.length →
    bloomHas cfg s f vKey = bloomHas cfg t f vKey ∧
    ∀ nKey, nKey < windowKeys cfg (get_bucket cfg vKey) →
      occupied s f (get_bucket cfg vKey + nKey) = occupied t f (get_bucket cfg vKey + nKey) ∧
      ∀ q, q < HASHMAP_KEY_ALLOCATION →
        fileByte s f ((get_bucket cfg vKey + nKey) * HASHMAP_KEY_ALLOCATION + q) =
          fileByte t f ((get_bucket cfg vKey + nKey) * HASHMAP_KEY_ALLOCATION + q)

instance (cfg : Config) (s t : BinaryHashMap) (vKey : List Nat) :
    Decidable (SameWindow cfg s t vKey) := by
  unfold SameWindow; infer_instance

/-! ## Sequences of mutations of a bit array -/

/-- A mutation of a bit array: `set_bit(nIndex)` or `clear_bit(nIndex)`. -/
inductive BitOp where
  | set (nIndex : Nat)
  | clear (nIndex : Nat)
deriving DecidableEq, Repr

/-- The index a mutation touches. -/
def BitOp.nIndex : BitOp → Nat
  | BitOp.set nIndex => nIndex
  | BitOp.clear nIndex => nIndex

/-- The bit array after one mutation. -/
def BitArray.apply (a : BitArray) : BitOp → BitArray
  | BitOp.set nIndex => a.set_bit nIndex
  | BitOp.clear nIndex => a.clear_bit nIndex

/-- The bit array after a sequence of mutations. -/
def BitArray.applyAll (a : BitArray) (ops : List BitOp) : BitArray :=
  ops.foldl BitArray.apply a

/-- What the bookkeeping of a bit array `b` says after the mutations `l` of the bit array
`a`, in registers. -/
structure Tracked (a b : BitArray) (l : List BitOp) : Prop where
  flag : b.fModified = true
  length : b.vRegisters.length = a.vRegisters.length
  begin_mem : ∃ o, o ∈ l ∧ b.nModifiedBegin = o.nIndex / 64
  begin_le : ∀ o, o ∈ l → b.nModifiedBegin ≤ o.nIndex / 64
  end_mem : ∃ o, o ∈ l ∧ b.nModifiedEnd = o.nIndex / 64 + 1
  end_ge : ∀ o, o ∈ l → o.nIndex / 64 + 1 ≤ b.nModifiedEnd
  changed : ∀ j, b.vRegisters.getD j 0 ≠ a.vRegisters.getD j 0 → ∃ o, o ∈ l ∧ j = o.nIndex / 64

/-- The slots whose occupancy bit is clear hold zero bytes on disk. -/
def FreeZero (cfg : Config) (s : BinaryHashMap) : Prop :=
  ∀ f c, c < cfg.HASHMAP_TOTAL_BUCKETS → occupied s f c = false →
    ∀ q, q < HASHMAP_KEY_ALLOCATION → fileByte s f (c * HASHMAP_KEY_ALLOCATION + q) = 0

/-- A record whose thirteen header bytes and whose key byte are all zero. -/
def zeroKey : SectorKey :=
  { nState := STATE_EMPTY, nSectorFile := 0, nSectorStart := 0, nSectorSize := 0, nLength := 0,
    vKey := [0] }

/-! ## The bit capacity of a bloom filter (`LLD/bloom.cpp`)

The constructor `BloomFilter(nBuckets)` computes `(nBuckets * 3) / 0.693147` in `double` and
converts the quotient to an integer.  A `double` is given here by a fraction whose
denominator is a power of two; only values of at least `1` are rounded. -/

/-- The quotient `a / b` rounded to the nearest integer, a tie to the even one. -/
def roundHalfEven (a b : Nat) : Nat :=
  if 2 * (a % b) < b then a / b
  else if b < 2 * (a % b) then a / b + 1
  else if (a / b) % 2 = 0 then a / b
  else a / b + 1

/-- The number of halvings that bring `n` below `2` (at most `nFuel` of them). -/
def log2Floor : Nat → Nat → Nat
  | 0, _ => 0
  | nFuel + 1, n => if 2 ≤ n then log2Floor nFuel (n / 2) + 1 else 0

/-- The `double` nearest to the fraction `p / q`, which is at least `1`: a significand of 53
bits, rounded to nearest with ties to even, as numerator and denominator. -/
def nearestDouble (p q : Nat) : Nat × Nat :=
  let nExponent := log2Floor (p / q) (p / q)
  if nExponent ≤ 52 then (roundHalfEven (p * 2 ^ (52 - nExponent)) q, 2 ^ (52 - nExponent))
  else (roundHalfEven p (q * 2 ^ (nExponent - 52)) * 2 ^ (nExponent - 52), 1)

/-- The `double` of the literal `0.693147`, as numerator and denominator. -/
def LN2_LITERAL : Nat × Nat := (3121656570912977, 2 ^ 52)

/-- The value `(nBuckets * 3) / 0.693147` that the constructor `BloomFilter(nBuckets)` passes
to `BitArray(nElements)` and stores in `HASHMAP_TOTAL_BUCKETS`: the product in `uint64_t`,
its conversion to `double`, the division in `double`, and the conversion of the quotient to
`uint64_t`, which drops the fraction (a quotient of `2 ^ 64` or more has no defined
conversion; the model keeps it). -/
def bloomBits (nBuckets : Nat) : Nat :=
  let nProduct := (nBuckets * 3) % 2 ^ 64
  if nProduct = 0 then 0
  else
    let x := nearestDouble nProduct 1
    let y := nearestDouble (x.1 * LN2_LITERAL.2) (x.2 * LN2_LITERAL.1)
    y.1 / y.2

/-- The constructor `BloomFilter(nBuckets)`. -/
def BloomFilter.ofBuckets (nBuckets : Nat) : BloomFilter :=
  BloomFilter.create (bloomBits nBuckets)

/-! ## The last part of `Put` with the outcome of its stream constructions

`Put` above takes the two `std::ofstream` constructions of its last part to succeed.  The
definitions below take their outcome as arguments, so that the two
`if(!stream) return debug::error(...)` are modelled as well. -/

/-- The first step of the last part of `Put`: `fHashmap` tells whether the `std::ofstream`
on a new hashmap file opens, `fBloom` whether the one on a new bloom file opens.  The first
component is false when `Put` leaves through one of the two
`if(!stream) return debug::error(...)`; the pair of filters is added before the stream on
the bloom file is constructed. -/
def Streams.extendFiles (cfg : Config) (s : BinaryHashMap) (fHashmap fBloom : Bool) :
    Bool × BinaryHashMap :=
  let nNew := s.vHashmaps.length
  if !(lookupFile s.hashmapFiles nNew).isSome && !fHashmap then (false, s)
  else
    let s1 :=
      if (lookupFile s.hashmapFiles nNew).isSome then s
      else
        let vSpace := List.replicate (cfg.HASHMAP_TOTAL_BUCKETS * HASHMAP_KEY_ALLOCATION) 0
        { s with hashmapFiles := storeFile s.hashmapFiles nNew vSpace }
    if (lookupFile s1.bloomFiles nNew).isSome then (true, s1)
    else
      let bloom := BloomFilter.create cfg.BLOOM_BITS
      let occupancy := HashMapFilter.create cfg.HASHMAP_TOTAL_BUCKETS
      let s2 := { s1 with vHashmaps := s1.vHashmaps ++ [(bloom, occupancy)] }
      if !fBloom then (false, s2)
      else
        (true, { s2 with
                 bloomFiles := storeFile s1.bloomFiles nNew
                                 (bloom.toBitArray.Bytes ++ occupancy.toBitArray.Bytes) })

/-- The last part of `Put` with the outcome of the stream constructions. -/
def Streams.putNewFile (cfg : Config) (s : BinaryHashMap) (vKey vRecord : List Nat)
    (nBucket : Nat) (fHashmap fBloom : Bool) : Bool × BinaryHashMap :=
  match Streams.extendFiles cfg s fHashmap fBloom with
  | (false, s2) => (false, s2)
  | (true, s2) =>
    let nLastIndex := lastIndex s2
    write_key (insertFilters cfg s2 nLastIndex vKey nBucket) vRecord nLastIndex
      (filePos nBucket)

/-- The method `BinaryHashMap::Put` with the outcome of the stream constructions of its last
part. -/
def Streams.Put (cfg : Config) (s : BinaryHashMap) (cKey : SectorKey)
    (fHashmap fBloom : Bool) : Bool × BinaryHashMap :=
  let nBucket := get_bucket cfg cKey.vKey
  let nFilePos := filePos nBucket
  match putPath cfg s cKey with
  | PutPath.failed => (false, s)
  | PutPath.overwrite i nKey =>
    write_key s (putRecord cKey) i (nFilePos + nKey * HASHMAP_KEY_ALLOCATION)
  | PutPath.append i nKey =>
    write_key (insertFilters cfg s i cKey.vKey (nBucket + nKey)) (putRecord cKey) i
      (nFilePos + nKey * HASHMAP_KEY_ALLOCATION)
  | PutPath.newFile =>
    Streams.putNewFile cfg s cKey.vKey (putRecord cKey) nBucket fHashmap fBloom

end LLD

namespace LLP

/-! ## The data thread of the protocol server (`LLP::DataThread`)

A shallow embedding of `src/LLP/data.cpp`.

* The connection class `ProtocolType`, the DDOS filter, the event constants and `pollfd`
  come from headers that are not part of the sources at hand.  What `data.cpp` reads and
  writes of a connection as plain members (`fd`, `events`, `fCONNECTED`, `fOUTGOING`,
  `DDOS`) are the fields of `ProtocolType`; whatever else the object holds is its field
  `state`.  The methods of the connection and of its filter are the fields of `Methods`:
  the theorems hold for every choice of them.
* A pointer to a connection is the connection itself; the sentinel `pEmpty` in a slot is
  `none`.  A pointer to a DDOS filter is an index into `FILTERS`.
* Every connection carries the list of the method calls made on it (`Node.calls`), every
  filter the number of calls of `Ban`, and `delete` moves a connection to `DELETED`; these
  three are not in the source and only record what the code did.
* Each member function runs as a whole: the mutex and the condition variable are left
  out.  One pass of the loop of `Thread` is the function `pass`; what `poll` answers is an
  argument of it.  An exception thrown by a method of the connection is not modelled, and a
  connection whose filter index is outside `FILTERS` is left alone by the worker (the source
  follows the pointer).
* The slot vectors hold fewer than `2 ^ 31` entries, so the `int` and `uint32_t` copies of
  their size are the size.
-/

/-- The handle of a socket that is not open (`-1` where `poll` is used). -/
def INVALID_SOCKET : Int := -1

/-- The bit of `revents` for data to read (`<poll.h>`). -/
def POLLIN : Nat := 1

/-- The bit of `revents` for an error condition (`<poll.h>`). -/
def POLLERR : Nat := 8

/-- The bit of `revents` for a descriptor that is not open (`<poll.h>`). -/
def POLLNVAL : Nat := 32

/-- The structure `pollfd` of `<poll.h>`. -/
structure pollfd where
  fd : Int
  events : Nat
  revents : Nat
deriving DecidableEq, Repr

/-- The reason given with `EVENT_DISCONNECT`. -/
inductive Reason where
  | DISCONNECT_TIMEOUT
  | DISCONNECT_ERRORS
  | DISCONNECT_DDOS
  | DISCONNECT_FORCE
deriving DecidableEq, Repr

/-- A method call on a connection: `Event(EVENT_CONNECT)`, `Event(EVENT_GENERIC)`,
`Event(EVENT_DISCONNECT, reason)`, `Flush()`, `ReadPacket()`, `ProcessPacket()`,
`ResetPacket()`, `Connect(strAddress, nPort)` and `Disconnect()`. -/
inductive Call where
  | EVENT_CONNECT
  | EVENT_GENERIC
  | EVENT_DISCONNECT (reason : Reason)
  | Flush
  | ReadPacket
  | ProcessPacket
  | ResetPacket
  | Connect (strAddress : List Nat) (nPort : Nat)
  | Disconnect
deriving DecidableEq, Repr

/-- A connection object: the members `data.cpp` accesses, and the rest of the object. -/
structure ProtocolType (σ : Type) where
  fd : Int
  events : Nat
  fCONNECTED : Bool
  fOUTGOING : Bool
  DDOS : Nat
  state : σ
deriving DecidableEq, Repr

/-- The methods of the connection class (`σ` is the rest of the object) and of the DDOS
filter (`φ` is the filter) that `data.cpp` calls. -/
structure Methods (σ φ : Type) where
  /-- The value of `Connected()`. -/
  Connected : ProtocolType σ → Bool
  /-- The value of `Errors()`. -/
  Errors : ProtocolType σ → Bool
  /-- The value of `Timeout(nTime)`. -/
  Timeout : ProtocolType σ → Nat → Bool
  /-- The value of `PacketComplete()`. -/
  PacketComplete : ProtocolType σ → Bool
  /-- The value `ProcessPacket()` returns. -/
  ProcessPacket : ProtocolType σ → Bool
  /-- The value `Connect(strAddress, nPort)` returns. -/
  Connect : ProtocolType σ → List Nat → Nat → Bool
  /-- The object after a method call. -/
  call : ProtocolType σ → Call → ProtocolType σ
  /-- The value of `rSCORE.Score()`. -/
  rScore : φ → Nat
  /-- The value of `cSCORE.Score()`. -/
  cScore : φ → Nat
  /-- The filter after `rSCORE += 1`. -/
  rAdd : φ → φ
  /-- The filter after `cSCORE += 1`. -/
  cAdd : φ → φ
  /-- The filter after `Ban()`. -/
  Ban : φ → φ
  /-- The value of `Banned()`. -/
  Banned : φ → Bool

/-- A connection with the calls made on it so far, oldest first. -/
structure Node (σ : Type) where
  object : ProtocolType σ
  calls : List Call
deriving DecidableEq, Repr

/-- A DDOS filter with the number of calls of `Ban` on it. -/
structure DDOS_Filter (φ : Type) where
  filter : φ
  nBan : Nat
deriving DecidableEq, Repr

/-- The members of `DataThread<ProtocolType>`, the filters its connections point to, and
the connections it has deleted. -/
structure DataThread (σ φ : Type) where
  fDDOS : Bool
  fMETER : Bool
  fDestruct : Bool
  nConnections : Nat
  REQUESTS : Nat
  TIMEOUT : Nat
  DDOS_rSCORE : Nat
  DDOS_cSCORE : Nat
  CONNECTIONS : List (Option (Node σ))
  POLLFDS : List pollfd
  pEmpty : Node σ
  FILTERS : List (DDOS_Filter φ)
  DELETED : List (Node σ)
deriving DecidableEq, Repr

variable {σ φ : Type}

/-- A method call on a connection, recorded. -/
def Node.call (M : Methods σ φ) (n : Node σ) (c : Call) : Node σ :=
  { object := M.call n.object c, calls := n.calls ++ [c] }

/-- The constructor `DataThread(id, isDDOS, rScore, cScore, nTimeout, fMeter)`; `pEmpty` is
the object `new ProtocolType()`. -/
def DataThread.create (isDDOS : Bool) (rScore cScore nTimeout : Nat) (fMeter : Bool)
    (pEmpty : ProtocolType σ) (FILTERS : List (DDOS_Filter φ)) : DataThread σ φ :=
  { fDDOS := isDDOS
    fMETER := fMeter
    fDestruct := false
    nConnections := 0
    REQUESTS := 0
    TIMEOUT := nTimeout
    DDOS_rSCORE := rScore
    DDOS_cSCORE := cScore
    CONNECTIONS := []
    POLLFDS := []
    pEmpty := { object := pEmpty, calls := [] }
    FILTERS := FILTERS
    DELETED := [] }

/-- The loop of `find_slot` from `index` on, over the slots from `index` on. -/
def find_slot_from (l : List (Option (Node σ))) (index : Nat) : Nat :=
  match l with
  | [] => index
  | none :: _ => index
  | some _ :: t => find_slot_from t (index + 1)

/-- `DataThread::find_slot`: the first slot that holds `pEmpty`, or the number of slots. -/
def find_slot (s : DataThread σ φ) : Nat :=
  find_slot_from s.CONNECTIONS 0

/-- The locked block of both `AddConnection`: take the slot `find_slot` returns, after
pushing `pEmpty` and the uninitialised `pollfdForConnection` when it is past the end, and
store the connection, its `fd` and its `events` there. -/
def install (s : DataThread σ φ) (node : Node σ) (pollfdForConnection : pollfd) :
    Nat × DataThread σ φ :=
  let nSlot := find_slot s
  let s1 :=
    if nSlot = s.CONNECTIONS.length then
      { s with CONNECTIONS := s.CONNECTIONS ++ [none],
               POLLFDS := s.POLLFDS ++ [pollfdForConnection] }
    else s
  (nSlot,
   { s1 with
     CONNECTIONS := List.set s1.CONNECTIONS nSlot (some node),
     POLLFDS := LLD.modifyAt s1.POLLFDS nSlot
       (fun p => { p with fd := node.object.fd, events := node.object.events }) })

/-- The statement `if(fDDOS) DDOS -> cSCORE += 1`. -/
def bump_cSCORE (M : Methods σ φ) (s : DataThread σ φ) (DDOS : Nat) : DataThread σ φ :=
  if s.fDDOS then
    { s with FILTERS := LLD.modifyAt s.FILTERS DDOS (fun d => { d with filter := M.cAdd d.filter }) }
  else s

/-- The statement `++nConnections` on a `uint32_t`. -/
def increment (n : Nat) : Nat := (n + 1) % 2 ^ 32

/-- The statement `--nConnections` on a `uint32_t`. -/
def decrement (n : Nat) : Nat :=
  match n with
  | 0 => 2 ^ 32 - 1
  | k + 1 => k

/-- `DataThread::AddConnection(SOCKET, DDOS)`; `node` is the object
`new ProtocolType(SOCKET, DDOS, fDDOS)`. -/
def AddConnection (M : Methods σ φ) (s : DataThread σ φ) (node : ProtocolType σ) (DDOS : Nat)
    (pollfdForConnection : pollfd) : DataThread σ φ :=
  let n0 : Node σ := { object := node, calls := [] }
  let n1 := n0.call M Call.EVENT_CONNECT
  let n2 : Node σ := { n1 with object := { n1.object with fCONNECTED := true } }
  let s1 := (install s n2 pollfdForConnection).2
  let s2 := bump_cSCORE M s1 DDOS
  { s2 with nConnections := increment s2.nConnections }

/-- `DataThread::AddConnection(strAddress, nPort, DDOS)`; `node` is the object
`new ProtocolType(DDOS, fDDOS)`. -/
def AddConnectionAddress (M : Methods σ φ) (s : DataThread σ φ) (node : ProtocolType σ)
    (strAddress : List Nat) (nPort : Nat) (DDOS : Nat) (pollfdForConnection : pollfd) :
    Bool × DataThread σ φ :=
  let n0 : Node σ := { object := node, calls := [] }
  let fConnect := M.Connect node strAddress nPort
  let n1 := n0.call M (Call.Connect strAddress nPort)
  if !fConnect then
    (false, { s with DELETED := s.DELETED ++ [n1.call M Call.Disconnect] })
  else
    let nSlot := (install s n1 pollfdForConnection).1
    let s1 := (install s n1 pollfdForConnection).2
    let s2 : DataThread σ φ :=
      { s1 with CONNECTIONS := LLD.modifyAt s1.CONNECTIONS nSlot
                  (Option.map (fun n => { n with object := { n.object with fOUTGOING := true } })) }
    let s3 := bump_cSCORE M s2 DDOS
    let s4 : DataThread σ φ :=
      { s3 with CONNECTIONS := LLD.modifyAt s3.CONNECTIONS nSlot
                  (Option.map (fun n => n.call M Call.EVENT_CONNECT)) }
    (true, { s4 with nConnections := increment s4.nConnections })

/-- `DataThread::remove`. -/
def remove (s : DataThread σ φ) (index : Nat) : DataThread σ φ :=
  match s.CONNECTIONS[index]? with
  | some (some node) =>
    { s with
      DELETED := s.DELETED ++ [node],
      CONNECTIONS := List.set s.CONNECTIONS index none,
      POLLFDS := LLD.modifyAt s.POLLFDS index (fun p => { p with fd := INVALID_SOCKET }),
      nConnections := decrement s.nConnections }
  | _ => s

/-- `DataThread::disconnect_remove_event`; on a slot that holds `pEmpty` the event goes to
the sentinel object. -/
def disconnect_remove_event (M : Methods σ φ) (s : DataThread σ φ) (index : Nat)
    (reason : Reason) : DataThread σ φ :=
  let s1 : DataThread σ φ :=
    match s.CONNECTIONS[index]? with
    | some (some node) =>
      { s with CONNECTIONS :=
                 List.set s.CONNECTIONS index (some (node.call M (Call.EVENT_DISCONNECT reason))) }
    | some none => { s with pEmpty := s.pEmpty.call M (Call.EVENT_DISCONNECT reason) }
    | none => s
  remove s1 index

/-- `DataThread::DisconnectAll`. -/
def DisconnectAll (s : DataThread σ φ) : DataThread σ φ :=
  (List.range s.CONNECTIONS.length).foldl remove s

/-- The member `revents` of `POLLFDS[nIndex]`. -/
def reventsAt (s : DataThread σ φ) (nIndex : Nat) : Nat :=
  ((s.POLLFDS[nIndex]?).map pollfd.revents).getD 0

/-- The connection in the slot `nIndex` after a method call has changed it. -/
def store (s : DataThread σ φ) (nIndex : Nat) (node : Node σ) : DataThread σ φ :=
  { s with CONNECTIONS := List.set s.CONNECTIONS nIndex (some node) }

/-- The statements `if(fMETER) ++REQUESTS` and `if(fDDOS) DDOS->rSCORE += 1` of `Thread`. -/
def count_packet (M : Methods σ φ) (s : DataThread σ φ) (DDOS : Nat) : DataThread σ φ :=
  let s1 : DataThread σ φ := if s.fMETER then { s with REQUESTS := s.REQUESTS + 1 } else s
  if s1.fDDOS then
    { s1 with FILTERS :=
                LLD.modifyAt s1.FILTERS DDOS (fun d => { d with filter := M.rAdd d.filter }) }
  else s1

/-- The statements of `Thread` on a connection that got past the checks: the generic event,
the flush, the read and, for a complete packet, the counters and `ProcessPacket`. -/
def serve (M : Methods σ φ) (s : DataThread σ φ) (nIndex : Nat) (node : Node σ) :
    DataThread σ φ :=
  let n1 := ((node.call M Call.EVENT_GENERIC).call M Call.Flush).call M Call.ReadPacket
  let s1 := store s nIndex n1
  if M.PacketComplete n1.object then
    let s2 := count_packet M s1 n1.object.DDOS
    let fProcess := M.ProcessPacket n1.object
    let n2 := n1.call M Call.ProcessPacket
    let s3 := store s2 nIndex n2
    if !fProcess then
      disconnect_remove_event M s3 nIndex Reason.DISCONNECT_FORCE
    else
      store s3 nIndex (n2.call M Call.ResetPacket)
  else s1

/-- The statement of `Thread` that bans a filter with too high a score:
`if(rSCORE.Score() > DDOS_rSCORE || cSCORE.Score() > DDOS_cSCORE) Ban()`. -/
def ban_check (M : Methods σ φ) (s : DataThread σ φ) (d : DDOS_Filter φ) : DDOS_Filter φ :=
  if M.rScore d.filter > s.DDOS_rSCORE ∨ M.cScore d.filter > s.DDOS_cSCORE then
    { filter := M.Ban d.filter, nBan := d.nBan + 1 }
  else d

/-- The body of the loop of `Thread` over the slots, for the slot `nIndex`. -/
def examine (M : Methods σ φ) (s : DataThread σ φ) (nIndex : Nat) : DataThread σ φ :=
  match s.CONNECTIONS[nIndex]? with
  | some (some node) =>
    if !M.Connected node.object then s
    else
      if reventsAt s nIndex = POLLERR ∨ reventsAt s nIndex = POLLNVAL then
        disconnect_remove_event M s nIndex Reason.DISCONNECT_ERRORS
      else if M.Errors node.object then
        disconnect_remove_event M s nIndex Reason.DISCONNECT_ERRORS
      else if M.Timeout node.object s.TIMEOUT then
        disconnect_remove_event M s nIndex Reason.DISCONNECT_TIMEOUT
      else if s.fDDOS then
        match s.FILTERS[node.object.DDOS]? with
        | some d =>
          let d1 := ban_check M s d
          let s1 : DataThread σ φ :=
            { s with FILTERS := List.set s.FILTERS node.object.DDOS d1 }
          if M.Banned d1.filter then
            disconnect_remove_event M s1 nIndex Reason.DISCONNECT_DDOS
          else serve M s1 nIndex node
        | none => s
      else serve M s nIndex node
  | _ => s

/-- The loop of `Thread` over the slots `0 .. nSize - 1`. -/
def sweep (M : Methods σ φ) (s : DataThread σ φ) (nSize : Nat) : DataThread σ φ :=
  (List.range nSize).foldl (examine M) s

/-- How a pass of the loop of `Thread` ends: the thread returns, it stays in the wait for a
connection, it goes back to the head of the loop before `poll`, it goes back because
`poll` returned no positive count, or it has gone over the slots. -/
inductive Outcome where
  | returned
  | waiting
  | skipped
  | unready
  | swept
deriving DecidableEq, Repr

/-- The first loop of `Thread` over the slots: every `revents` of the first `nSize`
descriptors becomes `0`. -/
def clear_revents (l : List pollfd) (nSize : Nat) : List pollfd :=
  l.mapIdx (fun nIndex p => if nIndex < nSize then { p with revents := 0 } else p)

/-- The test of `Thread` that one of the first `nSize` descriptors has an `fd` other than
`INVALID_SOCKET`. -/
def fHasValidConnections (l : List pollfd) (nSize : Nat) : Bool :=
  (l.take nSize).any (fun p => decide (p.fd ≠ INVALID_SOCKET))

/-- What `poll` does to the first `nSize` descriptors: it stores its answer in `revents`. -/
def polled (l : List pollfd) (nSize : Nat) (vRevents : List Nat) : List pollfd :=
  l.mapIdx (fun nIndex p =>
    if nIndex < nSize then { p with revents := vRevents.getD nIndex 0 } else p)

/-- One pass of the loop of `Thread`.  `fShutdown` is `config::fShutdown`, `vRevents` are the
`revents` that `poll` stores and `nPoll` is the value it returns. -/
def pass (M : Methods σ φ) (s : DataThread σ φ) (fShutdown : Bool) (vRevents : List Nat)
    (nPoll : Int) : Outcome × DataThread σ φ :=
  if s.fDestruct || fShutdown then (Outcome.returned, s)
  else if s.nConnections = 0 then (Outcome.waiting, s)
  else
    let nSize := s.CONNECTIONS.length
    if nSize = 0 then (Outcome.skipped, s)
    else
      let s1 : DataThread σ φ := { s with POLLFDS := clear_revents s.POLLFDS nSize }
      if !fHasValidConnections s1.POLLFDS nSize then (Outcome.skipped, s1)
      else
        let s2 : DataThread σ φ := { s1 with POLLFDS := polled s1.POLLFDS nSize vRevents }
        if nPoll ≤ 0 then (Outcome.unready, s2)
        else (Outcome.swept, sweep M s2 nSize)

/-- The member functions that change the slot table from outside the worker. -/
inductive Request (σ : Type) where
  | AddConnection (node : ProtocolType σ) (DDOS : Nat) (pollfdForConnection : pollfd)
  | AddConnectionAddress (node : ProtocolType σ) (strAddress : List Nat) (nPort : Nat)
      (DDOS : Nat) (pollfdForConnection : pollfd)
  | remove (index : Nat)
  | disconnect_remove_event (index : Nat) (reason : Reason)
  | DisconnectAll

/-- The data thread after a request. -/
def request (M : Methods σ φ) (s : DataThread σ φ) : Request σ → DataThread σ φ
  | Request.AddConnection node DDOS p => AddConnection M s node DDOS p
  | Request.AddConnectionAddress node strAddress nPort DDOS p =>
    (AddConnectionAddress M s node strAddress nPort DDOS p).2
  | Request.remove index => remove s index
  | Request.disconnect_remove_event index reason => disconnect_remove_event M s index reason
  | Request.DisconnectAll => DisconnectAll s

/-- The data thread after a sequence of requests. -/
def requests (M : Methods σ φ) (s : DataThread σ φ) (l : List (Request σ)) : DataThread σ φ :=
  l.foldl (request M) s

/-- The slot table and the poll descriptors agree: the vectors are equally long, the
descriptor of a live slot holds the socket handle of its connection, and the descriptor
of an empty slot holds `INVALID_SOCKET`. -/
def SlotIntegrity (s : DataThread σ φ) : Prop :=
  s.CONNECTIONS.length = s.POLLFDS.length ∧
  (∀ (i : Nat) (node : Node σ), s.CONNECTIONS[i]? = some (some node) →
    ∃ p : pollfd, s.POLLFDS[i]? = some p ∧ p.fd = node.object.fd) ∧
  (∀ i : Nat, s.CONNECTIONS[i]? = some none →
    ∃ p : pollfd, s.POLLFDS[i]? = some p ∧ p.fd = INVALID_SOCKET)

/-- What an `AddConnection` that installs the connection `n` has made of the data thread
`s`: the slot `find_slot s` is the lowest one that holds `pEmpty`, or a new one at the end
when there is none; in `t` it holds `n`, its descriptor holds `fd` and `events`, every other
slot and descriptor is as in `s`, the connection `n` has got one `EVENT_CONNECT`, and the
connection count is one higher. -/
structure Installed (s t : DataThread σ φ) (n : Node σ) (fd : Int) (events : Nat) : Prop where
  live_below : ∀ j : Nat, j < find_slot s → ∃ m : Node σ, s.CONNECTIONS[j]? = some (some m)
  empty_at : find_slot s < s.CONNECTIONS.length → s.CONNECTIONS[find_slot s]? = some none
  at_most : find_slot s ≤ s.CONNECTIONS.length
  slots : t.CONNECTIONS.length =
    if find_slot s < s.CONNECTIONS.length then s.CONNECTIONS.length
    else s.CONNECTIONS.length + 1
  descriptors : t.POLLFDS.length = t.CONNECTIONS.length
  slot : t.CONNECTIONS[find_slot s]? = some (some n)
  descriptor : ∃ q : pollfd, t.POLLFDS[find_slot s]? = some q ∧ q.fd = fd ∧ q.events = events
  others : ∀ j : Nat, j ≠ find_slot s →
    t.CONNECTIONS[j]? = s.CONNECTIONS[j]? ∧ t.POLLFDS[j]? = s.POLLFDS[j]?
  one_connect : n.calls.count Call.EVENT_CONNECT = 1
  count : t.nConnections = s.nConnections + 1

/-- What the work of the worker on the slot `nIndex` may change from `s` to `t`: no other
slot and no other descriptor, not the timeout, no count of calls of `Ban`, and no connection
comes back from the deleted ones. -/
structure Frame (nIndex : Nat) (s t : DataThread σ φ) : Prop where
  slots : ∀ j : Nat, j ≠ nIndex →
    t.CONNECTIONS[j]? = s.CONNECTIONS[j]? ∧ t.POLLFDS[j]? = s.POLLFDS[j]?
  timeout : t.TIMEOUT = s.TIMEOUT
  bans : t.FILTERS.map DDOS_Filter.nBan = s.FILTERS.map DDOS_Filter.nBan
  deleted : ∃ l : List (Node σ), t.DELETED = s.DELETED ++ l

/-- Modelled from the spec: a filter that holds its two scores and whether it is banned. -/
structure ExampleFilter where
  rSCORE : Nat
  cSCORE : Nat
  fBanned : Bool
deriving DecidableEq, Repr

/-- A connection type for the examples.  Its object holds what `Errors()`, `Timeout()`,
`PacketComplete()`, `ProcessPacket()` and `Connect()` answer; `Connected()` answers
`fCONNECTED`, `Connect` sets it, and no other method changes the object.  Its filter is an
`ExampleFilter`. -/
structure ExampleState where
  fErrors : Bool
  fTimeout : Bool
  fComplete : Bool
  fProcess : Bool
  fConnect : Bool
deriving DecidableEq, Repr

/-- The methods of the connection type of the examples. -/
def exampleMethods : Methods ExampleState ExampleFilter :=
  { Connected := fun x => x.fCONNECTED
    Errors := fun x => x.state.fErrors
    Timeout := fun x _ => x.state.fTimeout
    PacketComplete := fun x => x.state.fComplete
    ProcessPacket := fun x => x.state.fProcess
    Connect := fun x _ _ => x.state.fConnect
    call := fun x c =>
      match c with
      | Call.Connect _ _ => { x with fCONNECTED := x.state.fConnect }
      | _ => x
    rScore := fun d => d.rSCORE
    cScore := fun d => d.cSCORE
    rAdd := fun d => { d with rSCORE := d.rSCORE + 1 }
    cAdd := fun d => { d with cSCORE := d.cSCORE + 1 }
    Ban := fun d => { d with fBanned := true }
    Banned := fun d => d.fBanned }

/-- An idle connection of the examples on the socket `fd`, with filter `0`. -/
def exampleNode (fd : Int) (fTimeout : Bool) : ProtocolType ExampleState :=
  { fd := fd
    events := POLLIN
    fCONNECTED := false
    fOUTGOING := false
    DDOS := 0
    state := { fErrors := false, fTimeout := fTimeout, fComplete := false, fProcess := true,
               fConnect := true } }

/-- The sentinel object of the examples. -/
def exampleEmpty : ProtocolType ExampleState :=
  exampleNode INVALID_SOCKET false

/-- A data thread of the examples, newly constructed: thresholds `100`, a timeout of `60`,
and one filter with the given request score. -/
def exampleThread (isDDOS : Bool) (rSCORE : Nat) : DataThread ExampleState ExampleFilter :=
  DataThread.create isDDOS 100 100 60 false exampleEmpty
    [{ filter := { rSCORE := rSCORE, cSCORE := 0, fBanned := false }, nBan := 0 }]

/-- A data thread of the examples with one inbound connection on the socket `7`. -/
def exampleIdle (fTimeout : Bool) : DataThread ExampleState ExampleFilter :=
  AddConnection exampleMethods (exampleThread false 0) (exampleNode 7 fTimeout) 0 ⟨0, 0, 0⟩

/-- A data thread of the examples with DDOS protection and one inbound connection whose
filter has the request score `1000`. -/
def exampleFlood : DataThread ExampleState ExampleFilter :=
  AddConnection exampleMethods (exampleThread true 1000) (exampleNode 7 false) 0 ⟨0, 0, 0⟩

/-- A data thread of the examples with two slots, the first of them empty again. -/
def exampleSlots : DataThread ExampleState ExampleFilter :=
  remove
    (AddConnection exampleMethods
      (AddConnection exampleMethods (exampleThread false 0) (exampleNode 7 false) 0 ⟨0, 0, 0⟩)
      (exampleNode 8 false) 0 ⟨0, 0, 0⟩) 0

/-- A connection of the examples whose `Connect` fails. -/
def exampleRefused : ProtocolType ExampleState :=
  { exampleNode INVALID_SOCKET false with
    state := { fErrors := false, fTimeout := false, fComplete := false, fProcess := true,
               fConnect := false } }

/-- Requests of the examples: two inbound connections, an outbound one that succeeds and one
that fails, and the removal of two of the three connections. -/
def exampleRequests : List (Request ExampleState) :=
  [Request.AddConnection (exampleNode 7 false) 0 ⟨0, 0, 0⟩,
   Request.AddConnection (exampleNode 8 false) 0 ⟨0, 0, 0⟩,
   Request.AddConnectionAddress (exampleNode 9 false) [127, 0, 0, 1] 8080 0 ⟨0, 0, 0⟩,
   Request.AddConnectionAddress exampleRefused [127, 0, 0, 1] 8081 0 ⟨0, 0, 0⟩,
   Request.disconnect_remove_event 0 Reason.DISCONNECT_FORCE,
   Request.remove 2,
   Request.AddConnection (exampleNode 10 false) 0 ⟨0, 0, 0⟩]

/-- The number of slots that do not hold `pEmpty`. -/
def liveSlots (s : DataThread σ φ) : Nat :=
  (s.CONNECTIONS.filter Option.isSome).length

end LLP

namespace Util

/-! ## The page-locking macros of the secure allocator (`Util/include/allocators.h`)

A shallow embedding of the macros `mlock(a,b)` and `munlock(a,b)` for systems other than
Windows.  An address and a byte count are values of `size_t`, taken to have 64 bits; the
page size is a positive `long`. -/

/-- The operand `~((PAGESIZE)-1)` converted to `size_t`. -/
def pageMask (PAGESIZE : Nat) : Nat := 2 ^ 64 - 1 - (PAGESIZE - 1)

/-- The two arguments that the macro `mlock(a,b)` passes to the system call: the address
`((size_t)(a)) & (~((PAGESIZE)-1))` and the length
`(((((size_t)(a)) + (b) - 1) | ((PAGESIZE) - 1)) + 1) - (((size_t)(a)) & (~((PAGESIZE) - 1)))`. -/
def mlock (PAGESIZE a b : Nat) : Nat × Nat :=
  let nStart := a &&& pageMask PAGESIZE
  let nLast := ((a + b) % 2 ^ 64 + 2 ^ 64 - 1) % 2 ^ 64
  let nEnd := ((nLast ||| (PAGESIZE - 1)) + 1) % 2 ^ 64
  (nStart, (nEnd + 2 ^ 64 - nStart) % 2 ^ 64)

/-- The two arguments that the macro `munlock(a,b)` passes to the system call (the same
expressions as in `mlock`). -/
def munlock (PAGESIZE a b : Nat) : Nat × Nat :=
  let nStart := a &&& pageMask PAGESIZE
  let nLast := ((a + b) % 2 ^ 64 + 2 ^ 64 - 1) % 2 ^ 64
  let nEnd := ((nLast ||| (PAGESIZE - 1)) + 1) % 2 ^ 64
  (nStart, (nEnd + 2 ^ 64 - nStart) % 2 ^ 64)

end Util

namespace TAO.API

/-! ## The paging loop of `Objects::List` (`TAO/API/types/objects/list.cpp`)

A shallow embedding of `Objects::List` from the point where the registers of the signature
chain have been read into `vRegisters`.  The ledger, the register database and the JSON
encoder are not part of the sources at hand: a register is given by what the loop reads of
it, and an entry of the response by the register it is built from and by whether the
register was cast to the template. -/

/-- An element of `vRegisters`: the address `state.first`, the type `state.second.nType`,
whether `object.Parse()` succeeds, the value of `object.Standard()`, and whether
`Matches(object, filterTemplate)` holds. -/
structure Register where
  address : Nat
  nType : Nat
  fParse : Bool
  nStandard : Nat
  fMatches : Bool
deriving DecidableEq, Repr

/-- What the loop uses besides the registers: the two type arguments, the constant
`TAO::Register::REGISTER::OBJECT`, whether a template filter is active
(`hashTemplate.IsObject() && !filterTemplate.IsNull()`), the address of the template, and
the flag `fCast`. -/
structure Filter where
  nRegisterType : Nat
  nObjectType : Nat
  OBJECT : Nat
  fTemplate : Bool
  hashTemplate : Nat
  fCast : Bool
deriving DecidableEq, Repr

/-- What the head of the loop body decides for a register: leave it out (`continue`), throw
`APIException(-36)`, or go on to the paging with the object, cast or not. -/
inductive Verdict where
  | skip
  | fail
  | pass (fCast : Bool)
deriving DecidableEq, Repr

/-- The head of the loop body, up to the paging. -/
def verdict (F : Filter) (state : Register) : Verdict :=
  if state.nType ≠ F.nRegisterType then Verdict.skip
  else if state.nType = F.OBJECT then
    if !state.fParse then Verdict.fail
    else if state.nStandard &&& F.nObjectType = 0 then Verdict.skip
    else if F.fTemplate then
      if F.hashTemplate = state.address then Verdict.skip
      else if !state.fMatches then Verdict.skip
      else Verdict.pass F.fCast
    else Verdict.pass false
  else Verdict.pass false

/-- How a call ends: with the response, with an exception, or in the division by a zero
`nLimit`, which C++ leaves undefined. -/
inductive Result where
  | response (ret : List (Register × Bool))
  | exception (nCode : Int)
  | undefined
deriving DecidableEq, Repr

/-- The loop over `vRegisters` with the counter `nTotal` (a `uint32_t`) and the response
`ret` built so far. -/
def listLoop (F : Filter) (nPage nLimit : Nat) :
    List Register → Nat → List (Register × Bool) → Result
  | [], _, ret => Result.response ret
  | state :: rest, nTotal, ret =>
    match verdict F state with
    | Verdict.skip => listLoop F nPage nLimit rest nTotal ret
    | Verdict.fail => Result.exception (-36)
    | Verdict.pass fCast =>
      if nLimit = 0 then Result.undefined
      else
        let nCurrentPage := nTotal / nLimit
        let nNext := (nTotal + 1) % 2 ^ 32
        if nCurrentPage < nPage then listLoop F nPage nLimit rest nNext ret
        else if nCurrentPage > nPage then Result.response ret
        else if (nNext + 2 ^ 32 - (nPage * nLimit) % 2 ^ 32) % 2 ^ 32 > nLimit then
          Result.response ret
        else listLoop F nPage nLimit rest nNext (ret ++ [(state, fCast)])

/-- The method `Objects::List` from the registers on.  The parameters `page` and `limit`
are absent or hold the number that `std::stoul` reads, which is cut to a `uint32_t`. -/
def Objects.List (F : Filter) (page limit : Option Nat) (vRegisters : List Register) :
    Result :=
  let nPage := match page with
    | some n => n % 2 ^ 32
    | none => 0
  let nLimit := match limit with
    | some n => n % 2 ^ 32
    | none => 100
  listLoop F nPage nLimit vRegisters 0 []

/-- The registers that pass the type and template filters, in the order of `vRegisters`, each
with the flag that says whether it is cast to the template. -/
def passing (F : Filter) (vRegisters : List Register) : List (Register × Bool) :=
  vRegisters.filterMap (fun state =>
    match verdict F state with
    | Verdict.pass fCast => some (state, fCast)
    | _ => none)

/-- A filter of the examples: object registers (type `2`) of any standard type, no
template. -/
def exampleFilter : Filter :=
  { nRegisterType := 2, nObjectType := 255, OBJECT := 2, fTemplate := false,
    hashTemplate := 0, fCast := false }

/-- A register of the examples: an object register that parses. -/
def exampleRegister (address : Nat) : Register :=
  { address := address, nType := 2, fParse := true, nStandard := 1, fMatches := false }

/-- Seven registers of the examples, five of which pass `exampleFilter`: the one of type `1`
and the one whose standard type is `0` do not. -/
def exampleRegisters : List Register :=
  [exampleRegister 10, exampleRegister 11, { exampleRegister 12 with nType := 1 },
   exampleRegister 13, { exampleRegister 14 with nStandard := 0 }, exampleRegister 15,
   exampleRegister 16]

end TAO.API

/-! # Lemmas and theorems -/

namespace LLD

theorem BitArray.is_set_eq (a : BitArray) (i : Nat) :
    a.is_set i = (a.vRegisters.getD (i / 64) 0).testBit (i % 64) := by
  unfold BitArray.is_set
  rw [Nat.one_shiftLeft, Nat.and_two_pow]
  cases (a.vRegisters.getD (i / 64) 0).testBit (i % 64) <;> simp

theorem BitArray.vRegisters_mark (a : BitArray) (r : Nat) :
    (a.mark r).vRegisters = a.vRegisters := by
  unfold BitArray.mark; split <;> rfl

theorem BitArray.is_set_create (n i : Nat) : (BitArray.create n).is_set i = false := by
  rw [BitArray.is_set_eq]
  simp [BitArray.create, List.getD_eq_getElem?_getD, List.getElem?_replicate]
  split <;> simp

theorem idx_eq_iff (i j : Nat) : j = i ↔ (j / 64 = i / 64 ∧ j % 64 = i % 64) := by
  omega

theorem BitArray.is_set_set_bit (a : BitArray) (i j : Nat)
    (h : i / 64 < a.vRegisters.length) (h32 : i / 64 < 2 ^ 32) :
    (a.set_bit i).is_set j = (decide (j = i) || a.is_set j) := by
  rw [BitArray.is_set_eq, BitArray.is_set_eq]
  simp only [BitArray.set_bit, BitArray.vRegisters_mark, Nat.mod_eq_of_lt h32,
    List.getD_eq_getElem?_getD, List.getElem?_set, Nat.one_shiftLeft]
  by_cases hr : i / 64 = j / 64
  · have hj : j / 64 < a.vRegisters.length := hr ▸ h
    simp only [hr, if_true, hj, Option.getD_some, Nat.testBit_or, Nat.testBit_two_pow]
    by_cases hm : i % 64 = j % 64
    · have : j = i := by omega
      simp [hm, this]
    · have : j ≠ i := by omega
      simp [hm, this, Bool.or_comm]
  · have : j ≠ i := by intro e; exact hr (by rw [e])
    simp [hr, this]

theorem BitArray.is_set_clear_bit (a : BitArray) (i j : Nat)
    (h : i / 64 < a.vRegisters.length) (h32 : i / 64 < 2 ^ 32) :
    (a.clear_bit i).is_set j = (!decide (j = i) && a.is_set j) := by
  rw [BitArray.is_set_eq, BitArray.is_set_eq]
  simp only [BitArray.clear_bit, BitArray.vRegisters_mark, Nat.mod_eq_of_lt h32,
    List.getD_eq_getElem?_getD, List.getElem?_set, Nat.one_shiftLeft]
  have hpow : (2 : Nat) ^ (i % 64) < 2 ^ 64 :=
    Nat.pow_lt_pow_right (by decide) (Nat.mod_lt _ (by decide))
  have hsub : (2 : Nat) ^ 64 - 1 - 2 ^ (i % 64) = 2 ^ 64 - (2 ^ (i % 64) + 1) := by omega
  by_cases hr : i / 64 = j / 64
  · have hj : j / 64 < a.vRegisters.length := hr ▸ h
    simp only [hr, if_true, hj, Option.getD_some, Nat.testBit_and]
    rw [hsub, Nat.testBit_two_pow_sub_succ hpow, Nat.testBit_two_pow]
    have hj64 : j % 64 < 64 := Nat.mod_lt _ (by decide)
    by_cases hm : i % 64 = j % 64
    · have : j = i := by omega
      simp [hm, this]
    · have : j ≠ i := by omega
      simp [hm, this, hj64, Bool.and_comm]
  · have : j ≠ i := by intro e; exact hr (by rw [e])
    simp [hr, this]



theorem lookupFile_storeFile (d : Directory) (i j : Nat) (f : List Nat) :
    lookupFile (storeFile d i f) j = if j = i then some f else lookupFile d j := by
  unfold lookupFile storeFile
  simp only [List.getD_eq_getElem?_getD, List.getElem?_set, List.length_append,
    List.length_replicate]
  by_cases h : i = j
  · subst h
    have : i < d.length + (i + 1 - d.length) := by omega
    simp [this]
  · have h2 : ¬ j = i := fun e => h e.symm
    simp only [h, h2, if_false]
    by_cases hj : j < d.length
    · rw [List.getElem?_append_left hj]
    · rw [List.getElem?_append_right (by omega), List.getElem?_replicate]
      have : d[j]? = none := List.getElem?_eq_none (by omega)
      rw [this]
      split <;> rfl

theorem length_writeAt (file : List Nat) (nPos : Nat) (vData : List Nat)
    (h : nPos + vData.length ≤ file.length) :
    (writeAt file nPos vData).length = file.length := by
  unfold writeAt
  simp only [List.length_append, List.length_take, List.length_replicate, List.length_drop]
  omega

theorem getD_writeAt (file : List Nat) (nPos : Nat) (vData : List Nat) (p : Nat) :
    (writeAt file nPos vData).getD p 0 =
      if nPos ≤ p ∧ p < nPos + vData.length then vData.getD (p - nPos) 0
      else file.getD p 0 := by
  unfold writeAt
  have hlen : ((file ++ List.replicate (nPos - file.length) 0).take nPos).length = nPos := by
    simp only [List.length_take, List.length_append, List.length_replicate]; omega
  simp only [List.getD_eq_getElem?_getD]
  by_cases h1 : p < nPos
  · have hne : ¬ (nPos ≤ p ∧ p < nPos + vData.length) := by omega
    rw [if_neg hne, List.append_assoc, List.getElem?_append_left (by omega),
      List.getElem?_take_of_lt h1]
    by_cases h2 : p < file.length
    · rw [List.getElem?_append_left h2]
    · rw [List.getElem?_append_right (by omega), List.getElem?_replicate]
      have : file[p]? = none := List.getElem?_eq_none (by omega)
      rw [this]
      split <;> rfl
  · rw [List.append_assoc, List.getElem?_append_right (by omega), hlen]
    by_cases h3 : p < nPos + vData.length
    · have : nPos ≤ p ∧ p < nPos + vData.length := by omega
      rw [if_pos this, List.getElem?_append_left (by omega)]
    · have hne : ¬ (nPos ≤ p ∧ p < nPos + vData.length) := by omega
      rw [if_neg hne, List.getElem?_append_right (by omega), List.getElem?_drop]
      congr 2
      omega

theorem length_readAt (file : List Nat) (nPos : Nat) (vBuffer : List Nat) :
    (readAt file nPos vBuffer).length = vBuffer.length := by
  unfold readAt
  simp only [List.length_append, List.length_take, List.length_drop]
  omega

theorem getD_readAt (file : List Nat) (nPos : Nat) (vBuffer : List Nat) (j : Nat)
    (h : nPos + vBuffer.length ≤ file.length) :
    (readAt file nPos vBuffer).getD j 0 =
      if j < vBuffer.length then file.getD (nPos + j) 0 else 0 := by
  unfold readAt
  have hlen : ((file.drop nPos).take vBuffer.length).length = vBuffer.length := by
    simp only [List.length_take, List.length_drop]; omega
  simp only [List.getD_eq_getElem?_getD]
  by_cases hj : j < vBuffer.length
  · rw [if_pos hj, List.getElem?_append_left (by omega), List.getElem?_take_of_lt hj,
      List.getElem?_drop]
  · rw [if_neg hj, List.getElem?_append_right (by omega)]
    have : (List.drop ((file.drop nPos).take vBuffer.length).length vBuffer)[j -
        ((file.drop nPos).take vBuffer.length).length]? = none :=
      List.getElem?_eq_none (by simp only [List.length_drop]; omega)
    rw [this]; rfl

theorem length_leBytes (w v : Nat) : (leBytes w v).length = w := by
  induction w generalizing v with
  | zero => rfl
  | succ n ih => simp [leBytes, ih]

theorem leValue_leBytes (w v : Nat) (h : v < 256 ^ w) : leValue (leBytes w v) = v := by
  induction w generalizing v with
  | zero => simp at h; simp [leBytes, leValue, h]
  | succ n ih =>
    have : v / 256 < 256 ^ n := by
      rw [Nat.div_lt_iff_lt_mul (by decide)]
      rwa [Nat.pow_succ] at h
    simp only [leBytes, leValue, ih _ this]
    omega

theorem SectorKey.length_serialize (c : SectorKey) : c.serialize.length = 13 := by
  simp [SectorKey.serialize, length_leBytes]

theorem SectorKey.vKey_deserialize (v : List Nat) (c : SectorKey) :
    (SectorKey.deserialize v c).vKey = c.vKey := rfl

theorem SectorKey.nState_deserialize (v : List Nat) (c : SectorKey) :
    (SectorKey.deserialize v c).nState = v.getD 0 0 := by
  cases v with
  | nil => rfl
  | cons a t => simp [SectorKey.deserialize, leValue]

theorem SectorKey.deserialize_serialize (r c : SectorKey) (t : List Nat) (h : r.Fits) :
    SectorKey.deserialize (r.serialize ++ t) c = { r with vKey := c.vKey } := by
  obtain ⟨h1, h2, h3, h4, h5⟩ := h
  have e1 : leValue (leBytes 1 r.nState) = r.nState := leValue_leBytes 1 _ (by omega)
  have e2 : leValue (leBytes 2 r.nSectorFile) = r.nSectorFile := leValue_leBytes 2 _ (by omega)
  have e3 : leValue (leBytes 4 r.nSectorStart) = r.nSectorStart :=
    leValue_leBytes 4 _ (by omega)
  have e4 : leValue (leBytes 4 r.nSectorSize) = r.nSectorSize := leValue_leBytes 4 _ (by omega)
  have e5 : leValue (leBytes 2 r.nLength) = r.nLength := leValue_leBytes 2 _ (by omega)
  have t1 : ∀ (a b : List Nat) (n : Nat), a.length = n → (a ++ b).take n = a := by
    intro a b n hn; subst hn; simp
  have d1 : ∀ (a b : List Nat) (n : Nat), a.length = n → (a ++ b).drop n = b := by
    intro a b n hn; subst hn; simp
  unfold SectorKey.deserialize SectorKey.serialize
  simp only [List.append_assoc]
  have s1 : (leBytes 1 r.nState ++ (leBytes 2 r.nSectorFile ++ (leBytes 4 r.nSectorStart ++
      (leBytes 4 r.nSectorSize ++ (leBytes 2 r.nLength ++ t))))).take 1 = leBytes 1 r.nState :=
    t1 _ _ _ (length_leBytes _ _)
  have s2 : (leBytes 1 r.nState ++ (leBytes 2 r.nSectorFile ++ (leBytes 4 r.nSectorStart ++
      (leBytes 4 r.nSectorSize ++ (leBytes 2 r.nLength ++ t))))).drop 1 =
      leBytes 2 r.nSectorFile ++ (leBytes 4 r.nSectorStart ++
      (leBytes 4 r.nSectorSize ++ (leBytes 2 r.nLength ++ t))) :=
    d1 _ _ _ (length_leBytes _ _)
  have s3 : (leBytes 1 r.nState ++ (leBytes 2 r.nSectorFile ++ (leBytes 4 r.nSectorStart ++
      (leBytes 4 r.nSectorSize ++ (leBytes 2 r.nLength ++ t))))).drop 3 =
      leBytes 4 r.nSectorStart ++ (leBytes 4 r.nSectorSize ++ (leBytes 2 r.nLength ++ t)) := by
    rw [← List.append_assoc]
    exact d1 _ _ _ (by simp [length_leBytes])
  have s4 : (leBytes 1 r.nState ++ (leBytes 2 r.nSectorFile ++ (leBytes 4 r.nSectorStart ++
      (leBytes 4 r.nSectorSize ++ (leBytes 2 r.nLength ++ t))))).drop 7 =
      leBytes 4 r.nSectorSize ++ (leBytes 2 r.nLength ++ t) := by
    rw [← List.append_assoc, ← List.append_assoc]
    exact d1 _ _ _ (by simp [length_leBytes])
  have s5 : (leBytes 1 r.nState ++ (leBytes 2 r.nSectorFile ++ (leBytes 4 r.nSectorStart ++
      (leBytes 4 r.nSectorSize ++ (leBytes 2 r.nLength ++ t))))).drop 11 =
      leBytes 2 r.nLength ++ t := by
    rw [← List.append_assoc, ← List.append_assoc, ← List.append_assoc]
    exact d1 _ _ _ (by simp [length_leBytes])
  rw [s1, s2, s3, s4, s5, t1 _ _ 2 (length_leBytes _ _), t1 _ _ 4 (length_leBytes _ _),
    t1 _ _ 4 (length_leBytes _ _), t1 _ _ 2 (length_leBytes _ _), e1, e2, e3, e4, e5]

theorem length_xorLoop (nSize2 nSteps i : Nat) (v : List Nat) :
    (xorLoop nSize2 nSteps i v).length = v.length := by
  induction nSteps generalizing i v with
  | zero => rfl
  | succ n ih =>
    unfold xorLoop
    split
    · rw [ih]; simp
    · rw [ih]

theorem length_resize (v : List Nat) (n : Nat) : (resize v n).length = n := by
  unfold resize
  simp only [List.length_append, List.length_take, List.length_replicate]
  omega

theorem length_compressLoop (nSize nRounds : Nat) (v : List Nat) (h : v.length ≤ nRounds) :
    (compressLoop nSize nRounds v).length ≤ nSize := by
  induction nRounds generalizing v with
  | zero =>
    have : v.length = 0 := by omega
    simp [compressLoop, this]
  | succ n ih =>
    unfold compressLoop
    by_cases hgt : v.length > nSize
    · rw [if_pos hgt]
      have hmod : (v.length >>> 1) % 2 ^ 16 ≤ v.length / 2 := by
        rw [Nat.shiftRight_eq_div_pow]
        exact Nat.mod_le _ _
      apply ih
      rw [length_resize]
      omega
    · rw [if_neg hgt]
      omega

theorem length_compress_key (v : List Nat) (nSize : Nat) :
    (compress_key v nSize).length ≤ nSize := by
  exact length_compressLoop nSize v.length v (Nat.le_refl _)

theorem BitArray.is_set_set_bit_mono (a : BitArray) (i j : Nat) (h : a.is_set j = true) :
    (a.set_bit i).is_set j = true := by
  rw [BitArray.is_set_eq] at h ⊢
  simp only [BitArray.set_bit, BitArray.vRegisters_mark, List.getD_eq_getElem?_getD,
    List.getElem?_set, Nat.one_shiftLeft] at h ⊢
  by_cases hr : i / 64 % 2 ^ 32 = j / 64
  · by_cases hl : j / 64 < a.vRegisters.length
    · simp only [hr, if_true, hl, Option.getD_some, Nat.testBit_or]
      rw [List.getElem?_eq_getElem hl] at h
      simp only [Option.getD_some] at h
      rw [List.getElem?_eq_getElem hl]
      simp [h]
    · have hn : a.vRegisters[j / 64]? = none := List.getElem?_eq_none (by omega)
      rw [hn] at h
      simp at h
  · simp only [hr, if_false]
    exact h

theorem BitArray.length_set_bit (a : BitArray) (i : Nat) :
    (a.set_bit i).vRegisters.length = a.vRegisters.length := by
  simp [BitArray.set_bit, BitArray.vRegisters_mark]

theorem BitArray.length_clear_bit (a : BitArray) (i : Nat) :
    (a.clear_bit i).vRegisters.length = a.vRegisters.length := by
  simp [BitArray.clear_bit, BitArray.vRegisters_mark]

theorem BloomFilter.Insert_eq (h : List Nat → Nat → Nat) (f : BloomFilter) (k : List Nat) :
    BloomFilter.Insert h f k =
      { f with toBitArray :=
          ((f.toBitArray.set_bit (BloomFilter.get_bucket h f k 0)).set_bit
            (BloomFilter.get_bucket h f k 1)).set_bit (BloomFilter.get_bucket h f k 2) } := rfl

theorem BloomFilter.Has_iff (h : List Nat → Nat → Nat) (f : BloomFilter) (k : List Nat) :
    BloomFilter.Has h f k = true ↔
      ∀ n, n < 3 → f.toBitArray.is_set (BloomFilter.get_bucket h f k n) = true := by
  simp only [BloomFilter.Has, List.all_cons, List.all_nil, Bool.and_true, Bool.and_eq_true]
  constructor
  · rintro ⟨h0, h1, h2⟩ n hn
    interval_cases n <;> assumption
  · intro hall
    exact ⟨hall 0 (by decide), hall 1 (by decide), hall 2 (by decide)⟩

theorem BloomFilter.Has_create_false (h : List Nat → Nat → Nat) (m : Nat) (k : List Nat) :
    BloomFilter.Has h (BloomFilter.create m) k = false := by
  simp [BloomFilter.Has, BloomFilter.create, BitArray.is_set_create]

theorem BloomFilter.Sized_create_bits (m : Nat) : BloomFilter.Sized m (BloomFilter.create m) := by
  simp [BloomFilter.Sized, BloomFilter.create, BitArray.create]

theorem BloomFilter.Sized_Insert_key (h : List Nat → Nat → Nat) (m : Nat) (f : BloomFilter)
    (k : List Nat) (hs : BloomFilter.Sized m f) : BloomFilter.Sized m (BloomFilter.Insert h f k) := by
  rw [BloomFilter.Insert_eq]
  obtain ⟨h1, h2⟩ := hs
  exact ⟨h1, by simp [BitArray.length_set_bit, h2]⟩

theorem BloomFilter.get_bucket_Insert (h : List Nat → Nat → Nat) (f : BloomFilter)
    (k k2 : List Nat) (n : Nat) :
    BloomFilter.get_bucket h (BloomFilter.Insert h f k) k2 n = BloomFilter.get_bucket h f k2 n :=
  rfl

theorem BloomFilter.Has_Insert_mono (h : List Nat → Nat → Nat) (f : BloomFilter)
    (k k2 : List Nat) (hk : BloomFilter.Has h f k2 = true) :
    BloomFilter.Has h (BloomFilter.Insert h f k) k2 = true := by
  rw [BloomFilter.Has_iff] at hk ⊢
  intro n hn
  rw [BloomFilter.get_bucket_Insert, BloomFilter.Insert_eq]
  exact BitArray.is_set_set_bit_mono _ _ _
    (BitArray.is_set_set_bit_mono _ _ _ (BitArray.is_set_set_bit_mono _ _ _ (hk n hn)))

theorem BloomFilter.Has_Insert_self (h : List Nat → Nat → Nat) (m : Nat) (f : BloomFilter)
    (k : List Nat) (hs : BloomFilter.Sized m f) (hm : 0 < m) (hm2 : m < 2 ^ 38) :
    BloomFilter.Has h (BloomFilter.Insert h f k) k = true := by
  obtain ⟨h1, h2⟩ := hs
  have hb : ∀ n, BloomFilter.get_bucket h f k n < m := by
    intro n
    unfold BloomFilter.get_bucket
    rw [h1]
    exact Nat.mod_lt _ hm
  have hr : ∀ n, BloomFilter.get_bucket h f k n / 64 < f.vRegisters.length := by
    intro n
    have := hb n
    rw [h2]
    omega
  have h32 : ∀ n, BloomFilter.get_bucket h f k n / 64 < 2 ^ 32 := by
    intro n
    have := hb n
    omega
  rw [BloomFilter.Has_iff]
  intro n hn
  rw [BloomFilter.get_bucket_Insert, BloomFilter.Insert_eq]
  simp only
  interval_cases n
  · apply BitArray.is_set_set_bit_mono
    apply BitArray.is_set_set_bit_mono
    rw [BitArray.is_set_set_bit _ _ _ (hr 0) (h32 0)]
    simp
  · apply BitArray.is_set_set_bit_mono
    rw [BitArray.is_set_set_bit _ _ _ (by rw [BitArray.length_set_bit]; exact hr 1) (h32 1)]
    simp
  · rw [BitArray.is_set_set_bit _ _ _
      (by rw [BitArray.length_set_bit, BitArray.length_set_bit]; exact hr 2) (h32 2)]
    simp

theorem HashMapFilter.Has_create (n b : Nat) : (HashMapFilter.create n).Has b = false := by
  simp [HashMapFilter.Has, HashMapFilter.create, BitArray.is_set_create]

theorem HashMapFilter.Sized_create (n : Nat) :
    HashMapFilter.Sized n (HashMapFilter.create n) := by
  simp [HashMapFilter.Sized, HashMapFilter.create, BitArray.create]

theorem HashMapFilter.Has_Insert (n : Nat) (f : HashMapFilter) (b c : Nat)
    (hs : HashMapFilter.Sized n f) (hb : b < n) (hn : n < 2 ^ 32) :
    (f.Insert b).Has c = (decide (c = b) || f.Has c) := by
  unfold HashMapFilter.Has HashMapFilter.Insert
  unfold HashMapFilter.Sized at hs
  exact BitArray.is_set_set_bit _ _ _ (by rw [hs]; omega) (by omega)

theorem HashMapFilter.Has_Erase (n : Nat) (f : HashMapFilter) (b c : Nat)
    (hs : HashMapFilter.Sized n f) (hb : b < n) (hn : n < 2 ^ 32) :
    (f.Erase b).Has c = (!decide (c = b) && f.Has c) := by
  unfold HashMapFilter.Has HashMapFilter.Erase
  unfold HashMapFilter.Sized at hs
  exact BitArray.is_set_clear_bit _ _ _ (by rw [hs]; omega) (by omega)

theorem HashMapFilter.Sized_Insert (n : Nat) (f : HashMapFilter) (b : Nat)
    (hs : HashMapFilter.Sized n f) : HashMapFilter.Sized n (f.Insert b) := by
  unfold HashMapFilter.Sized at hs ⊢
  simp [HashMapFilter.Insert, BitArray.length_set_bit, hs]

theorem HashMapFilter.Sized_Erase (n : Nat) (f : HashMapFilter) (b : Nat)
    (hs : HashMapFilter.Sized n f) : HashMapFilter.Sized n (f.Erase b) := by
  unfold HashMapFilter.Sized at hs ⊢
  simp [HashMapFilter.Erase, BitArray.length_clear_bit, hs]

theorem get_bucket_lt (cfg : Config) (k : List Nat) (h : 0 < cfg.HASHMAP_TOTAL_BUCKETS) :
    get_bucket cfg k < cfg.HASHMAP_TOTAL_BUCKETS := Nat.mod_lt _ h

theorem windowKeys_pos (cfg : Config) (b : Nat) (h : b < cfg.HASHMAP_TOTAL_BUCKETS) :
    0 < windowKeys cfg b := by
  unfold windowKeys HASHMAP_MAX_KEYS_LINEAR_PROBE
  omega

theorem windowKeys_le (cfg : Config) (b : Nat) : windowKeys cfg b ≤ 16 := by
  unfold windowKeys HASHMAP_MAX_KEYS_LINEAR_PROBE
  omega

theorem windowKeys_add_le (cfg : Config) (b : Nat) (h : b < cfg.HASHMAP_TOTAL_BUCKETS) :
    b + windowKeys cfg b ≤ cfg.HASHMAP_TOTAL_BUCKETS := by
  unfold windowKeys HASHMAP_MAX_KEYS_LINEAR_PROBE
  omega

theorem range_pos (n : Nat) (h : 0 < n) :
    List.range n = 0 :: (List.range (n - 1)).map Nat.succ := by
  obtain ⟨m, rfl⟩ : ∃ m, n = m + 1 := ⟨n - 1, by omega⟩
  rw [List.range_succ_eq_map]
  rfl

theorem descendingFiles_eq (n : Nat) (h : n ≤ 2 ^ 15) :
    descendingFiles n = (List.range n).reverse := by
  cases n with
  | zero => rfl
  | succ m =>
    unfold descendingFiles
    have e : m % 2 ^ 16 = m := Nat.mod_eq_of_lt (by omega)
    simp only [e]
    rw [if_pos (by omega)]

theorem ascendingFiles_eq (n : Nat) (h : n ≤ 2 ^ 15) : ascendingFiles n = List.range n := by
  unfold ascendingFiles
  rw [Nat.min_eq_left h]

theorem fresh_eq (cfg : Config) :
    fresh cfg =
      { vHashmaps := [(BloomFilter.create cfg.BLOOM_BITS,
                       HashMapFilter.create cfg.HASHMAP_TOTAL_BUCKETS)],
        hashmapFiles := [some (List.replicate
          ((cfg.HASHMAP_TOTAL_BUCKETS * HASHMAP_KEY_ALLOCATION) % 2 ^ 32) 0)],
        bloomFiles := [some ((BloomFilter.create cfg.BLOOM_BITS).toBitArray.Bytes ++
          (HashMapFilter.create cfg.HASHMAP_TOTAL_BUCKETS).toBitArray.Bytes)] } := rfl

theorem length_fresh (cfg : Config) : (fresh cfg).vHashmaps.length = 1 := rfl

theorem descendingFiles_one : descendingFiles 1 = [0] := by decide

theorem ascendingFiles_one : ascendingFiles 1 = [0] := by decide

theorem getElem?_fresh (cfg : Config) :
    (fresh cfg).vHashmaps[0]? =
      some (BloomFilter.create cfg.BLOOM_BITS,
        HashMapFilter.create cfg.HASHMAP_TOTAL_BUCKETS) := rfl

theorem scanFiles_fresh (cfg : Config) (k ck buf : List Nat) (b : Nat) :
    scanFiles cfg (fresh cfg) k ck b (descendingFiles (fresh cfg).vHashmaps.length) buf =
      Scan.absent := by
  rw [length_fresh, descendingFiles_one]
  unfold scanFiles
  rw [getElem?_fresh]
  simp only [BloomFilter.Has_create_false, Bool.not_false, if_true]
  rfl

theorem freeSlot_zero (occ : HashMapFilter) (b w : Nat) (hw : 0 < w)
    (h : occ.Has b = false) : freeSlot occ b (List.range w) = some 0 := by
  rw [range_pos w hw]
  simp [freeSlot, h]

theorem Put_fresh (cfg : Config) (hcfg : cfg.Valid) (r : SectorKey) :
    Put cfg (fresh cfg) r =
      (true,
        { vHashmaps :=
            [((BloomFilter.create cfg.BLOOM_BITS).Insert cfg.XXH64 r.vKey,
              (HashMapFilter.create cfg.HASHMAP_TOTAL_BUCKETS).Insert (get_bucket cfg r.vKey))],
          hashmapFiles := [some (writeAt (List.replicate
              ((cfg.HASHMAP_TOTAL_BUCKETS * HASHMAP_KEY_ALLOCATION) % 2 ^ 32) 0)
              (filePos (get_bucket cfg r.vKey))
              (r.serialize ++ compress_key r.vKey HASHMAP_MAX_KEY_SIZE))],
          bloomFiles := (fresh cfg).bloomFiles }) := by
  have hb := get_bucket_lt cfg r.vKey hcfg.1
  have hw := windowKeys_pos cfg _ hb
  have hfree := freeSlot_zero (HashMapFilter.create cfg.HASHMAP_TOTAL_BUCKETS)
    (get_bucket cfg r.vKey) _ hw (HashMapFilter.Has_create _ _)
  have happ : appendSlot cfg (fresh cfg) (get_bucket cfg r.vKey)
      (ascendingFiles (fresh cfg).vHashmaps.length) = some (0, 0) := by
    rw [length_fresh, ascendingFiles_one]
    unfold appendSlot
    rw [getElem?_fresh]
    simp only [hfree]
  have hpath : putPath cfg (fresh cfg) r = PutPath.append 0 0 := by
    unfold putPath
    simp only [scanFiles_fresh, ite_self, happ]
  unfold Put
  simp only [hpath]
  rfl

theorem readAt_writeAt_prefix (file : List Nat) (p : Nat) (data buf : List Nat)
    (h : data.length ≤ buf.length) :
    ∃ tail, readAt (writeAt file p data) p buf = data ++ tail := by
  have hA : ((file ++ List.replicate (p - file.length) 0).take p).length = p := by
    simp only [List.length_take, List.length_append, List.length_replicate]; omega
  have hdrop : (writeAt file p data).drop p = data ++ file.drop (p + data.length) := by
    unfold writeAt
    rw [List.append_assoc, List.drop_append_of_le_length (by omega),
      List.drop_of_length_le (by omega)]
    rfl
  unfold readAt
  simp only [hdrop]
  rw [List.take_append_eq_append_take, List.take_of_length_le h, List.append_assoc]
  exact ⟨_, rfl⟩

theorem keyMatches_prefix (ser ck tail : List Nat) (h : ser.length = 13) :
    keyMatches (ser ++ (ck ++ tail)) 0 ck = true := by
  unfold keyMatches
  have : (ser ++ (ck ++ tail)).drop (0 + 13) = ck ++ tail := by
    rw [Nat.zero_add, ← h, List.drop_left]
  rw [this, List.take_left]
  simp

theorem newBucketBuffer_length (cfg : Config) (b : Nat) :
    (newBucketBuffer cfg b).length = HASHMAP_KEY_ALLOCATION * windowKeys cfg b := by
  simp [newBucketBuffer]

/-- C1: on a freshly initialised keychain, in either flag setting, `Put` of a ready record
with a non-empty key of any length returns true, and the following `Get` of that key returns
true with the record put: the same state, sector file, sector start, sector size and length,
and the original uncompressed key. -/
theorem put_get_fresh (cfg : Config) (hcfg : cfg.Valid) (r c0 : SectorKey)
    (hkey : r.vKey ≠ []) (hready : r.nState = STATE_READY) (hfits : r.Fits) :
    (Put cfg (fresh cfg) r).1 = true ∧
      Get cfg (Put cfg (fresh cfg) r).2 r.vKey c0 = (true, r) := by
  have _ := hkey
  rw [Put_fresh cfg hcfg r]
  refine ⟨rfl, ?_⟩
  have hb := get_bucket_lt cfg r.vKey hcfg.1
  have hw := windowKeys_pos cfg _ hb
  have hck := length_compress_key r.vKey HASHMAP_MAX_KEY_SIZE
  have h32 : HASHMAP_MAX_KEY_SIZE = 32 := rfl
  have h45 : HASHMAP_KEY_ALLOCATION = 45 := rfl
  have hlen : (r.serialize ++ compress_key r.vKey HASHMAP_MAX_KEY_SIZE).length ≤
      (newBucketBuffer cfg (get_bucket cfg r.vKey)).length := by
    rw [newBucketBuffer_length, List.length_append, SectorKey.length_serialize, h45]
    omega
  obtain ⟨tail, htail⟩ := readAt_writeAt_prefix (List.replicate
    ((cfg.HASHMAP_TOTAL_BUCKETS * HASHMAP_KEY_ALLOCATION) % 2 ^ 32) 0)
    (filePos (get_bucket cfg r.vKey)) _ _ hlen
  have hbloom := BloomFilter.Has_Insert_self cfg.XXH64 cfg.BLOOM_BITS
    (BloomFilter.create cfg.BLOOM_BITS) r.vKey (BloomFilter.Sized_create_bits _) hcfg.2.2.1
    hcfg.2.2.2
  have hocc : ((HashMapFilter.create cfg.HASHMAP_TOTAL_BUCKETS).Insert
      (get_bucket cfg r.vKey)).Has (get_bucket cfg r.vKey + 0) = true := by
    rw [Nat.add_zero, HashMapFilter.Has_Insert _ _ _ _ (HashMapFilter.Sized_create _) hb
      hcfg.2.1]
    simp
  have hkeys : (r.serialize ++ compress_key r.vKey HASHMAP_MAX_KEY_SIZE ++ tail).length /
      HASHMAP_KEY_ALLOCATION = windowKeys cfg (get_bucket cfg r.vKey) := by
    rw [← htail, length_readAt, newBucketBuffer_length]
    exact Nat.mul_div_cancel_left _ (by decide)
  unfold Get
  simp only [List.length_singleton, descendingFiles_one]
  unfold getFiles
  simp only [List.getElem?_cons_zero, hbloom, Bool.not_true, lookupFile, List.getD_cons_zero,
    htail, hkeys]
  rw [range_pos _ hw]
  unfold getSlots
  simp only [hocc, Bool.not_true, Nat.zero_mul,
    keyMatches_prefix _ _ _ (SectorKey.length_serialize r), List.drop_zero, List.append_assoc,
    SectorKey.deserialize_serialize r _ _ hfits]
  simp [SectorKey.Ready, hready]
  rw [← hready]

theorem getElem?_modifyAt {α : Type} (l : List α) (i j : Nat) (f : α → α) :
    (modifyAt l i f)[j]? = if j = i then (l[i]?).map f else l[j]? := by
  unfold modifyAt
  cases h : l[i]? with
  | none =>
    by_cases hj : j = i
    · subst hj; simp [h]
    · simp [hj]
  | some a =>
    have hi : i < l.length := by
      by_contra hc
      rw [List.getElem?_eq_none (by omega)] at h
      cases h
    simp only [List.getElem?_set, hi, if_true, Option.map_some']
    by_cases hj : j = i
    · subst hj; simp
    · have : ¬ i = j := fun e => hj e.symm
      simp [hj, this]

theorem length_modifyAt {α : Type} (l : List α) (i : Nat) (f : α → α) :
    (modifyAt l i f).length = l.length := by
  unfold modifyAt
  cases l[i]? <;> simp

theorem key_allocation_eq : HASHMAP_KEY_ALLOCATION = 45 := rfl

theorem max_key_size_eq : HASHMAP_MAX_KEY_SIZE = 32 := rfl

theorem filePos_eq (cfg : Config) (b : Nat) (hnw : cfg.NoWrap)
    (hb : b < cfg.HASHMAP_TOTAL_BUCKETS) : filePos b = b * HASHMAP_KEY_ALLOCATION := by
  unfold filePos
  unfold Config.NoWrap at hnw
  apply Nat.mod_eq_of_lt
  have : b * HASHMAP_KEY_ALLOCATION ≤ cfg.HASHMAP_TOTAL_BUCKETS * HASHMAP_KEY_ALLOCATION :=
    Nat.mul_le_mul_right _ (by omega)
  omega

/-! ### The filters of a state after `insertFilters` and `eraseFilter` -/

theorem occupied_insertFilters (cfg : Config) (s : BinaryHashMap) (i nIndex : Nat)
    (k : List Nat) (hcfg : cfg.Valid) (hwf : WellFormed cfg s) (hi : i < s.vHashmaps.length)
    (hidx : nIndex < cfg.HASHMAP_TOTAL_BUCKETS) (j c : Nat) :
    occupied (insertFilters cfg s i k nIndex) j c =
      (decide (j = i ∧ c = nIndex) || occupied s j c) := by
  unfold occupied insertFilters
  simp only [getElem?_modifyAt]
  by_cases hj : j = i
  · subst hj
    obtain ⟨p, hp⟩ : ∃ p, s.vHashmaps[j]? = some p := ⟨_, List.getElem?_eq_getElem hi⟩
    simp only [hp, if_true, Option.map_some', true_and]
    exact HashMapFilter.Has_Insert _ _ _ _ (hwf.sized j p hp).2 hidx hcfg.2.1
  · simp [hj]

theorem occupied_eraseFilter (cfg : Config) (s : BinaryHashMap) (i nIndex : Nat)
    (hcfg : cfg.Valid) (hwf : WellFormed cfg s) (hi : i < s.vHashmaps.length)
    (hidx : nIndex < cfg.HASHMAP_TOTAL_BUCKETS) (j c : Nat) :
    occupied (eraseFilter s i nIndex) j c =
      (!decide (j = i ∧ c = nIndex) && occupied s j c) := by
  unfold occupied eraseFilter
  simp only [getElem?_modifyAt]
  by_cases hj : j = i
  · subst hj
    obtain ⟨p, hp⟩ : ∃ p, s.vHashmaps[j]? = some p := ⟨_, List.getElem?_eq_getElem hi⟩
    simp only [hp, if_true, Option.map_some', true_and]
    exact HashMapFilter.Has_Erase _ _ _ _ (hwf.sized j p hp).2 hidx hcfg.2.1
  · simp [hj]

theorem bloomHas_insertFilters_mono (cfg : Config) (s : BinaryHashMap) (i nIndex : Nat)
    (k : List Nat) (j : Nat) (k2 : List Nat) (h : bloomHas cfg s j k2 = true) :
    bloomHas cfg (insertFilters cfg s i k nIndex) j k2 = true := by
  unfold bloomHas insertFilters at *
  simp only [getElem?_modifyAt]
  by_cases hj : j = i
  · subst hj
    cases hp : s.vHashmaps[j]? with
    | none => rw [hp] at h; cases h
    | some p =>
      rw [hp] at h
      simp only [if_true, Option.map_some']
      exact BloomFilter.Has_Insert_mono _ _ _ _ h
  · simpa [hj] using h

theorem bloomHas_insertFilters_self (cfg : Config) (s : BinaryHashMap) (i nIndex : Nat)
    (k : List Nat) (hcfg : cfg.Valid) (hwf : WellFormed cfg s) (hi : i < s.vHashmaps.length) :
    bloomHas cfg (insertFilters cfg s i k nIndex) i k = true := by
  unfold bloomHas insertFilters
  simp only [getElem?_modifyAt, if_true]
  obtain ⟨p, hp⟩ : ∃ p, s.vHashmaps[i]? = some p := ⟨_, List.getElem?_eq_getElem hi⟩
  simp only [hp, Option.map_some']
  exact BloomFilter.Has_Insert_self _ _ _ _ (hwf.sized i p hp).1 hcfg.2.2.1 hcfg.2.2.2

theorem bloomHas_eraseFilter (cfg : Config) (s : BinaryHashMap) (i nIndex j : Nat)
    (k : List Nat) : bloomHas cfg (eraseFilter s i nIndex) j k = bloomHas cfg s j k := by
  unfold bloomHas eraseFilter
  simp only [getElem?_modifyAt]
  by_cases hj : j = i
  · subst hj
    cases s.vHashmaps[j]? <;> simp
  · simp [hj]

theorem WellFormed_insertFilters (cfg : Config) (s : BinaryHashMap) (i nIndex : Nat)
    (k : List Nat) (hwf : WellFormed cfg s) :
    WellFormed cfg (insertFilters cfg s i k nIndex) := by
  constructor
  · intro j p hp
    unfold insertFilters at hp
    simp only [getElem?_modifyAt] at hp
    by_cases hj : j = i
    · subst hj
      cases hq : s.vHashmaps[j]? with
      | none => simp [hq] at hp
      | some q =>
        simp only [hq, if_true, Option.map_some', Option.some.injEq] at hp
        subst hp
        exact ⟨BloomFilter.Sized_Insert_key _ _ _ _ (hwf.sized j q hq).1,
          HashMapFilter.Sized_Insert _ _ _ (hwf.sized j q hq).2⟩
    · simp only [hj, if_false] at hp
      exact hwf.sized j p hp
  · intro j hj
    have : j < s.vHashmaps.length := by
      simpa [insertFilters, length_modifyAt] using hj
    exact hwf.present j this
  · intro j hj
    have : s.vHashmaps.length ≤ j := by
      simpa [insertFilters, length_modifyAt] using hj
    exact hwf.absent j this

theorem WellFormed_eraseFilter (cfg : Config) (s : BinaryHashMap) (i nIndex : Nat)
    (hwf : WellFormed cfg s) : WellFormed cfg (eraseFilter s i nIndex) := by
  constructor
  · intro j p hp
    unfold eraseFilter at hp
    simp only [getElem?_modifyAt] at hp
    by_cases hj : j = i
    · subst hj
      cases hq : s.vHashmaps[j]? with
      | none => simp [hq] at hp
      | some q =>
        simp only [hq, if_true, Option.map_some', Option.some.injEq] at hp
        subst hp
        exact ⟨(hwf.sized j q hq).1, HashMapFilter.Sized_Erase _ _ _ (hwf.sized j q hq).2⟩
    · simp only [hj, if_false] at hp
      exact hwf.sized j p hp
  · intro j hj
    have : j < s.vHashmaps.length := by
      simpa [eraseFilter, length_modifyAt] using hj
    exact hwf.present j this
  · intro j hj
    have : s.vHashmaps.length ≤ j := by
      simpa [eraseFilter, length_modifyAt] using hj
    exact hwf.absent j this

/-! ### The effect of `write_key` -/

theorem write_key_eq (s : BinaryHashMap) (data : List Nat) (i pos : Nat) (file : List Nat)
    (hi : i < 2 ^ 16) (hf : lookupFile s.hashmapFiles i = some file) :
    write_key s data i pos =
      (true, { s with hashmapFiles := storeFile s.hashmapFiles i (writeAt file pos data) }) := by
  unfold write_key
  rw [Nat.mod_eq_of_lt hi, hf]

theorem vHashmaps_write_key (s : BinaryHashMap) (data : List Nat) (i pos : Nat) :
    (write_key s data i pos).2.vHashmaps = s.vHashmaps := by
  unfold write_key
  split <;> rfl

theorem bloomFiles_write_key (s : BinaryHashMap) (data : List Nat) (i pos : Nat) :
    (write_key s data i pos).2.bloomFiles = s.bloomFiles := by
  unfold write_key
  split <;> rfl

theorem occupied_congr (s t : BinaryHashMap) (h : t.vHashmaps = s.vHashmaps) (j c : Nat) :
    occupied t j c = occupied s j c := by
  unfold occupied; rw [h]

theorem bloomHas_congr (cfg : Config) (s t : BinaryHashMap) (h : t.vHashmaps = s.vHashmaps)
    (j : Nat) (k : List Nat) : bloomHas cfg t j k = bloomHas cfg s j k := by
  unfold bloomHas; rw [h]

theorem fileByte_congr (s t : BinaryHashMap) (h : t.hashmapFiles = s.hashmapFiles)
    (j p : Nat) : fileByte t j p = fileByte s j p := by
  unfold fileByte; rw [h]

theorem fileByte_write_key (s : BinaryHashMap) (data : List Nat) (i pos : Nat)
    (file : List Nat) (hi : i < 2 ^ 16) (hf : lookupFile s.hashmapFiles i = some file)
    (j p : Nat) :
    fileByte (write_key s data i pos).2 j p =
      if j = i ∧ pos ≤ p ∧ p < pos + data.length then data.getD (p - pos) 0
      else fileByte s j p := by
  rw [write_key_eq s data i pos file hi hf]
  unfold fileByte
  simp only [lookupFile_storeFile]
  by_cases hj : j = i
  · subst hj
    simp only [if_true, Option.getD_some, true_and, hf]
    exact getD_writeAt _ _ _ _
  · simp [hj]

theorem WellFormed_write_key (cfg : Config) (s : BinaryHashMap) (data : List Nat)
    (i pos : Nat) (hwf : WellFormed cfg s) (hi : i < s.vHashmaps.length)
    (hpos : pos + data.length ≤ cfg.HASHMAP_TOTAL_BUCKETS * HASHMAP_KEY_ALLOCATION) :
    WellFormed cfg (write_key s data i pos).2 := by
  unfold write_key
  split
  · exact hwf
  · rename_i file hf
    constructor
    · exact hwf.sized
    · intro j hj
      simp only [lookupFile_storeFile]
      by_cases hji : j = i % 2 ^ 16
      · obtain ⟨f0, hf0, hl0⟩ := hwf.present (i % 2 ^ 16)
          (Nat.lt_of_le_of_lt (Nat.mod_le _ _) hi)
        rw [hf0] at hf
        cases hf
        exact ⟨_, by rw [if_pos hji], by rw [length_writeAt _ _ _ (by omega), hl0]⟩
      · rw [if_neg hji]
        exact hwf.present j hj
    · intro j hj
      have hne : j ≠ i % 2 ^ 16 := by
        have := Nat.mod_le i (2 ^ 16)
        have hj2 : s.vHashmaps.length ≤ j := hj
        omega
      simp only [lookupFile_storeFile, if_neg hne]
      exact hwf.absent j hj

/-! ### The effect of `extendFiles` on a well-formed state -/

theorem extendFiles_eq (cfg : Config) (s : BinaryHashMap) (hwf : WellFormed cfg s) :
    extendFiles cfg s =
      { vHashmaps := s.vHashmaps ++
          [(BloomFilter.create cfg.BLOOM_BITS, HashMapFilter.create cfg.HASHMAP_TOTAL_BUCKETS)],
        hashmapFiles := storeFile s.hashmapFiles s.vHashmaps.length
          (List.replicate (cfg.HASHMAP_TOTAL_BUCKETS * HASHMAP_KEY_ALLOCATION) 0),
        bloomFiles := storeFile s.bloomFiles s.vHashmaps.length
          ((BloomFilter.create cfg.BLOOM_BITS).toBitArray.Bytes ++
            (HashMapFilter.create cfg.HASHMAP_TOTAL_BUCKETS).toBitArray.Bytes) } := by
  obtain ⟨h1, h2⟩ := hwf.absent s.vHashmaps.length (Nat.le_refl _)
  unfold extendFiles
  simp [h1, h2]

theorem length_extendFiles (cfg : Config) (s : BinaryHashMap) (hwf : WellFormed cfg s) :
    (extendFiles cfg s).vHashmaps.length = s.vHashmaps.length + 1 := by
  rw [extendFiles_eq cfg s hwf]
  simp

theorem occupied_extendFiles (cfg : Config) (s : BinaryHashMap) (hwf : WellFormed cfg s)
    (j c : Nat) : occupied (extendFiles cfg s) j c = occupied s j c := by
  rw [extendFiles_eq cfg s hwf]
  unfold occupied
  simp only
  by_cases hj : j < s.vHashmaps.length
  · rw [List.getElem?_append_left hj]
  · rw [List.getElem?_append_right (by omega),
      (List.getElem?_eq_none (by omega) : s.vHashmaps[j]? = none)]
    by_cases h0 : j - s.vHashmaps.length = 0
    · simp [h0, HashMapFilter.Has_create]
    · rw [List.getElem?_eq_none (by simp; omega)]

theorem bloomHas_extendFiles (cfg : Config) (s : BinaryHashMap) (hwf : WellFormed cfg s)
    (j : Nat) (k : List Nat) : bloomHas cfg (extendFiles cfg s) j k = bloomHas cfg s j k := by
  rw [extendFiles_eq cfg s hwf]
  unfold bloomHas
  simp only
  by_cases hj : j < s.vHashmaps.length
  · rw [List.getElem?_append_left hj]
  · rw [List.getElem?_append_right (by omega),
      (List.getElem?_eq_none (by omega) : s.vHashmaps[j]? = none)]
    by_cases h0 : j - s.vHashmaps.length = 0
    · simp [h0, BloomFilter.Has_create_false]
    · rw [List.getElem?_eq_none (by simp; omega)]

theorem fileByte_extendFiles (cfg : Config) (s : BinaryHashMap) (hwf : WellFormed cfg s)
    (j p : Nat) : fileByte (extendFiles cfg s) j p = fileByte s j p := by
  rw [extendFiles_eq cfg s hwf]
  unfold fileByte
  simp only [lookupFile_storeFile]
  by_cases hj : j = s.vHashmaps.length
  · subst hj
    rw [if_pos rfl, (hwf.absent _ (Nat.le_refl _)).1]
    simp only [Option.getD_some, Option.getD_none, List.getD_eq_getElem?_getD,
      List.getElem?_replicate, List.getElem?_nil]
    split <;> rfl
  · rw [if_neg hj]

theorem WellFormed_extendFiles (cfg : Config) (s : BinaryHashMap) (hwf : WellFormed cfg s) :
    WellFormed cfg (extendFiles cfg s) := by
  rw [extendFiles_eq cfg s hwf]
  constructor
  · intro j p hp
    simp only at hp
    by_cases hj : j < s.vHashmaps.length
    · rw [List.getElem?_append_left hj] at hp
      exact hwf.sized j p hp
    · rw [List.getElem?_append_right (by omega)] at hp
      by_cases h0 : j - s.vHashmaps.length = 0
      · simp only [h0, List.getElem?_cons_zero, Option.some.injEq] at hp
        subst hp
        exact ⟨BloomFilter.Sized_create_bits _, HashMapFilter.Sized_create _⟩
      · rw [List.getElem?_eq_none (by simp; omega)] at hp
        cases hp
  · intro j hj
    simp only [List.length_append, List.length_singleton] at hj
    simp only [lookupFile_storeFile]
    by_cases hjn : j = s.vHashmaps.length
    · rw [if_pos hjn]
      exact ⟨_, rfl, by simp⟩
    · rw [if_neg hjn]
      exact hwf.present j (by omega)
  · intro j hj
    simp only [List.length_append, List.length_singleton] at hj
    have hjn : j ≠ s.vHashmaps.length := by omega
    simp only [lookupFile_storeFile, if_neg hjn]
    exact hwf.absent j (by omega)

theorem lastIndex_extendFiles (cfg : Config) (s : BinaryHashMap) (hwf : WellFormed cfg s)
    (hlen : s.vHashmaps.length < 2 ^ 16) :
    lastIndex (extendFiles cfg s) = s.vHashmaps.length := by
  unfold lastIndex
  rw [length_extendFiles cfg s hwf]
  exact Nat.mod_eq_of_lt (by omega)

/-! ### What the scans return -/

theorem matchSlot_some (occ : HashMapFilter) (vBucket ck : List Nat) (b : Nat) (l : List Nat)
    (nKey : Nat) (h : matchSlot occ vBucket ck b l = some nKey) :
    nKey ∈ l ∧ occ.Has (b + nKey) = true := by
  induction l with
  | nil => simp [matchSlot] at h
  | cons a t ih =>
    unfold matchSlot at h
    cases h1 : occ.Has (b + a) with
    | true =>
      simp only [h1, Bool.not_true, Bool.false_eq_true, if_false] at h
      split at h
      · cases h
        exact ⟨List.mem_cons_self _ _, h1⟩
      · exact ⟨List.mem_cons_of_mem _ (ih h).1, (ih h).2⟩
    | false =>
      simp only [h1, Bool.not_false, if_true] at h
      exact ⟨List.mem_cons_of_mem _ (ih h).1, (ih h).2⟩

theorem freeSlot_some (occ : HashMapFilter) (b : Nat) (l : List Nat) (nKey : Nat)
    (h : freeSlot occ b l = some nKey) : nKey ∈ l ∧ occ.Has (b + nKey) = false := by
  induction l with
  | nil => simp [freeSlot] at h
  | cons a t ih =>
    unfold freeSlot at h
    cases h1 : occ.Has (b + a) with
    | true =>
      simp only [h1, if_true] at h
      exact ⟨List.mem_cons_of_mem _ (ih h).1, (ih h).2⟩
    | false =>
      simp only [h1, Bool.false_eq_true, if_false, Option.some.injEq] at h
      subst h
      exact ⟨List.mem_cons_self _ _, h1⟩

theorem scanFiles_found (cfg : Config) (s : BinaryHashMap) (k ck : List Nat) (b : Nat)
    (l buf : List Nat) (i nKey : Nat)
    (h : scanFiles cfg s k ck b l buf = Scan.found i nKey) :
    i ∈ l ∧ bloomHas cfg s i k = true ∧ occupied s i (b + nKey) = true ∧
      nKey < buf.length / HASHMAP_KEY_ALLOCATION := by
  induction l generalizing buf with
  | nil => simp [scanFiles] at h
  | cons a t ih =>
    unfold scanFiles at h
    cases hp : s.vHashmaps[a]? with
    | none =>
      simp only [hp] at h
      obtain ⟨h1, h2⟩ := ih buf h
      exact ⟨List.mem_cons_of_mem _ h1, h2⟩
    | some p =>
      simp only [hp] at h
      cases hb : p.1.Has cfg.XXH64 k with
      | true =>
        simp only [hb, Bool.not_true, Bool.false_eq_true, if_false] at h
        cases hf : lookupFile s.hashmapFiles a with
        | none => simp [hf] at h
        | some file =>
          simp only [hf] at h
          cases hm : matchSlot p.2 (readAt file (filePos b) buf) ck b
              (List.range ((readAt file (filePos b) buf).length / HASHMAP_KEY_ALLOCATION)) with
          | none =>
            simp only [hm] at h
            obtain ⟨h1, h2, h3, h4⟩ := ih _ h
            rw [length_readAt] at h4
            exact ⟨List.mem_cons_of_mem _ h1, h2, h3, h4⟩
          | some n =>
            simp only [hm, Scan.found.injEq] at h
            obtain ⟨rfl, rfl⟩ := h
            obtain ⟨m1, m2⟩ := matchSlot_some _ _ _ _ _ _ hm
            rw [length_readAt, List.mem_range] at m1
            refine ⟨List.mem_cons_self _ _, ?_, ?_, m1⟩
            · unfold bloomHas; rw [hp]; exact hb
            · unfold occupied; rw [hp]; exact m2
      | false =>
        simp only [hb, Bool.not_false, if_true] at h
        obtain ⟨h1, h2⟩ := ih buf h
        exact ⟨List.mem_cons_of_mem _ h1, h2⟩

theorem scanFiles_ne_failed (cfg : Config) (s : BinaryHashMap) (hwf : WellFormed cfg s)
    (k ck : List Nat) (b : Nat) (l buf : List Nat) :
    scanFiles cfg s k ck b l buf ≠ Scan.failed := by
  induction l generalizing buf with
  | nil => simp [scanFiles]
  | cons a t ih =>
    unfold scanFiles
    cases hp : s.vHashmaps[a]? with
    | none => simpa [hp] using ih buf
    | some p =>
      simp only [hp]
      have ha : a < s.vHashmaps.length := by
        by_contra hc
        rw [List.getElem?_eq_none (by omega)] at hp
        cases hp
      obtain ⟨file, hf, _⟩ := hwf.present a ha
      split
      · exact ih buf
      · simp only [hf]
        split
        · simp
        · exact ih _

theorem appendSlot_some (cfg : Config) (s : BinaryHashMap) (b : Nat) (l : List Nat)
    (i nKey : Nat) (h : appendSlot cfg s b l = some (i, nKey)) :
    i ∈ l ∧ i < s.vHashmaps.length ∧ nKey < windowKeys cfg b ∧
      occupied s i (b + nKey) = false := by
  induction l with
  | nil => simp [appendSlot] at h
  | cons a t ih =>
    unfold appendSlot at h
    cases hp : s.vHashmaps[a]? with
    | none =>
      simp only [hp] at h
      obtain ⟨h1, h2⟩ := ih h
      exact ⟨List.mem_cons_of_mem _ h1, h2⟩
    | some p =>
      simp only [hp] at h
      have ha : a < s.vHashmaps.length := by
        by_contra hc
        rw [List.getElem?_eq_none (by omega)] at hp
        cases hp
      cases hfree : freeSlot p.2 b (List.range (windowKeys cfg b)) with
      | none =>
        simp only [hfree] at h
        obtain ⟨h1, h2⟩ := ih h
        exact ⟨List.mem_cons_of_mem _ h1, h2⟩
      | some n =>
        simp only [hfree, Option.some.injEq, Prod.mk.injEq] at h
        obtain ⟨rfl, rfl⟩ := h
        obtain ⟨m1, m2⟩ := freeSlot_some _ _ _ _ hfree
        rw [List.mem_range] at m1
        refine ⟨List.mem_cons_self _ _, ha, m1, ?_⟩
        unfold occupied; rw [hp]; exact m2

theorem mem_descendingFiles (n i : Nat) (hn : n ≤ 2 ^ 15) (h : i ∈ descendingFiles n) :
    i < n := by
  rw [descendingFiles_eq n hn, List.mem_reverse, List.mem_range] at h
  exact h

theorem mem_ascendingFiles (n i : Nat) (h : i ∈ ascendingFiles n) : i < n := by
  unfold ascendingFiles at h
  rw [List.mem_range] at h
  omega

/-! ### The effect of `Put` and `Erase` on a well-formed state -/

theorem slotPos_eq (cfg : Config) (b nKey : Nat) (hnw : cfg.NoWrap)
    (hb : b < cfg.HASHMAP_TOTAL_BUCKETS) :
    filePos b + nKey * HASHMAP_KEY_ALLOCATION = (b + nKey) * HASHMAP_KEY_ALLOCATION := by
  rw [filePos_eq cfg b hnw hb, Nat.add_mul]

theorem Written_write_key (cfg : Config) (s s1 : BinaryHashMap) (i nIndex : Nat)
    (vData : List Nat) (fBit : Bool)
    (hwf1 : WellFormed cfg s1) (hi : i < s1.vHashmaps.length) (hi16 : i < 2 ^ 16)
    (hlen : s.vHashmaps.length ≤ s1.vHashmaps.length)
    (hidx : nIndex < cfg.HASHMAP_TOTAL_BUCKETS)
    (hdata : vData.length ≤ HASHMAP_KEY_ALLOCATION)
    (hocc : ∀ j c, occupied s1 j c = if j = i ∧ c = nIndex then fBit else occupied s j c)
    (hbytes : ∀ j p, fileByte s1 j p = fileByte s j p)
    (hbloom : ∀ j k, bloomHas cfg s j k = true → bloomHas cfg s1 j k = true) :
    (write_key s1 vData i (nIndex * HASHMAP_KEY_ALLOCATION)).1 = true ∧
      Written cfg s (write_key s1 vData i (nIndex * HASHMAP_KEY_ALLOCATION)).2 i nIndex vData
        fBit := by
  obtain ⟨file, hf, hfl⟩ := hwf1.present i hi
  have hv := vHashmaps_write_key s1 vData i (nIndex * HASHMAP_KEY_ALLOCATION)
  refine ⟨by rw [write_key_eq s1 vData i _ file hi16 hf], ?_⟩
  constructor
  · apply WellFormed_write_key cfg s1 vData i _ hwf1 hi
    rw [key_allocation_eq] at hdata ⊢
    omega
  · rw [hv]; exact hlen
  · rw [hv]; exact hi
  · intro j c
    rw [occupied_congr s1 _ hv]
    exact hocc j c
  · intro j p
    rw [fileByte_write_key s1 vData i _ file hi16 hf, hbytes]
  · intro j k hk
    rw [bloomHas_congr cfg s1 _ hv]
    exact hbloom j k hk

theorem length_extendFiles_ge (cfg : Config) (s : BinaryHashMap) :
    s.vHashmaps.length ≤ (extendFiles cfg s).vHashmaps.length := by
  unfold extendFiles
  simp only
  split <;> split <;> simp

theorem length_Put_ge (cfg : Config) (s : BinaryHashMap) (r : SectorKey) :
    s.vHashmaps.length ≤ (Put cfg s r).2.vHashmaps.length := by
  unfold Put
  simp only
  split
  · exact Nat.le_refl _
  · rw [vHashmaps_write_key]
  · rw [vHashmaps_write_key]
    simp [insertFilters, length_modifyAt]
  · unfold putNewFile
    simp only
    rw [vHashmaps_write_key]
    simp only [insertFilters, length_modifyAt]
    exact length_extendFiles_ge cfg s

theorem length_Erase (cfg : Config) (s : BinaryHashMap) (k : List Nat) :
    (Erase cfg s k).2.vHashmaps.length = s.vHashmaps.length := by
  unfold Erase
  simp only
  generalize scanFiles cfg s k (compress_key k HASHMAP_MAX_KEY_SIZE) (get_bucket cfg k)
    (descendingFiles s.vHashmaps.length) (newBucketBuffer cfg (get_bucket cfg k)) = sc
  cases sc with
  | failed => rfl
  | absent => rfl
  | found i nKey =>
    simp only
    rw [vHashmaps_write_key]
    simp [eraseFilter, length_modifyAt]

theorem length_Flush (s : BinaryHashMap) : (Flush s).vHashmaps.length = s.vHashmaps.length := by
  simp [Flush]

theorem length_step_ge (cfg : Config) (s : BinaryHashMap) (op : Op) :
    s.vHashmaps.length ≤ (step cfg s op).vHashmaps.length := by
  cases op with
  | put r => exact length_Put_ge cfg s r
  | erase k => exact Nat.le_of_eq (length_Erase cfg s k).symm
  | get k => exact Nat.le_refl _
  | flush => exact Nat.le_of_eq (length_Flush s).symm

theorem putPath_overwrite (cfg : Config) (s : BinaryHashMap) (r : SectorKey) (i nKey : Nat)
    (h : putPath cfg s r = PutPath.overwrite i nKey) :
    ¬ cfg.AppendMode ∧
      scanFiles cfg s r.vKey (compress_key r.vKey HASHMAP_MAX_KEY_SIZE) (get_bucket cfg r.vKey)
        (descendingFiles s.vHashmaps.length) (newBucketBuffer cfg (get_bucket cfg r.vKey)) =
        Scan.found i nKey := by
  unfold putPath at h
  simp only at h
  by_cases hf : (cfg.HASHMAP_FLAGS &&& cfg.APPEND == 0) = true
  · simp only [hf, if_true] at h
    refine ⟨?_, ?_⟩
    · unfold Config.AppendMode
      simpa using hf
    · revert h
      cases scanFiles cfg s r.vKey (compress_key r.vKey HASHMAP_MAX_KEY_SIZE)
        (get_bucket cfg r.vKey) (descendingFiles s.vHashmaps.length)
        (newBucketBuffer cfg (get_bucket cfg r.vKey)) with
      | failed => intro h; cases h
      | found a c => intro h; simp only [PutPath.overwrite.injEq] at h; rw [h.1, h.2]
      | absent =>
        intro h
        simp only at h
        split at h <;> cases h
  · simp only [hf, Bool.false_eq_true, if_false] at h
    split at h <;> cases h

theorem putPath_append (cfg : Config) (s : BinaryHashMap) (r : SectorKey) (i nKey : Nat)
    (h : putPath cfg s r = PutPath.append i nKey) :
    appendSlot cfg s (get_bucket cfg r.vKey) (ascendingFiles s.vHashmaps.length) =
      some (i, nKey) := by
  unfold putPath at h
  simp only at h
  split at h
  · cases h
  · cases h
  · split at h
    · rename_i a c heq
      simp only [PutPath.append.injEq] at h
      rw [heq, h.1, h.2]
    · cases h

theorem putPath_ne_failed (cfg : Config) (s : BinaryHashMap) (r : SectorKey)
    (hwf : WellFormed cfg s) : putPath cfg s r ≠ PutPath.failed := by
  intro h
  unfold putPath at h
  simp only at h
  split at h
  · rename_i heq
    split at heq
    · exact scanFiles_ne_failed cfg s hwf _ _ _ _ _ heq
    · cases heq
  · cases h
  · split at h <;> cases h

theorem length_putRecord (r : SectorKey) :
    (putRecord r).length ≤ HASHMAP_KEY_ALLOCATION := by
  unfold putRecord
  rw [List.length_append, SectorKey.length_serialize, key_allocation_eq]
  have := length_compress_key r.vKey HASHMAP_MAX_KEY_SIZE
  have h32 := max_key_size_eq
  omega

theorem newBucketBuffer_keys (cfg : Config) (b : Nat) :
    (newBucketBuffer cfg b).length / HASHMAP_KEY_ALLOCATION = windowKeys cfg b := by
  rw [newBucketBuffer_length]
  exact Nat.mul_div_cancel_left _ (by decide)

/-- The effect of `Put` on a well-formed state whose bucket positions do not wrap and that
stays within `2 ^ 15` files: the call returns true and is one write of the record into a
slot of the probe window of the key, in the file named by `putFile`; that slot was free when
the keychain is in append mode, and the bloom filter of the file holds the key afterwards. -/
theorem Put_effect (cfg : Config) (s : BinaryHashMap) (r : SectorKey) (hcfg : cfg.Valid)
    (hnw : cfg.NoWrap) (hwf : WellFormed cfg s)
    (hlen : (Put cfg s r).2.vHashmaps.length ≤ 2 ^ 15) :
    ∃ i nKey,
      (Put cfg s r).1 = true ∧ putFile cfg s r = some i ∧
      nKey < windowKeys cfg (get_bucket cfg r.vKey) ∧
      (cfg.AppendMode → occupied s i (get_bucket cfg r.vKey + nKey) = false) ∧
      bloomHas cfg (Put cfg s r).2 i r.vKey = true ∧
      Written cfg s (Put cfg s r).2 i (get_bucket cfg r.vKey + nKey) (putRecord r) true := by
  have hb := get_bucket_lt cfg r.vKey hcfg.1
  have hwin := windowKeys_add_le cfg _ hb
  have hN : s.vHashmaps.length ≤ 2 ^ 15 := Nat.le_trans (length_Put_ge cfg s r) hlen
  cases hpath : putPath cfg s r with
  | failed => exact absurd hpath (putPath_ne_failed cfg s r hwf)
  | overwrite i nKey =>
    obtain ⟨hmode, hscan⟩ := putPath_overwrite cfg s r i nKey hpath
    obtain ⟨hmem, hbl, hocc, hkey⟩ := scanFiles_found _ _ _ _ _ _ _ _ _ hscan
    rw [newBucketBuffer_keys] at hkey
    have hi := mem_descendingFiles _ _ hN hmem
    have hput : Put cfg s r = write_key s (putRecord r) i
        ((get_bucket cfg r.vKey + nKey) * HASHMAP_KEY_ALLOCATION) := by
      unfold Put
      simp only [hpath]
      rw [slotPos_eq cfg _ _ hnw hb]
    have hw := Written_write_key cfg s s i (get_bucket cfg r.vKey + nKey) (putRecord r) true
      hwf hi (by omega) (Nat.le_refl _) (by omega) (length_putRecord r)
      (by
        intro j c
        by_cases hjc : j = i ∧ c = get_bucket cfg r.vKey + nKey
        · rw [if_pos hjc, hjc.1, hjc.2]; exact hocc
        · rw [if_neg hjc])
      (fun _ _ => rfl) (fun _ _ h => h)
    rw [← hput] at hw
    refine ⟨i, nKey, hw.1, by unfold putFile; rw [hpath], hkey,
      fun hm => absurd hm hmode, ?_, hw.2⟩
    exact hw.2.bloom i r.vKey hbl
  | append i nKey =>
    have happ := putPath_append cfg s r i nKey hpath
    obtain ⟨hmem, hi, hkey, hocc⟩ := appendSlot_some _ _ _ _ _ _ happ
    have hput : Put cfg s r = write_key
        (insertFilters cfg s i r.vKey (get_bucket cfg r.vKey + nKey)) (putRecord r) i
        ((get_bucket cfg r.vKey + nKey) * HASHMAP_KEY_ALLOCATION) := by
      unfold Put
      simp only [hpath]
      rw [slotPos_eq cfg _ _ hnw hb]
    have hlen1 : (insertFilters cfg s i r.vKey (get_bucket cfg r.vKey + nKey)).vHashmaps.length
        = s.vHashmaps.length := by
      simp [insertFilters, length_modifyAt]
    have hw := Written_write_key cfg s
      (insertFilters cfg s i r.vKey (get_bucket cfg r.vKey + nKey)) i
      (get_bucket cfg r.vKey + nKey) (putRecord r) true
      (WellFormed_insertFilters cfg s i _ _ hwf) (by rw [hlen1]; exact hi) (by omega)
      (by rw [hlen1]) (by omega) (length_putRecord r)
      (by
        intro j c
        rw [occupied_insertFilters cfg s i _ _ hcfg hwf hi (by omega)]
        by_cases hjc : j = i ∧ c = get_bucket cfg r.vKey + nKey
        · simp [hjc]
        · simp [hjc])
      (fun _ _ => rfl)
      (fun j k h => bloomHas_insertFilters_mono cfg s i _ _ j k h)
    rw [← hput] at hw
    refine ⟨i, nKey, hw.1, by unfold putFile; rw [hpath], hkey, fun _ => hocc, ?_, hw.2⟩
    rw [hput, bloomHas_congr cfg _ _ (vHashmaps_write_key _ _ _ _)]
    exact bloomHas_insertFilters_self cfg s i _ _ hcfg hwf hi
  | newFile =>
    have hputN : Put cfg s r = putNewFile cfg s r.vKey (putRecord r) (get_bucket cfg r.vKey) := by
      unfold Put
      simp only [hpath]
    have hlenN : (Put cfg s r).2.vHashmaps.length = s.vHashmaps.length + 1 := by
      rw [hputN]
      unfold putNewFile
      simp only
      rw [vHashmaps_write_key]
      simp only [insertFilters, length_modifyAt]
      exact length_extendFiles cfg s hwf
    have hN1 : s.vHashmaps.length < 2 ^ 15 := by omega
    have hlast := lastIndex_extendFiles cfg s hwf (by omega)
    have hwf2 := WellFormed_extendFiles cfg s hwf
    have hl2 := length_extendFiles cfg s hwf
    have hput : Put cfg s r = write_key
        (insertFilters cfg (extendFiles cfg s) s.vHashmaps.length r.vKey
          (get_bucket cfg r.vKey + 0)) (putRecord r) s.vHashmaps.length
        ((get_bucket cfg r.vKey + 0) * HASHMAP_KEY_ALLOCATION) := by
      rw [hputN]
      unfold putNewFile
      simp only [hlast, Nat.add_zero, filePos_eq cfg _ hnw hb]
    have hlen1 : (insertFilters cfg (extendFiles cfg s) s.vHashmaps.length r.vKey
        (get_bucket cfg r.vKey + 0)).vHashmaps.length = s.vHashmaps.length + 1 := by
      simp only [insertFilters, length_modifyAt]
      exact hl2
    have hw := Written_write_key cfg s
      (insertFilters cfg (extendFiles cfg s) s.vHashmaps.length r.vKey
        (get_bucket cfg r.vKey + 0)) s.vHashmaps.length
      (get_bucket cfg r.vKey + 0) (putRecord r) true
      (WellFormed_insertFilters cfg _ _ _ _ hwf2) (by rw [hlen1]; omega) (by omega)
      (by rw [hlen1]; omega) (by omega) (length_putRecord r)
      (by
        intro j c
        rw [occupied_insertFilters cfg _ _ _ _ hcfg hwf2 (by rw [hl2]; omega) (by omega),
          occupied_extendFiles cfg s hwf]
        by_cases hjc : j = s.vHashmaps.length ∧ c = get_bucket cfg r.vKey + 0
        · simp [hjc]
        · simp [hjc])
      (fun j p => fileByte_extendFiles cfg s hwf j p)
      (fun j k h => bloomHas_insertFilters_mono cfg _ _ _ _ j k
        (by rw [bloomHas_extendFiles cfg s hwf]; exact h))
    rw [← hput] at hw
    refine ⟨s.vHashmaps.length, 0, hw.1, by unfold putFile; rw [hpath, hlast],
      windowKeys_pos cfg _ hb, ?_, ?_, hw.2⟩
    · intro _
      unfold occupied
      rw [List.getElem?_eq_none (Nat.le_refl _)]
    · rw [hput, bloomHas_congr cfg _ _ (vHashmaps_write_key _ _ _ _)]
      exact bloomHas_insertFilters_self cfg _ _ _ _ hcfg hwf2 (by rw [hl2]; omega)

/-- The effect of `Erase` on a well-formed state whose bucket positions do not wrap and that
has at most `2 ^ 15` files: either the call returns false and the state is unchanged, or it
returns true and is one write of `HASHMAP_KEY_ALLOCATION` zero bytes into an occupied slot
of the probe window of the key, whose occupancy bit is cleared. -/
theorem Erase_effect (cfg : Config) (s : BinaryHashMap) (k : List Nat) (hcfg : cfg.Valid)
    (hnw : cfg.NoWrap) (hwf : WellFormed cfg s) (hlen : s.vHashmaps.length ≤ 2 ^ 15) :
    ((Erase cfg s k).1 = false ∧ (Erase cfg s k).2 = s) ∨
    ∃ i nKey,
      (Erase cfg s k).1 = true ∧ nKey < windowKeys cfg (get_bucket cfg k) ∧
      occupied s i (get_bucket cfg k + nKey) = true ∧ bloomHas cfg s i k = true ∧
      Written cfg s (Erase cfg s k).2 i (get_bucket cfg k + nKey)
        (List.replicate HASHMAP_KEY_ALLOCATION 0) false := by
  have hb := get_bucket_lt cfg k hcfg.1
  have hwin := windowKeys_add_le cfg _ hb
  cases hscan : scanFiles cfg s k (compress_key k HASHMAP_MAX_KEY_SIZE) (get_bucket cfg k)
      (descendingFiles s.vHashmaps.length) (newBucketBuffer cfg (get_bucket cfg k)) with
  | failed => exact absurd hscan (scanFiles_ne_failed cfg s hwf _ _ _ _ _)
  | absent =>
    left
    unfold Erase
    simp only [hscan, and_self]
  | found i nKey =>
    right
    obtain ⟨hmem, hbl, hocc, hkey⟩ := scanFiles_found _ _ _ _ _ _ _ _ _ hscan
    rw [newBucketBuffer_keys] at hkey
    have hi := mem_descendingFiles _ _ hlen hmem
    have her : Erase cfg s k = write_key (eraseFilter s i (get_bucket cfg k + nKey))
        (List.replicate HASHMAP_KEY_ALLOCATION 0) i
        ((get_bucket cfg k + nKey) * HASHMAP_KEY_ALLOCATION) := by
      unfold Erase
      simp only [hscan]
      rw [slotPos_eq cfg _ _ hnw hb]
    have hlen1 : (eraseFilter s i (get_bucket cfg k + nKey)).vHashmaps.length =
        s.vHashmaps.length := by
      simp [eraseFilter, length_modifyAt]
    have hw := Written_write_key cfg s (eraseFilter s i (get_bucket cfg k + nKey)) i
      (get_bucket cfg k + nKey) (List.replicate HASHMAP_KEY_ALLOCATION 0) false
      (WellFormed_eraseFilter cfg s i _ hwf) (by rw [hlen1]; exact hi) (by omega)
      (by rw [hlen1]) (by omega) (by simp)
      (by
        intro j c
        rw [occupied_eraseFilter cfg s i _ hcfg hwf hi (by omega)]
        by_cases hjc : j = i ∧ c = get_bucket cfg k + nKey
        · simp [hjc]
        · simp [hjc])
      (fun _ _ => rfl)
      (fun j k2 h => by rw [bloomHas_eraseFilter]; exact h)
    rw [← her] at hw
    exact ⟨i, nKey, hw.1, hkey, hocc, hbl, hw.2⟩

theorem occupied_Flush (s : BinaryHashMap) (j c : Nat) :
    occupied (Flush s) j c = occupied s j c := by
  unfold occupied Flush
  simp only [List.getElem?_map]
  cases s.vHashmaps[j]? <;> rfl

theorem bloomHas_Flush (cfg : Config) (s : BinaryHashMap) (j : Nat) (k : List Nat) :
    bloomHas cfg (Flush s) j k = bloomHas cfg s j k := by
  unfold bloomHas Flush
  simp only [List.getElem?_map]
  cases s.vHashmaps[j]? <;> rfl

theorem fileByte_Flush (s : BinaryHashMap) (j p : Nat) :
    fileByte (Flush s) j p = fileByte s j p := rfl

theorem WellFormed_Flush (cfg : Config) (s : BinaryHashMap) (hwf : WellFormed cfg s) :
    WellFormed cfg (Flush s) := by
  constructor
  · intro j p hp
    unfold Flush at hp
    simp only [List.getElem?_map] at hp
    cases hq : s.vHashmaps[j]? with
    | none => simp [hq] at hp
    | some q =>
      simp only [hq, Option.map_some', Option.some.injEq] at hp
      subst hp
      exact hwf.sized j q hq
  · intro j hj
    rw [length_Flush] at hj
    exact hwf.present j hj
  · intro j hj
    rw [length_Flush] at hj
    exact hwf.absent j hj

theorem WellFormed_fresh (cfg : Config) (hnw : cfg.NoWrap) : WellFormed cfg (fresh cfg) := by
  unfold Config.NoWrap at hnw
  constructor
  · intro j p hp
    rw [fresh_eq] at hp
    cases j with
    | zero =>
      simp only [List.getElem?_cons_zero, Option.some.injEq] at hp
      subst hp
      exact ⟨BloomFilter.Sized_create_bits _, HashMapFilter.Sized_create _⟩
    | succ n => simp at hp
  · intro j hj
    rw [length_fresh] at hj
    have : j = 0 := by omega
    subst this
    refine ⟨_, rfl, ?_⟩
    rw [List.length_replicate, Nat.mod_eq_of_lt hnw]
  · intro j hj
    rw [length_fresh] at hj
    obtain ⟨n, rfl⟩ : ∃ n, j = n + 1 := ⟨j - 1, by omega⟩
    exact ⟨rfl, rfl⟩

/-! ### `Get` finds a stored record -/

theorem getSlots_vKey (occ : HashMapFilter) (vB ck : List Nat) (b : Nat) (l : List Nat)
    (c : SectorKey) : (getSlots occ vB ck b l c).2.vKey = c.vKey := by
  induction l generalizing c with
  | nil => rfl
  | cons a t ih =>
    unfold getSlots
    split
    · exact ih c
    · simp only
      split
      · split
        · rw [ih]; rfl
        · rfl
      · exact ih c

theorem getSlots_ready (occ : HashMapFilter) (vB ck : List Nat) (b : Nat) (l : List Nat)
    (c : SectorKey) (h : (getSlots occ vB ck b l c).1 = true) :
    (getSlots occ vB ck b l c).2.nState = STATE_READY := by
  induction l generalizing c with
  | nil => simp [getSlots] at h
  | cons a t ih =>
    unfold getSlots at h ⊢
    split
    · rename_i h1
      rw [if_pos h1] at h
      exact ih c h
    · rename_i h1
      rw [if_neg h1] at h
      simp only at h ⊢
      split
      · rename_i h2
        rw [if_pos h2] at h
        split
        · rename_i h3
          rw [if_pos h3] at h
          exact ih _ h
        · rename_i h3
          simp only [SectorKey.Ready, Bool.not_eq_true', beq_eq_false_iff_ne, ne_eq,
            Decidable.not_not] at h3
          exact h3
      · rename_i h2
        rw [if_neg h2] at h
        exact ih c h

theorem keyMatches_of_bytes (vB : List Nat) (off : Nat) (ck : List Nat)
    (hlen : off + 13 + ck.length ≤ vB.length)
    (h : ∀ t, t < ck.length → vB.getD (off + 13 + t) 0 = ck.getD t 0) :
    keyMatches vB off ck = true := by
  unfold keyMatches
  have : (vB.drop (off + 13)).take ck.length = ck := by
    apply List.ext_getElem?
    intro n
    by_cases hn : n < ck.length
    · rw [List.getElem?_take_of_lt hn, List.getElem?_drop]
      have h1 := h n hn
      simp only [List.getD_eq_getElem?_getD] at h1
      rw [List.getElem?_eq_getElem (by omega : off + 13 + n < vB.length),
        List.getElem?_eq_getElem hn] at h1 ⊢
      simp only [Option.getD_some] at h1
      rw [h1]
    · rw [List.getElem?_eq_none (by simp; omega), List.getElem?_eq_none (by omega)]
  rw [this]
  simp

theorem getSlots_hit (occ : HashMapFilter) (vB ck : List Nat) (b : Nat) (l : List Nat)
    (c : SectorKey) (nKey : Nat) (hmem : nKey ∈ l) (hocc : occ.Has (b + nKey) = true)
    (hkey : keyMatches vB (nKey * HASHMAP_KEY_ALLOCATION) ck = true)
    (hstate : vB.getD (nKey * HASHMAP_KEY_ALLOCATION) 0 = STATE_READY) :
    (getSlots occ vB ck b l c).1 = true := by
  induction l generalizing c with
  | nil => cases hmem
  | cons a t ih =>
    by_cases ha : a = nKey
    · subst ha
      unfold getSlots
      have hr : (SectorKey.deserialize (vB.drop (a * HASHMAP_KEY_ALLOCATION)) c).Ready = true := by
        unfold SectorKey.Ready
        rw [SectorKey.nState_deserialize]
        simp only [List.getD_eq_getElem?_getD, List.getElem?_drop, Nat.add_zero] at hstate ⊢
        rw [hstate]
        simp
      simp only [hocc, Bool.not_true, Bool.false_eq_true, if_false, hkey, if_true, hr]
    · have hmem2 : nKey ∈ t := by
        rcases List.mem_cons.mp hmem with h | h
        · exact absurd h.symm ha
        · exact h
      unfold getSlots
      split
      · exact ih c hmem2
      · simp only
        split
        · split
          · exact ih _ hmem2
          · rfl
        · exact ih c hmem2

theorem fileByte_eq (s : BinaryHashMap) (i p : Nat) (file : List Nat)
    (h : lookupFile s.hashmapFiles i = some file) : fileByte s i p = file.getD p 0 := by
  unfold fileByte; rw [h]; rfl

theorem getFiles_of_Stored (cfg : Config) (s : BinaryHashMap) (k : List Nat) (i nIndex : Nat)
    (hcfg : cfg.Valid) (hnw : cfg.NoWrap) (hwf : WellFormed cfg s)
    (hst : Stored cfg s k i nIndex) (l : List Nat) (hl : ∀ j, j ∈ l → j < s.vHashmaps.length)
    (hmem : i ∈ l) (buf : List Nat)
    (hbuf : buf.length = HASHMAP_KEY_ALLOCATION * windowKeys cfg (get_bucket cfg k))
    (c : SectorKey) (hc : c.vKey = k) :
    (getFiles cfg s (compress_key k HASHMAP_MAX_KEY_SIZE) (get_bucket cfg k) l buf c).1 = true ∧
      (getFiles cfg s (compress_key k HASHMAP_MAX_KEY_SIZE) (get_bucket cfg k) l buf c).2.nState
        = STATE_READY := by
  obtain ⟨hi, hlo, hhi, hbl, hocc, hstate, hbytes⟩ := hst
  have hb := get_bucket_lt cfg k hcfg.1
  have hwin := windowKeys_add_le cfg _ hb
  have hck := length_compress_key k HASHMAP_MAX_KEY_SIZE
  have h32 := max_key_size_eq
  have h45 := key_allocation_eq
  induction l generalizing buf c with
  | nil => cases hmem
  | cons j t ih =>
    have hj : j < s.vHashmaps.length := hl j (List.mem_cons_self _ _)
    have hlt : ∀ x, x ∈ t → x < s.vHashmaps.length := fun x hx => hl x (List.mem_cons_of_mem _ hx)
    obtain ⟨p, hp⟩ : ∃ p, s.vHashmaps[j]? = some p := ⟨_, List.getElem?_eq_getElem hj⟩
    obtain ⟨file, hf, hfl⟩ := hwf.present j hj
    unfold getFiles
    simp only [hp, hc, hf]
    cases hbj : p.1.Has cfg.XXH64 k with
    | false =>
      simp only [Bool.not_false, if_true]
      have hji : j ≠ i := by
        intro e
        subst e
        unfold bloomHas at hbl
        rw [hp] at hbl
        simp only at hbl
        rw [hbl] at hbj
        cases hbj
      have hmem2 : i ∈ t := by
        rcases List.mem_cons.mp hmem with h | h
        · exact absurd h.symm hji
        · exact h
      exact ih hlt hmem2 buf hbuf c hc
    | true =>
      simp only [Bool.not_true, Bool.false_eq_true, if_false]
      have hrl : (readAt file (filePos (get_bucket cfg k)) buf).length =
          HASHMAP_KEY_ALLOCATION * windowKeys cfg (get_bucket cfg k) := by
        rw [length_readAt, hbuf]
      split
      · rename_i h1
        exact ⟨h1, getSlots_ready _ _ _ _ _ _ h1⟩
      · rename_i h1
        by_cases hji : j = i
        · exfalso
          apply h1
          subst hji
          have hpos : filePos (get_bucket cfg k) + buf.length ≤ file.length := by
            rw [filePos_eq cfg _ hnw hb, hbuf, hfl, h45]
            omega
          have hrd : ∀ q, q < buf.length →
              (readAt file (filePos (get_bucket cfg k)) buf).getD q 0 =
                fileByte s j (get_bucket cfg k * HASHMAP_KEY_ALLOCATION + q) := by
            intro q hq
            rw [getD_readAt _ _ _ _ hpos, if_pos hq, fileByte_eq s j _ file hf,
              filePos_eq cfg _ hnw hb]
          obtain ⟨nKey, rfl⟩ : ∃ nKey, nIndex = get_bucket cfg k + nKey :=
            ⟨nIndex - get_bucket cfg k, by omega⟩
          have hnk : nKey < windowKeys cfg (get_bucket cfg k) := by omega
          apply getSlots_hit _ _ _ _ _ _ nKey
          · rw [List.mem_range, hrl, Nat.mul_div_cancel_left _ (by decide)]
            exact hnk
          · unfold occupied at hocc
            rw [hp] at hocc
            simpa using hocc
          · apply keyMatches_of_bytes
            · rw [hrl, h45]; omega
            · intro t2 ht2
              rw [hrd _ (by rw [hbuf, h45]; omega), ← hbytes t2 ht2]
              congr 1
              rw [Nat.add_mul]
              omega
          · rw [hrd _ (by rw [hbuf, h45]; omega), ← hstate]
            congr 1
            rw [Nat.add_mul]
        · have hmem2 : i ∈ t := by
            rcases List.mem_cons.mp hmem with h | h
            · exact absurd h.symm hji
            · exact h
          exact ih hlt hmem2 _ hrl _ (by rw [getSlots_vKey]; exact hc)

/-- When a ready record for the key is stored in a well-formed state, `Get` returns true
with a record whose state is `READY`. -/
theorem Get_of_Stored (cfg : Config) (s : BinaryHashMap) (k : List Nat) (i nIndex : Nat)
    (hcfg : cfg.Valid) (hnw : cfg.NoWrap) (hwf : WellFormed cfg s)
    (hlen : s.vHashmaps.length ≤ 2 ^ 15) (hst : Stored cfg s k i nIndex) (c0 : SectorKey) :
    (Get cfg s k c0).1 = true ∧ (Get cfg s k c0).2.nState = STATE_READY := by
  unfold Get
  simp only
  apply getFiles_of_Stored cfg s k i nIndex hcfg hnw hwf hst
  · intro j hj
    exact mem_descendingFiles _ _ hlen hj
  · rw [descendingFiles_eq _ hlen, List.mem_reverse, List.mem_range]
    exact hst.1
  · exact newBucketBuffer_length cfg _
  · rfl

/-! ### Invariants of the states reached from a fresh keychain -/

theorem run_nil (cfg : Config) (s : BinaryHashMap) : run cfg s [] = s := rfl

theorem run_cons (cfg : Config) (s : BinaryHashMap) (op : Op) (ops : List Op) :
    run cfg s (op :: ops) = run cfg (step cfg s op) ops := rfl

theorem run_append (cfg : Config) (s : BinaryHashMap) (a b : List Op) :
    run cfg s (a ++ b) = run cfg (run cfg s a) b := by
  unfold run
  rw [List.foldl_append]

theorem length_run_ge (cfg : Config) (s : BinaryHashMap) (ops : List Op) :
    s.vHashmaps.length ≤ (run cfg s ops).vHashmaps.length := by
  induction ops generalizing s with
  | nil => exact Nat.le_refl _
  | cons op t ih =>
    rw [run_cons]
    exact Nat.le_trans (length_step_ge cfg s op) (ih _)

/-- Induction over a run that stays within `2 ^ 15` files: a property of the first state
that every step within that bound preserves holds of the last state. -/
theorem run_induction (cfg : Config) (P : BinaryHashMap → Prop) (s : BinaryHashMap)
    (ops : List Op) (hlen : (run cfg s ops).vHashmaps.length ≤ 2 ^ 15) (h0 : P s)
    (hstep : ∀ t op, op ∈ ops → P t → (step cfg t op).vHashmaps.length ≤ 2 ^ 15 →
      P (step cfg t op)) :
    P (run cfg s ops) := by
  induction ops generalizing s with
  | nil => exact h0
  | cons op t ih =>
    rw [run_cons] at hlen ⊢
    apply ih _ hlen
    · exact hstep s op (List.mem_cons_self _ _) h0
        (Nat.le_trans (length_run_ge cfg _ t) hlen)
    · intro u o ho hu hl
      exact hstep u o (List.mem_cons_of_mem _ ho) hu hl

theorem WellFormed_step (cfg : Config) (s : BinaryHashMap) (op : Op) (hcfg : cfg.Valid)
    (hnw : cfg.NoWrap) (hwf : WellFormed cfg s)
    (hlen : (step cfg s op).vHashmaps.length ≤ 2 ^ 15) : WellFormed cfg (step cfg s op) := by
  cases op with
  | put r =>
    obtain ⟨i, nKey, _, _, _, _, _, hw⟩ := Put_effect cfg s r hcfg hnw hwf hlen
    exact hw.wellFormed
  | erase k =>
    have hl : s.vHashmaps.length ≤ 2 ^ 15 := Nat.le_trans (length_step_ge cfg s _) hlen
    rcases Erase_effect cfg s k hcfg hnw hwf hl with ⟨_, h⟩ | ⟨i, nKey, _, _, _, _, hw⟩
    · show WellFormed cfg (Erase cfg s k).2
      rw [h]; exact hwf
    · exact hw.wellFormed
  | get k => exact hwf
  | flush => exact WellFormed_Flush cfg s hwf

theorem WellFormed_run (cfg : Config) (ops : List Op) (hcfg : cfg.Valid) (hnw : cfg.NoWrap)
    (hlen : (run cfg (fresh cfg) ops).vHashmaps.length ≤ 2 ^ 15) :
    WellFormed cfg (run cfg (fresh cfg) ops) :=
  run_induction cfg (WellFormed cfg) _ ops hlen (WellFormed_fresh cfg hnw)
    (fun t op _ ht hl => WellFormed_step cfg t op hcfg hnw ht hl)

theorem getD_putRecord_zero (r : SectorKey) : (putRecord r).getD 0 0 = r.nState % 256 := rfl

theorem length_putRecord_pos (r : SectorKey) : 0 < (putRecord r).length := by
  unfold putRecord
  rw [List.length_append, SectorKey.length_serialize]
  omega

theorem getD_putRecord_key (r : SectorKey) (t : Nat) :
    (putRecord r).getD (13 + t) 0 = (compress_key r.vKey HASHMAP_MAX_KEY_SIZE).getD t 0 := by
  unfold putRecord
  simp only [List.getD_eq_getElem?_getD]
  rw [List.getElem?_append_right (by rw [SectorKey.length_serialize]; omega),
    SectorKey.length_serialize]
  congr 2
  omega

theorem OccupancyAgrees_of_Written (cfg : Config) (s t : BinaryHashMap) (i nIndex : Nat)
    (vData : List Nat) (fBit : Bool) (h : OccupancyAgrees cfg s)
    (hw : Written cfg s t i nIndex vData fBit) (hpos : 0 < vData.length)
    (hle : vData.length ≤ HASHMAP_KEY_ALLOCATION)
    (hbit : fBit = true ↔ vData.getD 0 0 ≠ STATE_EMPTY) : OccupancyAgrees cfg t := by
  intro f b hb
  rw [hw.occupancy, hw.bytes]
  rw [key_allocation_eq] at hle ⊢
  by_cases hfb : f = i ∧ b = nIndex
  · obtain ⟨rfl, rfl⟩ := hfb
    rw [if_pos ⟨rfl, rfl⟩, if_pos ⟨rfl, Nat.le_refl _, by omega⟩, Nat.sub_self]
    exact hbit
  · rw [if_neg hfb, if_neg (by
      rintro ⟨h1, h2, h3⟩
      exact hfb ⟨h1, by omega⟩)]
    have := h f b hb
    rw [key_allocation_eq] at this
    exact this

theorem OccupancyAgrees_fresh (cfg : Config) : OccupancyAgrees cfg (fresh cfg) := by
  intro f b _
  have hocc : occupied (fresh cfg) f b = false := by
    unfold occupied
    rw [fresh_eq]
    cases f with
    | zero => simp [HashMapFilter.Has_create]
    | succ n => simp
  have hbyte : fileByte (fresh cfg) f (b * HASHMAP_KEY_ALLOCATION) = 0 := by
    unfold fileByte
    rw [fresh_eq]
    cases f with
    | zero =>
      simp only [lookupFile, List.getD_cons_zero, Option.getD_some, List.getD_eq_getElem?_getD,
        List.getElem?_replicate, List.getElem?_cons_zero]
      split <;> rfl
    | succ n => rfl
  rw [hocc, hbyte]
  simp [STATE_EMPTY]

theorem OccupancyAgrees_step (cfg : Config) (s : BinaryHashMap) (op : Op) (hcfg : cfg.Valid)
    (hnw : cfg.NoWrap) (hwf : WellFormed cfg s) (h : OccupancyAgrees cfg s)
    (hready : ∀ r, op = Op.put r → r.nState = STATE_READY)
    (hlen : (step cfg s op).vHashmaps.length ≤ 2 ^ 15) : OccupancyAgrees cfg (step cfg s op) := by
  cases op with
  | put r =>
    obtain ⟨i, nKey, _, _, _, _, _, hw⟩ := Put_effect cfg s r hcfg hnw hwf hlen
    apply OccupancyAgrees_of_Written cfg s _ _ _ _ _ h hw (length_putRecord_pos r)
      (length_putRecord r)
    rw [getD_putRecord_zero, hready r rfl]
    simp [STATE_READY, STATE_EMPTY]
  | erase k =>
    have hl : s.vHashmaps.length ≤ 2 ^ 15 := Nat.le_trans (length_step_ge cfg s _) hlen
    rcases Erase_effect cfg s k hcfg hnw hwf hl with ⟨_, he⟩ | ⟨i, nKey, _, _, _, _, hw⟩
    · show OccupancyAgrees cfg (Erase cfg s k).2
      rw [he]; exact h
    · apply OccupancyAgrees_of_Written cfg s _ _ _ _ _ h hw (by simp [key_allocation_eq])
        (by simp)
      simp [key_allocation_eq, STATE_EMPTY]
  | get k => exact h
  | flush =>
    intro f b hb
    show occupied (Flush s) f b = true ↔ fileByte (Flush s) f _ ≠ STATE_EMPTY
    rw [occupied_Flush, fileByte_Flush]
    exact h f b hb

/-- The property of C9 within the machine limits: in every state reached from a freshly
initialised keychain by `Put` of ready records, `Erase`, `Get` and `Flush` (bucket positions
that fit 32 bits, at most `2 ^ 15` hashmap files), for every file `f` and bucket `b` the
occupancy bit of `(f, b)` is set if and only if the state byte of the on-disk slot at `(f, b)`
is not `EMPTY`. -/
theorem occupancy_agrees_with_disk (cfg : Config) (ops : List Op) (hcfg : cfg.Valid)
    (hnw : cfg.NoWrap) (hready : PutsReady ops)
    (hlen : (run cfg (fresh cfg) ops).vHashmaps.length ≤ 2 ^ 15) (f b : Nat)
    (hf : f < (run cfg (fresh cfg) ops).vHashmaps.length)
    (hb : b < cfg.HASHMAP_TOTAL_BUCKETS) :
    occupied (run cfg (fresh cfg) ops) f b = true ↔
      fileByte (run cfg (fresh cfg) ops) f (b * HASHMAP_KEY_ALLOCATION) ≠ STATE_EMPTY := by
  have _ := hf
  have h : WellFormed cfg (run cfg (fresh cfg) ops) ∧
      OccupancyAgrees cfg (run cfg (fresh cfg) ops) := by
    apply run_induction cfg (fun s => WellFormed cfg s ∧ OccupancyAgrees cfg s) _ ops hlen
      ⟨WellFormed_fresh cfg hnw, OccupancyAgrees_fresh cfg⟩
    intro t op hop ht hl
    refine ⟨WellFormed_step cfg t op hcfg hnw ht.1 hl,
      OccupancyAgrees_step cfg t op hcfg hnw ht.1 ht.2 ?_ hl⟩
    intro r hr
    subst hr
    exact hready _ hop
  exact h.2 f b hb

theorem bloomHas_step (cfg : Config) (s : BinaryHashMap) (op : Op) (hcfg : cfg.Valid)
    (hnw : cfg.NoWrap) (hwf : WellFormed cfg s)
    (hlen : (step cfg s op).vHashmaps.length ≤ 2 ^ 15) (f : Nat) (k : List Nat)
    (h : bloomHas cfg s f k = true) : bloomHas cfg (step cfg s op) f k = true := by
  cases op with
  | put r =>
    obtain ⟨i, nKey, _, _, _, _, _, hw⟩ := Put_effect cfg s r hcfg hnw hwf hlen
    exact hw.bloom f k h
  | erase k2 =>
    have hl : s.vHashmaps.length ≤ 2 ^ 15 := Nat.le_trans (length_step_ge cfg s _) hlen
    rcases Erase_effect cfg s k2 hcfg hnw hwf hl with ⟨_, he⟩ | ⟨i, nKey, _, _, _, _, hw⟩
    · show bloomHas cfg (Erase cfg s k2).2 f k = true
      rw [he]; exact h
    · exact hw.bloom f k h
  | get k2 => exact h
  | flush =>
    show bloomHas cfg (Flush s) f k = true
    rw [bloomHas_Flush]; exact h

/-- The property of C10 within the machine limits: in every state reached from a freshly
initialised keychain by `Put`, `Erase`, `Get` and `Flush` (bucket positions that fit 32 bits, at
most `2 ^ 15` hashmap files), if a successful `Put` of key `k` wrote its record into file `f`,
then the bloom filter of file `f` answers `Has(k) = true` for the original uncompressed key `k`
after that `Put` and after every later operation. -/
theorem bloom_covers_stored_key (cfg : Config) (pre post : List Op) (r : SectorKey) (f : Nat)
    (hcfg : cfg.Valid) (hnw : cfg.NoWrap)
    (hok : (Put cfg (run cfg (fresh cfg) pre) r).1 = true)
    (hfile : putFile cfg (run cfg (fresh cfg) pre) r = some f)
    (hlen : (run cfg (fresh cfg) (pre ++ [Op.put r] ++ post)).vHashmaps.length ≤ 2 ^ 15) :
    bloomHas cfg (run cfg (fresh cfg) (pre ++ [Op.put r] ++ post)) f r.vKey = true := by
  have _ := hok
  rw [run_append, run_append] at hlen ⊢
  have hl2 : (run cfg (run cfg (fresh cfg) pre) [Op.put r]).vHashmaps.length ≤ 2 ^ 15 :=
    Nat.le_trans (length_run_ge cfg _ post) hlen
  have hl1 : (run cfg (fresh cfg) pre).vHashmaps.length ≤ 2 ^ 15 :=
    Nat.le_trans (length_run_ge cfg _ [Op.put r]) hl2
  have hwf1 := WellFormed_run cfg pre hcfg hnw hl1
  obtain ⟨i, nKey, _, hpf, _, _, hbl, hw⟩ :=
    Put_effect cfg (run cfg (fresh cfg) pre) r hcfg hnw hwf1 hl2
  rw [hfile] at hpf
  cases hpf
  have h : WellFormed cfg (run cfg (run cfg (run cfg (fresh cfg) pre) [Op.put r]) post) ∧
      bloomHas cfg (run cfg (run cfg (run cfg (fresh cfg) pre) [Op.put r]) post) f r.vKey
        = true := by
    apply run_induction cfg (fun s => WellFormed cfg s ∧ bloomHas cfg s f r.vKey = true) _ post
      hlen ⟨hw.wellFormed, hbl⟩
    intro t op _ ht hl
    exact ⟨WellFormed_step cfg t op hcfg hnw ht.1 hl,
      bloomHas_step cfg t op hcfg hnw ht.1 hl f r.vKey ht.2⟩
  exact h.2

/-! ### A stored record survives the operations that spare its probe window -/

theorem Stored_of_Put (cfg : Config) (s : BinaryHashMap) (r : SectorKey) (i nKey : Nat)
    (hready : r.nState = STATE_READY)
    (hkey : nKey < windowKeys cfg (get_bucket cfg r.vKey))
    (hbl : bloomHas cfg (Put cfg s r).2 i r.vKey = true)
    (hw : Written cfg s (Put cfg s r).2 i (get_bucket cfg r.vKey + nKey) (putRecord r) true) :
    Stored cfg (Put cfg s r).2 r.vKey i (get_bucket cfg r.vKey + nKey) := by
  have hlen : (putRecord r).length =
      13 + (compress_key r.vKey HASHMAP_MAX_KEY_SIZE).length := by
    unfold putRecord
    rw [List.length_append, SectorKey.length_serialize]
  refine ⟨hw.file_lt, Nat.le_add_right _ _, by omega, hbl, ?_, ?_, ?_⟩
  · rw [hw.occupancy, if_pos ⟨rfl, rfl⟩]
  · rw [hw.bytes, if_pos ⟨rfl, Nat.le_refl _, by omega⟩, Nat.sub_self, getD_putRecord_zero,
      hready]
    rfl
  · intro t ht
    rw [hw.bytes, if_pos ⟨rfl, by omega, by omega⟩]
    rw [show (get_bucket cfg r.vKey + nKey) * HASHMAP_KEY_ALLOCATION + 13 + t -
      (get_bucket cfg r.vKey + nKey) * HASHMAP_KEY_ALLOCATION = 13 + t by omega]
    exact getD_putRecord_key r t

theorem Stored_of_Written (cfg : Config) (s t : BinaryHashMap) (k : List Nat)
    (i nIndex j nWritten : Nat) (vData : List Nat) (fBit : Bool)
    (hst : Stored cfg s k i nIndex) (hw : Written cfg s t j nWritten vData fBit)
    (hle : vData.length ≤ HASHMAP_KEY_ALLOCATION) (hne : ¬ (i = j ∧ nIndex = nWritten)) :
    Stored cfg t k i nIndex := by
  obtain ⟨hi, hlo, hhi, hbl, hocc, hstate, hbytes⟩ := hst
  have hck := length_compress_key k HASHMAP_MAX_KEY_SIZE
  have h32 := max_key_size_eq
  rw [key_allocation_eq] at hle
  refine ⟨Nat.lt_of_lt_of_le hi hw.length_le, hlo, hhi, hw.bloom i k hbl, ?_, ?_, ?_⟩
  · rw [hw.occupancy, if_neg hne]; exact hocc
  · rw [hw.bytes, if_neg, hstate]
    rw [key_allocation_eq]
    rintro ⟨h1, h2, h3⟩
    exact hne ⟨h1, by omega⟩
  · intro t2 ht2
    rw [hw.bytes, if_neg, hbytes t2 ht2]
    rw [key_allocation_eq]
    rintro ⟨h1, h2, h3⟩
    exact hne ⟨h1, by omega⟩

theorem Stored_Flush (cfg : Config) (s : BinaryHashMap) (k : List Nat) (i nIndex : Nat)
    (hst : Stored cfg s k i nIndex) : Stored cfg (Flush s) k i nIndex := by
  obtain ⟨hi, hlo, hhi, hbl, hocc, hstate, hbytes⟩ := hst
  refine ⟨by rw [length_Flush]; exact hi, hlo, hhi, by rw [bloomHas_Flush]; exact hbl,
    by rw [occupied_Flush]; exact hocc, hstate, hbytes⟩

theorem Stored_step (cfg : Config) (s : BinaryHashMap) (op : Op) (k : List Nat)
    (i nIndex : Nat) (hcfg : cfg.Valid) (hnw : cfg.NoWrap) (hwf : WellFormed cfg s)
    (hst : Stored cfg s k i nIndex) (hop : op.Spares cfg k)
    (hlen : (step cfg s op).vHashmaps.length ≤ 2 ^ 15) :
    Stored cfg (step cfg s op) k i nIndex := by
  have hwk := windowKeys_le cfg (get_bucket cfg k)
  cases op with
  | put r =>
    obtain ⟨j, nKey, _, _, hkey, hfree, _, hw⟩ := Put_effect cfg s r hcfg hnw hwf hlen
    apply Stored_of_Written cfg s _ k i nIndex _ _ _ _ hst hw (length_putRecord r)
    rintro ⟨rfl, rfl⟩
    rcases hop with hmode | hdis
    · have h1 := hfree hmode
      rw [hst.2.2.2.2.1] at h1
      cases h1
    · have h1 := hst.2.1
      have h2 := hst.2.2.1
      unfold WindowsDisjoint at hdis
      omega
  | erase k2 =>
    have hl : s.vHashmaps.length ≤ 2 ^ 15 := Nat.le_trans (length_step_ge cfg s _) hlen
    rcases Erase_effect cfg s k2 hcfg hnw hwf hl with ⟨_, he⟩ | ⟨j, nKey, _, hkey, _, _, hw⟩
    · show Stored cfg (Erase cfg s k2).2 k i nIndex
      rw [he]; exact hst
    · apply Stored_of_Written cfg s _ k i nIndex _ _ _ _ hst hw (by simp)
      rintro ⟨rfl, rfl⟩
      have h1 := hst.2.1
      have h2 := hst.2.2.1
      have hdis : WindowsDisjoint cfg k2 k := hop
      unfold WindowsDisjoint at hdis
      omega
  | get k2 => exact hst
  | flush => exact Stored_Flush cfg s k i nIndex hst

/-- A restricted form of C2 that holds on the code: for every sequence of operations applied to
a freshly initialised keychain (bucket positions that fit 32 bits, at most `2 ^ 15` hashmap
files), if the sequence contains a `Put` of a ready record with key `k` that is followed only by
operations that spare the probe window of `k` (any `Put` in append mode, and otherwise only
`Put` and `Erase` of keys whose probe window is disjoint from that of `k`), then `Get(k)` at the
end returns true with a record whose state is `READY`. -/
theorem get_after_put_spared (cfg : Config) (pre post : List Op) (r c0 : SectorKey)
    (hcfg : cfg.Valid) (hnw : cfg.NoWrap) (hready : r.nState = STATE_READY)
    (hpost : ∀ op, op ∈ post → op.Spares cfg r.vKey)
    (hlen : (run cfg (fresh cfg) (pre ++ [Op.put r] ++ post)).vHashmaps.length ≤ 2 ^ 15) :
    (Get cfg (run cfg (fresh cfg) (pre ++ [Op.put r] ++ post)) r.vKey c0).1 = true ∧
      (Get cfg (run cfg (fresh cfg) (pre ++ [Op.put r] ++ post)) r.vKey c0).2.nState =
        STATE_READY := by
  rw [run_append, run_append] at hlen ⊢
  have hl2 : (run cfg (run cfg (fresh cfg) pre) [Op.put r]).vHashmaps.length ≤ 2 ^ 15 :=
    Nat.le_trans (length_run_ge cfg _ post) hlen
  have hl1 : (run cfg (fresh cfg) pre).vHashmaps.length ≤ 2 ^ 15 :=
    Nat.le_trans (length_run_ge cfg _ [Op.put r]) hl2
  have hwf1 := WellFormed_run cfg pre hcfg hnw hl1
  obtain ⟨i, nKey, _, _, hkey, _, hbl, hw⟩ :=
    Put_effect cfg (run cfg (fresh cfg) pre) r hcfg hnw hwf1 hl2
  have hst0 := Stored_of_Put cfg _ r i nKey hready hkey hbl hw
  have h : WellFormed cfg (run cfg (run cfg (run cfg (fresh cfg) pre) [Op.put r]) post) ∧
      Stored cfg (run cfg (run cfg (run cfg (fresh cfg) pre) [Op.put r]) post) r.vKey i
        (get_bucket cfg r.vKey + nKey) := by
    apply run_induction cfg
      (fun s => WellFormed cfg s ∧ Stored cfg s r.vKey i (get_bucket cfg r.vKey + nKey)) _ post
      hlen ⟨hw.wellFormed, hst0⟩
    intro t op hop ht hl
    exact ⟨WellFormed_step cfg t op hcfg hnw ht.1 hl,
      Stored_step cfg t op r.vKey i _ hcfg hnw ht.1 ht.2 (hpost op hop) hl⟩
  exact Get_of_Stored cfg _ r.vKey i _ hcfg hnw h.1 hlen h.2 c0

/-! ### A record written to a new file is the one `Get` returns -/

theorem Get_newest_file (cfg : Config) (s : BinaryHashMap) (r c0 : SectorKey) (n : Nat)
    (bloom : BloomFilter) (occ : HashMapFilter) (file : List Nat)
    (hcfg : cfg.Valid) (hready : r.nState = STATE_READY) (hfits : r.Fits)
    (hlen : s.vHashmaps.length = n + 1) (hn : n < 2 ^ 15)
    (hp : s.vHashmaps[n]? = some (bloom, occ))
    (hbloom : bloom.Has cfg.XXH64 r.vKey = true)
    (hocc : occ.Has (get_bucket cfg r.vKey + 0) = true)
    (hfile : lookupFile s.hashmapFiles n =
      some (writeAt file (filePos (get_bucket cfg r.vKey)) (putRecord r))) :
    Get cfg s r.vKey c0 = (true, r) := by
  have hb := get_bucket_lt cfg r.vKey hcfg.1
  have hw := windowKeys_pos cfg _ hb
  have hrec : (putRecord r).length ≤ (newBucketBuffer cfg (get_bucket cfg r.vKey)).length := by
    rw [newBucketBuffer_length]
    have := length_putRecord r
    rw [key_allocation_eq] at this ⊢
    omega
  obtain ⟨tail, htail⟩ := readAt_writeAt_prefix file (filePos (get_bucket cfg r.vKey)) _ _ hrec
  have hkeys : (putRecord r ++ tail).length / HASHMAP_KEY_ALLOCATION =
      windowKeys cfg (get_bucket cfg r.vKey) := by
    rw [← htail, length_readAt, newBucketBuffer_length]
    exact Nat.mul_div_cancel_left _ (by decide)
  have hdesc : descendingFiles s.vHashmaps.length = n :: (List.range n).reverse := by
    rw [descendingFiles_eq _ (by omega), hlen, List.range_succ, List.reverse_append]
    rfl
  unfold Get
  simp only [hdesc]
  unfold getFiles
  simp only [hp, hbloom, Bool.not_true, hfile, htail, hkeys]
  rw [range_pos _ hw]
  unfold getSlots
  unfold putRecord
  simp only [hocc, Bool.not_true, Nat.zero_mul,
    keyMatches_prefix _ _ _ (SectorKey.length_serialize r), List.drop_zero, List.append_assoc,
    SectorKey.deserialize_serialize r _ _ hfits]
  simp [SectorKey.Ready, hready]
  rw [← hready]

theorem getElem?_modifyAt_append {α : Type} (l : List α) (p : α) (f : α → α) :
    (modifyAt (l ++ [p]) l.length f)[l.length]? = some (f p) := by
  rw [getElem?_modifyAt, if_pos rfl, List.getElem?_append_right (Nat.le_refl _)]
  simp

theorem Put_new_file (cfg : Config) (s : BinaryHashMap) (r : SectorKey)
    (hnew : (Put cfg s r).2.vHashmaps.length = s.vHashmaps.length + 1)
    (hn : s.vHashmaps.length < 2 ^ 15) :
    ∃ file,
      (Put cfg s r).2.vHashmaps[s.vHashmaps.length]? =
        some ((BloomFilter.create cfg.BLOOM_BITS).Insert cfg.XXH64 r.vKey,
          (HashMapFilter.create cfg.HASHMAP_TOTAL_BUCKETS).Insert (get_bucket cfg r.vKey)) ∧
      lookupFile (Put cfg s r).2.hashmapFiles s.vHashmaps.length =
        some (writeAt file (filePos (get_bucket cfg r.vKey)) (putRecord r)) := by
  cases hpath : putPath cfg s r with
  | failed =>
    have : (Put cfg s r).2 = s := by unfold Put; simp only [hpath]
    rw [this] at hnew
    omega
  | overwrite i nKey =>
    have : (Put cfg s r).2.vHashmaps = s.vHashmaps := by
      unfold Put; simp only [hpath]; exact vHashmaps_write_key _ _ _ _
    rw [this] at hnew
    omega
  | append i nKey =>
    have : (Put cfg s r).2.vHashmaps.length = s.vHashmaps.length := by
      unfold Put; simp only [hpath]
      rw [vHashmaps_write_key]
      simp [insertFilters, length_modifyAt]
    omega
  | newFile =>
    have hput : Put cfg s r = putNewFile cfg s r.vKey (putRecord r) (get_bucket cfg r.vKey) := by
      unfold Put; simp only [hpath]
    rw [hput] at hnew ⊢
    unfold putNewFile at hnew ⊢
    simp only at hnew ⊢
    rw [vHashmaps_write_key] at hnew ⊢
    simp only [insertFilters, length_modifyAt] at hnew
    -- the bloom file was missing, so a pair of filters was added
    have hext : ∃ files, extendFiles cfg s =
        { vHashmaps := s.vHashmaps ++ [(BloomFilter.create cfg.BLOOM_BITS,
            HashMapFilter.create cfg.HASHMAP_TOTAL_BUCKETS)],
          hashmapFiles := files,
          bloomFiles := storeFile s.bloomFiles s.vHashmaps.length
            ((BloomFilter.create cfg.BLOOM_BITS).toBitArray.Bytes ++
              (HashMapFilter.create cfg.HASHMAP_TOTAL_BUCKETS).toBitArray.Bytes) } ∧
        (lookupFile files s.vHashmaps.length).isSome = true := by
      unfold extendFiles at hnew ⊢
      simp only at hnew ⊢
      by_cases h1 : (lookupFile s.hashmapFiles s.vHashmaps.length).isSome = true
      · simp only [h1, if_true] at hnew ⊢
        by_cases h2 : (lookupFile s.bloomFiles s.vHashmaps.length).isSome = true
        · simp only [h2, if_true] at hnew
          omega
        · simp only [h2, Bool.false_eq_true, if_false]
          exact ⟨_, rfl, h1⟩
      · simp only [h1, Bool.false_eq_true, if_false] at hnew ⊢
        by_cases h2 : (lookupFile s.bloomFiles s.vHashmaps.length).isSome = true
        · simp only [h2, if_true] at hnew
          omega
        · simp only [h2, Bool.false_eq_true, if_false]
          refine ⟨_, rfl, ?_⟩
          rw [lookupFile_storeFile, if_pos rfl]
          rfl
    obtain ⟨files, hx, hsome⟩ := hext
    have hlast : lastIndex (extendFiles cfg s) = s.vHashmaps.length := by
      unfold lastIndex
      rw [hx]
      simp only [List.length_append, List.length_singleton]
      exact Nat.mod_eq_of_lt (by omega)
    rw [hlast]
    obtain ⟨file, hfile⟩ := Option.isSome_iff_exists.mp hsome
    have hfile2 : lookupFile (insertFilters cfg (extendFiles cfg s) s.vHashmaps.length r.vKey
        (get_bucket cfg r.vKey)).hashmapFiles s.vHashmaps.length = some file := by
      rw [hx]; exact hfile
    refine ⟨file, ?_, ?_⟩
    · rw [hx]
      simp only [insertFilters]
      exact getElem?_modifyAt_append _ _ _
    · rw [write_key_eq _ _ _ _ file (by omega) hfile2]
      simp only [lookupFile_storeFile, if_true]

/-- C3 (amended): after `Put(r1)` followed by `Put(r2)`, both succeeding, of ready records
with the same key `k`, `Get(k)` returns `r2` whenever `Put(r2)` had to add a new hashmap
file, that is, when no slot of the probe window was free in any existing file (with fewer
than `2 ^ 15` files before the second `Put`). -/
theorem newest_wins_in_new_file (cfg : Config) (s : BinaryHashMap) (r1 r2 c0 : SectorKey)
    (hcfg : cfg.Valid) (hkey : r2.vKey = r1.vKey) (hready : r2.nState = STATE_READY)
    (hfits : r2.Fits) (hok1 : (Put cfg s r1).1 = true)
    (hok2 : (Put cfg (Put cfg s r1).2 r2).1 = true)
    (hnew : (Put cfg (Put cfg s r1).2 r2).2.vHashmaps.length =
      (Put cfg s r1).2.vHashmaps.length + 1)
    (hn : (Put cfg s r1).2.vHashmaps.length < 2 ^ 15) :
    Get cfg (Put cfg (Put cfg s r1).2 r2).2 r1.vKey c0 = (true, r2) := by
  have _ := hok1
  have _ := hok2
  obtain ⟨file, hp, hfile⟩ := Put_new_file cfg (Put cfg s r1).2 r2 hnew hn
  have hb := get_bucket_lt cfg r2.vKey hcfg.1
  rw [← hkey]
  apply Get_newest_file cfg _ r2 c0 (Put cfg s r1).2.vHashmaps.length _ _ file hcfg hready
    hfits hnew hn hp
  · exact BloomFilter.Has_Insert_self cfg.XXH64 cfg.BLOOM_BITS _ _ (BloomFilter.Sized_create_bits _)
      hcfg.2.2.1 hcfg.2.2.2
  · rw [Nat.add_zero, HashMapFilter.Has_Insert _ _ _ _ (HashMapFilter.Sized_create _) hb
      hcfg.2.1]
    simp
  · exact hfile

theorem write_key_false (s : BinaryHashMap) (data : List Nat) (i pos : Nat)
    (h : (write_key s data i pos).1 = false) : (write_key s data i pos).2 = s := by
  unfold write_key at h ⊢
  split
  · rfl
  · rename_i file hf
    rw [hf] at h
    cases h

/-- The case of C8 in which the streams of the last part open: whenever `Put` returns
false, the state is either unchanged (a failure on
the overwrite path) or differs from the state before the call exactly by what `Put` does
before it attempts the write: the key inserted into the bloom filter and one occupancy bit
set in the filters of the file whose slot was claimed (on the append path), or the same in
the last file after the new hashmap file and its filters were set up (on the new-file
path); every other bloom filter and occupancy map is unchanged. -/
theorem put_failure_state (cfg : Config) (s : BinaryHashMap) (r : SectorKey)
    (hfail : (Put cfg s r).1 = false) :
    (Put cfg s r).2 = s ∨
      ∃ i nIndex,
        (Put cfg s r).2 = insertFilters cfg s i r.vKey nIndex ∨
        (Put cfg s r).2 = insertFilters cfg (extendFiles cfg s) i r.vKey nIndex := by
  cases hpath : putPath cfg s r with
  | failed =>
    left
    unfold Put
    simp only [hpath]
  | overwrite i nKey =>
    left
    have hput : Put cfg s r = write_key s (putRecord r) i
        (filePos (get_bucket cfg r.vKey) + nKey * HASHMAP_KEY_ALLOCATION) := by
      unfold Put; simp only [hpath]
    rw [hput] at hfail ⊢
    exact write_key_false _ _ _ _ hfail
  | append i nKey =>
    right
    have hput : Put cfg s r = write_key
        (insertFilters cfg s i r.vKey (get_bucket cfg r.vKey + nKey)) (putRecord r) i
        (filePos (get_bucket cfg r.vKey) + nKey * HASHMAP_KEY_ALLOCATION) := by
      unfold Put; simp only [hpath]
    rw [hput] at hfail ⊢
    exact ⟨i, _, Or.inl (write_key_false _ _ _ _ hfail)⟩
  | newFile =>
    right
    have hput : Put cfg s r = putNewFile cfg s r.vKey (putRecord r) (get_bucket cfg r.vKey) := by
      unfold Put; simp only [hpath]
    rw [hput] at hfail ⊢
    unfold putNewFile at hfail ⊢
    exact ⟨_, _, Or.inr (write_key_false _ _ _ _ hfail)⟩

set_option maxRecDepth 100000

/-- Witness of C1 on the two inputs named by the claim: the key `[0x01]` with sector file 5,
start 100 and size 42 on a keychain of 16 buckets, and a key of 40 bytes `0xAB`. -/
theorem put_get_fresh_witness :
    ((Put (exampleConfig 16 69 2) (fresh (exampleConfig 16 69 2)) (readyKey [1] 5 100 42)).1
        = true ∧
      Get (exampleConfig 16 69 2)
        (Put (exampleConfig 16 69 2) (fresh (exampleConfig 16 69 2)) (readyKey [1] 5 100 42)).2
        [1] blankKey = (true, readyKey [1] 5 100 42)) ∧
    ((Put (exampleConfig 16 69 0) (fresh (exampleConfig 16 69 0))
        (readyKey (List.replicate 40 171) 1 2 3)).1 = true ∧
      Get (exampleConfig 16 69 0)
        (Put (exampleConfig 16 69 0) (fresh (exampleConfig 16 69 0))
          (readyKey (List.replicate 40 171) 1 2 3)).2
        (List.replicate 40 171) blankKey = (true, readyKey (List.replicate 40 171) 1 2 3)) :=
  ⟨put_get_fresh (exampleConfig 16 69 2) (by decide) (readyKey [1] 5 100 42) blankKey
      (by decide) rfl (by decide),
    put_get_fresh (exampleConfig 16 69 0) (by decide) (readyKey (List.replicate 40 171) 1 2 3)
      blankKey (by decide) rfl (by decide)⟩

/-- C2 also fails through keys that share their compressed key: two keys of 40 bytes that differ
in the last byte only have the same compressed key.  On a keychain with one bucket in append
mode, after `Put` and `Erase` of the second key, a `Put` of a ready record for the first key
followed by an `Erase` of the second key (no `Erase` of the first key, no overwrite) leaves
`Get` of the first key returning false. -/
theorem get_after_put_counterexample :
    List.replicate 39 171 ++ [0] ≠ List.replicate 40 171 ∧
    compress_key (List.replicate 39 171 ++ [0]) HASHMAP_MAX_KEY_SIZE =
      compress_key (List.replicate 40 171) HASHMAP_MAX_KEY_SIZE ∧
    (Get (exampleConfig 1 4 2)
      (run (exampleConfig 1 4 2) (fresh (exampleConfig 1 4 2))
        [Op.put (readyKey (List.replicate 39 171 ++ [0]) 5 100 42),
         Op.erase (List.replicate 39 171 ++ [0]),
         Op.put (readyKey (List.replicate 40 171) 6 200 43),
         Op.erase (List.replicate 39 171 ++ [0])])
      (List.replicate 40 171) blankKey).1 = false := by
  decide

/-- An instance of `get_after_put_spared` on a keychain of 64 buckets with the `APPEND` flag
unset: the record of key `[1]` (bucket 25) survives a `Put` and an `Erase` of key `[13]` (bucket
1), an `Erase` of key `[4]` (bucket 43) and a `Flush`. -/
theorem get_after_put_spared_witness :
    (Get (exampleConfig 64 276 0)
      (run (exampleConfig 64 276 0) (fresh (exampleConfig 64 276 0))
        ([Op.put (readyKey [4] 1 2 3)] ++ [Op.put (readyKey [1] 5 100 42)] ++
          [Op.put (readyKey [13] 7 8 9), Op.erase [13], Op.erase [4], Op.flush]))
      [1] blankKey).1 = true ∧
    (Get (exampleConfig 64 276 0)
      (run (exampleConfig 64 276 0) (fresh (exampleConfig 64 276 0))
        ([Op.put (readyKey [4] 1 2 3)] ++ [Op.put (readyKey [1] 5 100 42)] ++
          [Op.put (readyKey [13] 7 8 9), Op.erase [13], Op.erase [4], Op.flush]))
      [1] blankKey).2.nState = STATE_READY :=
  get_after_put_spared (exampleConfig 64 276 0) [Op.put (readyKey [4] 1 2 3)]
    [Op.put (readyKey [13] 7 8 9), Op.erase [13], Op.erase [4], Op.flush]
    (readyKey [1] 5 100 42) blankKey (by decide) (by decide) rfl (by decide) (by decide)

/-- Counterexample to C3: on a fresh keychain of 16 buckets in append mode, two ready records
with the same key `[1]` (bucket 9) are put one after the other, both calls succeeding; the
second lands in the slot after the first in the same file, and `Get` returns the first
record, not the second. -/
theorem newest_wins_counterexample :
    (Put (exampleConfig 16 69 2) (fresh (exampleConfig 16 69 2)) (readyKey [1] 5 100 42)).1
      = true ∧
    (Put (exampleConfig 16 69 2)
      (Put (exampleConfig 16 69 2) (fresh (exampleConfig 16 69 2)) (readyKey [1] 5 100 42)).2
      (readyKey [1] 6 200 43)).1 = true ∧
    Get (exampleConfig 16 69 2)
      (Put (exampleConfig 16 69 2)
        (Put (exampleConfig 16 69 2) (fresh (exampleConfig 16 69 2)) (readyKey [1] 5 100 42)).2
        (readyKey [1] 6 200 43)).2 [1] blankKey = (true, readyKey [1] 5 100 42) ∧
    readyKey [1] 5 100 42 ≠ readyKey [1] 6 200 43 := by
  decide

/-- Witness of the amended C3 on a keychain with a single bucket: the second `Put` of key
`[1]` finds the only slot of the only file taken, adds a file, and `Get` returns the second
record. -/
theorem newest_wins_in_new_file_witness :
    Get (exampleConfig 1 4 2)
      (Put (exampleConfig 1 4 2)
        (Put (exampleConfig 1 4 2) (fresh (exampleConfig 1 4 2)) (readyKey [1] 5 100 42)).2
        (readyKey [1] 6 200 43)).2 [1] blankKey = (true, readyKey [1] 6 200 43) :=
  newest_wins_in_new_file (exampleConfig 1 4 2) (fresh (exampleConfig 1 4 2))
    (readyKey [1] 5 100 42) (readyKey [1] 6 200 43) blankKey (by decide) rfl rfl (by decide)
    (by decide) (by decide) (by decide) (by decide)

/-- C4 fails on the code through the index of the `EMPTY` test of `Erase`.  On a keychain of 16
buckets in append mode the keys `[3]`, `[6]`, `[11]` and `[20]` share bucket 14, whose probe
window has two slots.  After the six operations below key `[11]` is not stored (`Get` returns
false). Then `Put` of a ready record for `[11]` succeeds and `Erase([11])` returns true, yet
`Get([11])` still returns the record: `Erase` cleared the slot of key `[20]` in the newer file,
which passed the test `vBucket[nKey] == STATE::EMPTY`, and `Get([20])` now returns false. -/
theorem erase_wrong_index_then_get :
    (Get (exampleConfig 16 69 2)
      (run (exampleConfig 16 69 2) (fresh (exampleConfig 16 69 2))
        [Op.put (readyKey [3] 5 100 42), Op.put (readyKey [6] 5 100 42),
         Op.put (readyKey [11] 5 100 42), Op.put (readyKey [20] 5 100 42),
         Op.erase [3], Op.erase [11]]) [11] blankKey).1 = false ∧
    (Put (exampleConfig 16 69 2)
      (run (exampleConfig 16 69 2) (fresh (exampleConfig 16 69 2))
        [Op.put (readyKey [3] 5 100 42), Op.put (readyKey [6] 5 100 42),
         Op.put (readyKey [11] 5 100 42), Op.put (readyKey [20] 5 100 42),
         Op.erase [3], Op.erase [11]]) (readyKey [11] 9 9 9)).1 = true ∧
    (Erase (exampleConfig 16 69 2)
      (run (exampleConfig 16 69 2) (fresh (exampleConfig 16 69 2))
        [Op.put (readyKey [3] 5 100 42), Op.put (readyKey [6] 5 100 42),
         Op.put (readyKey [11] 5 100 42), Op.put (readyKey [20] 5 100 42),
         Op.erase [3], Op.erase [11], Op.put (readyKey [11] 9 9 9)]) [11]).1 = true ∧
    Get (exampleConfig 16 69 2)
      (run (exampleConfig 16 69 2) (fresh (exampleConfig 16 69 2))
        [Op.put (readyKey [3] 5 100 42), Op.put (readyKey [6] 5 100 42),
         Op.put (readyKey [11] 5 100 42), Op.put (readyKey [20] 5 100 42),
         Op.erase [3], Op.erase [11], Op.put (readyKey [11] 9 9 9), Op.erase [11]])
      [11] blankKey = (true, readyKey [11] 9 9 9) ∧
    (Get (exampleConfig 16 69 2)
      (run (exampleConfig 16 69 2) (fresh (exampleConfig 16 69 2))
        [Op.put (readyKey [3] 5 100 42), Op.put (readyKey [6] 5 100 42),
         Op.put (readyKey [11] 5 100 42), Op.put (readyKey [20] 5 100 42),
         Op.erase [3], Op.erase [11], Op.put (readyKey [11] 9 9 9), Op.erase [11]])
      [20] blankKey).1 = false := by
  decide

/-- C5 fails on the code.  On a keychain with one bucket, after `Put([1])`, `Erase([1])` and
`Put` of a record for key `[1, 2]`, the call `Get([1])` returns true with the fields of the
record of `[1, 2]`: the slot it was decoded from holds the key bytes `1, 2`, of which the
compressed key `[1]` is a proper prefix. -/
theorem get_prefix_failing_input :
    Get (exampleConfig 1 4 2)
      (run (exampleConfig 1 4 2) (fresh (exampleConfig 1 4 2))
        [Op.put (readyKey [1] 5 100 42), Op.erase [1], Op.put (readyKey [1, 2] 7 8 9)])
      [1] blankKey =
      (true, { nState := STATE_READY, nSectorFile := 7, nSectorStart := 8, nSectorSize := 9,
               nLength := 2, vKey := [1] }) ∧
    compress_key [1] HASHMAP_MAX_KEY_SIZE = [1] ∧
    fileByte (run (exampleConfig 1 4 2) (fresh (exampleConfig 1 4 2))
        [Op.put (readyKey [1] 5 100 42), Op.erase [1], Op.put (readyKey [1, 2] 7 8 9)]) 0 13
      = 1 ∧
    fileByte (run (exampleConfig 1 4 2) (fresh (exampleConfig 1 4 2))
        [Op.put (readyKey [1] 5 100 42), Op.erase [1], Op.put (readyKey [1, 2] 7 8 9)]) 0 14
      = 2 := by
  decide

/-- C6 fails on the code through the index of the `EMPTY` test of `Erase`.  On a keychain of 16
buckets in append mode the keys `[3]` and `[6]` share bucket 14 and take the slots 14 and 15 of
file 0.  After `Erase([3])` has cleared slot 14, a second `Erase([3])` returns true: slot 15,
which holds the key byte `6` of the other key and the state byte `READY`, passes the test
`vBucket[nKey] == STATE::EMPTY` (byte 1 of the window is a byte of the zeroed slot 14), is
zero-filled and loses its occupancy bit. -/
theorem erase_wrong_index_other_slot :
    compress_key [3] HASHMAP_MAX_KEY_SIZE = [3] ∧
    occupied (run (exampleConfig 16 69 2) (fresh (exampleConfig 16 69 2))
      [Op.put (readyKey [3] 5 100 42), Op.put (readyKey [6] 5 100 42), Op.erase [3]]) 0 15
      = true ∧
    fileByte (run (exampleConfig 16 69 2) (fresh (exampleConfig 16 69 2))
      [Op.put (readyKey [3] 5 100 42), Op.put (readyKey [6] 5 100 42), Op.erase [3]]) 0
      (15 * HASHMAP_KEY_ALLOCATION + 13) = 6 ∧
    (Erase (exampleConfig 16 69 2)
      (run (exampleConfig 16 69 2) (fresh (exampleConfig 16 69 2))
        [Op.put (readyKey [3] 5 100 42), Op.put (readyKey [6] 5 100 42), Op.erase [3]])
      [3]).1 = true ∧
    occupied (Erase (exampleConfig 16 69 2)
      (run (exampleConfig 16 69 2) (fresh (exampleConfig 16 69 2))
        [Op.put (readyKey [3] 5 100 42), Op.put (readyKey [6] 5 100 42), Op.erase [3]])
      [3]).2 0 15 = false ∧
    fileByte (Erase (exampleConfig 16 69 2)
      (run (exampleConfig 16 69 2) (fresh (exampleConfig 16 69 2))
        [Op.put (readyKey [3] 5 100 42), Op.put (readyKey [6] 5 100 42), Op.erase [3]])
      [3]).2 0 (15 * HASHMAP_KEY_ALLOCATION + 13) = 0 := by
  decide

theorem bloomFiles_Flush (s : BinaryHashMap) : (Flush s).bloomFiles = s.bloomFiles := rfl

theorem hashmapFiles_Flush (s : BinaryHashMap) : (Flush s).hashmapFiles = s.hashmapFiles := rfl

/-- C7 fails on the code.  On a fresh keychain of 16 buckets, after `Put` of key `[1]` and
`Flush`, the file `_bloom.00000` still holds the 24 zero bytes written when it was created,
while the bloom bytes followed by the occupancy bytes in memory are not zero; a keychain
initialised again on the same directory has no bit set and its `Get([1])` returns false,
where the flushed keychain returned true. -/
theorem flush_failing_input :
    lookupFile (run (exampleConfig 16 69 2) (fresh (exampleConfig 16 69 2))
      [Op.put (readyKey [1] 5 100 42), Op.flush]).bloomFiles 0 = some (List.replicate 24 0) ∧
    (run (exampleConfig 16 69 2) (fresh (exampleConfig 16 69 2))
      [Op.put (readyKey [1] 5 100 42), Op.flush]).vHashmaps.map
        (fun p => p.1.toBitArray.Bytes ++ p.2.toBitArray.Bytes) ≠ [List.replicate 24 0] ∧
    (Get (exampleConfig 16 69 2)
      (run (exampleConfig 16 69 2) (fresh (exampleConfig 16 69 2))
        [Op.put (readyKey [1] 5 100 42), Op.flush]) [1] blankKey).1 = true ∧
    (Initialize (exampleConfig 16 69 2)
      (run (exampleConfig 16 69 2) (fresh (exampleConfig 16 69 2))
        [Op.put (readyKey [1] 5 100 42), Op.flush]).hashmapFiles
      (run (exampleConfig 16 69 2) (fresh (exampleConfig 16 69 2))
        [Op.put (readyKey [1] 5 100 42), Op.flush]).bloomFiles).vHashmaps =
      (fresh (exampleConfig 16 69 2)).vHashmaps ∧
    (Get (exampleConfig 16 69 2)
      (Initialize (exampleConfig 16 69 2)
        (run (exampleConfig 16 69 2) (fresh (exampleConfig 16 69 2))
          [Op.put (readyKey [1] 5 100 42), Op.flush]).hashmapFiles
        (run (exampleConfig 16 69 2) (fresh (exampleConfig 16 69 2))
          [Op.put (readyKey [1] 5 100 42), Op.flush]).bloomFiles) [1] blankKey).1 = false := by
  decide

/-- Counterexample to C8: a keychain with one bucket is opened on a base directory that holds
`_bloom.00000`, `_bloom.00001` and `_hashmap.00000` but has lost `_hashmap.00001`.  `Put` of
key `[1]` takes the slot of file 0; `Put` of key `[1, 2]` then claims the slot of file 1,
cannot open `_hashmap.00001` and returns false, and the bloom filter and the occupancy map
of file 1 are no longer what they were before the call. -/
theorem put_failure_counterexample :
    (Put (exampleConfig 1 4 2)
      (Put (exampleConfig 1 4 2)
        (Initialize (exampleConfig 1 4 2) [some (List.replicate 45 0)]
          [some (List.replicate 16 0), some (List.replicate 16 0)])
        (readyKey [1] 5 100 42)).2 (readyKey [1, 2] 7 8 9)).1 = false ∧
    (Put (exampleConfig 1 4 2)
      (Put (exampleConfig 1 4 2)
        (Initialize (exampleConfig 1 4 2) [some (List.replicate 45 0)]
          [some (List.replicate 16 0), some (List.replicate 16 0)])
        (readyKey [1] 5 100 42)).2 (readyKey [1, 2] 7 8 9)).2.vHashmaps ≠
    (Put (exampleConfig 1 4 2)
      (Initialize (exampleConfig 1 4 2) [some (List.replicate 45 0)]
        [some (List.replicate 16 0), some (List.replicate 16 0)])
      (readyKey [1] 5 100 42)).2.vHashmaps ∧
    occupied (Put (exampleConfig 1 4 2)
      (Initialize (exampleConfig 1 4 2) [some (List.replicate 45 0)]
        [some (List.replicate 16 0), some (List.replicate 16 0)])
      (readyKey [1] 5 100 42)).2 1 0 = false ∧
    occupied (Put (exampleConfig 1 4 2)
      (Put (exampleConfig 1 4 2)
        (Initialize (exampleConfig 1 4 2) [some (List.replicate 45 0)]
          [some (List.replicate 16 0), some (List.replicate 16 0)])
        (readyKey [1] 5 100 42)).2 (readyKey [1, 2] 7 8 9)).2 1 0 = true := by
  decide

/-- An instance of `put_failure_state` at the failing `Put` of the counterexample. -/
theorem put_failure_state_witness :
    (Put (exampleConfig 1 4 2)
      (Put (exampleConfig 1 4 2)
        (Initialize (exampleConfig 1 4 2) [some (List.replicate 45 0)]
          [some (List.replicate 16 0), some (List.replicate 16 0)])
        (readyKey [1] 5 100 42)).2 (readyKey [1, 2] 7 8 9)).1 = false ∧
    ((Put (exampleConfig 1 4 2)
      (Put (exampleConfig 1 4 2)
        (Initialize (exampleConfig 1 4 2) [some (List.replicate 45 0)]
          [some (List.replicate 16 0), some (List.replicate 16 0)])
        (readyKey [1] 5 100 42)).2 (readyKey [1, 2] 7 8 9)).2 =
      (Put (exampleConfig 1 4 2)
        (Initialize (exampleConfig 1 4 2) [some (List.replicate 45 0)]
          [some (List.replicate 16 0), some (List.replicate 16 0)])
        (readyKey [1] 5 100 42)).2 ∨
      ∃ i nIndex,
        (Put (exampleConfig 1 4 2)
          (Put (exampleConfig 1 4 2)
            (Initialize (exampleConfig 1 4 2) [some (List.replicate 45 0)]
              [some (List.replicate 16 0), some (List.replicate 16 0)])
            (readyKey [1] 5 100 42)).2 (readyKey [1, 2] 7 8 9)).2 =
          insertFilters (exampleConfig 1 4 2)
            (Put (exampleConfig 1 4 2)
              (Initialize (exampleConfig 1 4 2) [some (List.replicate 45 0)]
                [some (List.replicate 16 0), some (List.replicate 16 0)])
              (readyKey [1] 5 100 42)).2 i (readyKey [1, 2] 7 8 9).vKey nIndex ∨
        (Put (exampleConfig 1 4 2)
          (Put (exampleConfig 1 4 2)
            (Initialize (exampleConfig 1 4 2) [some (List.replicate 45 0)]
              [some (List.replicate 16 0), some (List.replicate 16 0)])
            (readyKey [1] 5 100 42)).2 (readyKey [1, 2] 7 8 9)).2 =
          insertFilters (exampleConfig 1 4 2)
            (extendFiles (exampleConfig 1 4 2)
              (Put (exampleConfig 1 4 2)
                (Initialize (exampleConfig 1 4 2) [some (List.replicate 45 0)]
                  [some (List.replicate 16 0), some (List.replicate 16 0)])
                (readyKey [1] 5 100 42)).2) i (readyKey [1, 2] 7 8 9).vKey nIndex) :=
  ⟨by decide,
    put_failure_state (exampleConfig 1 4 2) _ (readyKey [1, 2] 7 8 9) (by decide)⟩

/-- An instance of `occupancy_agrees_with_disk` on a keychain of 16 buckets: slot 15 of file 0
after two `Put`, an `Erase`, a `Flush` and a `Get`. -/
theorem occupancy_agrees_with_disk_witness :
    occupied (run (exampleConfig 16 69 2) (fresh (exampleConfig 16 69 2))
      [Op.put (readyKey [3] 5 100 42), Op.put (readyKey [6] 5 100 42), Op.erase [3], Op.flush,
       Op.get [6]]) 0 15 = true ↔
    fileByte (run (exampleConfig 16 69 2) (fresh (exampleConfig 16 69 2))
      [Op.put (readyKey [3] 5 100 42), Op.put (readyKey [6] 5 100 42), Op.erase [3], Op.flush,
       Op.get [6]]) 0 (15 * HASHMAP_KEY_ALLOCATION) ≠ STATE_EMPTY :=
  occupancy_agrees_with_disk (exampleConfig 16 69 2)
    [Op.put (readyKey [3] 5 100 42), Op.put (readyKey [6] 5 100 42), Op.erase [3], Op.flush,
     Op.get [6]] (by decide) (by decide) (by decide) (by decide) 0 15 (by decide) (by decide)

/-- An instance of `bloom_covers_stored_key` on a keychain of 16 buckets: the bloom filter of
file 0 still answers yes for key `[6]` after the two `Erase` calls that follow its `Put`. -/
theorem bloom_covers_stored_key_witness :
    bloomHas (exampleConfig 16 69 2)
      (run (exampleConfig 16 69 2) (fresh (exampleConfig 16 69 2))
        ([Op.put (readyKey [3] 5 100 42)] ++ [Op.put (readyKey [6] 5 100 42)] ++
          [Op.erase [3], Op.erase [3]])) 0 (readyKey [6] 5 100 42).vKey = true :=
  bloom_covers_stored_key (exampleConfig 16 69 2) [Op.put (readyKey [3] 5 100 42)]
    [Op.erase [3], Op.erase [3]] (readyKey [6] 5 100 42) 0 (by decide) (by decide) (by decide)
    (by decide) (by decide)

/-! ### What `Get` returns comes from an occupied slot of the probe window -/

theorem leValue_take_drop_succ (v : List Nat) (a n : Nat) :
    leValue ((v.drop a).take (n + 1)) =
      v.getD a 0 + 256 * leValue ((v.drop (a + 1)).take n) := by
  by_cases h : a < v.length
  · rw [List.drop_eq_getElem_cons h, List.take_succ_cons]
    simp only [leValue, List.getD_eq_getElem?_getD, List.getElem?_eq_getElem h,
      Option.getD_some]
  · have h1 : v.drop a = [] := List.drop_of_length_le (by omega)
    have h2 : v.drop (a + 1) = [] := List.drop_of_length_le (by omega)
    rw [h1, h2]
    simp [leValue, List.getD_eq_getElem?_getD, List.getElem?_eq_none (by omega : v.length ≤ a)]

theorem leValue_segment_congr (v w : List Nat) (a n : Nat)
    (h : ∀ t, t < n → v.getD (a + t) 0 = w.getD (a + t) 0) :
    leValue ((v.drop a).take n) = leValue ((w.drop a).take n) := by
  induction n generalizing a with
  | zero => simp
  | succ m ih =>
    have h0 := h 0 (by omega)
    rw [Nat.add_zero] at h0
    rw [leValue_take_drop_succ, leValue_take_drop_succ, ih (a + 1), h0]
    · intro t ht
      have := h (t + 1) (by omega)
      rw [show a + (t + 1) = a + 1 + t by omega] at this
      exact this

theorem SectorKey.deserialize_congr (v w : List Nat) (c d : SectorKey)
    (h : ∀ t, t < 13 → v.getD t 0 = w.getD t 0) (hk : c.vKey = d.vKey) :
    SectorKey.deserialize v c = SectorKey.deserialize w d := by
  have e0 := leValue_segment_congr v w 0 1 (fun t ht => by rw [Nat.zero_add]; exact h t (by omega))
  have e1 := leValue_segment_congr v w 1 2 (fun t ht => h (1 + t) (by omega))
  have e3 := leValue_segment_congr v w 3 4 (fun t ht => h (3 + t) (by omega))
  have e7 := leValue_segment_congr v w 7 4 (fun t ht => h (7 + t) (by omega))
  have e11 := leValue_segment_congr v w 11 2 (fun t ht => h (11 + t) (by omega))
  simp only [List.drop_zero] at e0
  unfold SectorKey.deserialize
  rw [e0, e1, e3, e7, e11, hk]

theorem getSlots_sound (occ : HashMapFilter) (vB ck : List Nat) (b : Nat) (l : List Nat)
    (c : SectorKey) (h : (getSlots occ vB ck b l c).1 = true) :
    ∃ nKey, nKey ∈ l ∧ occ.Has (b + nKey) = true ∧
      (getSlots occ vB ck b l c).2 =
        SectorKey.deserialize (vB.drop (nKey * HASHMAP_KEY_ALLOCATION)) c := by
  induction l generalizing c with
  | nil => simp [getSlots] at h
  | cons a t ih =>
    unfold getSlots at h ⊢
    cases hocc : occ.Has (b + a) with
    | false =>
      simp only [hocc, Bool.not_false, if_true] at h ⊢
      obtain ⟨n, hn, h1, h2⟩ := ih c h
      exact ⟨n, List.mem_cons_of_mem _ hn, h1, h2⟩
    | true =>
      simp only [hocc, Bool.not_true, Bool.false_eq_true, if_false] at h ⊢
      cases hm : keyMatches vB (a * HASHMAP_KEY_ALLOCATION) ck with
      | false =>
        simp only [hm, Bool.false_eq_true, if_false] at h ⊢
        obtain ⟨n, hn, h1, h2⟩ := ih c h
        exact ⟨n, List.mem_cons_of_mem _ hn, h1, h2⟩
      | true =>
        simp only [hm, if_true] at h ⊢
        cases hr : (SectorKey.deserialize (vB.drop (a * HASHMAP_KEY_ALLOCATION)) c).Ready with
        | false =>
          simp only [hr, Bool.not_false, if_true] at h ⊢
          obtain ⟨n, hn, h1, h2⟩ := ih _ h
          refine ⟨n, List.mem_cons_of_mem _ hn, h1, ?_⟩
          rw [h2]
          exact SectorKey.deserialize_congr _ _ _ _ (fun _ _ => rfl) rfl
        | true =>
          simp only [hr, Bool.not_true, Bool.false_eq_true, if_false]
          exact ⟨a, List.mem_cons_self _ _, hocc, rfl⟩

theorem getSlots_free (occ : HashMapFilter) (vB ck : List Nat) (b : Nat) (l : List Nat)
    (c : SectorKey) (h : ∀ nKey, nKey ∈ l → occ.Has (b + nKey) = false) :
    getSlots occ vB ck b l c = (false, c) := by
  induction l with
  | nil => rfl
  | cons a t ih =>
    unfold getSlots
    rw [h a (List.mem_cons_self _ _)]
    simp only [Bool.not_false, if_true]
    exact ih (fun n hn => h n (List.mem_cons_of_mem _ hn))

theorem getFiles_free (cfg : Config) (s : BinaryHashMap) (ck : List Nat) (b : Nat)
    (l buf : List Nat) (c : SectorKey)
    (h : ∀ i nKey, nKey < buf.length / HASHMAP_KEY_ALLOCATION → occupied s i (b + nKey) = false) :
    (getFiles cfg s ck b l buf c).1 = false := by
  induction l generalizing buf c with
  | nil => rfl
  | cons j t ih =>
    unfold getFiles
    cases hp : s.vHashmaps[j]? with
    | none => exact ih buf c h
    | some p =>
      simp only
      split
      · exact ih buf c h
      · cases hf : lookupFile s.hashmapFiles j with
        | none => rfl
        | some file =>
          simp only
          have hfree : ∀ nKey, nKey ∈ List.range
              ((readAt file (filePos b) buf).length / HASHMAP_KEY_ALLOCATION) →
              p.2.Has (b + nKey) = false := by
            intro n hn
            rw [List.mem_range, length_readAt] at hn
            have := h j n hn
            unfold occupied at this
            rw [hp] at this
            exact this
          rw [getSlots_free _ _ _ _ _ _ hfree]
          simp only [Bool.false_eq_true, if_false]
          apply ih
          rw [length_readAt]
          exact h

/-- `Get` returns false when no slot of the probe window of the key is occupied in any
file. -/
theorem Get_false_of_free (cfg : Config) (s : BinaryHashMap) (k : List Nat) (c0 : SectorKey)
    (h : ∀ i nKey, nKey < windowKeys cfg (get_bucket cfg k) →
      occupied s i (get_bucket cfg k + nKey) = false) :
    (Get cfg s k c0).1 = false := by
  unfold Get
  apply getFiles_free
  rw [newBucketBuffer_keys]
  exact h

theorem getD_slotHeader (s : BinaryHashMap) (i nIndex t : Nat) (ht : t < 13) :
    (slotHeader s i nIndex).getD t 0 = fileByte s i (nIndex * HASHMAP_KEY_ALLOCATION + t) := by
  unfold slotHeader
  simp only [List.getD_eq_getElem?_getD, List.getElem?_map, List.getElem?_range ht,
    Option.map_some', Option.getD_some]

theorem getFiles_sound (cfg : Config) (s : BinaryHashMap) (k : List Nat)
    (hcfg : cfg.Valid) (hnw : cfg.NoWrap) (hwf : WellFormed cfg s) (l buf : List Nat)
    (hbuf : buf.length = HASHMAP_KEY_ALLOCATION * windowKeys cfg (get_bucket cfg k))
    (c : SectorKey)
    (h : (getFiles cfg s (compress_key k HASHMAP_MAX_KEY_SIZE) (get_bucket cfg k) l buf c).1
      = true) :
    ∃ i nKey, nKey < windowKeys cfg (get_bucket cfg k) ∧
      occupied s i (get_bucket cfg k + nKey) = true ∧
      ∀ d : SectorKey, d.vKey = c.vKey →
        (getFiles cfg s (compress_key k HASHMAP_MAX_KEY_SIZE) (get_bucket cfg k) l buf c).2 =
          SectorKey.deserialize (slotHeader s i (get_bucket cfg k + nKey)) d := by
  have hb := get_bucket_lt cfg k hcfg.1
  have hwin := windowKeys_add_le cfg _ hb
  have h45 := key_allocation_eq
  induction l generalizing buf c with
  | nil => simp [getFiles] at h
  | cons j t ih =>
    unfold getFiles at h ⊢
    cases hp : s.vHashmaps[j]? with
    | none =>
      simp only [hp] at h ⊢
      exact ih buf hbuf c h
    | some p =>
      simp only [hp] at h ⊢
      have hj : j < s.vHashmaps.length := by
        by_contra hc
        rw [List.getElem?_eq_none (by omega)] at hp
        cases hp
      obtain ⟨file, hf, hfl⟩ := hwf.present j hj
      cases hbl : p.1.Has cfg.XXH64 c.vKey with
      | false =>
        simp only [hbl, Bool.not_false, if_true] at h ⊢
        exact ih buf hbuf c h
      | true =>
        simp only [hbl, Bool.not_true, Bool.false_eq_true, if_false, hf] at h ⊢
        have hrl : (readAt file (filePos (get_bucket cfg k)) buf).length =
            HASHMAP_KEY_ALLOCATION * windowKeys cfg (get_bucket cfg k) := by
          rw [length_readAt, hbuf]
        cases hs : (getSlots p.2 (readAt file (filePos (get_bucket cfg k)) buf)
            (compress_key k HASHMAP_MAX_KEY_SIZE) (get_bucket cfg k)
            (List.range ((readAt file (filePos (get_bucket cfg k)) buf).length /
              HASHMAP_KEY_ALLOCATION)) c).1 with
        | false =>
          simp only [hs, Bool.false_eq_true, if_false] at h ⊢
          obtain ⟨i, nKey, h1, h2, h3⟩ := ih _ hrl _ h
          refine ⟨i, nKey, h1, h2, ?_⟩
          intro d hd
          exact h3 d (by rw [hd, getSlots_vKey])
        | true =>
          simp only [hs, if_true]
          obtain ⟨nKey, hmem, hocc, heq⟩ := getSlots_sound _ _ _ _ _ _ hs
          rw [List.mem_range, hrl, Nat.mul_div_cancel_left _ (by decide)] at hmem
          refine ⟨j, nKey, hmem, by unfold occupied; rw [hp]; exact hocc, ?_⟩
          intro d hd
          rw [heq]
          apply SectorKey.deserialize_congr _ _ _ _ _ hd.symm
          intro t2 ht2
          have hpos : filePos (get_bucket cfg k) + buf.length ≤ file.length := by
            rw [filePos_eq cfg _ hnw hb, hbuf, hfl, h45]
            omega
          rw [getD_slotHeader _ _ _ _ ht2, fileByte_eq s j _ file hf]
          simp only [List.getD_eq_getElem?_getD, List.getElem?_drop]
          have := getD_readAt file (filePos (get_bucket cfg k)) buf
            (nKey * HASHMAP_KEY_ALLOCATION + t2) hpos
          simp only [List.getD_eq_getElem?_getD] at this
          rw [this, if_pos (by rw [hbuf, h45]; omega), filePos_eq cfg _ hnw hb]
          congr 2
          rw [Nat.add_mul]
          omega

/-- When `Get` returns true on a well-formed state, the record it returns is decoded from
the header of an occupied slot of the probe window of the key. -/
theorem Get_sound (cfg : Config) (s : BinaryHashMap) (k : List Nat) (c0 : SectorKey)
    (hcfg : cfg.Valid) (hnw : cfg.NoWrap) (hwf : WellFormed cfg s)
    (h : (Get cfg s k c0).1 = true) :
    ∃ i nKey, nKey < windowKeys cfg (get_bucket cfg k) ∧
      occupied s i (get_bucket cfg k + nKey) = true ∧
      (Get cfg s k c0).2 = SectorKey.deserialize (slotHeader s i (get_bucket cfg k + nKey))
        { c0 with vKey := k } := by
  unfold Get at h ⊢
  simp only at h ⊢
  obtain ⟨i, nKey, h1, h2, h3⟩ := getFiles_sound cfg s k hcfg hnw hwf _ _
    (newBucketBuffer_length cfg _) _ h
  exact ⟨i, nKey, h1, h2, h3 _ rfl⟩

theorem matchSlot_hit (occ : HashMapFilter) (vB ck : List Nat) (b : Nat) (l : List Nat)
    (nKey : Nat) (hmem : nKey ∈ l) (hocc : occ.Has (b + nKey) = true)
    (hkey : keyMatches vB (nKey * HASHMAP_KEY_ALLOCATION) ck = true) :
    ∃ n, matchSlot occ vB ck b l = some n := by
  induction l with
  | nil => cases hmem
  | cons a t ih =>
    unfold matchSlot
    by_cases ha : a = nKey
    · subst ha
      simp only [hocc, Bool.not_true, Bool.false_eq_true, if_false, hkey, Bool.or_true, if_true]
      exact ⟨a, rfl⟩
    · have hmem2 : nKey ∈ t := by
        rcases List.mem_cons.mp hmem with h | h
        · exact absurd h.symm ha
        · exact h
      split
      · exact ih hmem2
      · split
        · exact ⟨a, rfl⟩
        · exact ih hmem2

theorem scanFiles_of_Stored (cfg : Config) (s : BinaryHashMap) (k : List Nat) (i nIndex : Nat)
    (hcfg : cfg.Valid) (hnw : cfg.NoWrap) (hwf : WellFormed cfg s)
    (hst : Stored cfg s k i nIndex) (l : List Nat) (hl : ∀ j, j ∈ l → j < s.vHashmaps.length)
    (hmem : i ∈ l) (buf : List Nat)
    (hbuf : buf.length = HASHMAP_KEY_ALLOCATION * windowKeys cfg (get_bucket cfg k)) :
    ∃ j n, scanFiles cfg s k (compress_key k HASHMAP_MAX_KEY_SIZE) (get_bucket cfg k) l buf =
      Scan.found j n := by
  obtain ⟨hi, hlo, hhi, hbl, hocc, hstate, hbytes⟩ := hst
  have hb := get_bucket_lt cfg k hcfg.1
  have hwin := windowKeys_add_le cfg _ hb
  have hck := length_compress_key k HASHMAP_MAX_KEY_SIZE
  have h32 := max_key_size_eq
  have h45 := key_allocation_eq
  induction l generalizing buf with
  | nil => cases hmem
  | cons j t ih =>
    have hj : j < s.vHashmaps.length := hl j (List.mem_cons_self _ _)
    have hlt : ∀ x, x ∈ t → x < s.vHashmaps.length := fun x hx => hl x (List.mem_cons_of_mem _ hx)
    obtain ⟨p, hp⟩ : ∃ p, s.vHashmaps[j]? = some p := ⟨_, List.getElem?_eq_getElem hj⟩
    obtain ⟨file, hf, hfl⟩ := hwf.present j hj
    unfold scanFiles
    simp only [hp, hf]
    cases hbj : p.1.Has cfg.XXH64 k with
    | false =>
      simp only [Bool.not_false, if_true]
      have hji : j ≠ i := by
        intro e
        subst e
        unfold bloomHas at hbl
        rw [hp] at hbl
        simp only at hbl
        rw [hbl] at hbj
        cases hbj
      have hmem2 : i ∈ t := by
        rcases List.mem_cons.mp hmem with h | h
        · exact absurd h.symm hji
        · exact h
      exact ih hlt hmem2 buf hbuf
    | true =>
      simp only [Bool.not_true, Bool.false_eq_true, if_false]
      have hrl : (readAt file (filePos (get_bucket cfg k)) buf).length =
          HASHMAP_KEY_ALLOCATION * windowKeys cfg (get_bucket cfg k) := by
        rw [length_readAt, hbuf]
      cases hm : matchSlot p.2 (readAt file (filePos (get_bucket cfg k)) buf)
          (compress_key k HASHMAP_MAX_KEY_SIZE) (get_bucket cfg k)
          (List.range ((readAt file (filePos (get_bucket cfg k)) buf).length /
            HASHMAP_KEY_ALLOCATION)) with
      | some n => exact ⟨j, n, rfl⟩
      | none =>
        simp only
        by_cases hji : j = i
        · exfalso
          subst hji
          have hpos : filePos (get_bucket cfg k) + buf.length ≤ file.length := by
            rw [filePos_eq cfg _ hnw hb, hbuf, hfl, h45]
            omega
          have hrd : ∀ q, q < buf.length →
              (readAt file (filePos (get_bucket cfg k)) buf).getD q 0 =
                fileByte s j (get_bucket cfg k * HASHMAP_KEY_ALLOCATION + q) := by
            intro q hq
            rw [getD_readAt _ _ _ _ hpos, if_pos hq, fileByte_eq s j _ file hf,
              filePos_eq cfg _ hnw hb]
          obtain ⟨nKey, rfl⟩ : ∃ nKey, nIndex = get_bucket cfg k + nKey :=
            ⟨nIndex - get_bucket cfg k, by omega⟩
          have hnk : nKey < windowKeys cfg (get_bucket cfg k) := by omega
          obtain ⟨n, hn⟩ := matchSlot_hit p.2 (readAt file (filePos (get_bucket cfg k)) buf)
            (compress_key k HASHMAP_MAX_KEY_SIZE) (get_bucket cfg k)
            (List.range ((readAt file (filePos (get_bucket cfg k)) buf).length /
              HASHMAP_KEY_ALLOCATION)) nKey
            (by
              rw [List.mem_range, hrl, Nat.mul_div_cancel_left _ (by decide)]
              exact hnk)
            (by
              unfold occupied at hocc
              rw [hp] at hocc
              simpa using hocc)
            (by
              apply keyMatches_of_bytes
              · rw [hrl, h45]; omega
              · intro t2 ht2
                rw [hrd _ (by rw [hbuf, h45]; omega), ← hbytes t2 ht2]
                congr 1
                rw [Nat.add_mul]
                omega)
          rw [hn] at hm
          cases hm
        · have hmem2 : i ∈ t := by
            rcases List.mem_cons.mp hmem with h | h
            · exact absurd h.symm hji
            · exact h
          exact ih hlt hmem2 _ hrl

/-- `Erase` returns true when a ready record for the key is stored. -/
theorem Erase_true_of_Stored (cfg : Config) (s : BinaryHashMap) (k : List Nat) (i nIndex : Nat)
    (hcfg : cfg.Valid) (hnw : cfg.NoWrap) (hwf : WellFormed cfg s)
    (hlen : s.vHashmaps.length ≤ 2 ^ 15) (hst : Stored cfg s k i nIndex) :
    (Erase cfg s k).1 = true := by
  obtain ⟨j, n, hscan⟩ := scanFiles_of_Stored cfg s k i nIndex hcfg hnw hwf hst
    (descendingFiles s.vHashmaps.length) (fun x hx => mem_descendingFiles _ _ hlen hx)
    (by rw [descendingFiles_eq _ hlen, List.mem_reverse, List.mem_range]; exact hst.1)
    (newBucketBuffer cfg (get_bucket cfg k)) (newBucketBuffer_length cfg _)
  rcases Erase_effect cfg s k hcfg hnw hwf hlen with ⟨h1, _⟩ | ⟨_, _, h1, _⟩
  · exfalso
    unfold Erase at h1
    simp only [hscan] at h1
    have hj := mem_descendingFiles _ _ hlen (scanFiles_found _ _ _ _ _ _ _ _ _ hscan).1
    obtain ⟨file, hf, _⟩ := hwf.present j hj
    have hf2 : lookupFile (eraseFilter s j (get_bucket cfg k + n)).hashmapFiles j = some file :=
      hf
    rw [write_key_eq _ _ _ _ file (by omega) hf2] at h1
    cases h1
  · exact h1

theorem occupied_of_length_le (s : BinaryHashMap) (f c : Nat) (h : s.vHashmaps.length ≤ f) :
    occupied s f c = false := by
  unfold occupied
  rw [List.getElem?_eq_none h]

theorem getD_putRecord_header (r : SectorKey) (t : Nat) (ht : t < 13) :
    (putRecord r).getD t 0 = (r.serialize ++ []).getD t 0 := by
  unfold putRecord
  simp only [List.getD_eq_getElem?_getD, List.append_nil]
  rw [List.getElem?_append_left (by rw [SectorKey.length_serialize]; exact ht)]

theorem erase_then_put_again_state (cfg : Config) (s : BinaryHashMap) (r r2 c0 : SectorKey)
    (hcfg : cfg.Valid) (hnw : cfg.NoWrap) (hwf : WellFormed cfg s)
    (hfree : ∀ f nKey, nKey < windowKeys cfg (get_bucket cfg r.vKey) →
      occupied s f (get_bucket cfg r.vKey + nKey) = false)
    (hready : r.nState = STATE_READY) (hkey : r2.vKey = r.vKey)
    (hready2 : r2.nState = STATE_READY) (hfits : r2.Fits)
    (hlen : (Put cfg (Erase cfg (Put cfg s r).2 r.vKey).2 r2).2.vHashmaps.length ≤ 2 ^ 15) :
    (Erase cfg (Put cfg s r).2 r.vKey).1 = true ∧
    (Get cfg (Erase cfg (Put cfg s r).2 r.vKey).2 r.vKey c0).1 = false ∧
    (Put cfg (Erase cfg (Put cfg s r).2 r.vKey).2 r2).1 = true ∧
    Get cfg (Put cfg (Erase cfg (Put cfg s r).2 r.vKey).2 r2).2 r.vKey c0 = (true, r2) := by
  have hl2 : (Erase cfg (Put cfg s r).2 r.vKey).2.vHashmaps.length ≤ 2 ^ 15 :=
    Nat.le_trans (length_Put_ge cfg _ r2) hlen
  have hl1 : (Put cfg s r).2.vHashmaps.length ≤ 2 ^ 15 := by
    rw [length_Erase] at hl2; exact hl2
  -- the first Put
  obtain ⟨i, nKey, _, _, hk1, _, hbl1, hw1⟩ := Put_effect cfg s r hcfg hnw hwf hl1
  have hst1 := Stored_of_Put cfg s r i nKey hready hk1 hbl1 hw1
  have hocc1 : ∀ f n, n < windowKeys cfg (get_bucket cfg r.vKey) →
      occupied (Put cfg s r).2 f (get_bucket cfg r.vKey + n) = true → f = i ∧ n = nKey := by
    intro f n hn h
    rw [hw1.occupancy] at h
    by_cases hc : f = i ∧ get_bucket cfg r.vKey + n = get_bucket cfg r.vKey + nKey
    · exact ⟨hc.1, by omega⟩
    · rw [if_neg hc, hfree f n hn] at h
      cases h
  -- the Erase
  have htrue := Erase_true_of_Stored cfg _ r.vKey i _ hcfg hnw hw1.wellFormed hl1 hst1
  have hfree2 : ∀ f n, n < windowKeys cfg (get_bucket cfg r.vKey) →
      occupied (Erase cfg (Put cfg s r).2 r.vKey).2 f (get_bucket cfg r.vKey + n) = false := by
    rcases Erase_effect cfg (Put cfg s r).2 r.vKey hcfg hnw hw1.wellFormed hl1 with
      ⟨h1, _⟩ | ⟨j, m, _, hm, hoccj, _, hw2⟩
    · rw [htrue] at h1
      cases h1
    · obtain ⟨rfl, rfl⟩ := hocc1 j m hm hoccj
      intro f n hn
      rw [hw2.occupancy]
      split
      · rfl
      · rename_i hne
        cases hc : occupied (Put cfg s r).2 f (get_bucket cfg r.vKey + n) with
        | false => rfl
        | true =>
          obtain ⟨h1, h2⟩ := hocc1 f n hn hc
          exact absurd ⟨h1, by rw [h2]⟩ hne
  have hwf2 : WellFormed cfg (Erase cfg (Put cfg s r).2 r.vKey).2 :=
    WellFormed_step cfg _ (Op.erase r.vKey) hcfg hnw hw1.wellFormed hl2
  refine ⟨htrue, Get_false_of_free cfg _ r.vKey c0 (fun f n hn => hfree2 f n hn), ?_⟩
  -- the second Put
  obtain ⟨i2, nKey2, hok2, _, hk2, _, hbl2, hw3⟩ :=
    Put_effect cfg (Erase cfg (Put cfg s r).2 r.vKey).2 r2 hcfg hnw hwf2 hlen
  have hst3 := Stored_of_Put cfg _ r2 i2 nKey2 hready2 hk2 hbl2 hw3
  rw [hkey] at hk2 hw3 hst3
  refine ⟨hok2, ?_⟩
  have hget := Get_of_Stored cfg _ r.vKey i2 _ hcfg hnw hw3.wellFormed hlen hst3 c0
  obtain ⟨i3, n3, hn3, hocc3, heq⟩ := Get_sound cfg _ r.vKey c0 hcfg hnw hw3.wellFormed hget.1
  have hslot : i3 = i2 ∧ n3 = nKey2 := by
    rw [hw3.occupancy] at hocc3
    by_cases hc : i3 = i2 ∧ get_bucket cfg r.vKey + n3 = get_bucket cfg r.vKey + nKey2
    · exact ⟨hc.1, by omega⟩
    · rw [if_neg hc, hfree2 i3 n3 hn3] at hocc3
      cases hocc3
  obtain ⟨rfl, rfl⟩ := hslot
  have hrec : (Get cfg (Put cfg (Erase cfg (Put cfg s r).2 r.vKey).2 r2).2 r.vKey c0).2 = r2 := by
    rw [heq]
    have hd : SectorKey.deserialize
        (slotHeader (Put cfg (Erase cfg (Put cfg s r).2 r.vKey).2 r2).2 i3
          (get_bucket cfg r.vKey + n3)) { c0 with vKey := r.vKey } =
        SectorKey.deserialize (r2.serialize ++ []) { c0 with vKey := r.vKey } := by
      apply SectorKey.deserialize_congr _ _ _ _ _ rfl
      intro t ht
      have hrl := length_putRecord_pos r2
      have hrl13 : 13 ≤ (putRecord r2).length := by
        unfold putRecord
        rw [List.length_append, SectorKey.length_serialize]
        omega
      rw [getD_slotHeader _ _ _ _ ht, hw3.bytes, if_pos ⟨rfl, by omega, by omega⟩,
        Nat.add_sub_cancel_left, getD_putRecord_header r2 t ht]
    rw [hd, SectorKey.deserialize_serialize r2 _ [] hfits]
    cases r2
    simp only at hkey
    simp only [hkey]
  exact Prod.ext hget.1 hrec

/-- A restricted form of C4 that holds on the code: for every state reached from a freshly
initialised keychain (bucket positions that fit 32 bits, at most `2 ^ 15` hashmap files) in
which no slot of the probe window of key `k` is occupied in any file, and for all ready records
`r` and `r2` with key `k`: after `Put(r)` the call `Erase(k)` returns true and `Get(k)` then
returns false; a following `Put(r2)` returns true and `Get(k)` then returns `r2`. -/
theorem erase_then_put_again (cfg : Config) (ops : List Op) (r r2 c0 : SectorKey)
    (hcfg : cfg.Valid) (hnw : cfg.NoWrap)
    (hfree : ∀ f, f < (run cfg (fresh cfg) ops).vHashmaps.length →
      ∀ nKey, nKey < windowKeys cfg (get_bucket cfg r.vKey) →
        occupied (run cfg (fresh cfg) ops) f (get_bucket cfg r.vKey + nKey) = false)
    (hready : r.nState = STATE_READY) (hkey : r2.vKey = r.vKey)
    (hready2 : r2.nState = STATE_READY) (hfits : r2.Fits)
    (hlen : (run cfg (fresh cfg)
      (ops ++ [Op.put r, Op.erase r.vKey, Op.put r2])).vHashmaps.length ≤ 2 ^ 15) :
    (Erase cfg (run cfg (fresh cfg) (ops ++ [Op.put r])) r.vKey).1 = true ∧
    (Get cfg (run cfg (fresh cfg) (ops ++ [Op.put r, Op.erase r.vKey])) r.vKey c0).1 = false ∧
    (Put cfg (run cfg (fresh cfg) (ops ++ [Op.put r, Op.erase r.vKey])) r2).1 = true ∧
    Get cfg (run cfg (fresh cfg) (ops ++ [Op.put r, Op.erase r.vKey, Op.put r2])) r.vKey c0 =
      (true, r2) := by
  rw [run_append] at hlen ⊢
  rw [run_append, run_append]
  have hl0 : (run cfg (fresh cfg) ops).vHashmaps.length ≤ 2 ^ 15 :=
    Nat.le_trans (length_run_ge cfg _ _) hlen
  have hwf := WellFormed_run cfg ops hcfg hnw hl0
  have hfree2 : ∀ f nKey, nKey < windowKeys cfg (get_bucket cfg r.vKey) →
      occupied (run cfg (fresh cfg) ops) f (get_bucket cfg r.vKey + nKey) = false := by
    intro f n hn
    by_cases hf : f < (run cfg (fresh cfg) ops).vHashmaps.length
    · exact hfree f hf n hn
    · exact occupied_of_length_le _ _ _ (by omega)
  exact erase_then_put_again_state cfg (run cfg (fresh cfg) ops) r r2 c0 hcfg hnw hwf hfree2
    hready hkey hready2 hfits hlen

/-- What holds of C6 on the code: whenever `Erase(k)` returns true on a state reached from a freshly
initialised keychain (bucket positions that fit 32 bits, at most `2 ^ 15` hashmap files),
it zero-fills the `HASHMAP_KEY_ALLOCATION` bytes of exactly one slot and clears the occupancy
bit of that slot; the slot lies in the probe window of `k`, was occupied before the call,
and belongs to a file whose bloom filter answers yes for `k`; every other slot of every file
keeps its bytes and its occupancy bit. -/
theorem erase_clears_one_slot (cfg : Config) (ops : List Op) (k : List Nat)
    (hcfg : cfg.Valid) (hnw : cfg.NoWrap)
    (hlen : (run cfg (fresh cfg) ops).vHashmaps.length ≤ 2 ^ 15)
    (htrue : (Erase cfg (run cfg (fresh cfg) ops) k).1 = true) :
    ∃ i nKey, nKey < windowKeys cfg (get_bucket cfg k) ∧
      i < (run cfg (fresh cfg) ops).vHashmaps.length ∧
      occupied (run cfg (fresh cfg) ops) i (get_bucket cfg k + nKey) = true ∧
      bloomHas cfg (run cfg (fresh cfg) ops) i k = true ∧
      (∀ j c, occupied (Erase cfg (run cfg (fresh cfg) ops) k).2 j c =
        if j = i ∧ c = get_bucket cfg k + nKey then false
        else occupied (run cfg (fresh cfg) ops) j c) ∧
      (∀ j p, fileByte (Erase cfg (run cfg (fresh cfg) ops) k).2 j p =
        if j = i ∧ (get_bucket cfg k + nKey) * HASHMAP_KEY_ALLOCATION ≤ p ∧
            p < (get_bucket cfg k + nKey) * HASHMAP_KEY_ALLOCATION + HASHMAP_KEY_ALLOCATION
        then 0 else fileByte (run cfg (fresh cfg) ops) j p) := by
  have hwf := WellFormed_run cfg ops hcfg hnw hlen
  rcases Erase_effect cfg _ k hcfg hnw hwf hlen with ⟨h1, _⟩ | ⟨i, nKey, _, hk, hocc, hbl, hw⟩
  · rw [htrue] at h1
    cases h1
  · refine ⟨i, nKey, hk, ?_, hocc, hbl, hw.occupancy, ?_⟩
    · have := hw.file_lt
      rw [length_Erase] at this
      exact this
    · intro j p
      rw [hw.bytes, List.length_replicate]
      split
      · simp only [List.getD_eq_getElem?_getD, List.getElem?_replicate]
        split <;> rfl
      · rfl

/-- C4 also fails through keys that share their compressed key: the key of 40 bytes `0xAB` and
the key of 39 bytes `0xAB` followed by `0x30` differ in the last byte only, have the same
compressed key and, on a keychain of 16 buckets in append mode, the same bucket 10.  In the
state reached by a `Put` of the first key the second key is not stored (`Get` returns false).  A
`Put` of a ready record for the second key takes slot 11 and `Erase` of the second key returns
true, having cleared slot 10 (the record of the first key, whose stored key bytes are the same);
`Get` of the second key still returns its record. -/
theorem erase_then_get_counterexample :
    List.replicate 39 171 ++ [48] ≠ List.replicate 40 171 ∧
    compress_key (List.replicate 39 171 ++ [48]) HASHMAP_MAX_KEY_SIZE =
      compress_key (List.replicate 40 171) HASHMAP_MAX_KEY_SIZE ∧
    (Get (exampleConfig 16 69 2)
      (run (exampleConfig 16 69 2) (fresh (exampleConfig 16 69 2))
        [Op.put (readyKey (List.replicate 40 171) 1 2 3)])
      (List.replicate 39 171 ++ [48]) blankKey).1 = false ∧
    (Put (exampleConfig 16 69 2)
      (run (exampleConfig 16 69 2) (fresh (exampleConfig 16 69 2))
        [Op.put (readyKey (List.replicate 40 171) 1 2 3)])
      (readyKey (List.replicate 39 171 ++ [48]) 5 100 42)).1 = true ∧
    (Erase (exampleConfig 16 69 2)
      (run (exampleConfig 16 69 2) (fresh (exampleConfig 16 69 2))
        [Op.put (readyKey (List.replicate 40 171) 1 2 3),
         Op.put (readyKey (List.replicate 39 171 ++ [48]) 5 100 42)])
      (List.replicate 39 171 ++ [48])).1 = true ∧
    occupied (run (exampleConfig 16 69 2) (fresh (exampleConfig 16 69 2))
        [Op.put (readyKey (List.replicate 40 171) 1 2 3),
         Op.put (readyKey (List.replicate 39 171 ++ [48]) 5 100 42),
         Op.erase (List.replicate 39 171 ++ [48])]) 0 10 = false ∧
    occupied (run (exampleConfig 16 69 2) (fresh (exampleConfig 16 69 2))
        [Op.put (readyKey (List.replicate 40 171) 1 2 3),
         Op.put (readyKey (List.replicate 39 171 ++ [48]) 5 100 42),
         Op.erase (List.replicate 39 171 ++ [48])]) 0 11 = true ∧
    Get (exampleConfig 16 69 2)
      (run (exampleConfig 16 69 2) (fresh (exampleConfig 16 69 2))
        [Op.put (readyKey (List.replicate 40 171) 1 2 3),
         Op.put (readyKey (List.replicate 39 171 ++ [48]) 5 100 42),
         Op.erase (List.replicate 39 171 ++ [48])])
      (List.replicate 39 171 ++ [48]) blankKey =
      (true, readyKey (List.replicate 39 171 ++ [48]) 5 100 42) := by
  decide

/-- An instance of `erase_then_put_again` on a keychain of 16 buckets in append mode that
already holds key `[1]` in slot 9: the probe window of key `[3]` (slots 14 and 15) is free. -/
theorem erase_then_put_again_witness :
    (Erase (exampleConfig 16 69 2)
      (run (exampleConfig 16 69 2) (fresh (exampleConfig 16 69 2))
        ([Op.put (readyKey [1] 1 2 3)] ++ [Op.put (readyKey [3] 5 100 42)]))
      (readyKey [3] 5 100 42).vKey).1 = true ∧
    (Get (exampleConfig 16 69 2)
      (run (exampleConfig 16 69 2) (fresh (exampleConfig 16 69 2))
        ([Op.put (readyKey [1] 1 2 3)] ++
          [Op.put (readyKey [3] 5 100 42), Op.erase (readyKey [3] 5 100 42).vKey]))
      (readyKey [3] 5 100 42).vKey blankKey).1 = false ∧
    (Put (exampleConfig 16 69 2)
      (run (exampleConfig 16 69 2) (fresh (exampleConfig 16 69 2))
        ([Op.put (readyKey [1] 1 2 3)] ++
          [Op.put (readyKey [3] 5 100 42), Op.erase (readyKey [3] 5 100 42).vKey]))
      (readyKey [3] 6 200 43)).1 = true ∧
    Get (exampleConfig 16 69 2)
      (run (exampleConfig 16 69 2) (fresh (exampleConfig 16 69 2))
        ([Op.put (readyKey [1] 1 2 3)] ++
          [Op.put (readyKey [3] 5 100 42), Op.erase (readyKey [3] 5 100 42).vKey,
           Op.put (readyKey [3] 6 200 43)]))
      (readyKey [3] 5 100 42).vKey blankKey = (true, readyKey [3] 6 200 43) :=
  erase_then_put_again (exampleConfig 16 69 2) [Op.put (readyKey [1] 1 2 3)]
    (readyKey [3] 5 100 42) (readyKey [3] 6 200 43) blankKey (by decide) (by decide)
    (by decide) rfl rfl rfl (by decide) (by decide)

/-- C6 also fails on a slot whose state byte is `EMPTY`: on a keychain with one bucket, `Put`
and `Erase` of key `[1]` are followed by a `Put` of a record for key `[3]` whose state byte is
`EMPTY`.  `Erase([1])` then returns true: the only slot is occupied, its state byte is `EMPTY`,
and it is zero-filled and loses its occupancy bit although its stored key byte `3` is not the
compressed key `[1]`. -/
theorem erase_empty_state_counterexample :
    compress_key [1] HASHMAP_MAX_KEY_SIZE = [1] ∧
    (Put (exampleConfig 1 4 2)
      (run (exampleConfig 1 4 2) (fresh (exampleConfig 1 4 2))
        [Op.put (readyKey [1] 5 100 42), Op.erase [1]])
      { nState := STATE_EMPTY, nSectorFile := 7, nSectorStart := 8, nSectorSize := 9,
        nLength := 1, vKey := [3] }).1 = true ∧
    occupied (run (exampleConfig 1 4 2) (fresh (exampleConfig 1 4 2))
      [Op.put (readyKey [1] 5 100 42), Op.erase [1],
       Op.put { nState := STATE_EMPTY, nSectorFile := 7, nSectorStart := 8, nSectorSize := 9,
                nLength := 1, vKey := [3] }]) 0 0 = true ∧
    fileByte (run (exampleConfig 1 4 2) (fresh (exampleConfig 1 4 2))
      [Op.put (readyKey [1] 5 100 42), Op.erase [1],
       Op.put { nState := STATE_EMPTY, nSectorFile := 7, nSectorStart := 8, nSectorSize := 9,
                nLength := 1, vKey := [3] }]) 0 13 = 3 ∧
    fileByte (run (exampleConfig 1 4 2) (fresh (exampleConfig 1 4 2))
      [Op.put (readyKey [1] 5 100 42), Op.erase [1],
       Op.put { nState := STATE_EMPTY, nSectorFile := 7, nSectorStart := 8, nSectorSize := 9,
                nLength := 1, vKey := [3] }]) 0 0 = STATE_EMPTY ∧
    (Erase (exampleConfig 1 4 2)
      (run (exampleConfig 1 4 2) (fresh (exampleConfig 1 4 2))
        [Op.put (readyKey [1] 5 100 42), Op.erase [1],
         Op.put { nState := STATE_EMPTY, nSectorFile := 7, nSectorStart := 8, nSectorSize := 9,
                  nLength := 1, vKey := [3] }]) [1]).1 = true ∧
    occupied (Erase (exampleConfig 1 4 2)
      (run (exampleConfig 1 4 2) (fresh (exampleConfig 1 4 2))
        [Op.put (readyKey [1] 5 100 42), Op.erase [1],
         Op.put { nState := STATE_EMPTY, nSectorFile := 7, nSectorStart := 8, nSectorSize := 9,
                  nLength := 1, vKey := [3] }]) [1]).2 0 0 = false ∧
    fileByte (Erase (exampleConfig 1 4 2)
      (run (exampleConfig 1 4 2) (fresh (exampleConfig 1 4 2))
        [Op.put (readyKey [1] 5 100 42), Op.erase [1],
         Op.put { nState := STATE_EMPTY, nSectorFile := 7, nSectorStart := 8, nSectorSize := 9,
                  nLength := 1, vKey := [3] }]) [1]).2 0 13 = 0 := by
  decide

/-- An instance of `erase_clears_one_slot` on a keychain of 16 buckets in append mode holding
the keys `[3]` and `[6]` in the slots 14 and 15 of file 0: `Erase([3])` returns true. -/
theorem erase_clears_one_slot_witness :
    (Erase (exampleConfig 16 69 2)
      (run (exampleConfig 16 69 2) (fresh (exampleConfig 16 69 2))
        [Op.put (readyKey [3] 5 100 42), Op.put (readyKey [6] 5 100 42)]) [3]).1 = true ∧
    ∃ i nKey, nKey < windowKeys (exampleConfig 16 69 2) (get_bucket (exampleConfig 16 69 2) [3]) ∧
      i < (run (exampleConfig 16 69 2) (fresh (exampleConfig 16 69 2))
        [Op.put (readyKey [3] 5 100 42), Op.put (readyKey [6] 5 100 42)]).vHashmaps.length ∧
      occupied (run (exampleConfig 16 69 2) (fresh (exampleConfig 16 69 2))
        [Op.put (readyKey [3] 5 100 42), Op.put (readyKey [6] 5 100 42)]) i
        (get_bucket (exampleConfig 16 69 2) [3] + nKey) = true ∧
      bloomHas (exampleConfig 16 69 2)
        (run (exampleConfig 16 69 2) (fresh (exampleConfig 16 69 2))
          [Op.put (readyKey [3] 5 100 42), Op.put (readyKey [6] 5 100 42)]) i [3] = true ∧
      (∀ j c, occupied (Erase (exampleConfig 16 69 2)
          (run (exampleConfig 16 69 2) (fresh (exampleConfig 16 69 2))
            [Op.put (readyKey [3] 5 100 42), Op.put (readyKey [6] 5 100 42)]) [3]).2 j c =
        if j = i ∧ c = get_bucket (exampleConfig 16 69 2) [3] + nKey then false
        else occupied (run (exampleConfig 16 69 2) (fresh (exampleConfig 16 69 2))
          [Op.put (readyKey [3] 5 100 42), Op.put (readyKey [6] 5 100 42)]) j c) ∧
      (∀ j p, fileByte (Erase (exampleConfig 16 69 2)
          (run (exampleConfig 16 69 2) (fresh (exampleConfig 16 69 2))
            [Op.put (readyKey [3] 5 100 42), Op.put (readyKey [6] 5 100 42)]) [3]).2 j p =
        if j = i ∧ (get_bucket (exampleConfig 16 69 2) [3] + nKey) * HASHMAP_KEY_ALLOCATION ≤ p ∧
            p < (get_bucket (exampleConfig 16 69 2) [3] + nKey) * HASHMAP_KEY_ALLOCATION +
              HASHMAP_KEY_ALLOCATION
        then 0 else fileByte (run (exampleConfig 16 69 2) (fresh (exampleConfig 16 69 2))
          [Op.put (readyKey [3] 5 100 42), Op.put (readyKey [6] 5 100 42)]) j p) :=
  ⟨by decide,
    erase_clears_one_slot (exampleConfig 16 69 2)
      [Op.put (readyKey [3] 5 100 42), Op.put (readyKey [6] 5 100 42)] [3]
      (by decide) (by decide) (by decide) (by decide)⟩

theorem map_fst_modifyAt {α β : Type} (l : List (α × β)) (i : Nat) (g : α × β → β) :
    (modifyAt l i (fun p => (p.1, g p))).map Prod.fst = l.map Prod.fst := by
  apply List.ext_getElem?
  intro j
  rw [List.getElem?_map, List.getElem?_map, getElem?_modifyAt]
  by_cases hj : j = i
  · subst hj
    simp only [if_true]
    cases l[j]? <;> rfl
  · simp only [hj, if_false]

/-- C16: for every keychain state and every key `k`, whatever `Erase(k)` returns, the bloom
filter of every file is after the call exactly what it was before the call. -/
theorem erase_keeps_bloom (cfg : Config) (s : BinaryHashMap) (k : List Nat) :
    (Erase cfg s k).2.vHashmaps.map Prod.fst = s.vHashmaps.map Prod.fst := by
  unfold Erase
  simp only
  split
  · rfl
  · rfl
  · rw [vHashmaps_write_key]
    exact map_fst_modifyAt _ _ _

/-- C17: for every byte sequence whose length is at most `nSize`, `compress_key` leaves the
sequence unchanged, byte for byte and in length. -/
theorem compress_key_stable (vData : List Nat) (nSize : Nat) (h : vData.length ≤ nSize) :
    compress_key vData nSize = vData := by
  unfold compress_key
  cases vData.length with
  | zero => rfl
  | succ n =>
    unfold compressLoop
    rw [if_neg (by omega)]

theorem compressLoop_fits (nSize : Nat) :
    ∀ (nRounds : Nat) (v : List Nat), v.length ≤ nRounds → nSize < v.length →
      (compressLoop nSize nRounds v).length = nSize := by
  intro nRounds
  induction nRounds with
  | zero => intro v h1 h2; omega
  | succ n ih =>
    intro v h1 h2
    unfold compressLoop
    rw [if_pos h2]
    simp only
    have hmod : (v.length >>> 1) % 2 ^ 16 ≤ v.length >>> 1 := Nat.mod_le _ _
    have hhalf : v.length >>> 1 = v.length / 2 := by
      rw [Nat.shiftRight_eq_div_pow]
    by_cases hm : (v.length >>> 1) % 2 ^ 16 ≤ nSize
    · rw [Nat.max_eq_right hm]
      have hl : (resize (xorLoop (v.length >>> 1) (v.length >>> 1) 0 v) nSize).length = nSize :=
        length_resize _ _
      cases n with
      | zero => exact hl
      | succ m =>
        unfold compressLoop
        rw [if_neg (by omega)]
        exact hl
    · have hmax : max ((v.length >>> 1) % 2 ^ 16) nSize = (v.length >>> 1) % 2 ^ 16 :=
        Nat.max_eq_left (by omega)
      rw [hmax]
      apply ih
      · rw [length_resize]; omega
      · rw [length_resize]; omega

theorem compressLoop_fuel (nSize : Nat) :
    ∀ (n m : Nat) (v : List Nat), v.length ≤ n → v.length ≤ m →
      compressLoop nSize n v = compressLoop nSize m v := by
  intro n
  induction n with
  | zero =>
    intro m v h1 _
    cases m with
    | zero => rfl
    | succ m =>
      unfold compressLoop
      rw [if_neg (by omega)]
  | succ n ih =>
    intro m v h1 h2
    cases m with
    | zero =>
      unfold compressLoop
      rw [if_neg (by omega)]
    | succ m =>
      unfold compressLoop
      by_cases hc : v.length > nSize
      · rw [if_pos hc, if_pos hc]
        simp only
        have hmod : (v.length >>> 1) % 2 ^ 16 ≤ v.length >>> 1 := Nat.mod_le _ _
        have hhalf : v.length >>> 1 = v.length / 2 := by
          rw [Nat.shiftRight_eq_div_pow]
        apply ih
        · rw [length_resize]
          apply Nat.max_le.mpr
          constructor <;> omega
        · rw [length_resize]
          apply Nat.max_le.mpr
          constructor <;> omega
      · rw [if_neg hc, if_neg hc]

/-- C18: for every byte sequence longer than `nSize`, `compress_key` returns a sequence of
exactly `nSize` bytes, and the `while` loop has ended by then: running it with any larger
bound on the number of rounds gives the same result. -/
theorem compress_key_fits (vData : List Nat) (nSize : Nat) (h : nSize < vData.length) :
    (compress_key vData nSize).length = nSize ∧
    ∀ nRounds, vData.length ≤ nRounds →
      compressLoop nSize nRounds vData = compress_key vData nSize := by
  refine ⟨compressLoop_fits nSize _ vData (Nat.le_refl _) h, ?_⟩
  intro nRounds hr
  exact compressLoop_fuel nSize nRounds vData.length vData hr (Nat.le_refl _)

theorem BitArray.Bytes_create (n : Nat) :
    (BitArray.create n).Bytes = List.replicate (8 * (n / 64 + 1)) 0 := by
  unfold BitArray.Bytes BitArray.create
  simp only
  induction (n / 64 + 1) with
  | zero => rfl
  | succ m ih =>
    rw [List.replicate_succ, List.flatMap_cons, ih]
    have : leBytes 8 0 = List.replicate 8 0 := by decide
    rw [this, ← List.replicate_add]
    congr 1
    omega

/-- The property of C19 within the machine limits: `Initialize` on a base directory that holds
neither `_bloom.00000` nor `_hashmap.00000` (with `HASHMAP_TOTAL_BUCKETS *
HASHMAP_KEY_ALLOCATION` below `2 ^ 32`) yields exactly one pair of filters in memory with no bit
set, a file `_hashmap.00000` of exactly `HASHMAP_TOTAL_BUCKETS * HASHMAP_KEY_ALLOCATION` zero
bytes, and a file `_bloom.00000` that is the bytes of the bloom bits followed by the bytes of
the occupancy bits, all zero, each part a multiple of 8 bytes long. -/
theorem initialize_fresh (cfg : Config) (hashmapFiles bloomFiles : Directory)
    (hnw : cfg.NoWrap) (hbloom : lookupFile bloomFiles 0 = none)
    (hfile : lookupFile hashmapFiles 0 = none) :
    ∃ p : BloomFilter × HashMapFilter,
      (Initialize cfg hashmapFiles bloomFiles).vHashmaps = [p] ∧
      (∀ n, p.1.toBitArray.is_set n = false) ∧ (∀ n, p.2.toBitArray.is_set n = false) ∧
      lookupFile (Initialize cfg hashmapFiles bloomFiles).hashmapFiles 0 =
        some (List.replicate (cfg.HASHMAP_TOTAL_BUCKETS * HASHMAP_KEY_ALLOCATION) 0) ∧
      lookupFile (Initialize cfg hashmapFiles bloomFiles).bloomFiles 0 =
        some (p.1.toBitArray.Bytes ++ p.2.toBitArray.Bytes) ∧
      (∀ x, x ∈ p.1.toBitArray.Bytes ++ p.2.toBitArray.Bytes → x = 0) ∧
      p.1.toBitArray.Bytes.length % 8 = 0 ∧ p.2.toBitArray.Bytes.length % 8 = 0 := by
  refine ⟨(BloomFilter.create cfg.BLOOM_BITS, HashMapFilter.create cfg.HASHMAP_TOTAL_BUCKETS),
    ?_, ?_, ?_, ?_, ?_, ?_, ?_, ?_⟩
  · unfold Initialize
    simp only [hbloom, hfile]
  · intro n; exact BitArray.is_set_create _ _
  · intro n; exact BitArray.is_set_create _ _
  · unfold Initialize
    simp only [hbloom, hfile, lookupFile_storeFile, if_true]
    have h : cfg.HASHMAP_TOTAL_BUCKETS * HASHMAP_KEY_ALLOCATION < 2 ^ 32 := hnw
    rw [Nat.mod_eq_of_lt h]
  · unfold Initialize
    simp only [hbloom, hfile, lookupFile_storeFile, if_true]
  · intro x hx
    simp only [BloomFilter.create, HashMapFilter.create, BitArray.Bytes_create,
      List.mem_append, List.mem_replicate] at hx
    rcases hx with h | h <;> exact h.2
  · simp only [BloomFilter.create, BitArray.Bytes_create, List.length_replicate]
    omega
  · simp only [HashMapFilter.create, BitArray.Bytes_create, List.length_replicate]
    omega

/-- Witness of C17 on a key of exactly `HASHMAP_MAX_KEY_SIZE` bytes. -/
theorem compress_key_stable_witness :
    compress_key (List.replicate 32 171) HASHMAP_MAX_KEY_SIZE = List.replicate 32 171 :=
  compress_key_stable (List.replicate 32 171) HASHMAP_MAX_KEY_SIZE (by decide)

/-- Witness of C18 on the key of 40 bytes `0xAB`: it is folded to 32 bytes, the first 20 of
which are `0xAB ^ 0xAB = 0`. -/
theorem compress_key_fits_witness :
    ((compress_key (List.replicate 40 171) HASHMAP_MAX_KEY_SIZE).length = HASHMAP_MAX_KEY_SIZE ∧
      ∀ nRounds, (List.replicate 40 171).length ≤ nRounds →
        compressLoop HASHMAP_MAX_KEY_SIZE nRounds (List.replicate 40 171) =
          compress_key (List.replicate 40 171) HASHMAP_MAX_KEY_SIZE) ∧
    compress_key (List.replicate 40 171) HASHMAP_MAX_KEY_SIZE =
      List.replicate 20 0 ++ List.replicate 12 171 :=
  ⟨compress_key_fits (List.replicate 40 171) HASHMAP_MAX_KEY_SIZE (by decide), by decide⟩

/-- An instance of `initialize_fresh` on an empty base directory and a keychain of 16 buckets. -/
theorem initialize_fresh_witness :
    ∃ p : BloomFilter × HashMapFilter,
      (Initialize (exampleConfig 16 69 2) [] []).vHashmaps = [p] ∧
      (∀ n, p.1.toBitArray.is_set n = false) ∧ (∀ n, p.2.toBitArray.is_set n = false) ∧
      lookupFile (Initialize (exampleConfig 16 69 2) [] []).hashmapFiles 0 =
        some (List.replicate ((exampleConfig 16 69 2).HASHMAP_TOTAL_BUCKETS *
          HASHMAP_KEY_ALLOCATION) 0) ∧
      lookupFile (Initialize (exampleConfig 16 69 2) [] []).bloomFiles 0 =
        some (p.1.toBitArray.Bytes ++ p.2.toBitArray.Bytes) ∧
      (∀ x, x ∈ p.1.toBitArray.Bytes ++ p.2.toBitArray.Bytes → x = 0) ∧
      p.1.toBitArray.Bytes.length % 8 = 0 ∧ p.2.toBitArray.Bytes.length % 8 = 0 :=
  initialize_fresh (exampleConfig 16 69 2) [] [] (by decide) rfl rfl

theorem getD_replicate_zero (n p : Nat) : (List.replicate n 0).getD p 0 = 0 := by
  rw [List.getD_eq_getElem?_getD, List.getElem?_replicate]
  split <;> rfl

/-- C20 fails on the code.  On a keychain of 100000000 buckets the key `[0x0B]` has bucket
99187518, whose slot starts at byte `99187518 * 45 = 4463438310`; the `uint32_t` product
`nFilePos` is `4463438310 - 2 ^ 32 = 168471014`.  `Put` on the fresh keychain writes the
record there (the state byte `READY` is at byte 168471014 of `_hashmap.00000`, in the middle
of the slot of bucket 3743800), and the slot of bucket 99187518 stays empty. -/
theorem slot_offset_failing_input :
    (exampleConfig 100000000 432808625 2).Valid ∧
    get_bucket (exampleConfig 100000000 432808625 2) [11] = 99187518 ∧
    99187518 * HASHMAP_KEY_ALLOCATION = 4463438310 ∧
    filePos 99187518 = 168471014 ∧
    168471014 = 3743800 * HASHMAP_KEY_ALLOCATION + 14 ∧
    (Put (exampleConfig 100000000 432808625 2) (fresh (exampleConfig 100000000 432808625 2))
      (readyKey [11] 5 100 42)).1 = true ∧
    fileByte (Put (exampleConfig 100000000 432808625 2)
      (fresh (exampleConfig 100000000 432808625 2)) (readyKey [11] 5 100 42)).2 0 168471014 =
        STATE_READY ∧
    fileByte (Put (exampleConfig 100000000 432808625 2)
      (fresh (exampleConfig 100000000 432808625 2)) (readyKey [11] 5 100 42)).2 0 4463438310 =
        STATE_EMPTY := by
  have hv : (exampleConfig 100000000 432808625 2).Valid := by decide
  have hb : get_bucket (exampleConfig 100000000 432808625 2) (readyKey [11] 5 100 42).vKey =
      99187518 := by decide
  have hp : filePos 99187518 = 168471014 := by decide
  have hrec : (readyKey [11] 5 100 42).serialize ++
      compress_key (readyKey [11] 5 100 42).vKey HASHMAP_MAX_KEY_SIZE =
      [1, 5, 0, 100, 0, 0, 0, 42, 0, 0, 0, 1, 0, 11] := by decide
  refine ⟨hv, hb, by decide, hp, by decide, ?_, ?_, ?_⟩
  · rw [Put_fresh _ hv]
  · rw [Put_fresh _ hv, hb, hp, hrec]
    unfold fileByte
    simp only [lookupFile, List.getD_cons_zero, Option.getD_some]
    rw [getD_writeAt]
    decide
  · rw [Put_fresh _ hv, hb, hp, hrec]
    unfold fileByte
    simp only [lookupFile, List.getD_cons_zero, Option.getD_some]
    rw [getD_writeAt, if_neg (by decide), getD_replicate_zero]
    rfl

/-- C14 fails on the code.  On a keychain of 16 buckets with the `APPEND` flag unset the keys
`[3]` and `[6]` share bucket 14 and take the slots 14 and 15 of file 0; `Erase([3])` then
zero-fills slot 14.  Slot 15 holds the state byte `READY` and the key byte `6`, so the only
slot of the window whose state byte is `EMPTY` is slot 14 and no slot holds the key `[3]`.
`Put` of a record for `[3]` takes the overwrite path at window offset 1 and writes over slot
15: the test `vBucket[nKey] == STATE::EMPTY` read byte 1 of the window, a byte of slot 14.
Slot 14 stays empty and `Get([6])`, true before the `Put`, returns false after it. -/
theorem put_overwrite_failing_input :
    occupied (run (exampleConfig 16 69 0) (fresh (exampleConfig 16 69 0))
      [Op.put (readyKey [3] 5 100 42), Op.put (readyKey [6] 5 100 42), Op.erase [3]]) 0 14
      = false ∧
    fileByte (run (exampleConfig 16 69 0) (fresh (exampleConfig 16 69 0))
      [Op.put (readyKey [3] 5 100 42), Op.put (readyKey [6] 5 100 42), Op.erase [3]]) 0
      (14 * HASHMAP_KEY_ALLOCATION) = STATE_EMPTY ∧
    occupied (run (exampleConfig 16 69 0) (fresh (exampleConfig 16 69 0))
      [Op.put (readyKey [3] 5 100 42), Op.put (readyKey [6] 5 100 42), Op.erase [3]]) 0 15
      = true ∧
    fileByte (run (exampleConfig 16 69 0) (fresh (exampleConfig 16 69 0))
      [Op.put (readyKey [3] 5 100 42), Op.put (readyKey [6] 5 100 42), Op.erase [3]]) 0
      (15 * HASHMAP_KEY_ALLOCATION) = STATE_READY ∧
    fileByte (run (exampleConfig 16 69 0) (fresh (exampleConfig 16 69 0))
      [Op.put (readyKey [3] 5 100 42), Op.put (readyKey [6] 5 100 42), Op.erase [3]]) 0
      (15 * HASHMAP_KEY_ALLOCATION + 13) = 6 ∧
    compress_key [3] HASHMAP_MAX_KEY_SIZE = [3] ∧
    putPath (exampleConfig 16 69 0)
      (run (exampleConfig 16 69 0) (fresh (exampleConfig 16 69 0))
        [Op.put (readyKey [3] 5 100 42), Op.put (readyKey [6] 5 100 42), Op.erase [3]])
      (readyKey [3] 9 9 9) = PutPath.overwrite 0 1 ∧
    (Put (exampleConfig 16 69 0)
      (run (exampleConfig 16 69 0) (fresh (exampleConfig 16 69 0))
        [Op.put (readyKey [3] 5 100 42), Op.put (readyKey [6] 5 100 42), Op.erase [3]])
      (readyKey [3] 9 9 9)).1 = true ∧
    fileByte (run (exampleConfig 16 69 0) (fresh (exampleConfig 16 69 0))
      [Op.put (readyKey [3] 5 100 42), Op.put (readyKey [6] 5 100 42), Op.erase [3],
       Op.put (readyKey [3] 9 9 9)]) 0 (15 * HASHMAP_KEY_ALLOCATION + 13) = 3 ∧
    fileByte (run (exampleConfig 16 69 0) (fresh (exampleConfig 16 69 0))
      [Op.put (readyKey [3] 5 100 42), Op.put (readyKey [6] 5 100 42), Op.erase [3],
       Op.put (readyKey [3] 9 9 9)]) 0 (14 * HASHMAP_KEY_ALLOCATION) = STATE_EMPTY ∧
    (Get (exampleConfig 16 69 0)
      (run (exampleConfig 16 69 0) (fresh (exampleConfig 16 69 0))
        [Op.put (readyKey [3] 5 100 42), Op.put (readyKey [6] 5 100 42), Op.erase [3]])
      [6] blankKey).1 = true ∧
    (Get (exampleConfig 16 69 0)
      (run (exampleConfig 16 69 0) (fresh (exampleConfig 16 69 0))
        [Op.put (readyKey [3] 5 100 42), Op.put (readyKey [6] 5 100 42), Op.erase [3],
         Op.put (readyKey [3] 9 9 9)])
      [6] blankKey).1 = false := by
  decide

/-- A restricted form of C15 that holds on the code: in every state reached from a freshly
initialised keychain (bucket positions that fit 32 bits, at most `2 ^ 15` hashmap files),
`Erase(k)` returns false whenever no file whose bloom filter answers yes for `k` has an occupied
slot inside the probe window of `k`; and whenever `Erase(k)` returns false the state after the
call is the state before it: every on-disk slot, every occupancy bit and every bloom bit is
unchanged. -/
theorem erase_absent (cfg : Config) (ops : List Op) (k : List Nat)
    (hcfg : cfg.Valid) (hnw : cfg.NoWrap)
    (hlen : (run cfg (fresh cfg) ops).vHashmaps.length ≤ 2 ^ 15) :
    ((∀ f, f < (run cfg (fresh cfg) ops).vHashmaps.length →
        bloomHas cfg (run cfg (fresh cfg) ops) f k = true →
        ∀ nKey, nKey < windowKeys cfg (get_bucket cfg k) →
          occupied (run cfg (fresh cfg) ops) f (get_bucket cfg k + nKey) = false) →
      (Erase cfg (run cfg (fresh cfg) ops) k).1 = false) ∧
    ((Erase cfg (run cfg (fresh cfg) ops) k).1 = false →
      (Erase cfg (run cfg (fresh cfg) ops) k).2 = run cfg (fresh cfg) ops) := by
  have hwf := WellFormed_run cfg ops hcfg hnw hlen
  rcases Erase_effect cfg _ k hcfg hnw hwf hlen with ⟨h1, h2⟩ | ⟨i, nKey, h1, hk, hocc, hbl, hw⟩
  · exact ⟨fun _ => h1, fun _ => h2⟩
  · constructor
    · intro hfree
      have hi := hw.file_lt
      rw [length_Erase] at hi
      rw [hfree i hi hbl nKey hk] at hocc
      cases hocc
    · intro hfalse
      rw [h1] at hfalse
      cases hfalse

/-- C15 also fails on a slot whose state byte is `EMPTY`: on a keychain of 16 buckets in append
mode, `Put` and `Erase` of key `[3]` (bucket 14) are followed by a `Put` of a record for key
`[6]` (bucket 14) whose state byte is `EMPTY`; it takes slot 14.  No occupied slot of the window
holds the key `[3]`, yet `Erase([3])` returns true and clears slot 14, whose state byte is
`EMPTY`. -/
theorem erase_absent_counterexample :
    compress_key [3] HASHMAP_MAX_KEY_SIZE = [3] ∧
    bloomHas (exampleConfig 16 69 2)
      (run (exampleConfig 16 69 2) (fresh (exampleConfig 16 69 2))
        [Op.put (readyKey [3] 5 100 42), Op.erase [3],
         Op.put { nState := STATE_EMPTY, nSectorFile := 7, nSectorStart := 8,
                  nSectorSize := 9, nLength := 1, vKey := [6] }]) 0 [3] = true ∧
    occupied (run (exampleConfig 16 69 2) (fresh (exampleConfig 16 69 2))
      [Op.put (readyKey [3] 5 100 42), Op.erase [3],
       Op.put { nState := STATE_EMPTY, nSectorFile := 7, nSectorStart := 8,
                nSectorSize := 9, nLength := 1, vKey := [6] }]) 0 14 = true ∧
    fileByte (run (exampleConfig 16 69 2) (fresh (exampleConfig 16 69 2))
      [Op.put (readyKey [3] 5 100 42), Op.erase [3],
       Op.put { nState := STATE_EMPTY, nSectorFile := 7, nSectorStart := 8,
                nSectorSize := 9, nLength := 1, vKey := [6] }]) 0
      (14 * HASHMAP_KEY_ALLOCATION) = STATE_EMPTY ∧
    fileByte (run (exampleConfig 16 69 2) (fresh (exampleConfig 16 69 2))
      [Op.put (readyKey [3] 5 100 42), Op.erase [3],
       Op.put { nState := STATE_EMPTY, nSectorFile := 7, nSectorStart := 8,
                nSectorSize := 9, nLength := 1, vKey := [6] }]) 0
      (14 * HASHMAP_KEY_ALLOCATION + 13) = 6 ∧
    occupied (run (exampleConfig 16 69 2) (fresh (exampleConfig 16 69 2))
      [Op.put (readyKey [3] 5 100 42), Op.erase [3],
       Op.put { nState := STATE_EMPTY, nSectorFile := 7, nSectorStart := 8,
                nSectorSize := 9, nLength := 1, vKey := [6] }]) 0 15 = false ∧
    (Erase (exampleConfig 16 69 2)
      (run (exampleConfig 16 69 2) (fresh (exampleConfig 16 69 2))
        [Op.put (readyKey [3] 5 100 42), Op.erase [3],
         Op.put { nState := STATE_EMPTY, nSectorFile := 7, nSectorStart := 8,
                  nSectorSize := 9, nLength := 1, vKey := [6] }]) [3]).1 = true ∧
    occupied (Erase (exampleConfig 16 69 2)
      (run (exampleConfig 16 69 2) (fresh (exampleConfig 16 69 2))
        [Op.put (readyKey [3] 5 100 42), Op.erase [3],
         Op.put { nState := STATE_EMPTY, nSectorFile := 7, nSectorStart := 8,
                  nSectorSize := 9, nLength := 1, vKey := [6] }]) [3]).2 0 14 = false ∧
    fileByte (Erase (exampleConfig 16 69 2)
      (run (exampleConfig 16 69 2) (fresh (exampleConfig 16 69 2))
        [Op.put (readyKey [3] 5 100 42), Op.erase [3],
         Op.put { nState := STATE_EMPTY, nSectorFile := 7, nSectorStart := 8,
                  nSectorSize := 9, nLength := 1, vKey := [6] }]) [3]).2 0
      (14 * HASHMAP_KEY_ALLOCATION + 13) = 0 := by
  decide

/-- An instance of `erase_absent` on a keychain of 16 buckets in append mode after `Put` and
`Erase` of key `[3]`: the bloom filter of file 0 answers yes for `[3]`, the two slots of the
probe window are free, and a second `Erase([3])` returns false and changes nothing. -/
theorem erase_absent_witness :
    bloomHas (exampleConfig 16 69 2)
      (run (exampleConfig 16 69 2) (fresh (exampleConfig 16 69 2))
        [Op.put (readyKey [3] 5 100 42), Op.erase [3]]) 0 [3] = true ∧
    (Erase (exampleConfig 16 69 2)
      (run (exampleConfig 16 69 2) (fresh (exampleConfig 16 69 2))
        [Op.put (readyKey [3] 5 100 42), Op.erase [3]]) [3]).1 = false ∧
    (Erase (exampleConfig 16 69 2)
      (run (exampleConfig 16 69 2) (fresh (exampleConfig 16 69 2))
        [Op.put (readyKey [3] 5 100 42), Op.erase [3]]) [3]).2 =
      run (exampleConfig 16 69 2) (fresh (exampleConfig 16 69 2))
        [Op.put (readyKey [3] 5 100 42), Op.erase [3]] :=
  ⟨by decide,
    (erase_absent (exampleConfig 16 69 2) [Op.put (readyKey [3] 5 100 42), Op.erase [3]] [3]
      (by decide) (by decide) (by decide)).1 (by decide),
    (erase_absent (exampleConfig 16 69 2) [Op.put (readyKey [3] 5 100 42), Op.erase [3]] [3]
      (by decide) (by decide) (by decide)).2 (by decide)⟩

/-! ### The paths of `Put`, one by one -/

theorem Put_overwrite_effect (cfg : Config) (s : BinaryHashMap) (r : SectorKey) (i nKey : Nat)
    (hcfg : cfg.Valid) (hnw : cfg.NoWrap) (hwf : WellFormed cfg s)
    (hN : s.vHashmaps.length ≤ 2 ^ 15) (hpath : putPath cfg s r = PutPath.overwrite i nKey) :
    (Put cfg s r).1 = true ∧ nKey < windowKeys cfg (get_bucket cfg r.vKey) ∧
      i < s.vHashmaps.length ∧ (Put cfg s r).2.vHashmaps = s.vHashmaps ∧
      Written cfg s (Put cfg s r).2 i (get_bucket cfg r.vKey + nKey) (putRecord r) true := by
  have hb := get_bucket_lt cfg r.vKey hcfg.1
  have hwin := windowKeys_add_le cfg _ hb
  obtain ⟨_, hscan⟩ := putPath_overwrite cfg s r i nKey hpath
  obtain ⟨hmem, _, hocc, hkey⟩ := scanFiles_found _ _ _ _ _ _ _ _ _ hscan
  rw [newBucketBuffer_keys] at hkey
  have hi := mem_descendingFiles _ _ hN hmem
  have hput : Put cfg s r = write_key s (putRecord r) i
      ((get_bucket cfg r.vKey + nKey) * HASHMAP_KEY_ALLOCATION) := by
    unfold Put
    simp only [hpath]
    rw [slotPos_eq cfg _ _ hnw hb]
  have hw := Written_write_key cfg s s i (get_bucket cfg r.vKey + nKey) (putRecord r) true
    hwf hi (by omega) (Nat.le_refl _) (by omega) (length_putRecord r)
    (by
      intro j c
      by_cases hjc : j = i ∧ c = get_bucket cfg r.vKey + nKey
      · rw [if_pos hjc, hjc.1, hjc.2]; exact hocc
      · rw [if_neg hjc])
    (fun _ _ => rfl) (fun _ _ h => h)
  rw [← hput] at hw
  refine ⟨hw.1, hkey, hi, ?_, hw.2⟩
  rw [hput, vHashmaps_write_key]

theorem Put_append_effect (cfg : Config) (s : BinaryHashMap) (r : SectorKey) (i nKey : Nat)
    (hcfg : cfg.Valid) (hnw : cfg.NoWrap) (hwf : WellFormed cfg s)
    (hN : s.vHashmaps.length ≤ 2 ^ 15) (hpath : putPath cfg s r = PutPath.append i nKey) :
    (Put cfg s r).1 = true ∧ nKey < windowKeys cfg (get_bucket cfg r.vKey) ∧
      i < s.vHashmaps.length ∧ (Put cfg s r).2.vHashmaps.length = s.vHashmaps.length ∧
      bloomHas cfg (Put cfg s r).2 i r.vKey = true ∧
      Written cfg s (Put cfg s r).2 i (get_bucket cfg r.vKey + nKey) (putRecord r) true := by
  have hb := get_bucket_lt cfg r.vKey hcfg.1
  have hwin := windowKeys_add_le cfg _ hb
  have happ := putPath_append cfg s r i nKey hpath
  obtain ⟨_, hi, hkey, _⟩ := appendSlot_some _ _ _ _ _ _ happ
  have hput : Put cfg s r = write_key
      (insertFilters cfg s i r.vKey (get_bucket cfg r.vKey + nKey)) (putRecord r) i
      ((get_bucket cfg r.vKey + nKey) * HASHMAP_KEY_ALLOCATION) := by
    unfold Put
    simp only [hpath]
    rw [slotPos_eq cfg _ _ hnw hb]
  have hlen1 : (insertFilters cfg s i r.vKey (get_bucket cfg r.vKey + nKey)).vHashmaps.length
      = s.vHashmaps.length := by
    simp [insertFilters, length_modifyAt]
  have hw := Written_write_key cfg s
    (insertFilters cfg s i r.vKey (get_bucket cfg r.vKey + nKey)) i
    (get_bucket cfg r.vKey + nKey) (putRecord r) true
    (WellFormed_insertFilters cfg s i _ _ hwf) (by rw [hlen1]; exact hi) (by omega)
    (by rw [hlen1]) (by omega) (length_putRecord r)
    (by
      intro j c
      rw [occupied_insertFilters cfg s i _ _ hcfg hwf hi (by omega)]
      by_cases hjc : j = i ∧ c = get_bucket cfg r.vKey + nKey
      · simp [hjc]
      · simp [hjc])
    (fun _ _ => rfl)
    (fun j k h => bloomHas_insertFilters_mono cfg s i _ _ j k h)
  rw [← hput] at hw
  refine ⟨hw.1, hkey, hi, ?_, ?_, hw.2⟩
  · rw [hput, vHashmaps_write_key]
    exact hlen1
  · rw [hput, bloomHas_congr cfg _ _ (vHashmaps_write_key _ _ _ _)]
    exact bloomHas_insertFilters_self cfg s i _ _ hcfg hwf hi

theorem Put_newFile_effect (cfg : Config) (s : BinaryHashMap) (r : SectorKey)
    (hcfg : cfg.Valid) (hnw : cfg.NoWrap) (hwf : WellFormed cfg s)
    (hN1 : s.vHashmaps.length < 2 ^ 15) (hpath : putPath cfg s r = PutPath.newFile) :
    (Put cfg s r).1 = true ∧ (Put cfg s r).2.vHashmaps.length = s.vHashmaps.length + 1 ∧
      bloomHas cfg (Put cfg s r).2 s.vHashmaps.length r.vKey = true ∧
      Written cfg s (Put cfg s r).2 s.vHashmaps.length (get_bucket cfg r.vKey + 0)
        (putRecord r) true := by
  have hb := get_bucket_lt cfg r.vKey hcfg.1
  have hwin := windowKeys_add_le cfg _ hb
  have hputN : Put cfg s r = putNewFile cfg s r.vKey (putRecord r) (get_bucket cfg r.vKey) := by
    unfold Put
    simp only [hpath]
  have hlenN : (Put cfg s r).2.vHashmaps.length = s.vHashmaps.length + 1 := by
    rw [hputN]
    unfold putNewFile
    simp only
    rw [vHashmaps_write_key]
    simp only [insertFilters, length_modifyAt]
    exact length_extendFiles cfg s hwf
  have hlast := lastIndex_extendFiles cfg s hwf (by omega)
  have hwf2 := WellFormed_extendFiles cfg s hwf
  have hl2 := length_extendFiles cfg s hwf
  have hput : Put cfg s r = write_key
      (insertFilters cfg (extendFiles cfg s) s.vHashmaps.length r.vKey
        (get_bucket cfg r.vKey + 0)) (putRecord r) s.vHashmaps.length
      ((get_bucket cfg r.vKey + 0) * HASHMAP_KEY_ALLOCATION) := by
    rw [hputN]
    unfold putNewFile
    simp only [hlast, Nat.add_zero, filePos_eq cfg _ hnw hb]
  have hlen1 : (insertFilters cfg (extendFiles cfg s) s.vHashmaps.length r.vKey
      (get_bucket cfg r.vKey + 0)).vHashmaps.length = s.vHashmaps.length + 1 := by
    simp only [insertFilters, length_modifyAt]
    exact hl2
  have hw := Written_write_key cfg s
    (insertFilters cfg (extendFiles cfg s) s.vHashmaps.length r.vKey
      (get_bucket cfg r.vKey + 0)) s.vHashmaps.length
    (get_bucket cfg r.vKey + 0) (putRecord r) true
    (WellFormed_insertFilters cfg _ _ _ _ hwf2) (by rw [hlen1]; omega) (by omega)
    (by rw [hlen1]; omega) (by omega) (length_putRecord r)
    (by
      intro j c
      rw [occupied_insertFilters cfg _ _ _ _ hcfg hwf2 (by rw [hl2]; omega) (by omega),
        occupied_extendFiles cfg s hwf]
      by_cases hjc : j = s.vHashmaps.length ∧ c = get_bucket cfg r.vKey + 0
      · simp [hjc]
      · simp [hjc])
    (fun j p => fileByte_extendFiles cfg s hwf j p)
    (fun j k h => bloomHas_insertFilters_mono cfg _ _ _ _ j k
      (by rw [bloomHas_extendFiles cfg s hwf]; exact h))
  rw [← hput] at hw
  refine ⟨hw.1, hlenN, ?_, hw.2⟩
  rw [hput, bloomHas_congr cfg _ _ (vHashmaps_write_key _ _ _ _)]
  exact bloomHas_insertFilters_self cfg _ _ _ _ hcfg hwf2 (by rw [hl2]; omega)

theorem Erase_found_effect (cfg : Config) (s : BinaryHashMap) (k : List Nat) (i nKey : Nat)
    (hcfg : cfg.Valid) (hnw : cfg.NoWrap) (hwf : WellFormed cfg s)
    (hlen : s.vHashmaps.length ≤ 2 ^ 15)
    (hscan : scanFiles cfg s k (compress_key k HASHMAP_MAX_KEY_SIZE) (get_bucket cfg k)
      (descendingFiles s.vHashmaps.length) (newBucketBuffer cfg (get_bucket cfg k)) =
      Scan.found i nKey) :
    (Erase cfg s k).1 = true ∧ nKey < windowKeys cfg (get_bucket cfg k) ∧
      (∀ j k2, bloomHas cfg (Erase cfg s k).2 j k2 = bloomHas cfg s j k2) ∧
      Written cfg s (Erase cfg s k).2 i (get_bucket cfg k + nKey)
        (List.replicate HASHMAP_KEY_ALLOCATION 0) false := by
  have hb := get_bucket_lt cfg k hcfg.1
  have hwin := windowKeys_add_le cfg _ hb
  obtain ⟨hmem, _, _, hkey⟩ := scanFiles_found _ _ _ _ _ _ _ _ _ hscan
  rw [newBucketBuffer_keys] at hkey
  have hi := mem_descendingFiles _ _ hlen hmem
  have her : Erase cfg s k = write_key (eraseFilter s i (get_bucket cfg k + nKey))
      (List.replicate HASHMAP_KEY_ALLOCATION 0) i
      ((get_bucket cfg k + nKey) * HASHMAP_KEY_ALLOCATION) := by
    unfold Erase
    simp only [hscan]
    rw [slotPos_eq cfg _ _ hnw hb]
  have hlen1 : (eraseFilter s i (get_bucket cfg k + nKey)).vHashmaps.length =
      s.vHashmaps.length := by
    simp [eraseFilter, length_modifyAt]
  have hw := Written_write_key cfg s (eraseFilter s i (get_bucket cfg k + nKey)) i
    (get_bucket cfg k + nKey) (List.replicate HASHMAP_KEY_ALLOCATION 0) false
    (WellFormed_eraseFilter cfg s i _ hwf) (by rw [hlen1]; exact hi) (by omega)
    (by rw [hlen1]) (by omega) (by simp)
    (by
      intro j c
      rw [occupied_eraseFilter cfg s i _ hcfg hwf hi (by omega)]
      by_cases hjc : j = i ∧ c = get_bucket cfg k + nKey
      · simp [hjc]
      · simp [hjc])
    (fun _ _ => rfl)
    (fun j k2 h => by rw [bloomHas_eraseFilter]; exact h)
  rw [← her] at hw
  refine ⟨hw.1, hkey, ?_, hw.2⟩
  intro j k2
  rw [her, bloomHas_congr cfg _ _ (vHashmaps_write_key _ _ _ _), bloomHas_eraseFilter]

/-! ### The free slot the append path of `Put` finds -/

theorem freeSlot_range' (occ : HashMapFilter) (b : Nat) :
    ∀ n a,
      (∀ k, freeSlot occ b (List.range' a n) = some k →
        a ≤ k ∧ k < a + n ∧ occ.Has (b + k) = false ∧
          ∀ j, a ≤ j → j < k → occ.Has (b + j) = true) ∧
      (freeSlot occ b (List.range' a n) = none →
        ∀ j, a ≤ j → j < a + n → occ.Has (b + j) = true) := by
  intro n
  induction n with
  | zero =>
    intro a
    constructor
    · intro k h; simp [freeSlot] at h
    · intro _ j h1 h2; omega
  | succ n ih =>
    intro a
    rw [List.range'_succ]
    unfold freeSlot
    cases hocc : occ.Has (b + a) with
    | false =>
      simp only [Bool.false_eq_true, if_false]
      constructor
      · intro k h
        cases h
        exact ⟨Nat.le_refl _, by omega, hocc, fun j h1 h2 => by omega⟩
      · intro h; cases h
    | true =>
      simp only [if_true]
      obtain ⟨ih1, ih2⟩ := ih (a + 1)
      constructor
      · intro k h
        obtain ⟨h1, h2, h3, h4⟩ := ih1 k h
        refine ⟨by omega, by omega, h3, ?_⟩
        intro j hj1 hj2
        by_cases hja : j = a
        · rw [hja]; exact hocc
        · exact h4 j (by omega) hj2
      · intro h j hj1 hj2
        by_cases hja : j = a
        · rw [hja]; exact hocc
        · exact ih2 h j (by omega) (by omega)

theorem appendSlot_range' (cfg : Config) (s : BinaryHashMap) (b : Nat) :
    ∀ n a, a + n ≤ s.vHashmaps.length →
      (∀ i k, appendSlot cfg s b (List.range' a n) = some (i, k) →
        a ≤ i ∧ i < a + n ∧ k < windowKeys cfg b ∧ occupied s i (b + k) = false ∧
          (∀ m, m < k → occupied s i (b + m) = true) ∧
          ∀ j, a ≤ j → j < i → ∀ m, m < windowKeys cfg b → occupied s j (b + m) = true) ∧
      (appendSlot cfg s b (List.range' a n) = none →
        ∀ j, a ≤ j → j < a + n → ∀ m, m < windowKeys cfg b → occupied s j (b + m) = true) := by
  intro n
  induction n with
  | zero =>
    intro a _
    constructor
    · intro i k h; simp [appendSlot] at h
    · intro _ j h1 h2; omega
  | succ n ih =>
    intro a ha
    rw [List.range'_succ]
    unfold appendSlot
    have hlt : a < s.vHashmaps.length := by omega
    obtain ⟨p, hp⟩ : ∃ p, s.vHashmaps[a]? = some p := ⟨_, List.getElem?_eq_getElem hlt⟩
    obtain ⟨bloom, occ⟩ := p
    have hoa : ∀ c, occupied s a c = occ.Has c := by
      intro c; unfold occupied; rw [hp]
    simp only [hp]
    obtain ⟨f1, f2⟩ := freeSlot_range' occ b (windowKeys cfg b) 0
    rw [← List.range_eq_range'] at f1 f2
    obtain ⟨ih1, ih2⟩ := ih (a + 1) (by omega)
    cases hfs : freeSlot occ b (List.range (windowKeys cfg b)) with
    | some k =>
      simp only
      obtain ⟨_, h2, h3, h4⟩ := f1 k hfs
      constructor
      · intro i k2 h
        simp only [Option.some.injEq, Prod.mk.injEq] at h
        obtain ⟨rfl, rfl⟩ := h
        refine ⟨Nat.le_refl _, by omega, by omega, by rw [hoa]; exact h3, ?_, ?_⟩
        · intro m hm; rw [hoa]; exact h4 m (Nat.zero_le _) hm
        · intro j h1 h2; omega
      · intro h; cases h
    | none =>
      simp only
      have hfull := f2 hfs
      constructor
      · intro i k h
        obtain ⟨h1, h2, h3, h4, h5, h6⟩ := ih1 i k h
        refine ⟨by omega, by omega, h3, h4, h5, ?_⟩
        intro j hj1 hj2 m hm
        by_cases hja : j = a
        · rw [hja, hoa]; exact hfull m (Nat.zero_le _) (by omega)
        · exact h6 j (by omega) hj2 m hm
      · intro h j hj1 hj2 m hm
        by_cases hja : j = a
        · rw [hja, hoa]; exact hfull m (Nat.zero_le _) (by omega)
        · exact ih2 h j (by omega) (by omega) m hm

theorem putPath_appendMode (cfg : Config) (s : BinaryHashMap) (r : SectorKey)
    (happ : cfg.AppendMode) :
    putPath cfg s r =
      match appendSlot cfg s (get_bucket cfg r.vKey) (ascendingFiles s.vHashmaps.length) with
      | some (i, nKey) => PutPath.append i nKey
      | none => PutPath.newFile := by
  unfold Config.AppendMode at happ
  unfold putPath
  have h : ¬ (cfg.HASHMAP_FLAGS &&& cfg.APPEND == 0) = true := by
    simpa using happ
  simp only [h, if_false]
  rfl

/-- The append path of `Put` in append mode: the least free slot, files first, or a new file
when every slot of the window is occupied in every file. -/
theorem putPath_least (cfg : Config) (s : BinaryHashMap) (r : SectorKey)
    (happ : cfg.AppendMode) (hN : s.vHashmaps.length ≤ 2 ^ 15) :
    (∀ i k, putPath cfg s r = PutPath.append i k →
      i < s.vHashmaps.length ∧ k < windowKeys cfg (get_bucket cfg r.vKey) ∧
        occupied s i (get_bucket cfg r.vKey + k) = false ∧
        (∀ m, m < k → occupied s i (get_bucket cfg r.vKey + m) = true) ∧
        ∀ j, j < i → ∀ m, m < windowKeys cfg (get_bucket cfg r.vKey) →
          occupied s j (get_bucket cfg r.vKey + m) = true) ∧
    (putPath cfg s r = PutPath.newFile →
      ∀ j, j < s.vHashmaps.length → ∀ m, m < windowKeys cfg (get_bucket cfg r.vKey) →
        occupied s j (get_bucket cfg r.vKey + m) = true) ∧
    (∀ i k, putPath cfg s r ≠ PutPath.overwrite i k) ∧ putPath cfg s r ≠ PutPath.failed := by
  rw [putPath_appendMode cfg s r happ, ascendingFiles_eq _ hN, List.range_eq_range']
  obtain ⟨a1, a2⟩ := appendSlot_range' cfg s (get_bucket cfg r.vKey) s.vHashmaps.length 0
    (by omega)
  cases ha : appendSlot cfg s (get_bucket cfg r.vKey) (List.range' 0 s.vHashmaps.length) with
  | none =>
    simp only
    refine ⟨fun i k h => (by cases h), fun _ j hj m hm => a2 ha j (Nat.zero_le _) (by omega) m hm,
      fun i k h => (by cases h), fun h => (by cases h)⟩
  | some p =>
    obtain ⟨i0, k0⟩ := p
    simp only
    obtain ⟨_, h2, h3, h4, h5, h6⟩ := a1 i0 k0 ha
    refine ⟨?_, fun h => (by cases h), fun i k h => (by cases h), fun h => (by cases h)⟩
    intro i k h
    simp only [PutPath.append.injEq] at h
    obtain ⟨rfl, rfl⟩ := h
    exact ⟨by omega, h3, h4, h5, fun j hj m hm => h6 j (Nat.zero_le _) hj m hm⟩

theorem length_Put_newFile (cfg : Config) (s : BinaryHashMap) (r : SectorKey)
    (hwf : WellFormed cfg s) (hpath : putPath cfg s r = PutPath.newFile) :
    (Put cfg s r).2.vHashmaps.length = s.vHashmaps.length + 1 := by
  unfold Put
  simp only [hpath]
  unfold putNewFile
  simp only
  rw [vHashmaps_write_key]
  simp only [insertFilters, length_modifyAt]
  exact length_extendFiles cfg s hwf

/-- The property of C11 within the machine limits: in append mode, in every state reached from a
freshly initialised keychain (bucket positions that fit 32 bits, at most `2 ^ 15` hashmap
files), when `(f, nKey)` is the least pair, ordered by file index first and window offset
second, whose occupancy bit `(f, bucket(k) + nKey)` is clear, `Put` of a record with key `k`
returns true, adds no file, inserts `k` in the bloom filter of file `f`, sets that occupancy bit
and no other, and writes the record at byte `(bucket(k) + nKey) * HASHMAP_KEY_ALLOCATION` of
file `f` and nothing else. -/
theorem put_oldest_first (cfg : Config) (ops : List Op) (r : SectorKey) (f nKey : Nat)
    (hcfg : cfg.Valid) (hnw : cfg.NoWrap) (happ : cfg.AppendMode)
    (hlen : (run cfg (fresh cfg) ops).vHashmaps.length ≤ 2 ^ 15)
    (hf : f < (run cfg (fresh cfg) ops).vHashmaps.length)
    (hk : nKey < windowKeys cfg (get_bucket cfg r.vKey))
    (hfree : occupied (run cfg (fresh cfg) ops) f (get_bucket cfg r.vKey + nKey) = false)
    (hleast : ∀ f2, f2 < (run cfg (fresh cfg) ops).vHashmaps.length →
      ∀ nKey2, nKey2 < windowKeys cfg (get_bucket cfg r.vKey) →
        occupied (run cfg (fresh cfg) ops) f2 (get_bucket cfg r.vKey + nKey2) = false →
        f < f2 ∨ (f = f2 ∧ nKey ≤ nKey2)) :
    (Put cfg (run cfg (fresh cfg) ops) r).1 = true ∧
    (Put cfg (run cfg (fresh cfg) ops) r).2.vHashmaps.length =
      (run cfg (fresh cfg) ops).vHashmaps.length ∧
    bloomHas cfg (Put cfg (run cfg (fresh cfg) ops) r).2 f r.vKey = true ∧
    (∀ j c, occupied (Put cfg (run cfg (fresh cfg) ops) r).2 j c =
      if j = f ∧ c = get_bucket cfg r.vKey + nKey then true
      else occupied (run cfg (fresh cfg) ops) j c) ∧
    (∀ j p, fileByte (Put cfg (run cfg (fresh cfg) ops) r).2 j p =
      if j = f ∧ (get_bucket cfg r.vKey + nKey) * HASHMAP_KEY_ALLOCATION ≤ p ∧
          p < (get_bucket cfg r.vKey + nKey) * HASHMAP_KEY_ALLOCATION + (putRecord r).length
      then (putRecord r).getD (p - (get_bucket cfg r.vKey + nKey) * HASHMAP_KEY_ALLOCATION) 0
      else fileByte (run cfg (fresh cfg) ops) j p) := by
  have hwf := WellFormed_run cfg ops hcfg hnw hlen
  obtain ⟨l1, l2, l3, l4⟩ := putPath_least cfg (run cfg (fresh cfg) ops) r happ hlen
  have hpath : putPath cfg (run cfg (fresh cfg) ops) r = PutPath.append f nKey := by
    cases hp : putPath cfg (run cfg (fresh cfg) ops) r with
    | failed => exact absurd hp l4
    | overwrite i k => exact absurd hp (l3 i k)
    | newFile =>
      have h := l2 hp f hf nKey hk
      rw [hfree] at h
      cases h
    | append i k =>
      obtain ⟨hi, hk2, hfree2, hbelow, hfiles⟩ := l1 i k hp
      have hif : i = f := by
        rcases hleast i hi k hk2 hfree2 with h | h
        · have h2 := hfiles f h nKey hk
          rw [hfree] at h2
          cases h2
        · exact h.1.symm
      subst hif
      have hkk : k = nKey := by
        rcases hleast i hi k hk2 hfree2 with h | h
        · omega
        · by_cases hlt : nKey < k
          · have h2 := hbelow nKey hlt
            rw [hfree] at h2
            cases h2
          · omega
      rw [hkk]
  obtain ⟨h1, _, _, h4, h5, hw⟩ :=
    Put_append_effect cfg (run cfg (fresh cfg) ops) r f nKey hcfg hnw hwf hlen hpath
  exact ⟨h1, h4, h5, hw.occupancy, hw.bytes⟩

/-- The property of C12 within the machine limits: in append mode, in every state reached from a
freshly initialised keychain (bucket positions that fit 32 bits, at most `2 ^ 15` hashmap files
after the call), `Put` returns true, and it increases the number of hashmap files by exactly one
if and only if every slot of the probe window of the key is occupied in every existing file; the
record is then written at the bucket of the key (window offset 0) in the new last file, whose
bloom filter receives the key and whose occupancy bit of that bucket is set, and nothing else
changes; otherwise the number of files is unchanged.  `Erase`, `Get` and `Flush` never change
the number of files. -/
theorem put_file_growth (cfg : Config) (ops : List Op) (r : SectorKey)
    (hcfg : cfg.Valid) (hnw : cfg.NoWrap) (happ : cfg.AppendMode)
    (hlen : (Put cfg (run cfg (fresh cfg) ops) r).2.vHashmaps.length ≤ 2 ^ 15) :
    (Put cfg (run cfg (fresh cfg) ops) r).1 = true ∧
    ((Put cfg (run cfg (fresh cfg) ops) r).2.vHashmaps.length =
        (run cfg (fresh cfg) ops).vHashmaps.length + 1 ↔
      ∀ f, f < (run cfg (fresh cfg) ops).vHashmaps.length →
        ∀ nKey, nKey < windowKeys cfg (get_bucket cfg r.vKey) →
          occupied (run cfg (fresh cfg) ops) f (get_bucket cfg r.vKey + nKey) = true) ∧
    ((Put cfg (run cfg (fresh cfg) ops) r).2.vHashmaps.length =
        (run cfg (fresh cfg) ops).vHashmaps.length + 1 →
      bloomHas cfg (Put cfg (run cfg (fresh cfg) ops) r).2
        (run cfg (fresh cfg) ops).vHashmaps.length r.vKey = true ∧
      (∀ j c, occupied (Put cfg (run cfg (fresh cfg) ops) r).2 j c =
        if j = (run cfg (fresh cfg) ops).vHashmaps.length ∧ c = get_bucket cfg r.vKey + 0
        then true else occupied (run cfg (fresh cfg) ops) j c) ∧
      (∀ j p, fileByte (Put cfg (run cfg (fresh cfg) ops) r).2 j p =
        if j = (run cfg (fresh cfg) ops).vHashmaps.length ∧
            (get_bucket cfg r.vKey + 0) * HASHMAP_KEY_ALLOCATION ≤ p ∧
            p < (get_bucket cfg r.vKey + 0) * HASHMAP_KEY_ALLOCATION + (putRecord r).length
        then (putRecord r).getD (p - (get_bucket cfg r.vKey + 0) * HASHMAP_KEY_ALLOCATION) 0
        else fileByte (run cfg (fresh cfg) ops) j p)) ∧
    ((Put cfg (run cfg (fresh cfg) ops) r).2.vHashmaps.length ≠
        (run cfg (fresh cfg) ops).vHashmaps.length + 1 →
      (Put cfg (run cfg (fresh cfg) ops) r).2.vHashmaps.length =
        (run cfg (fresh cfg) ops).vHashmaps.length) ∧
    (∀ k, (step cfg (run cfg (fresh cfg) ops) (Op.erase k)).vHashmaps.length =
      (run cfg (fresh cfg) ops).vHashmaps.length) ∧
    (∀ k, (step cfg (run cfg (fresh cfg) ops) (Op.get k)).vHashmaps.length =
      (run cfg (fresh cfg) ops).vHashmaps.length) ∧
    (step cfg (run cfg (fresh cfg) ops) Op.flush).vHashmaps.length =
      (run cfg (fresh cfg) ops).vHashmaps.length := by
  have hN : (run cfg (fresh cfg) ops).vHashmaps.length ≤ 2 ^ 15 :=
    Nat.le_trans (length_Put_ge cfg _ r) hlen
  have hwf := WellFormed_run cfg ops hcfg hnw hN
  obtain ⟨l1, l2, l3, l4⟩ := putPath_least cfg (run cfg (fresh cfg) ops) r happ hN
  refine ⟨?_, ?_, ?_, ?_, fun k => length_Erase cfg _ k, fun _ => rfl, length_Flush _⟩
  · obtain ⟨i, nKey, h, _⟩ := Put_effect cfg _ r hcfg hnw hwf hlen
    exact h
  · cases hp : putPath cfg (run cfg (fresh cfg) ops) r with
    | failed => exact absurd hp l4
    | overwrite i k => exact absurd hp (l3 i k)
    | newFile =>
      exact ⟨fun _ => l2 hp, fun _ => length_Put_newFile cfg _ r hwf hp⟩
    | append i k =>
      obtain ⟨hi, hk2, hfree2, _, _⟩ := l1 i k hp
      obtain ⟨_, _, _, h4, _, _⟩ := Put_append_effect cfg _ r i k hcfg hnw hwf hN hp
      constructor
      · intro h; omega
      · intro h
        have h2 := h i hi k hk2
        rw [hfree2] at h2
        cases h2
  · intro hnew
    cases hp : putPath cfg (run cfg (fresh cfg) ops) r with
    | failed => exact absurd hp l4
    | overwrite i k => exact absurd hp (l3 i k)
    | newFile =>
      obtain ⟨_, _, h3, hw⟩ :=
        Put_newFile_effect cfg _ r hcfg hnw hwf (by omega) hp
      exact ⟨h3, hw.occupancy, hw.bytes⟩
    | append i k =>
      obtain ⟨_, _, _, h4, _, _⟩ := Put_append_effect cfg _ r i k hcfg hnw hwf hN hp
      omega
  · intro hne
    cases hp : putPath cfg (run cfg (fresh cfg) ops) r with
    | failed => exact absurd hp l4
    | overwrite i k => exact absurd hp (l3 i k)
    | newFile => exact absurd (length_Put_newFile cfg _ r hwf hp) hne
    | append i k =>
      obtain ⟨_, _, _, h4, _, _⟩ := Put_append_effect cfg _ r i k hcfg hnw hwf hN hp
      exact h4

/-- An instance of `put_oldest_first` on a keychain of 16 buckets in append mode: after `Put` of
the keys `[3]` and `[6]` (bucket 14, slots 14 and 15 of file 0) and `Erase([3])`, the least free
slot of the window of key `[11]` (bucket 14) is slot 14 of file 0, and `Put` of `[11]` lands
there; `Get([6])` still succeeds and `Get([3])` returns false. -/
theorem put_oldest_first_witness :
    ((Put (exampleConfig 16 69 2)
        (run (exampleConfig 16 69 2) (fresh (exampleConfig 16 69 2))
          [Op.put (readyKey [3] 5 100 42), Op.put (readyKey [6] 5 100 42), Op.erase [3]])
        (readyKey [11] 9 9 9)).1 = true ∧
      (Put (exampleConfig 16 69 2)
        (run (exampleConfig 16 69 2) (fresh (exampleConfig 16 69 2))
          [Op.put (readyKey [3] 5 100 42), Op.put (readyKey [6] 5 100 42), Op.erase [3]])
        (readyKey [11] 9 9 9)).2.vHashmaps.length =
        (run (exampleConfig 16 69 2) (fresh (exampleConfig 16 69 2))
          [Op.put (readyKey [3] 5 100 42), Op.put (readyKey [6] 5 100 42),
           Op.erase [3]]).vHashmaps.length ∧
      bloomHas (exampleConfig 16 69 2)
        (Put (exampleConfig 16 69 2)
          (run (exampleConfig 16 69 2) (fresh (exampleConfig 16 69 2))
            [Op.put (readyKey [3] 5 100 42), Op.put (readyKey [6] 5 100 42), Op.erase [3]])
          (readyKey [11] 9 9 9)).2 0 (readyKey [11] 9 9 9).vKey = true ∧
      (∀ j c, occupied (Put (exampleConfig 16 69 2)
          (run (exampleConfig 16 69 2) (fresh (exampleConfig 16 69 2))
            [Op.put (readyKey [3] 5 100 42), Op.put (readyKey [6] 5 100 42), Op.erase [3]])
          (readyKey [11] 9 9 9)).2 j c =
        if j = 0 ∧ c = get_bucket (exampleConfig 16 69 2) (readyKey [11] 9 9 9).vKey + 0
        then true
        else occupied (run (exampleConfig 16 69 2) (fresh (exampleConfig 16 69 2))
          [Op.put (readyKey [3] 5 100 42), Op.put (readyKey [6] 5 100 42), Op.erase [3]])
          j c) ∧
      (∀ j p, fileByte (Put (exampleConfig 16 69 2)
          (run (exampleConfig 16 69 2) (fresh (exampleConfig 16 69 2))
            [Op.put (readyKey [3] 5 100 42), Op.put (readyKey [6] 5 100 42), Op.erase [3]])
          (readyKey [11] 9 9 9)).2 j p =
        if j = 0 ∧
            (get_bucket (exampleConfig 16 69 2) (readyKey [11] 9 9 9).vKey + 0) *
              HASHMAP_KEY_ALLOCATION ≤ p ∧
            p < (get_bucket (exampleConfig 16 69 2) (readyKey [11] 9 9 9).vKey + 0) *
              HASHMAP_KEY_ALLOCATION + (putRecord (readyKey [11] 9 9 9)).length
        then (putRecord (readyKey [11] 9 9 9)).getD
          (p - (get_bucket (exampleConfig 16 69 2) (readyKey [11] 9 9 9).vKey + 0) *
            HASHMAP_KEY_ALLOCATION) 0
        else fileByte (run (exampleConfig 16 69 2) (fresh (exampleConfig 16 69 2))
          [Op.put (readyKey [3] 5 100 42), Op.put (readyKey [6] 5 100 42), Op.erase [3]])
          j p)) ∧
    get_bucket (exampleConfig 16 69 2) [11] = 14 ∧
    get_bucket (exampleConfig 16 69 2) [3] = 14 ∧
    get_bucket (exampleConfig 16 69 2) [6] = 14 ∧
    (Get (exampleConfig 16 69 2)
      (run (exampleConfig 16 69 2) (fresh (exampleConfig 16 69 2))
        [Op.put (readyKey [3] 5 100 42), Op.put (readyKey [6] 5 100 42), Op.erase [3],
         Op.put (readyKey [11] 9 9 9)]) [11] blankKey) = (true, readyKey [11] 9 9 9) ∧
    (Get (exampleConfig 16 69 2)
      (run (exampleConfig 16 69 2) (fresh (exampleConfig 16 69 2))
        [Op.put (readyKey [3] 5 100 42), Op.put (readyKey [6] 5 100 42), Op.erase [3],
         Op.put (readyKey [11] 9 9 9)]) [6] blankKey).1 = true ∧
    (Get (exampleConfig 16 69 2)
      (run (exampleConfig 16 69 2) (fresh (exampleConfig 16 69 2))
        [Op.put (readyKey [3] 5 100 42), Op.put (readyKey [6] 5 100 42), Op.erase [3],
         Op.put (readyKey [11] 9 9 9)]) [3] blankKey).1 = false :=
  ⟨put_oldest_first (exampleConfig 16 69 2)
      [Op.put (readyKey [3] 5 100 42), Op.put (readyKey [6] 5 100 42), Op.erase [3]]
      (readyKey [11] 9 9 9) 0 0 (by decide) (by decide) (by decide) (by decide) (by decide)
      (by decide) (by decide) (by decide),
    by decide, by decide, by decide, by decide, by decide, by decide⟩

/-- An instance of `put_file_growth` on a keychain of 16 buckets in append mode: sixteen keys of
bucket 0 fill the slots 0 to 15 of file 0, and `Put` of a seventeenth key of bucket 0 adds file
1 and writes its record at slot 0 of file 1; `Get` of the seventeenth key returns its record. -/
theorem put_file_growth_witness :
    (∀ vKey, vKey ∈ exampleBucketZero → get_bucket (exampleConfig 16 69 2) vKey = 0) ∧
    exampleBucketZero.Nodup ∧ exampleBucketZero.length = 17 ∧
    (run (exampleConfig 16 69 2) (fresh (exampleConfig 16 69 2))
      exampleSixteenPuts).vHashmaps.length = 1 ∧
    (∀ nKey, nKey < 16 → occupied (run (exampleConfig 16 69 2) (fresh (exampleConfig 16 69 2))
      exampleSixteenPuts) 0 nKey = true) ∧
    (∀ nKey, nKey < 16 → fileByte (run (exampleConfig 16 69 2) (fresh (exampleConfig 16 69 2))
      exampleSixteenPuts) 0 (nKey * HASHMAP_KEY_ALLOCATION + 13) =
        (exampleBucketZero.getD nKey []).getD 0 0) ∧
    (Put (exampleConfig 16 69 2)
      (run (exampleConfig 16 69 2) (fresh (exampleConfig 16 69 2)) exampleSixteenPuts)
      (readyKey [172] 6 200 43)).2.vHashmaps.length = 2 ∧
    fileByte (Put (exampleConfig 16 69 2)
      (run (exampleConfig 16 69 2) (fresh (exampleConfig 16 69 2)) exampleSixteenPuts)
      (readyKey [172] 6 200 43)).2 1 13 = 172 ∧
    Get (exampleConfig 16 69 2)
      (Put (exampleConfig 16 69 2)
        (run (exampleConfig 16 69 2) (fresh (exampleConfig 16 69 2)) exampleSixteenPuts)
        (readyKey [172] 6 200 43)).2 [172] blankKey = (true, readyKey [172] 6 200 43) ∧
    ((Put (exampleConfig 16 69 2)
        (run (exampleConfig 16 69 2) (fresh (exampleConfig 16 69 2)) exampleSixteenPuts)
        (readyKey [172] 6 200 43)).2.vHashmaps.length =
        (run (exampleConfig 16 69 2) (fresh (exampleConfig 16 69 2))
          exampleSixteenPuts).vHashmaps.length + 1 ↔
      ∀ f, f < (run (exampleConfig 16 69 2) (fresh (exampleConfig 16 69 2))
          exampleSixteenPuts).vHashmaps.length →
        ∀ nKey, nKey < windowKeys (exampleConfig 16 69 2)
            (get_bucket (exampleConfig 16 69 2) (readyKey [172] 6 200 43).vKey) →
          occupied (run (exampleConfig 16 69 2) (fresh (exampleConfig 16 69 2))
            exampleSixteenPuts) f
            (get_bucket (exampleConfig 16 69 2) (readyKey [172] 6 200 43).vKey + nKey)
            = true) :=
  ⟨by decide, by decide, by decide, by decide, by decide, by decide, by decide, by decide,
    by decide,
    (put_file_growth (exampleConfig 16 69 2) exampleSixteenPuts (readyKey [172] 6 200 43)
      (by decide) (by decide) (by decide) (by decide)).2.1⟩

/-! ### `Get` and `Erase` read the probe window only -/

theorem getSlots_congr (occ occ2 : HashMapFilter) (vB ck : List Nat) (b : Nat) (l : List Nat)
    (c : SectorKey) (h : ∀ nKey, nKey ∈ l → occ.Has (b + nKey) = occ2.Has (b + nKey)) :
    getSlots occ vB ck b l c = getSlots occ2 vB ck b l c := by
  induction l generalizing c with
  | nil => rfl
  | cons a t ih =>
    have ht : ∀ nKey, nKey ∈ t → occ.Has (b + nKey) = occ2.Has (b + nKey) :=
      fun n hn => h n (List.mem_cons_of_mem _ hn)
    have ih2 : ∀ c2, getSlots occ vB ck b t c2 = getSlots occ2 vB ck b t c2 :=
      fun c2 => ih c2 ht
    unfold getSlots
    simp only [h a (List.mem_cons_self _ _), ih2]

theorem matchSlot_congr (occ occ2 : HashMapFilter) (vB ck : List Nat) (b : Nat) (l : List Nat)
    (h : ∀ nKey, nKey ∈ l → occ.Has (b + nKey) = occ2.Has (b + nKey)) :
    matchSlot occ vB ck b l = matchSlot occ2 vB ck b l := by
  induction l with
  | nil => rfl
  | cons a t ih =>
    have ht : ∀ nKey, nKey ∈ t → occ.Has (b + nKey) = occ2.Has (b + nKey) :=
      fun n hn => h n (List.mem_cons_of_mem _ hn)
    unfold matchSlot
    rw [h a (List.mem_cons_self _ _), ih ht]

theorem readAt_congr (file file2 : List Nat) (nPos : Nat) (vBuffer : List Nat)
    (h1 : nPos + vBuffer.length ≤ file.length) (h2 : nPos + vBuffer.length ≤ file2.length)
    (h : ∀ j, j < vBuffer.length → file.getD (nPos + j) 0 = file2.getD (nPos + j) 0) :
    readAt file nPos vBuffer = readAt file2 nPos vBuffer := by
  apply List.ext_getElem
  · rw [length_readAt, length_readAt]
  · intro n hn1 hn2
    rw [← List.getD_eq_getElem _ 0 hn1, ← List.getD_eq_getElem _ 0 hn2,
      getD_readAt _ _ _ _ h1, getD_readAt _ _ _ _ h2]
    rw [length_readAt] at hn1
    rw [if_pos hn1, if_pos hn1]
    exact h n hn1

theorem window_read_congr (cfg : Config) (s t : BinaryHashMap) (k : List Nat)
    (hcfg : cfg.Valid) (hnw : cfg.NoWrap) (hwfs : WellFormed cfg s) (hwft : WellFormed cfg t)
    (hsame : SameWindow cfg s t k) (i : Nat) (hi : i < s.vHashmaps.length)
    (files filet buf : List Nat)
    (hfs : lookupFile s.hashmapFiles i = some files)
    (hft : lookupFile t.hashmapFiles i = some filet)
    (hbuf : buf.length = HASHMAP_KEY_ALLOCATION * windowKeys cfg (get_bucket cfg k)) :
    readAt files (filePos (get_bucket cfg k)) buf =
      readAt filet (filePos (get_bucket cfg k)) buf := by
  have hb := get_bucket_lt cfg k hcfg.1
  have hwin := windowKeys_add_le cfg _ hb
  have h45 := key_allocation_eq
  obtain ⟨fs, hfs1, hfs2⟩ := hwfs.present i hi
  obtain ⟨ft, hft1, hft2⟩ := hwft.present i (by rw [← hsame.1]; exact hi)
  rw [hfs] at hfs1
  rw [hft] at hft1
  cases hfs1
  cases hft1
  rw [filePos_eq cfg _ hnw hb]
  have hle : get_bucket cfg k * HASHMAP_KEY_ALLOCATION + buf.length ≤
      cfg.HASHMAP_TOTAL_BUCKETS * HASHMAP_KEY_ALLOCATION := by
    rw [hbuf, Nat.mul_comm HASHMAP_KEY_ALLOCATION, ← Nat.add_mul]
    exact Nat.mul_le_mul_right _ hwin
  apply readAt_congr
  · rw [hfs2]; exact hle
  · rw [hft2]; exact hle
  · intro j hj
    rw [← fileByte_eq s i _ _ hfs, ← fileByte_eq t i _ _ hft]
    have hq : j % HASHMAP_KEY_ALLOCATION < HASHMAP_KEY_ALLOCATION :=
      Nat.mod_lt _ (by rw [h45]; decide)
    have hn : j / HASHMAP_KEY_ALLOCATION < windowKeys cfg (get_bucket cfg k) := by
      rw [Nat.div_lt_iff_lt_mul (by rw [h45]; decide), Nat.mul_comm]
      rw [hbuf] at hj
      exact hj
    have h := ((hsame.2 i hi).2 (j / HASHMAP_KEY_ALLOCATION) hn).2
      (j % HASHMAP_KEY_ALLOCATION) hq
    have e : (get_bucket cfg k + j / HASHMAP_KEY_ALLOCATION) * HASHMAP_KEY_ALLOCATION +
        j % HASHMAP_KEY_ALLOCATION = get_bucket cfg k * HASHMAP_KEY_ALLOCATION + j := by
      rw [Nat.add_mul, Nat.add_assoc, Nat.mul_comm (j / HASHMAP_KEY_ALLOCATION),
        Nat.div_add_mod]
    rw [e] at h
    exact h

theorem getFiles_congr (cfg : Config) (s t : BinaryHashMap) (k ck : List Nat)
    (hcfg : cfg.Valid) (hnw : cfg.NoWrap) (hwfs : WellFormed cfg s) (hwft : WellFormed cfg t)
    (hsame : SameWindow cfg s t k) :
    ∀ (l : List Nat), (∀ j, j ∈ l → j < s.vHashmaps.length) → ∀ (buf : List Nat),
      buf.length = HASHMAP_KEY_ALLOCATION * windowKeys cfg (get_bucket cfg k) →
      ∀ (c : SectorKey), c.vKey = k →
        getFiles cfg s ck (get_bucket cfg k) l buf c =
          getFiles cfg t ck (get_bucket cfg k) l buf c := by
  intro l
  induction l with
  | nil => intro _ _ _ _ _; rfl
  | cons i rest ih =>
    intro hl buf hbuf c hc
    have hi : i < s.vHashmaps.length := hl i (List.mem_cons_self _ _)
    have hit : i < t.vHashmaps.length := by rw [← hsame.1]; exact hi
    have hrest : ∀ j, j ∈ rest → j < s.vHashmaps.length :=
      fun j hj => hl j (List.mem_cons_of_mem _ hj)
    obtain ⟨ps, hps⟩ : ∃ p, s.vHashmaps[i]? = some p := ⟨_, List.getElem?_eq_getElem hi⟩
    obtain ⟨pt, hpt⟩ : ∃ p, t.vHashmaps[i]? = some p := ⟨_, List.getElem?_eq_getElem hit⟩
    obtain ⟨bls, ocs⟩ := ps
    obtain ⟨blt, oct⟩ := pt
    have hbl : bls.Has cfg.XXH64 c.vKey = blt.Has cfg.XXH64 c.vKey := by
      have h := (hsame.2 i hi).1
      unfold bloomHas at h
      rw [hps, hpt] at h
      rw [hc]
      exact h
    have hoc : ∀ nKey, nKey < windowKeys cfg (get_bucket cfg k) →
        ocs.Has (get_bucket cfg k + nKey) = oct.Has (get_bucket cfg k + nKey) := by
      intro n hn
      have h := ((hsame.2 i hi).2 n hn).1
      unfold occupied at h
      rw [hps, hpt] at h
      exact h
    obtain ⟨files, hfs, _⟩ := hwfs.present i hi
    obtain ⟨filet, hft, _⟩ := hwft.present i hit
    have hread := window_read_congr cfg s t k hcfg hnw hwfs hwft hsame i hi files filet buf
      hfs hft hbuf
    unfold getFiles
    simp only [hps, hpt, hfs, hft]
    rw [← hbl, ← hread]
    cases hB : bls.Has cfg.XXH64 c.vKey with
    | false =>
      simp only [Bool.not_false, if_true]
      exact ih hrest buf hbuf c hc
    | true =>
      simp only [Bool.not_true, Bool.false_eq_true, if_false]
      have hkeys : (readAt files (filePos (get_bucket cfg k)) buf).length /
          HASHMAP_KEY_ALLOCATION = windowKeys cfg (get_bucket cfg k) := by
        rw [length_readAt, hbuf]
        exact Nat.mul_div_cancel_left _ (by rw [key_allocation_eq]; decide)
      have hslots : ∀ c2 : SectorKey,
          getSlots ocs (readAt files (filePos (get_bucket cfg k)) buf) ck (get_bucket cfg k)
            (List.range ((readAt files (filePos (get_bucket cfg k)) buf).length /
              HASHMAP_KEY_ALLOCATION)) c2 =
          getSlots oct (readAt files (filePos (get_bucket cfg k)) buf) ck (get_bucket cfg k)
            (List.range ((readAt files (filePos (get_bucket cfg k)) buf).length /
              HASHMAP_KEY_ALLOCATION)) c2 := by
        intro c2
        apply getSlots_congr
        intro n hn
        rw [List.mem_range, hkeys] at hn
        exact hoc n hn
      rw [← hslots]
      split
      · rfl
      · apply ih hrest
        · rw [length_readAt]; exact hbuf
        · rw [getSlots_vKey]; exact hc

theorem scanFiles_congr (cfg : Config) (s t : BinaryHashMap) (k ck : List Nat)
    (hcfg : cfg.Valid) (hnw : cfg.NoWrap) (hwfs : WellFormed cfg s) (hwft : WellFormed cfg t)
    (hsame : SameWindow cfg s t k) :
    ∀ (l : List Nat), (∀ j, j ∈ l → j < s.vHashmaps.length) → ∀ (buf : List Nat),
      buf.length = HASHMAP_KEY_ALLOCATION * windowKeys cfg (get_bucket cfg k) →
        scanFiles cfg s k ck (get_bucket cfg k) l buf =
          scanFiles cfg t k ck (get_bucket cfg k) l buf := by
  intro l
  induction l with
  | nil => intro _ _ _; rfl
  | cons i rest ih =>
    intro hl buf hbuf
    have hi : i < s.vHashmaps.length := hl i (List.mem_cons_self _ _)
    have hit : i < t.vHashmaps.length := by rw [← hsame.1]; exact hi
    have hrest : ∀ j, j ∈ rest → j < s.vHashmaps.length :=
      fun j hj => hl j (List.mem_cons_of_mem _ hj)
    obtain ⟨ps, hps⟩ : ∃ p, s.vHashmaps[i]? = some p := ⟨_, List.getElem?_eq_getElem hi⟩
    obtain ⟨pt, hpt⟩ : ∃ p, t.vHashmaps[i]? = some p := ⟨_, List.getElem?_eq_getElem hit⟩
    obtain ⟨bls, ocs⟩ := ps
    obtain ⟨blt, oct⟩ := pt
    have hbl : bls.Has cfg.XXH64 k = blt.Has cfg.XXH64 k := by
      have h := (hsame.2 i hi).1
      unfold bloomHas at h
      rw [hps, hpt] at h
      exact h
    have hoc : ∀ nKey, nKey < windowKeys cfg (get_bucket cfg k) →
        ocs.Has (get_bucket cfg k + nKey) = oct.Has (get_bucket cfg k + nKey) := by
      intro n hn
      have h := ((hsame.2 i hi).2 n hn).1
      unfold occupied at h
      rw [hps, hpt] at h
      exact h
    obtain ⟨files, hfs, _⟩ := hwfs.present i hi
    obtain ⟨filet, hft, _⟩ := hwft.present i hit
    have hread := window_read_congr cfg s t k hcfg hnw hwfs hwft hsame i hi files filet buf
      hfs hft hbuf
    unfold scanFiles
    simp only [hps, hpt, hfs, hft]
    rw [← hbl, ← hread]
    cases hB : bls.Has cfg.XXH64 k with
    | false =>
      simp only [Bool.not_false, if_true]
      exact ih hrest buf hbuf
    | true =>
      simp only [Bool.not_true, Bool.false_eq_true, if_false]
      have hkeys : (readAt files (filePos (get_bucket cfg k)) buf).length /
          HASHMAP_KEY_ALLOCATION = windowKeys cfg (get_bucket cfg k) := by
        rw [length_readAt, hbuf]
        exact Nat.mul_div_cancel_left _ (by rw [key_allocation_eq]; decide)
      have hslots :
          matchSlot ocs (readAt files (filePos (get_bucket cfg k)) buf) ck (get_bucket cfg k)
            (List.range ((readAt files (filePos (get_bucket cfg k)) buf).length /
              HASHMAP_KEY_ALLOCATION)) =
          matchSlot oct (readAt files (filePos (get_bucket cfg k)) buf) ck (get_bucket cfg k)
            (List.range ((readAt files (filePos (get_bucket cfg k)) buf).length /
              HASHMAP_KEY_ALLOCATION)) := by
        apply matchSlot_congr
        intro n hn
        rw [List.mem_range, hkeys] at hn
        exact hoc n hn
      rw [← hslots]
      split
      · rfl
      · apply ih hrest
        rw [length_readAt]; exact hbuf

theorem Erase_congr (cfg : Config) (s t : BinaryHashMap) (k : List Nat)
    (hcfg : cfg.Valid) (hnw : cfg.NoWrap) (hwfs : WellFormed cfg s) (hwft : WellFormed cfg t)
    (hls : s.vHashmaps.length ≤ 2 ^ 15) (hsame : SameWindow cfg s t k) :
    (Erase cfg s k).1 = (Erase cfg t k).1 ∧
      SameWindow cfg (Erase cfg s k).2 (Erase cfg t k).2 k := by
  have hlt : t.vHashmaps.length ≤ 2 ^ 15 := by rw [← hsame.1]; exact hls
  have hscan := scanFiles_congr cfg s t k (compress_key k HASHMAP_MAX_KEY_SIZE) hcfg hnw hwfs
    hwft hsame (descendingFiles s.vHashmaps.length)
    (fun j hj => mem_descendingFiles _ _ hls hj) (newBucketBuffer cfg (get_bucket cfg k))
    (newBucketBuffer_length cfg _)
  cases hs : scanFiles cfg s k (compress_key k HASHMAP_MAX_KEY_SIZE) (get_bucket cfg k)
      (descendingFiles s.vHashmaps.length) (newBucketBuffer cfg (get_bucket cfg k)) with
  | failed => exact absurd hs (scanFiles_ne_failed cfg s hwfs _ _ _ _ _)
  | absent =>
    have ht : scanFiles cfg t k (compress_key k HASHMAP_MAX_KEY_SIZE) (get_bucket cfg k)
        (descendingFiles t.vHashmaps.length) (newBucketBuffer cfg (get_bucket cfg k)) =
        Scan.absent := by
      rw [← hsame.1, ← hscan]; exact hs
    have e1 : Erase cfg s k = (false, s) := by
      unfold Erase; simp only [hs]
    have e2 : Erase cfg t k = (false, t) := by
      unfold Erase; simp only [ht]
    rw [e1, e2]
    exact ⟨rfl, hsame⟩
  | found i nKey =>
    have ht : scanFiles cfg t k (compress_key k HASHMAP_MAX_KEY_SIZE) (get_bucket cfg k)
        (descendingFiles t.vHashmaps.length) (newBucketBuffer cfg (get_bucket cfg k)) =
        Scan.found i nKey := by
      rw [← hsame.1, ← hscan]; exact hs
    obtain ⟨a1, _, a3, a4⟩ := Erase_found_effect cfg s k i nKey hcfg hnw hwfs hls hs
    obtain ⟨b1, _, b3, b4⟩ := Erase_found_effect cfg t k i nKey hcfg hnw hwft hlt ht
    refine ⟨by rw [a1, b1], ?_, ?_⟩
    · rw [length_Erase, length_Erase]; exact hsame.1
    · intro f hf
      rw [length_Erase] at hf
      obtain ⟨h1, h2⟩ := hsame.2 f hf
      refine ⟨by rw [a3, b3]; exact h1, ?_⟩
      intro n hn
      obtain ⟨h3, h4⟩ := h2 n hn
      refine ⟨?_, ?_⟩
      · rw [a4.occupancy, b4.occupancy, h3]
      · intro q hq
        rw [a4.bytes, b4.bytes, h4 q hq]

/-- The property of C13 within the machine limits: in every state reached from a freshly
initialised keychain (bucket positions that fit 32 bits, at most `2 ^ 15` hashmap files), `Put`
of a record with key `k` returns true and writes one slot, whose bucket index lies in
`[bucket(k), min(bucket(k) + HASHMAP_MAX_KEYS_LINEAR_PROBE, HASHMAP_TOTAL_BUCKETS))`, where
`bucket(k) = (XXH64(k, 0) / 7) mod HASHMAP_TOTAL_BUCKETS`: the occupancy bit of that slot is
set, its bytes receive the record, and no other bit or byte changes.  `Get(k)` and `Erase(k)`
read nothing outside that range: on two reachable states that agree on the probe window of `k`,
`Get(k)` returns the same result, `Erase(k)` returns the same result, and the two states after
`Erase(k)` still agree on the probe window. -/
theorem bucket_locality (cfg : Config) (ops ops2 : List Op) (r c0 : SectorKey)
    (hcfg : cfg.Valid) (hnw : cfg.NoWrap)
    (hlen : (Put cfg (run cfg (fresh cfg) ops) r).2.vHashmaps.length ≤ 2 ^ 15)
    (hlen2 : (run cfg (fresh cfg) ops2).vHashmaps.length ≤ 2 ^ 15) :
    get_bucket cfg r.vKey = (cfg.XXH64 r.vKey 0 % 2 ^ 64) / 7 % cfg.HASHMAP_TOTAL_BUCKETS ∧
    (∃ i c, get_bucket cfg r.vKey ≤ c ∧
      c < min (get_bucket cfg r.vKey + HASHMAP_MAX_KEYS_LINEAR_PROBE)
        cfg.HASHMAP_TOTAL_BUCKETS ∧
      (Put cfg (run cfg (fresh cfg) ops) r).1 = true ∧
      (∀ j c2, occupied (Put cfg (run cfg (fresh cfg) ops) r).2 j c2 =
        if j = i ∧ c2 = c then true else occupied (run cfg (fresh cfg) ops) j c2) ∧
      (∀ j p, fileByte (Put cfg (run cfg (fresh cfg) ops) r).2 j p =
        if j = i ∧ c * HASHMAP_KEY_ALLOCATION ≤ p ∧
            p < c * HASHMAP_KEY_ALLOCATION + (putRecord r).length
        then (putRecord r).getD (p - c * HASHMAP_KEY_ALLOCATION) 0
        else fileByte (run cfg (fresh cfg) ops) j p)) ∧
    (SameWindow cfg (run cfg (fresh cfg) ops) (run cfg (fresh cfg) ops2) r.vKey →
      Get cfg (run cfg (fresh cfg) ops) r.vKey c0 =
        Get cfg (run cfg (fresh cfg) ops2) r.vKey c0 ∧
      (Erase cfg (run cfg (fresh cfg) ops) r.vKey).1 =
        (Erase cfg (run cfg (fresh cfg) ops2) r.vKey).1 ∧
      SameWindow cfg (Erase cfg (run cfg (fresh cfg) ops) r.vKey).2
        (Erase cfg (run cfg (fresh cfg) ops2) r.vKey).2 r.vKey) := by
  have hN : (run cfg (fresh cfg) ops).vHashmaps.length ≤ 2 ^ 15 :=
    Nat.le_trans (length_Put_ge cfg _ r) hlen
  have hwf := WellFormed_run cfg ops hcfg hnw hN
  have hwf2 := WellFormed_run cfg ops2 hcfg hnw hlen2
  have hb := get_bucket_lt cfg r.vKey hcfg.1
  refine ⟨rfl, ?_, ?_⟩
  · obtain ⟨i, nKey, h1, _, hk, _, _, hw⟩ := Put_effect cfg _ r hcfg hnw hwf hlen
    refine ⟨i, get_bucket cfg r.vKey + nKey, Nat.le_add_right _ _, ?_, h1, hw.occupancy,
      hw.bytes⟩
    unfold windowKeys at hk
    omega
  · intro hsame
    refine ⟨?_, Erase_congr cfg _ _ r.vKey hcfg hnw hwf hwf2 hN hsame⟩
    unfold Get
    simp only
    rw [← hsame.1]
    exact getFiles_congr cfg _ _ r.vKey _ hcfg hnw hwf hwf2 hsame _
      (fun j hj => mem_descendingFiles _ _ hN hj) _ (newBucketBuffer_length cfg _) _ rfl



/-- An instance of `bucket_locality` on a keychain of 2 buckets in append mode: the states after
`Put([1])` and after `Put([3])` followed by `Put([1])` differ in slot 0 of file 0 (the bucket of
key `[3]`) and agree on the probe window of key `[1]` (slot 1). -/
theorem bucket_locality_witness :
    occupied (run (exampleConfig 2 8 2) (fresh (exampleConfig 2 8 2))
      [Op.put (readyKey [1] 5 100 42)]) 0 0 = false ∧
    occupied (run (exampleConfig 2 8 2) (fresh (exampleConfig 2 8 2))
      [Op.put (readyKey [3] 1 2 3), Op.put (readyKey [1] 5 100 42)]) 0 0 = true ∧
    Get (exampleConfig 2 8 2)
        (run (exampleConfig 2 8 2) (fresh (exampleConfig 2 8 2))
          [Op.put (readyKey [1] 5 100 42)]) (readyKey [1] 6 200 43).vKey blankKey =
      Get (exampleConfig 2 8 2)
        (run (exampleConfig 2 8 2) (fresh (exampleConfig 2 8 2))
          [Op.put (readyKey [3] 1 2 3), Op.put (readyKey [1] 5 100 42)])
        (readyKey [1] 6 200 43).vKey blankKey ∧
    (Erase (exampleConfig 2 8 2)
        (run (exampleConfig 2 8 2) (fresh (exampleConfig 2 8 2))
          [Op.put (readyKey [1] 5 100 42)]) (readyKey [1] 6 200 43).vKey).1 =
      (Erase (exampleConfig 2 8 2)
        (run (exampleConfig 2 8 2) (fresh (exampleConfig 2 8 2))
          [Op.put (readyKey [3] 1 2 3), Op.put (readyKey [1] 5 100 42)])
        (readyKey [1] 6 200 43).vKey).1 ∧
    SameWindow (exampleConfig 2 8 2)
      (Erase (exampleConfig 2 8 2)
        (run (exampleConfig 2 8 2) (fresh (exampleConfig 2 8 2))
          [Op.put (readyKey [1] 5 100 42)]) (readyKey [1] 6 200 43).vKey).2
      (Erase (exampleConfig 2 8 2)
        (run (exampleConfig 2 8 2) (fresh (exampleConfig 2 8 2))
          [Op.put (readyKey [3] 1 2 3), Op.put (readyKey [1] 5 100 42)])
        (readyKey [1] 6 200 43).vKey).2 (readyKey [1] 6 200 43).vKey :=
  ⟨by decide, by decide,
    (bucket_locality (exampleConfig 2 8 2) [Op.put (readyKey [1] 5 100 42)]
      [Op.put (readyKey [3] 1 2 3), Op.put (readyKey [1] 5 100 42)] (readyKey [1] 6 200 43)
      blankKey (by decide) (by decide) (by decide) (by decide)).2.2 (by decide)⟩

/-! ### Bloom filters and occupancy filters on their own -/

theorem BloomFilter.Has_foldl_Insert (h : List Nat → Nat → Nat) (ks : List (List Nat))
    (f : BloomFilter) (k : List Nat) (hk : BloomFilter.Has h f k = true) :
    BloomFilter.Has h (ks.foldl (BloomFilter.Insert h) f) k = true := by
  induction ks generalizing f with
  | nil => exact hk
  | cons k2 rest ih => exact ih _ (BloomFilter.Has_Insert_mono h f k2 k hk)

/-- C22: for every bloom filter of bit capacity `m` with `0 < m < 2 ^ 38` (so that the
register index of `set_bit` fits its `uint32_t`) and every key `k`, `Has(k)` is true after
`Insert(k)` and after any further sequence of `Insert` calls with arbitrary keys. -/
theorem bloom_no_false_negative (XXH64 : List Nat → Nat → Nat) (m : Nat) (f : BloomFilter)
    (k : List Nat) (ks : List (List Nat)) (hs : BloomFilter.Sized m f) (hm : 0 < m)
    (hm2 : m < 2 ^ 38) :
    BloomFilter.Has XXH64 (BloomFilter.Insert XXH64 f k) k = true ∧
    BloomFilter.Has XXH64 (ks.foldl (BloomFilter.Insert XXH64) (BloomFilter.Insert XXH64 f k)) k
      = true :=
  ⟨BloomFilter.Has_Insert_self XXH64 m f k hs hm hm2,
    BloomFilter.Has_foldl_Insert XXH64 ks _ k (BloomFilter.Has_Insert_self XXH64 m f k hs hm hm2)⟩

/-- C23: a freshly constructed `HashMapFilter(n)` has `Has(b) = false` for every `b`; for a
filter of `n` elements with `n < 2 ^ 38` and every bucket `b ≤ n`, `Has(b)` is true after
`Insert(b)` and false after `Erase(b)`, and `Has(c)` for every `c ≠ b` is unchanged by either
operation. -/
theorem occupancy_exact (n : Nat) (f : HashMapFilter) (b : Nat)
    (hs : HashMapFilter.Sized n f) (hb : b ≤ n) (hn : n < 2 ^ 38) :
    (∀ c, (HashMapFilter.create n).Has c = false) ∧
    (f.Insert b).Has b = true ∧ (f.Erase b).Has b = false ∧
    ∀ c, c ≠ b → (f.Insert b).Has c = f.Has c ∧ (f.Erase b).Has c = f.Has c := by
  unfold HashMapFilter.Sized at hs
  have h1 : b / 64 < f.vRegisters.length := by rw [hs]; omega
  have h2 : b / 64 < 2 ^ 32 := by omega
  refine ⟨fun c => HashMapFilter.Has_create n c, ?_, ?_, ?_⟩
  · unfold HashMapFilter.Has HashMapFilter.Insert
    rw [BitArray.is_set_set_bit _ _ _ h1 h2]
    simp
  · unfold HashMapFilter.Has HashMapFilter.Erase
    rw [BitArray.is_set_clear_bit _ _ _ h1 h2]
    simp
  · intro c hc
    unfold HashMapFilter.Has HashMapFilter.Insert HashMapFilter.Erase
    rw [BitArray.is_set_set_bit _ _ _ h1 h2, BitArray.is_set_clear_bit _ _ _ h1 h2]
    simp [hc]

/-! ### The modified range of a bit array -/

theorem BitArray.mark_fields (b : BitArray) (r : Nat) (h : r + 1 < 2 ^ 32) :
    (b.mark r).fModified = true ∧ (b.mark r).vRegisters = b.vRegisters ∧
    (b.mark r).nModifiedBegin =
      (if b.fModified = true then (if r < b.nModifiedBegin then r else b.nModifiedBegin)
       else r) ∧
    (b.mark r).nModifiedEnd =
      (if b.fModified = true then (if r ≥ b.nModifiedEnd then r + 1 else b.nModifiedEnd)
       else r + 1) := by
  unfold BitArray.mark
  rw [Nat.mod_eq_of_lt h]
  cases hf : b.fModified
  · simp only [Bool.not_false, if_true, Bool.false_eq_true, if_false, and_self]
  · simp only [Bool.not_true, Bool.false_eq_true, if_false, if_true, and_self]

theorem getD_set_ne (l : List Nat) (r j v : Nat) (h : j ≠ r) :
    (List.set l r v).getD j 0 = l.getD j 0 := by
  rw [List.getD_eq_getElem?_getD, List.getD_eq_getElem?_getD, List.getElem?_set]
  rw [if_neg (Ne.symm h)]

theorem BitArray.apply_fields (b : BitArray) (o : BitOp) (h32 : o.nIndex / 64 + 1 < 2 ^ 32) :
    (b.apply o).fModified = true ∧
    (b.apply o).vRegisters.length = b.vRegisters.length ∧
    (b.apply o).nModifiedBegin =
      (if b.fModified = true then
        (if o.nIndex / 64 < b.nModifiedBegin then o.nIndex / 64 else b.nModifiedBegin)
       else o.nIndex / 64) ∧
    (b.apply o).nModifiedEnd =
      (if b.fModified = true then
        (if o.nIndex / 64 ≥ b.nModifiedEnd then o.nIndex / 64 + 1 else b.nModifiedEnd)
       else o.nIndex / 64 + 1) ∧
    ∀ j, j ≠ o.nIndex / 64 → (b.apply o).vRegisters.getD j 0 = b.vRegisters.getD j 0 := by
  have e1 : o.nIndex / 64 % 2 ^ 32 = o.nIndex / 64 := Nat.mod_eq_of_lt (by omega)
  obtain ⟨m1, m2, m3, m4⟩ := BitArray.mark_fields b (o.nIndex / 64) h32
  cases o with
  | set i =>
    simp only [BitOp.nIndex] at e1 m1 m2 m3 m4 ⊢
    simp only [BitArray.apply, BitArray.set_bit, e1]
    refine ⟨m1, ?_, m3, m4, ?_⟩
    · rw [List.length_set, m2]
    · intro j hj
      rw [getD_set_ne _ _ _ _ hj, m2]
  | clear i =>
    simp only [BitOp.nIndex] at e1 m1 m2 m3 m4 ⊢
    simp only [BitArray.apply, BitArray.clear_bit, e1]
    refine ⟨m1, ?_, m3, m4, ?_⟩
    · rw [List.length_set, m2]
    · intro j hj
      rw [getD_set_ne _ _ _ _ hj, m2]

theorem Tracked_first (a : BitArray) (o : BitOp) (hflag : a.fModified = false)
    (h32 : o.nIndex / 64 + 1 < 2 ^ 32) : Tracked a (a.apply o) [o] := by
  obtain ⟨h1, h2, h3, h4, h5⟩ := BitArray.apply_fields a o h32
  simp only [hflag, Bool.false_eq_true, if_false] at h3 h4
  refine ⟨h1, h2, ⟨o, List.mem_singleton_self _, h3⟩, ?_, ⟨o, List.mem_singleton_self _, h4⟩,
    ?_, ?_⟩
  · intro o2 ho2
    rw [List.mem_singleton] at ho2
    rw [h3, ho2]
  · intro o2 ho2
    rw [List.mem_singleton] at ho2
    rw [h4, ho2]
  · intro j hj
    refine ⟨o, List.mem_singleton_self _, ?_⟩
    by_contra hne
    exact hj (h5 j hne)

theorem Tracked_next (a b : BitArray) (l : List BitOp) (o : BitOp) (ht : Tracked a b l)
    (h32 : o.nIndex / 64 + 1 < 2 ^ 32) : Tracked a (b.apply o) (l ++ [o]) := by
  obtain ⟨h1, h2, h3, h4, h5⟩ := BitArray.apply_fields b o h32
  simp only [ht.flag, if_true] at h3 h4
  obtain ⟨ob, hob, hbe⟩ := ht.begin_mem
  obtain ⟨oe, hoe, hen⟩ := ht.end_mem
  refine ⟨h1, by rw [h2, ht.length], ?_, ?_, ?_, ?_, ?_⟩
  · by_cases hc : o.nIndex / 64 < b.nModifiedBegin
    · exact ⟨o, by simp, by rw [h3, if_pos hc]⟩
    · exact ⟨ob, by simp [hob], by rw [h3, if_neg hc, hbe]⟩
  · intro o2 ho2
    rw [h3]
    rw [List.mem_append, List.mem_singleton] at ho2
    rcases ho2 with ho2 | ho2
    · have := ht.begin_le o2 ho2
      split <;> omega
    · rw [ho2]
      split <;> omega
  · by_cases hc : o.nIndex / 64 ≥ b.nModifiedEnd
    · exact ⟨o, by simp, by rw [h4, if_pos hc]⟩
    · exact ⟨oe, by simp [hoe], by rw [h4, if_neg hc, hen]⟩
  · intro o2 ho2
    rw [h4]
    rw [List.mem_append, List.mem_singleton] at ho2
    rcases ho2 with ho2 | ho2
    · have := ht.end_ge o2 ho2
      split <;> omega
    · rw [ho2]
      split <;> omega
  · intro j hj
    by_cases hjo : j = o.nIndex / 64
    · exact ⟨o, by simp, hjo⟩
    · rw [h5 j hjo] at hj
      obtain ⟨o2, ho2, hj2⟩ := ht.changed j hj
      exact ⟨o2, by simp [ho2], hj2⟩

theorem Tracked_foldl (a : BitArray) (ops : List BitOp) :
    ∀ (b : BitArray) (l : List BitOp), Tracked a b l →
      (∀ o, o ∈ ops → o.nIndex / 64 + 1 < 2 ^ 32) →
      Tracked a (ops.foldl BitArray.apply b) (l ++ ops) := by
  induction ops with
  | nil => intro b l ht _; simpa using ht
  | cons o rest ih =>
    intro b l ht h32
    have h := ih (b.apply o) (l ++ [o]) (Tracked_next a b l o ht (h32 o (List.mem_cons_self _ _)))
      (fun o2 ho2 => h32 o2 (List.mem_cons_of_mem _ ho2))
    simpa using h

theorem Tracked_bytes (a b : BitArray) (l : List BitOp) (ht : Tracked a b l)
    (h32 : ∀ o, o ∈ l → o.nIndex / 64 + 1 < 2 ^ 32) :
    b.ModifiedOffset = 8 * b.nModifiedBegin ∧
      b.ModifiedOffset + b.ModifiedSize = 8 * b.nModifiedEnd ∧
      b.nModifiedBegin < b.nModifiedEnd ∧ b.nModifiedEnd < 2 ^ 32 := by
  obtain ⟨ob, hob, hbe⟩ := ht.begin_mem
  obtain ⟨oe, hoe, hen⟩ := ht.end_mem
  have h1 := ht.end_ge ob hob
  have h2 := h32 oe hoe
  have hlt : b.nModifiedBegin < b.nModifiedEnd := by omega
  have hend : b.nModifiedEnd < 2 ^ 32 := by omega
  have e1 : b.ModifiedOffset = 8 * b.nModifiedBegin := by
    unfold BitArray.ModifiedOffset
    rw [Nat.mod_eq_of_lt (by omega)]
    omega
  have e2 : b.ModifiedSize = 8 * (b.nModifiedEnd - b.nModifiedBegin) := by
    unfold BitArray.ModifiedSize
    omega
  refine ⟨e1, ?_, hlt, hend⟩
  rw [e1, e2]
  omega

/-- C24: starting from a bit array whose modified flag is false, after a non-empty sequence of
`set_bit` and `clear_bit` calls at indices inside the registers (register index below
`2 ^ 32 - 1`), the flag is true, `ModifiedOffset()` is 8 times the least register index
touched, `ModifiedOffset() + ModifiedSize()` is 8 times the greatest register index touched
plus one, every register whose value changed lies inside that byte range, and one more
mutation can only widen the range. -/
theorem dirty_range (a : BitArray) (op : BitOp) (ops : List BitOp) (more : BitOp)
    (hflag : a.fModified = false)
    (hin : ∀ o, o ∈ op :: ops ++ [more] → o.nIndex / 64 < a.vRegisters.length)
    (h32 : ∀ o, o ∈ op :: ops ++ [more] → o.nIndex / 64 + 1 < 2 ^ 32) :
    (a.applyAll (op :: ops)).fModified = true ∧
    (∃ o, o ∈ op :: ops ∧ (a.applyAll (op :: ops)).ModifiedOffset = 8 * (o.nIndex / 64)) ∧
    (∀ o, o ∈ op :: ops → (a.applyAll (op :: ops)).ModifiedOffset ≤ 8 * (o.nIndex / 64)) ∧
    (∃ o, o ∈ op :: ops ∧
      (a.applyAll (op :: ops)).ModifiedOffset + (a.applyAll (op :: ops)).ModifiedSize =
        8 * (o.nIndex / 64 + 1)) ∧
    (∀ o, o ∈ op :: ops →
      8 * (o.nIndex / 64 + 1) ≤
        (a.applyAll (op :: ops)).ModifiedOffset + (a.applyAll (op :: ops)).ModifiedSize) ∧
    (∀ j, (a.applyAll (op :: ops)).vRegisters.getD j 0 ≠ a.vRegisters.getD j 0 →
      (a.applyAll (op :: ops)).ModifiedOffset ≤ 8 * j ∧
      8 * j + 8 ≤
        (a.applyAll (op :: ops)).ModifiedOffset + (a.applyAll (op :: ops)).ModifiedSize) ∧
    ((a.applyAll (op :: ops)).apply more).ModifiedOffset ≤
      (a.applyAll (op :: ops)).ModifiedOffset ∧
    (a.applyAll (op :: ops)).ModifiedOffset + (a.applyAll (op :: ops)).ModifiedSize ≤
      ((a.applyAll (op :: ops)).apply more).ModifiedOffset +
        ((a.applyAll (op :: ops)).apply more).ModifiedSize := by
  have _ := hin
  have h32a : ∀ o, o ∈ op :: ops → o.nIndex / 64 + 1 < 2 ^ 32 :=
    fun o ho => h32 o (List.mem_append_left _ ho)
  have h32m : more.nIndex / 64 + 1 < 2 ^ 32 := h32 more (by simp)
  have ht : Tracked a (a.applyAll (op :: ops)) (op :: ops) := by
    have h := Tracked_foldl a ops (a.apply op) [op]
      (Tracked_first a op hflag (h32a op (List.mem_cons_self _ _)))
      (fun o ho => h32a o (List.mem_cons_of_mem _ ho))
    exact h
  have ht2 := Tracked_next a _ _ more ht h32m
  obtain ⟨b1, b2, _, _⟩ := Tracked_bytes a _ _ ht h32a
  obtain ⟨c1, c2, _, _⟩ := Tracked_bytes a _ _ ht2 (by
    intro o ho
    rw [List.mem_append, List.mem_singleton] at ho
    rcases ho with ho | ho
    · exact h32a o ho
    · rw [ho]; exact h32m)
  obtain ⟨ob, hob, hbe⟩ := ht.begin_mem
  obtain ⟨oe, hoe, hen⟩ := ht.end_mem
  refine ⟨ht.flag, ⟨ob, hob, by rw [b1, hbe]⟩, ?_, ⟨oe, hoe, by rw [b2, hen]⟩, ?_, ?_, ?_, ?_⟩
  · intro o ho
    rw [b1]
    have := ht.begin_le o ho
    omega
  · intro o ho
    rw [b2]
    have := ht.end_ge o ho
    omega
  · intro j hj
    obtain ⟨o, ho, hjo⟩ := ht.changed j hj
    have h1 := ht.begin_le o ho
    have h2 := ht.end_ge o ho
    rw [b2, b1]
    omega
  · rw [b1, c1]
    obtain ⟨_, _, h3, _, _⟩ := BitArray.apply_fields (a.applyAll (op :: ops)) more h32m
    rw [h3, ht.flag]
    simp only [if_true]
    split <;> omega
  · rw [b2, c2]
    obtain ⟨_, _, _, h4, _⟩ := BitArray.apply_fields (a.applyAll (op :: ops)) more h32m
    rw [h4, ht.flag]
    simp only [if_true]
    split <;> omega


/-- Witness of C22 on a bloom filter of 69 bits with the real hashes of the keys `[1]`, `[3]`
and `[6]`. -/
theorem bloom_no_false_negative_witness :
    BloomFilter.Has exampleXXH64 (BloomFilter.Insert exampleXXH64 (BloomFilter.create 69) [1])
      [1] = true ∧
    BloomFilter.Has exampleXXH64
      ([[3], [6]].foldl (BloomFilter.Insert exampleXXH64)
        (BloomFilter.Insert exampleXXH64 (BloomFilter.create 69) [1])) [1] = true :=
  bloom_no_false_negative exampleXXH64 69 (BloomFilter.create 69) [1] [[3], [6]]
    (BloomFilter.Sized_create_bits 69) (by decide) (by decide)

/-- Witness of C23 on an occupancy filter of 200 buckets that holds bucket 70: `Insert` and
`Erase` of bucket 130. -/
theorem occupancy_exact_witness :
    (∀ c, (HashMapFilter.create 200).Has c = false) ∧
    (((HashMapFilter.create 200).Insert 70).Insert 130).Has 130 = true ∧
    (((HashMapFilter.create 200).Insert 70).Erase 130).Has 130 = false ∧
    ∀ c, c ≠ 130 →
      (((HashMapFilter.create 200).Insert 70).Insert 130).Has c =
        ((HashMapFilter.create 200).Insert 70).Has c ∧
      (((HashMapFilter.create 200).Insert 70).Erase 130).Has c =
        ((HashMapFilter.create 200).Insert 70).Has c :=
  occupancy_exact 200 ((HashMapFilter.create 200).Insert 70) 130
    (HashMapFilter.Sized_Insert 200 _ 70 (HashMapFilter.Sized_create 200)) (by decide)
    (by decide)

/-- Witness of C24 on a bit array of 256 elements: after `set_bit(70)`, `clear_bit(200)` and
`set_bit(130)` the modified range is the registers 1 to 3 (bytes 8 to 32), and `set_bit(3)`
widens it to start at byte 0. -/
theorem dirty_range_witness :
    (BitArray.create 256).fModified = false ∧
    ((BitArray.create 256).applyAll [BitOp.set 70, BitOp.clear 200, BitOp.set 130]).fModified
      = true ∧
    ((BitArray.create 256).applyAll
      [BitOp.set 70, BitOp.clear 200, BitOp.set 130]).ModifiedOffset = 8 ∧
    ((BitArray.create 256).applyAll
      [BitOp.set 70, BitOp.clear 200, BitOp.set 130]).ModifiedSize = 24 ∧
    (((BitArray.create 256).applyAll
      [BitOp.set 70, BitOp.clear 200, BitOp.set 130]).apply (BitOp.set 3)).ModifiedOffset = 0 ∧
    (((BitArray.create 256).applyAll
      [BitOp.set 70, BitOp.clear 200, BitOp.set 130]).apply (BitOp.set 3)).ModifiedSize = 32 :=
  ⟨by decide,
    (dirty_range (BitArray.create 256) (BitOp.set 70) [BitOp.clear 200, BitOp.set 130]
      (BitOp.set 3) (by decide) (by decide) (by decide)).1,
    by decide, by decide, by decide, by decide⟩

/-! ### Free slots hold zero bytes -/

theorem FreeZero_of_Written (cfg : Config) (s t : BinaryHashMap) (i nIndex : Nat)
    (vData : List Nat) (fBit : Bool) (h : FreeZero cfg s)
    (hw : Written cfg s t i nIndex vData fBit)
    (hle : vData.length ≤ HASHMAP_KEY_ALLOCATION)
    (hbit : fBit = false → vData = List.replicate HASHMAP_KEY_ALLOCATION 0) :
    FreeZero cfg t := by
  intro f c hc hocc q hq
  rw [hw.occupancy] at hocc
  rw [hw.bytes]
  rw [key_allocation_eq] at hle hq ⊢
  by_cases hfc : f = i ∧ c = nIndex
  · rw [if_pos hfc] at hocc
    rw [hbit hocc, key_allocation_eq, List.length_replicate]
    obtain ⟨rfl, rfl⟩ := hfc
    rw [if_pos ⟨rfl, by omega, by omega⟩]
    exact getD_replicate_zero _ _
  · rw [if_neg hfc] at hocc
    rw [if_neg (by
      rintro ⟨h1, h2, h3⟩
      exact hfc ⟨h1, by omega⟩)]
    have := h f c hc hocc q (by rw [key_allocation_eq]; exact hq)
    rw [key_allocation_eq] at this
    exact this

theorem FreeZero_fresh (cfg : Config) : FreeZero cfg (fresh cfg) := by
  intro f c _ _ q _
  unfold fileByte
  rw [fresh_eq]
  cases f with
  | zero =>
    simp only [lookupFile, List.getD_cons_zero, Option.getD_some]
    exact getD_replicate_zero _ _
  | succ n => rfl

theorem FreeZero_step (cfg : Config) (s : BinaryHashMap) (op : Op) (hcfg : cfg.Valid)
    (hnw : cfg.NoWrap) (hwf : WellFormed cfg s) (h : FreeZero cfg s)
    (hlen : (step cfg s op).vHashmaps.length ≤ 2 ^ 15) : FreeZero cfg (step cfg s op) := by
  cases op with
  | put r =>
    obtain ⟨i, nKey, _, _, _, _, _, hw⟩ := Put_effect cfg s r hcfg hnw hwf hlen
    exact FreeZero_of_Written cfg s _ _ _ _ _ h hw (length_putRecord r)
      (fun hf => by cases hf)
  | erase k =>
    have hl : s.vHashmaps.length ≤ 2 ^ 15 := Nat.le_trans (length_step_ge cfg s _) hlen
    rcases Erase_effect cfg s k hcfg hnw hwf hl with ⟨_, he⟩ | ⟨i, nKey, _, _, _, _, hw⟩
    · show FreeZero cfg (Erase cfg s k).2
      rw [he]; exact h
    · exact FreeZero_of_Written cfg s _ _ _ _ _ h hw (by simp) (fun _ => rfl)
  | get k => exact h
  | flush =>
    intro f c hc hocc q hq
    show fileByte (Flush s) f _ = 0
    rw [fileByte_Flush]
    have hocc2 : occupied (Flush s) f c = false := hocc
    rw [occupied_Flush] at hocc2
    exact h f c hc hocc2 q hq

theorem FreeZero_run (cfg : Config) (ops : List Op) (hcfg : cfg.Valid) (hnw : cfg.NoWrap)
    (hlen : (run cfg (fresh cfg) ops).vHashmaps.length ≤ 2 ^ 15) :
    FreeZero cfg (run cfg (fresh cfg) ops) := by
  have h : WellFormed cfg (run cfg (fresh cfg) ops) ∧ FreeZero cfg (run cfg (fresh cfg) ops) := by
    apply run_induction cfg (fun s => WellFormed cfg s ∧ FreeZero cfg s) _ ops hlen
      ⟨WellFormed_fresh cfg hnw, FreeZero_fresh cfg⟩
    intro t op _ ht hl
    exact ⟨WellFormed_step cfg t op hcfg hnw ht.1 hl, FreeZero_step cfg t op hcfg hnw ht.1 ht.2 hl⟩
  exact h.2

theorem length_putRecord_eq (r : SectorKey) :
    (putRecord r).length = 13 + (compress_key r.vKey HASHMAP_MAX_KEY_SIZE).length := by
  unfold putRecord
  rw [List.length_append, SectorKey.length_serialize]

theorem getD_padded (ck : List Nat) (n t : Nat) :
    (ck ++ List.replicate n 0).getD t 0 = if t < ck.length then ck.getD t 0 else 0 := by
  rw [List.getD_eq_getElem?_getD, List.getD_eq_getElem?_getD]
  by_cases h : t < ck.length
  · rw [if_pos h, List.getElem?_append_left h]
  · rw [if_neg h, List.getElem?_append_right (by omega), List.getElem?_replicate]
    split <;> rfl

/-- The property of C21 in append mode within the machine limits: in append mode, in every state
reached from a freshly initialised keychain (bucket positions that fit 32 bits, at most `2 ^ 15`
hashmap files after the call), `Put` of a record with key `k` returns true and writes one slot,
whose occupancy bit was clear before the call and is set after it; the `HASHMAP_MAX_KEY_SIZE`
bytes that follow the 13 header bytes of that slot are the compressed key followed by zero
bytes. -/
theorem put_zero_padding (cfg : Config) (ops : List Op) (r : SectorKey)
    (hcfg : cfg.Valid) (hnw : cfg.NoWrap) (happ : cfg.AppendMode)
    (hlen : (Put cfg (run cfg (fresh cfg) ops) r).2.vHashmaps.length ≤ 2 ^ 15) :
    ∃ i c, (Put cfg (run cfg (fresh cfg) ops) r).1 = true ∧
      occupied (run cfg (fresh cfg) ops) i c = false ∧
      occupied (Put cfg (run cfg (fresh cfg) ops) r).2 i c = true ∧
      (∀ j p, fileByte (Put cfg (run cfg (fresh cfg) ops) r).2 j p ≠
          fileByte (run cfg (fresh cfg) ops) j p →
        j = i ∧ c * HASHMAP_KEY_ALLOCATION ≤ p ∧
          p < c * HASHMAP_KEY_ALLOCATION + HASHMAP_KEY_ALLOCATION) ∧
      ∀ t, t < HASHMAP_MAX_KEY_SIZE →
        fileByte (Put cfg (run cfg (fresh cfg) ops) r).2 i
            (c * HASHMAP_KEY_ALLOCATION + 13 + t) =
          (compress_key r.vKey HASHMAP_MAX_KEY_SIZE ++
            List.replicate
              (HASHMAP_MAX_KEY_SIZE - (compress_key r.vKey HASHMAP_MAX_KEY_SIZE).length) 0).getD
            t 0 := by
  have hN : (run cfg (fresh cfg) ops).vHashmaps.length ≤ 2 ^ 15 :=
    Nat.le_trans (length_Put_ge cfg _ r) hlen
  have hwf := WellFormed_run cfg ops hcfg hnw hN
  have hfz := FreeZero_run cfg ops hcfg hnw hN
  have hb := get_bucket_lt cfg r.vKey hcfg.1
  have hwin := windowKeys_add_le cfg _ hb
  have h45 := key_allocation_eq
  have h32 := max_key_size_eq
  have hrec := length_putRecord_eq r
  have hck := length_compress_key r.vKey HASHMAP_MAX_KEY_SIZE
  obtain ⟨i, nKey, h1, _, hk, hfree, _, hw⟩ := Put_effect cfg _ r hcfg hnw hwf hlen
  refine ⟨i, get_bucket cfg r.vKey + nKey, h1, hfree happ, ?_, ?_, ?_⟩
  · rw [hw.occupancy, if_pos ⟨rfl, rfl⟩]
  · intro j p hne
    rw [hw.bytes] at hne
    by_cases hc : j = i ∧ (get_bucket cfg r.vKey + nKey) * HASHMAP_KEY_ALLOCATION ≤ p ∧
        p < (get_bucket cfg r.vKey + nKey) * HASHMAP_KEY_ALLOCATION + (putRecord r).length
    · exact ⟨hc.1, hc.2.1, by omega⟩
    · rw [if_neg hc] at hne
      exact absurd rfl hne
  · intro t ht
    rw [hw.bytes, getD_padded]
    by_cases hlt : t < (compress_key r.vKey HASHMAP_MAX_KEY_SIZE).length
    · rw [if_pos ⟨rfl, by omega, by omega⟩, if_pos hlt]
      have e : (get_bucket cfg r.vKey + nKey) * HASHMAP_KEY_ALLOCATION + 13 + t -
          (get_bucket cfg r.vKey + nKey) * HASHMAP_KEY_ALLOCATION = 13 + t := by omega
      rw [e, getD_putRecord_key]
    · rw [if_neg (by rintro ⟨_, _, h3⟩; omega), if_neg hlt]
      have hz := hfz i (get_bucket cfg r.vKey + nKey) (by omega) (hfree happ) (13 + t)
        (by omega)
      rw [← Nat.add_assoc] at hz
      exact hz



/-- C21 also fails on a slot whose state byte is `EMPTY`: on a keychain with one bucket and the
`APPEND` flag unset, `Put` and `Erase` of key `[3]` are followed by a `Put` of a record for key
`[1, 2]` whose state byte is `EMPTY`; it takes the only slot.  `Put` of a ready record for key
`[3]` then takes the overwrite path (the slot is occupied and its state byte is `EMPTY`),
returns true and writes 14 bytes: the key bytes of the slot are `3`, `2` and zeros, not the
compressed key `[3]` followed by zero bytes. -/
theorem put_zero_padding_counterexample :
    ¬ (exampleConfig 1 4 0).AppendMode ∧
    compress_key [3] HASHMAP_MAX_KEY_SIZE = [3] ∧
    putPath (exampleConfig 1 4 0)
      (run (exampleConfig 1 4 0) (fresh (exampleConfig 1 4 0))
        [Op.put (readyKey [3] 5 100 42), Op.erase [3],
         Op.put { nState := STATE_EMPTY, nSectorFile := 7, nSectorStart := 8,
                  nSectorSize := 9, nLength := 2, vKey := [1, 2] }])
      (readyKey [3] 9 9 9) = PutPath.overwrite 0 0 ∧
    (Put (exampleConfig 1 4 0)
      (run (exampleConfig 1 4 0) (fresh (exampleConfig 1 4 0))
        [Op.put (readyKey [3] 5 100 42), Op.erase [3],
         Op.put { nState := STATE_EMPTY, nSectorFile := 7, nSectorStart := 8,
                  nSectorSize := 9, nLength := 2, vKey := [1, 2] }])
      (readyKey [3] 9 9 9)).1 = true ∧
    (List.range 4).map (fun t =>
      fileByte (Put (exampleConfig 1 4 0)
        (run (exampleConfig 1 4 0) (fresh (exampleConfig 1 4 0))
          [Op.put (readyKey [3] 5 100 42), Op.erase [3],
           Op.put { nState := STATE_EMPTY, nSectorFile := 7, nSectorStart := 8,
                    nSectorSize := 9, nLength := 2, vKey := [1, 2] }])
        (readyKey [3] 9 9 9)).2 0 (13 + t)) = [3, 2, 0, 0] := by
  decide

/-- An instance of `put_zero_padding` on a keychain of 16 buckets in append mode: `Put` of key `[6]`
after `Put` of key `[3]`. -/
theorem put_zero_padding_witness :
    ∃ i c, (Put (exampleConfig 16 69 2)
        (run (exampleConfig 16 69 2) (fresh (exampleConfig 16 69 2))
          [Op.put (readyKey [3] 5 100 42)]) (readyKey [6] 5 100 42)).1 = true ∧
      occupied (run (exampleConfig 16 69 2) (fresh (exampleConfig 16 69 2))
        [Op.put (readyKey [3] 5 100 42)]) i c = false ∧
      occupied (Put (exampleConfig 16 69 2)
        (run (exampleConfig 16 69 2) (fresh (exampleConfig 16 69 2))
          [Op.put (readyKey [3] 5 100 42)]) (readyKey [6] 5 100 42)).2 i c = true ∧
      (∀ j p, fileByte (Put (exampleConfig 16 69 2)
          (run (exampleConfig 16 69 2) (fresh (exampleConfig 16 69 2))
            [Op.put (readyKey [3] 5 100 42)]) (readyKey [6] 5 100 42)).2 j p ≠
          fileByte (run (exampleConfig 16 69 2) (fresh (exampleConfig 16 69 2))
            [Op.put (readyKey [3] 5 100 42)]) j p →
        j = i ∧ c * HASHMAP_KEY_ALLOCATION ≤ p ∧
          p < c * HASHMAP_KEY_ALLOCATION + HASHMAP_KEY_ALLOCATION) ∧
      ∀ t, t < HASHMAP_MAX_KEY_SIZE →
        fileByte (Put (exampleConfig 16 69 2)
            (run (exampleConfig 16 69 2) (fresh (exampleConfig 16 69 2))
              [Op.put (readyKey [3] 5 100 42)]) (readyKey [6] 5 100 42)).2 i
            (c * HASHMAP_KEY_ALLOCATION + 13 + t) =
          (compress_key (readyKey [6] 5 100 42).vKey HASHMAP_MAX_KEY_SIZE ++
            List.replicate
              (HASHMAP_MAX_KEY_SIZE -
                (compress_key (readyKey [6] 5 100 42).vKey HASHMAP_MAX_KEY_SIZE).length)
              0).getD t 0 :=
  put_zero_padding (exampleConfig 16 69 2) [Op.put (readyKey [3] 5 100 42)]
    (readyKey [6] 5 100 42) (by decide) (by decide) (by decide) (by decide)

/-! ### Free slots and the frame of `Put` in append mode -/

/-- The property of C36 within the machine limits: in every state reached from a freshly
initialised keychain by `Put`, `Erase`, `Get` and `Flush` (a non-zero bucket count whose slot
positions fit 32 bits, at most `2 ^ 15` hashmap files), in append mode or not, every slot whose
occupancy bit is clear holds `HASHMAP_KEY_ALLOCATION` zero bytes on disk. -/
theorem free_slots_zero (cfg : Config) (ops : List Op) (hcfg : cfg.Valid) (hnw : cfg.NoWrap)
    (hlen : (run cfg (fresh cfg) ops).vHashmaps.length ≤ 2 ^ 15) :
    ∀ f c, c < cfg.HASHMAP_TOTAL_BUCKETS → occupied (run cfg (fresh cfg) ops) f c = false →
      ∀ q, q < HASHMAP_KEY_ALLOCATION →
        fileByte (run cfg (fresh cfg) ops) f (c * HASHMAP_KEY_ALLOCATION + q) = 0 :=
  FreeZero_run cfg ops hcfg hnw hlen

/-- An instance of `free_slots_zero` on a keychain of 2 buckets in append mode, after `Put` of
the keys `[1]` and `[3]` and `Erase` of `[1]`: the slot of bucket 1 is free again and holds zero
bytes, the slot of bucket 0 is occupied. -/
theorem free_slots_zero_witness :
    occupied (run (exampleConfig 2 8 2) (fresh (exampleConfig 2 8 2))
      [Op.put (readyKey [1] 5 100 42), Op.put (readyKey [3] 5 100 42), Op.erase [1]]) 0 1
      = false ∧
    occupied (run (exampleConfig 2 8 2) (fresh (exampleConfig 2 8 2))
      [Op.put (readyKey [1] 5 100 42), Op.put (readyKey [3] 5 100 42), Op.erase [1]]) 0 0
      = true ∧
    ∀ f c, c < (exampleConfig 2 8 2).HASHMAP_TOTAL_BUCKETS →
      occupied (run (exampleConfig 2 8 2) (fresh (exampleConfig 2 8 2))
        [Op.put (readyKey [1] 5 100 42), Op.put (readyKey [3] 5 100 42), Op.erase [1]]) f c
        = false →
      ∀ q, q < HASHMAP_KEY_ALLOCATION →
        fileByte (run (exampleConfig 2 8 2) (fresh (exampleConfig 2 8 2))
          [Op.put (readyKey [1] 5 100 42), Op.put (readyKey [3] 5 100 42), Op.erase [1]]) f
          (c * HASHMAP_KEY_ALLOCATION + q) = 0 :=
  ⟨by decide, by decide,
   free_slots_zero (exampleConfig 2 8 2)
     [Op.put (readyKey [1] 5 100 42), Op.put (readyKey [3] 5 100 42), Op.erase [1]]
     (by decide) (by decide) (by decide)⟩

/-- The property of C35 within the machine limits: in append mode, in every state reached from a
freshly initialised keychain (slot positions that fit 32 bits, at most `2 ^ 15` hashmap files
after the call), `Put` returns true and writes its record into one slot: the occupancy bit of
that slot was clear and its bytes were zero before the call (also when the slot is in a file the
call creates), the call sets that occupancy bit and no other, every byte on disk outside the
record written into that slot is as before, the record fills at most the slot, and the state
byte of the slot changes whenever the state of the record is not zero. -/
theorem put_append_frame (cfg : Config) (ops : List Op) (r : SectorKey)
    (hcfg : cfg.Valid) (hnw : cfg.NoWrap) (happ : cfg.AppendMode)
    (hlen : (Put cfg (run cfg (fresh cfg) ops) r).2.vHashmaps.length ≤ 2 ^ 15) :
    ∃ i c, (Put cfg (run cfg (fresh cfg) ops) r).1 = true ∧
      c < cfg.HASHMAP_TOTAL_BUCKETS ∧
      occupied (run cfg (fresh cfg) ops) i c = false ∧
      (∀ q, q < HASHMAP_KEY_ALLOCATION →
        fileByte (run cfg (fresh cfg) ops) i (c * HASHMAP_KEY_ALLOCATION + q) = 0) ∧
      (∀ j d, occupied (Put cfg (run cfg (fresh cfg) ops) r).2 j d =
        if j = i ∧ d = c then true else occupied (run cfg (fresh cfg) ops) j d) ∧
      (∀ j p, fileByte (Put cfg (run cfg (fresh cfg) ops) r).2 j p =
        if j = i ∧ c * HASHMAP_KEY_ALLOCATION ≤ p ∧
            p < c * HASHMAP_KEY_ALLOCATION + (putRecord r).length then
          (putRecord r).getD (p - c * HASHMAP_KEY_ALLOCATION) 0
        else fileByte (run cfg (fresh cfg) ops) j p) ∧
      (putRecord r).length ≤ HASHMAP_KEY_ALLOCATION ∧
      (r.nState % 256 ≠ 0 →
        fileByte (Put cfg (run cfg (fresh cfg) ops) r).2 i (c * HASHMAP_KEY_ALLOCATION) ≠
          fileByte (run cfg (fresh cfg) ops) i (c * HASHMAP_KEY_ALLOCATION)) := by
  have hN : (run cfg (fresh cfg) ops).vHashmaps.length ≤ 2 ^ 15 :=
    Nat.le_trans (length_Put_ge cfg _ r) hlen
  have hwf := WellFormed_run cfg ops hcfg hnw hN
  have hfz := FreeZero_run cfg ops hcfg hnw hN
  have hb := get_bucket_lt cfg r.vKey hcfg.1
  have hwin := windowKeys_add_le cfg _ hb
  have h45 := key_allocation_eq
  obtain ⟨i, nKey, h1, _, hk, hfree, _, hw⟩ := Put_effect cfg _ r hcfg hnw hwf hlen
  have hc : get_bucket cfg r.vKey + nKey < cfg.HASHMAP_TOTAL_BUCKETS := by omega
  have hzero := hfz i _ hc (hfree happ)
  refine ⟨i, get_bucket cfg r.vKey + nKey, h1, hc, hfree happ, hzero, hw.occupancy, hw.bytes,
    length_putRecord r, ?_⟩
  intro hst
  have h0 := hzero 0 (by rw [h45]; omega)
  rw [Nat.add_zero] at h0
  rw [hw.bytes, if_pos ⟨rfl, Nat.le_refl _, by have := length_putRecord_pos r; omega⟩,
    Nat.sub_self, getD_putRecord_zero, h0]
  exact hst

/-- A `Put` that changes no byte, on a keychain of 2 buckets in append mode: `Put`
of the record whose header and key are zero bytes returns true and sets the occupancy bit of
bucket 1, and no byte of any file on disk has changed. -/
theorem put_append_frame_counterexample :
    putRecord zeroKey = List.replicate 14 0 ∧
    (Put (exampleConfig 2 8 2) (fresh (exampleConfig 2 8 2)) zeroKey).1 = true ∧
    occupied (fresh (exampleConfig 2 8 2)) 0 1 = false ∧
    occupied (Put (exampleConfig 2 8 2) (fresh (exampleConfig 2 8 2)) zeroKey).2 0 1 = true ∧
    (Put (exampleConfig 2 8 2) (fresh (exampleConfig 2 8 2)) zeroKey).2.hashmapFiles =
      (fresh (exampleConfig 2 8 2)).hashmapFiles := by
  decide

/-- An instance of `put_append_frame` on a keychain of 16 buckets in append mode: `Put` of the key
`[6]` after `Put` of the key `[3]`, both of bucket 14, takes the slot of bucket 15. -/
theorem put_append_frame_witness :
    ∃ i c, (Put (exampleConfig 16 69 2)
        (run (exampleConfig 16 69 2) (fresh (exampleConfig 16 69 2))
          [Op.put (readyKey [3] 5 100 42)]) (readyKey [6] 5 100 42)).1 = true ∧
      c < (exampleConfig 16 69 2).HASHMAP_TOTAL_BUCKETS ∧
      occupied (run (exampleConfig 16 69 2) (fresh (exampleConfig 16 69 2))
        [Op.put (readyKey [3] 5 100 42)]) i c = false ∧
      (∀ q, q < HASHMAP_KEY_ALLOCATION →
        fileByte (run (exampleConfig 16 69 2) (fresh (exampleConfig 16 69 2))
          [Op.put (readyKey [3] 5 100 42)]) i (c * HASHMAP_KEY_ALLOCATION + q) = 0) ∧
      (∀ j d, occupied (Put (exampleConfig 16 69 2)
          (run (exampleConfig 16 69 2) (fresh (exampleConfig 16 69 2))
            [Op.put (readyKey [3] 5 100 42)]) (readyKey [6] 5 100 42)).2 j d =
        if j = i ∧ d = c then true
        else occupied (run (exampleConfig 16 69 2) (fresh (exampleConfig 16 69 2))
          [Op.put (readyKey [3] 5 100 42)]) j d) ∧
      (∀ j p, fileByte (Put (exampleConfig 16 69 2)
          (run (exampleConfig 16 69 2) (fresh (exampleConfig 16 69 2))
            [Op.put (readyKey [3] 5 100 42)]) (readyKey [6] 5 100 42)).2 j p =
        if j = i ∧ c * HASHMAP_KEY_ALLOCATION ≤ p ∧
            p < c * HASHMAP_KEY_ALLOCATION + (putRecord (readyKey [6] 5 100 42)).length then
          (putRecord (readyKey [6] 5 100 42)).getD (p - c * HASHMAP_KEY_ALLOCATION) 0
        else fileByte (run (exampleConfig 16 69 2) (fresh (exampleConfig 16 69 2))
          [Op.put (readyKey [3] 5 100 42)]) j p) ∧
      (putRecord (readyKey [6] 5 100 42)).length ≤ HASHMAP_KEY_ALLOCATION ∧
      ((readyKey [6] 5 100 42).nState % 256 ≠ 0 →
        fileByte (Put (exampleConfig 16 69 2)
            (run (exampleConfig 16 69 2) (fresh (exampleConfig 16 69 2))
              [Op.put (readyKey [3] 5 100 42)]) (readyKey [6] 5 100 42)).2 i
            (c * HASHMAP_KEY_ALLOCATION) ≠
          fileByte (run (exampleConfig 16 69 2) (fresh (exampleConfig 16 69 2))
            [Op.put (readyKey [3] 5 100 42)]) i (c * HASHMAP_KEY_ALLOCATION)) :=
  put_append_frame (exampleConfig 16 69 2) [Op.put (readyKey [3] 5 100 42)]
    (readyKey [6] 5 100 42) (by decide) (by decide) (by decide) (by decide)

/-! ### The slot that `Get` returns -/

theorem keyMatches_bytes (vB : List Nat) (off : Nat) (ck : List Nat)
    (h : keyMatches vB off ck = true) :
    ∀ t, t < ck.length → vB.getD (off + 13 + t) 0 = ck.getD t 0 := by
  unfold keyMatches at h
  have he : (vB.drop (off + 13)).take ck.length = ck := by simpa using h
  intro t ht
  have h1 : ((vB.drop (off + 13)).take ck.length)[t]? = ck[t]? := by rw [he]
  rw [List.getElem?_take_of_lt ht, List.getElem?_drop] at h1
  simp only [List.getD_eq_getElem?_getD, h1]

/-- When the loop of `Get` over the slots returns true, it returns the record decoded from
the first slot of the list that is occupied, holds the compressed key and has the state
`READY`. -/
theorem getSlots_first (occ : HashMapFilter) (vB ck : List Nat) (b : Nat) (l : List Nat)
    (c : SectorKey) (h : (getSlots occ vB ck b l c).1 = true) :
    ∃ (p a : Nat), l[p]? = some a ∧ occ.Has (b + a) = true ∧
      keyMatches vB (a * HASHMAP_KEY_ALLOCATION) ck = true ∧
      vB.getD (a * HASHMAP_KEY_ALLOCATION) 0 = STATE_READY ∧
      (∀ (p2 a2 : Nat), p2 < p → l[p2]? = some a2 →
        ¬(occ.Has (b + a2) = true ∧ keyMatches vB (a2 * HASHMAP_KEY_ALLOCATION) ck = true ∧
          vB.getD (a2 * HASHMAP_KEY_ALLOCATION) 0 = STATE_READY)) ∧
      (getSlots occ vB ck b l c).2 =
        SectorKey.deserialize (vB.drop (a * HASHMAP_KEY_ALLOCATION)) c := by
  induction l generalizing c with
  | nil => simp [getSlots] at h
  | cons x t ih =>
    have hready : ∀ d : SectorKey,
        (SectorKey.deserialize (vB.drop (x * HASHMAP_KEY_ALLOCATION)) d).Ready = true ↔
          vB.getD (x * HASHMAP_KEY_ALLOCATION) 0 = STATE_READY := by
      intro d
      unfold SectorKey.Ready
      rw [SectorKey.nState_deserialize]
      simp only [List.getD_eq_getElem?_getD, List.getElem?_drop, Nat.add_zero, beq_iff_eq]
    have step : ∀ d : SectorKey, d.vKey = c.vKey →
        ¬(occ.Has (b + x) = true ∧ keyMatches vB (x * HASHMAP_KEY_ALLOCATION) ck = true ∧
          vB.getD (x * HASHMAP_KEY_ALLOCATION) 0 = STATE_READY) →
        (getSlots occ vB ck b t d).1 = true →
        getSlots occ vB ck b (x :: t) c = getSlots occ vB ck b t d →
        ∃ (p a : Nat), (x :: t)[p]? = some a ∧ occ.Has (b + a) = true ∧
          keyMatches vB (a * HASHMAP_KEY_ALLOCATION) ck = true ∧
          vB.getD (a * HASHMAP_KEY_ALLOCATION) 0 = STATE_READY ∧
          (∀ (p2 a2 : Nat), p2 < p → (x :: t)[p2]? = some a2 →
            ¬(occ.Has (b + a2) = true ∧
              keyMatches vB (a2 * HASHMAP_KEY_ALLOCATION) ck = true ∧
              vB.getD (a2 * HASHMAP_KEY_ALLOCATION) 0 = STATE_READY)) ∧
          (getSlots occ vB ck b (x :: t) c).2 =
            SectorKey.deserialize (vB.drop (a * HASHMAP_KEY_ALLOCATION)) c := by
      intro d hd hmiss ht heq
      obtain ⟨p, a, h1, h2, h3, h4, h5, h6⟩ := ih d ht
      refine ⟨p + 1, a, by simpa using h1, h2, h3, h4, ?_, ?_⟩
      · intro p2 a2 hp2 ha2
        cases p2 with
        | zero =>
          simp only [List.getElem?_cons_zero, Option.some.injEq] at ha2
          subst ha2
          exact hmiss
        | succ q =>
          rw [List.getElem?_cons_succ] at ha2
          exact h5 q a2 (by omega) ha2
      · rw [heq, h6]
        exact SectorKey.deserialize_congr _ _ _ _ (fun _ _ => rfl) hd
    cases hocc : occ.Has (b + x) with
    | false =>
      have heq : getSlots occ vB ck b (x :: t) c = getSlots occ vB ck b t c := by
        rw [getSlots]
        simp only [hocc, Bool.not_false, if_true]
      rw [heq] at h
      exact step c rfl (by rw [hocc]; simp) h heq
    | true =>
      cases hm : keyMatches vB (x * HASHMAP_KEY_ALLOCATION) ck with
      | false =>
        have heq : getSlots occ vB ck b (x :: t) c = getSlots occ vB ck b t c := by
          rw [getSlots]
          simp only [hocc, Bool.not_true, Bool.false_eq_true, if_false, hm]
        rw [heq] at h
        exact step c rfl (by rw [hm]; simp) h heq
      | true =>
        cases hr : (SectorKey.deserialize (vB.drop (x * HASHMAP_KEY_ALLOCATION)) c).Ready with
        | false =>
          have heq : getSlots occ vB ck b (x :: t) c = getSlots occ vB ck b t
              (SectorKey.deserialize (vB.drop (x * HASHMAP_KEY_ALLOCATION)) c) := by
            rw [getSlots]
            simp only [hocc, Bool.not_true, Bool.false_eq_true, if_false, hm, if_true, hr,
              Bool.not_false]
          rw [heq] at h
          refine step (SectorKey.deserialize (vB.drop (x * HASHMAP_KEY_ALLOCATION)) c) rfl ?_ h
            heq
          intro hh
          have := (hready c).2 hh.2.2
          rw [hr] at this
          cases this
        | true =>
          have heq : getSlots occ vB ck b (x :: t) c =
              (true, SectorKey.deserialize (vB.drop (x * HASHMAP_KEY_ALLOCATION)) c) := by
            rw [getSlots]
            simp only [hocc, Bool.not_true, Bool.false_eq_true, if_false, hm, if_true, hr]
          refine ⟨0, x, by simp, hocc, hm, (hready c).1 hr, ?_, by rw [heq]⟩
          intro p2 a2 hp2
          omega

theorem Stored_of_window (cfg : Config) (s : BinaryHashMap) (k : List Nat) (j : Nat)
    (p : BloomFilter × HashMapFilter) (file buf : List Nat) (a : Nat)
    (hcfg : cfg.Valid) (hnw : cfg.NoWrap)
    (hp : s.vHashmaps[j]? = some p) (hf : lookupFile s.hashmapFiles j = some file)
    (hfl : file.length = cfg.HASHMAP_TOTAL_BUCKETS * HASHMAP_KEY_ALLOCATION)
    (hbuf : buf.length = HASHMAP_KEY_ALLOCATION * windowKeys cfg (get_bucket cfg k))
    (hbl : p.1.Has cfg.XXH64 k = true)
    (ha : a < windowKeys cfg (get_bucket cfg k))
    (hocc : p.2.Has (get_bucket cfg k + a) = true)
    (hkey : keyMatches (readAt file (filePos (get_bucket cfg k)) buf)
      (a * HASHMAP_KEY_ALLOCATION) (compress_key k HASHMAP_MAX_KEY_SIZE) = true)
    (hst : (readAt file (filePos (get_bucket cfg k)) buf).getD (a * HASHMAP_KEY_ALLOCATION) 0
      = STATE_READY) :
    Stored cfg s k j (get_bucket cfg k + a) := by
  have hb := get_bucket_lt cfg k hcfg.1
  have hwin := windowKeys_add_le cfg _ hb
  have h45 := key_allocation_eq
  have h32 := max_key_size_eq
  have hck := length_compress_key k HASHMAP_MAX_KEY_SIZE
  have hj : j < s.vHashmaps.length := by
    by_contra hc
    rw [List.getElem?_eq_none (by omega)] at hp
    cases hp
  have hpos : filePos (get_bucket cfg k) + buf.length ≤ file.length := by
    rw [filePos_eq cfg _ hnw hb, hbuf, hfl, h45]
    omega
  have hrd : ∀ q, q < buf.length →
      (readAt file (filePos (get_bucket cfg k)) buf).getD q 0 =
        fileByte s j (get_bucket cfg k * HASHMAP_KEY_ALLOCATION + q) := by
    intro q hq
    rw [getD_readAt _ _ _ _ hpos, if_pos hq, fileByte_eq s j _ file hf,
      filePos_eq cfg _ hnw hb]
  refine ⟨hj, Nat.le_add_right _ _, by omega, ?_, ?_, ?_, ?_⟩
  · unfold bloomHas; rw [hp]; exact hbl
  · unfold occupied; rw [hp]; exact hocc
  · rw [← hst, hrd _ (by rw [hbuf, h45]; omega), Nat.add_mul]
  · intro t ht
    rw [← keyMatches_bytes _ _ _ hkey t ht, hrd _ (by rw [hbuf, h45]; omega)]
    congr 1
    rw [Nat.add_mul]
    omega

theorem window_of_Stored (cfg : Config) (s : BinaryHashMap) (k : List Nat) (j n : Nat)
    (p : BloomFilter × HashMapFilter) (file buf : List Nat)
    (hcfg : cfg.Valid) (hnw : cfg.NoWrap)
    (hp : s.vHashmaps[j]? = some p) (hf : lookupFile s.hashmapFiles j = some file)
    (hfl : file.length = cfg.HASHMAP_TOTAL_BUCKETS * HASHMAP_KEY_ALLOCATION)
    (hbuf : buf.length = HASHMAP_KEY_ALLOCATION * windowKeys cfg (get_bucket cfg k))
    (hst : Stored cfg s k j n) :
    p.1.Has cfg.XXH64 k = true ∧
    ∃ a, n = get_bucket cfg k + a ∧ a < windowKeys cfg (get_bucket cfg k) ∧
      p.2.Has (get_bucket cfg k + a) = true ∧
      keyMatches (readAt file (filePos (get_bucket cfg k)) buf)
        (a * HASHMAP_KEY_ALLOCATION) (compress_key k HASHMAP_MAX_KEY_SIZE) = true ∧
      (readAt file (filePos (get_bucket cfg k)) buf).getD (a * HASHMAP_KEY_ALLOCATION) 0
        = STATE_READY := by
  obtain ⟨hi, hlo, hhi, hbl, hocc, hstate, hbytes⟩ := hst
  have hb := get_bucket_lt cfg k hcfg.1
  have hwin := windowKeys_add_le cfg _ hb
  have h45 := key_allocation_eq
  have h32 := max_key_size_eq
  have hck := length_compress_key k HASHMAP_MAX_KEY_SIZE
  have hrl : (readAt file (filePos (get_bucket cfg k)) buf).length =
      HASHMAP_KEY_ALLOCATION * windowKeys cfg (get_bucket cfg k) := by
    rw [length_readAt, hbuf]
  have hpos : filePos (get_bucket cfg k) + buf.length ≤ file.length := by
    rw [filePos_eq cfg _ hnw hb, hbuf, hfl, h45]
    omega
  have hrd : ∀ q, q < buf.length →
      (readAt file (filePos (get_bucket cfg k)) buf).getD q 0 =
        fileByte s j (get_bucket cfg k * HASHMAP_KEY_ALLOCATION + q) := by
    intro q hq
    rw [getD_readAt _ _ _ _ hpos, if_pos hq, fileByte_eq s j _ file hf,
      filePos_eq cfg _ hnw hb]
  obtain ⟨a, rfl⟩ : ∃ a, n = get_bucket cfg k + a := ⟨n - get_bucket cfg k, by omega⟩
  have ha : a < windowKeys cfg (get_bucket cfg k) := by omega
  refine ⟨?_, a, rfl, ha, ?_, ?_, ?_⟩
  · unfold bloomHas at hbl
    rw [hp] at hbl
    exact hbl
  · unfold occupied at hocc
    rw [hp] at hocc
    exact hocc
  · apply keyMatches_of_bytes
    · rw [hrl, h45]; omega
    · intro t2 ht2
      rw [hrd _ (by rw [hbuf, h45]; omega), ← hbytes t2 ht2]
      congr 1
      rw [Nat.add_mul]
      omega
  · rw [hrd _ (by rw [hbuf, h45]; omega), ← hstate]
    congr 1
    rw [Nat.add_mul]

/-- When the loop of `Get` over the files returns true, it returns the record decoded from
the first slot, in the order of the files of the list and then of the window, that stores
a ready record for the key. -/
theorem getFiles_first (cfg : Config) (s : BinaryHashMap) (k : List Nat)
    (hcfg : cfg.Valid) (hnw : cfg.NoWrap) (hwf : WellFormed cfg s) (l buf : List Nat)
    (hbuf : buf.length = HASHMAP_KEY_ALLOCATION * windowKeys cfg (get_bucket cfg k))
    (c : SectorKey) (hc : c.vKey = k)
    (h : (getFiles cfg s (compress_key k HASHMAP_MAX_KEY_SIZE) (get_bucket cfg k) l buf c).1
      = true) :
    ∃ (p i nKey : Nat), l[p]? = some i ∧ nKey < windowKeys cfg (get_bucket cfg k) ∧
      Stored cfg s k i (get_bucket cfg k + nKey) ∧
      (∀ m, m < nKey → ¬Stored cfg s k i (get_bucket cfg k + m)) ∧
      (∀ (p2 j n : Nat), p2 < p → l[p2]? = some j → ¬Stored cfg s k j n) ∧
      (getFiles cfg s (compress_key k HASHMAP_MAX_KEY_SIZE) (get_bucket cfg k) l buf c).2 =
        SectorKey.deserialize (slotHeader s i (get_bucket cfg k + nKey)) c := by
  have hb := get_bucket_lt cfg k hcfg.1
  have hwin := windowKeys_add_le cfg _ hb
  have h45 := key_allocation_eq
  induction l generalizing buf c with
  | nil => simp [getFiles] at h
  | cons j t ih =>
    have next : ∀ (buf2 : List Nat) (d : SectorKey),
        buf2.length = HASHMAP_KEY_ALLOCATION * windowKeys cfg (get_bucket cfg k) →
        d.vKey = k → (∀ n, ¬Stored cfg s k j n) →
        getFiles cfg s (compress_key k HASHMAP_MAX_KEY_SIZE) (get_bucket cfg k) (j :: t) buf c =
          getFiles cfg s (compress_key k HASHMAP_MAX_KEY_SIZE) (get_bucket cfg k) t buf2 d →
        ∃ (p i nKey : Nat), (j :: t)[p]? = some i ∧
          nKey < windowKeys cfg (get_bucket cfg k) ∧
          Stored cfg s k i (get_bucket cfg k + nKey) ∧
          (∀ m, m < nKey → ¬Stored cfg s k i (get_bucket cfg k + m)) ∧
          (∀ (p2 j2 n : Nat), p2 < p → (j :: t)[p2]? = some j2 → ¬Stored cfg s k j2 n) ∧
          (getFiles cfg s (compress_key k HASHMAP_MAX_KEY_SIZE) (get_bucket cfg k) (j :: t)
            buf c).2 = SectorKey.deserialize (slotHeader s i (get_bucket cfg k + nKey)) c := by
      intro buf2 d hb2 hd hmiss heq
      rw [heq] at h
      obtain ⟨p, i, nKey, h1, h2, h3, h4, h5, h6⟩ := ih buf2 hb2 d hd h
      refine ⟨p + 1, i, nKey, by simpa using h1, h2, h3, h4, ?_, ?_⟩
      · intro p2 j2 n hp2 hj2
        cases p2 with
        | zero =>
          simp only [List.getElem?_cons_zero, Option.some.injEq] at hj2
          subst hj2
          exact hmiss n
        | succ q =>
          rw [List.getElem?_cons_succ] at hj2
          exact h5 q j2 n (by omega) hj2
      · rw [heq, h6]
        exact SectorKey.deserialize_congr _ _ _ _ (fun _ _ => rfl) (hd.trans hc.symm)
    cases hp : s.vHashmaps[j]? with
    | none =>
      refine next buf c hbuf hc ?_ ?_
      · intro n hst
        have := hst.1
        rw [List.getElem?_eq_none_iff] at hp
        omega
      · rw [getFiles]
        simp only [hp]
    | some pr =>
      have hj : j < s.vHashmaps.length := by
        by_contra hcon
        rw [List.getElem?_eq_none (by omega)] at hp
        cases hp
      obtain ⟨file, hf, hfl⟩ := hwf.present j hj
      cases hbl : pr.1.Has cfg.XXH64 k with
      | false =>
        refine next buf c hbuf hc ?_ ?_
        · intro n hst
          have := (window_of_Stored cfg s k j n pr file buf hcfg hnw hp hf hfl hbuf hst).1
          rw [hbl] at this
          cases this
        · rw [getFiles]
          simp only [hp, hc, hbl, Bool.not_false, if_true]
      | true =>
        have hrl : (readAt file (filePos (get_bucket cfg k)) buf).length =
            HASHMAP_KEY_ALLOCATION * windowKeys cfg (get_bucket cfg k) := by
          rw [length_readAt, hbuf]
        have hkeys : (readAt file (filePos (get_bucket cfg k)) buf).length /
            HASHMAP_KEY_ALLOCATION = windowKeys cfg (get_bucket cfg k) := by
          rw [hrl]
          exact Nat.mul_div_cancel_left _ (by decide)
        cases hs : (getSlots pr.2 (readAt file (filePos (get_bucket cfg k)) buf)
            (compress_key k HASHMAP_MAX_KEY_SIZE) (get_bucket cfg k)
            (List.range (windowKeys cfg (get_bucket cfg k))) c).1 with
        | false =>
          refine next (readAt file (filePos (get_bucket cfg k)) buf)
            (getSlots pr.2 (readAt file (filePos (get_bucket cfg k)) buf)
              (compress_key k HASHMAP_MAX_KEY_SIZE) (get_bucket cfg k)
              (List.range (windowKeys cfg (get_bucket cfg k))) c).2 hrl
            (by rw [getSlots_vKey]; exact hc) ?_ ?_
          · intro n hst
            obtain ⟨_, a, _, ha, h1, h2, h3⟩ :=
              window_of_Stored cfg s k j n pr file buf hcfg hnw hp hf hfl hbuf hst
            have := getSlots_hit pr.2 _ (compress_key k HASHMAP_MAX_KEY_SIZE)
              (get_bucket cfg k) (List.range (windowKeys cfg (get_bucket cfg k))) c a
              (List.mem_range.2 ha) h1 h2 h3
            rw [hs] at this
            cases this
          · rw [getFiles]
            simp only [hp, hc, hbl, Bool.not_true, Bool.false_eq_true, if_false, hf, hkeys, hs]
        | true =>
          obtain ⟨q, a, hq, h1, h2, h3, h4, h5⟩ := getSlots_first _ _ _ _ _ _ hs
          have haq : q < windowKeys cfg (get_bucket cfg k) ∧ a = q := by
            have hlt : q < (List.range (windowKeys cfg (get_bucket cfg k))).length := by
              by_contra hcon
              rw [List.getElem?_eq_none (by omega)] at hq
              cases hq
            rw [List.length_range] at hlt
            rw [List.getElem?_range hlt] at hq
            exact ⟨hlt, (Option.some.inj hq).symm⟩
          obtain ⟨hqw, rfl⟩ := haq
          have hget : getFiles cfg s (compress_key k HASHMAP_MAX_KEY_SIZE) (get_bucket cfg k)
              (j :: t) buf c =
              getSlots pr.2 (readAt file (filePos (get_bucket cfg k)) buf)
                (compress_key k HASHMAP_MAX_KEY_SIZE) (get_bucket cfg k)
                (List.range (windowKeys cfg (get_bucket cfg k))) c := by
            rw [getFiles]
            simp only [hp, hc, hbl, Bool.not_true, Bool.false_eq_true, if_false, hf, hkeys, hs,
              if_true]
          refine ⟨0, j, a, by simp, hqw,
            Stored_of_window cfg s k j pr file buf a hcfg hnw hp hf hfl hbuf hbl hqw h1 h2 h3,
            ?_, ?_, ?_⟩
          · intro m hm hst
            obtain ⟨_, a2, e, ha2, g1, g2, g3⟩ :=
              window_of_Stored cfg s k j _ pr file buf hcfg hnw hp hf hfl hbuf hst
            have e2 : a2 = m := by omega
            subst e2
            exact h4 a2 a2 hm (List.getElem?_range ha2) ⟨g1, g2, g3⟩
          · intro p2 j2 n hp2
            omega
          · rw [hget, h5]
            apply SectorKey.deserialize_congr _ _ _ _ _ rfl
            intro t2 ht2
            have hpos : filePos (get_bucket cfg k) + buf.length ≤ file.length := by
              rw [filePos_eq cfg _ hnw hb, hbuf, hfl, h45]
              omega
            rw [getD_slotHeader _ _ _ _ ht2, fileByte_eq s j _ file hf]
            simp only [List.getD_eq_getElem?_getD, List.getElem?_drop]
            have := getD_readAt file (filePos (get_bucket cfg k)) buf
              (a * HASHMAP_KEY_ALLOCATION + t2) hpos
            simp only [List.getD_eq_getElem?_getD] at this
            rw [this, if_pos (by rw [hbuf, h45]; omega), filePos_eq cfg _ hnw hb]
            congr 2
            rw [Nat.add_mul]
            omega

/-- The property of C31 within the machine limits: in every state reached from a freshly
initialised keychain (a non-zero bucket count whose slot positions fit 32 bits, at most `2 ^ 15`
hashmap files), when `Get` of a key returns true, the record it returns is decoded from a slot
`(f, b + nKey)` of the probe window that stores a ready record for the key (the bloom filter of
the file answers yes, the slot is occupied, its key bytes start with the compressed key and its
state is `READY`), and every slot that stores a ready record for the key is in a file with a
lower index than `f`, or in the file `f` at the same or a later slot: the newest file wins and,
within a file, the earliest slot. -/
theorem get_tie_break (cfg : Config) (ops : List Op) (k : List Nat) (c0 : SectorKey)
    (hcfg : cfg.Valid) (hnw : cfg.NoWrap)
    (hlen : (run cfg (fresh cfg) ops).vHashmaps.length ≤ 2 ^ 15)
    (h : (Get cfg (run cfg (fresh cfg) ops) k c0).1 = true) :
    ∃ f nKey, nKey < windowKeys cfg (get_bucket cfg k) ∧
      Stored cfg (run cfg (fresh cfg) ops) k f (get_bucket cfg k + nKey) ∧
      (Get cfg (run cfg (fresh cfg) ops) k c0).2 =
        SectorKey.deserialize
          (slotHeader (run cfg (fresh cfg) ops) f (get_bucket cfg k + nKey))
          { c0 with vKey := k } ∧
      ∀ f2 n2, Stored cfg (run cfg (fresh cfg) ops) k f2 n2 →
        f2 < f ∨ (f2 = f ∧ get_bucket cfg k + nKey ≤ n2) := by
  have hwf := WellFormed_run cfg ops hcfg hnw hlen
  unfold Get at h ⊢
  simp only at h ⊢
  obtain ⟨p, f, nKey, h1, h2, h3, h4, h5, h6⟩ := getFiles_first cfg _ k hcfg hnw hwf _ _
    (newBucketBuffer_length cfg _) _ rfl h
  refine ⟨f, nKey, h2, h3, h6, ?_⟩
  intro f2 n2 hst
  rw [descendingFiles_eq _ hlen] at h1 h5
  have hp : p < (run cfg (fresh cfg) ops).vHashmaps.length := by
    by_contra hcon
    rw [List.getElem?_eq_none (by simp; omega)] at h1
    cases h1
  rw [List.getElem?_reverse (by simpa using hp), List.length_range,
    List.getElem?_range (by omega)] at h1
  have hf : f = (run cfg (fresh cfg) ops).vHashmaps.length - 1 - p := (Option.some.inj h1).symm
  have hf2 := hst.1
  by_cases hgt : f < f2
  · exfalso
    refine h5 ((run cfg (fresh cfg) ops).vHashmaps.length - 1 - f2) f2 n2 (by omega) ?_ hst
    rw [List.getElem?_reverse (by simp; omega), List.length_range,
      List.getElem?_range (by omega)]
    congr 1
    omega
  · by_cases hlt : f2 < f
    · exact Or.inl hlt
    · right
      have e : f2 = f := by omega
      subst e
      refine ⟨rfl, ?_⟩
      by_contra hcon
      have hlo := hst.2.1
      apply h4 (n2 - get_bucket cfg k) (by omega)
      rw [Nat.add_sub_cancel' hlo]
      exact hst

/-- An instance of `get_tie_break` on a keychain of one bucket in append mode: two `Put` of the
key `[3]` land in the files 0 and 1, and `Get` returns the record of file 1. -/
theorem get_tie_break_witness :
    (Get (exampleConfig 1 4 2)
      (run (exampleConfig 1 4 2) (fresh (exampleConfig 1 4 2))
        [Op.put (readyKey [3] 5 100 42), Op.put (readyKey [3] 6 200 43)]) [3] blankKey).2
      = readyKey [3] 6 200 43 ∧
    ∃ f nKey, nKey < windowKeys (exampleConfig 1 4 2) (get_bucket (exampleConfig 1 4 2) [3]) ∧
      Stored (exampleConfig 1 4 2)
        (run (exampleConfig 1 4 2) (fresh (exampleConfig 1 4 2))
          [Op.put (readyKey [3] 5 100 42), Op.put (readyKey [3] 6 200 43)]) [3] f
        (get_bucket (exampleConfig 1 4 2) [3] + nKey) ∧
      (Get (exampleConfig 1 4 2)
        (run (exampleConfig 1 4 2) (fresh (exampleConfig 1 4 2))
          [Op.put (readyKey [3] 5 100 42), Op.put (readyKey [3] 6 200 43)]) [3] blankKey).2 =
        SectorKey.deserialize
          (slotHeader
            (run (exampleConfig 1 4 2) (fresh (exampleConfig 1 4 2))
              [Op.put (readyKey [3] 5 100 42), Op.put (readyKey [3] 6 200 43)]) f
            (get_bucket (exampleConfig 1 4 2) [3] + nKey))
          { blankKey with vKey := [3] } ∧
      ∀ f2 n2, Stored (exampleConfig 1 4 2)
          (run (exampleConfig 1 4 2) (fresh (exampleConfig 1 4 2))
            [Op.put (readyKey [3] 5 100 42), Op.put (readyKey [3] 6 200 43)]) [3] f2 n2 →
        f2 < f ∨ (f2 = f ∧ get_bucket (exampleConfig 1 4 2) [3] + nKey ≤ n2) :=
  ⟨by decide,
   get_tie_break (exampleConfig 1 4 2)
     [Op.put (readyKey [3] 5 100 42), Op.put (readyKey [3] 6 200 43)] [3] blankKey
     (by decide) (by decide) (by decide) (by decide)⟩

/-! ### The shape of a round of `compress_key` -/

theorem getD_xorLoop (nSize2 : Nat) (v : List Nat) (h2 : 2 * nSize2 ≤ v.length) :
    ∀ (nSteps i : Nat) (w : List Nat), i + nSteps = nSize2 → w.length = v.length →
      (∀ j, j < i → w.getD j 0 = v.getD j 0 ^^^ v.getD (2 * j) 0) →
      (∀ j, i ≤ j → w.getD j 0 = v.getD j 0) →
      ∀ j, (xorLoop nSize2 nSteps i w).getD j 0 =
        if j < nSize2 then v.getD j 0 ^^^ v.getD (2 * j) 0 else v.getD j 0 := by
  intro nSteps
  induction nSteps with
  | zero =>
    intro i w hi _ hlow hhigh j
    unfold xorLoop
    by_cases hj : j < nSize2
    · rw [if_pos hj]; exact hlow j (by omega)
    · rw [if_neg hj]; exact hhigh j (by omega)
  | succ n ih =>
    intro i w hi hw hlow hhigh j
    unfold xorLoop
    have hsh : ∀ x : Nat, x <<< 1 = 2 * x := by
      intro x
      rw [Nat.shiftLeft_eq]
      omega
    rw [hsh, hsh, if_pos (by omega)]
    apply ih (i + 1) _ (by omega) (by simp [hw])
    · intro j2 hj2
      simp only [List.getD_eq_getElem?_getD, List.getElem?_set]
      by_cases e : i = j2
      · subst e
        rw [if_pos rfl, if_pos (by omega)]
        simp only [Option.getD_some]
        have a1 := hhigh i (Nat.le_refl _)
        have a2 := hhigh (2 * i) (by omega)
        simp only [List.getD_eq_getElem?_getD] at a1 a2
        rw [a1, a2]
      · rw [if_neg e]
        have := hlow j2 (by omega)
        simp only [List.getD_eq_getElem?_getD] at this
        exact this
    · intro j2 hj2
      simp only [List.getD_eq_getElem?_getD, List.getElem?_set]
      rw [if_neg (by omega)]
      have := hhigh j2 (by omega)
      simp only [List.getD_eq_getElem?_getD] at this
      exact this

theorem getD_resize (v : List Nat) (n j : Nat) (hj : j < n) (hn : n ≤ v.length) :
    (resize v n).getD j 0 = v.getD j 0 := by
  unfold resize
  simp only [List.getD_eq_getElem?_getD]
  rw [List.getElem?_append_left (by simp; omega), List.getElem?_take_of_lt hj]

theorem compress_key_round (vData : List Nat) (nSize : Nat) (h : nSize < vData.length) :
    compress_key vData nSize =
      compress_key
        (resize (xorLoop (vData.length >>> 1) (vData.length >>> 1) 0 vData)
          (max ((vData.length >>> 1) % 2 ^ 16) nSize)) nSize := by
  have hhalf : vData.length >>> 1 = vData.length / 2 := by
    rw [Nat.shiftRight_eq_div_pow]
  have hmod : (vData.length >>> 1) % 2 ^ 16 ≤ vData.length / 2 := by
    rw [hhalf]; exact Nat.mod_le _ _
  obtain ⟨n, hn⟩ : ∃ n, vData.length = n + 1 := ⟨vData.length - 1, by omega⟩
  unfold compress_key
  rw [hn, compressLoop, ← hn, if_pos h]
  simp only
  apply compressLoop_fuel
  · rw [length_resize]; omega
  · exact Nat.le_refl _

theorem compressLoop_head (nSize : Nat) (hpos : 0 < nSize) :
    ∀ (nRounds : Nat) (v : List Nat), v[0]? = some 0 →
      (compressLoop nSize nRounds v)[0]? = some 0 := by
  intro nRounds
  induction nRounds with
  | zero => intro v hv; exact hv
  | succ n ih =>
    intro v hv
    unfold compressLoop
    by_cases hc : v.length > nSize
    · rw [if_pos hc]
      simp only
      apply ih
      have hhalf : v.length >>> 1 = v.length / 2 := by
        rw [Nat.shiftRight_eq_div_pow]
      have hx := getD_xorLoop (v.length >>> 1) v (by rw [hhalf]; omega) (v.length >>> 1) 0 v
        (by omega) rfl (fun j hj => absurd hj (Nat.not_lt_zero _)) (fun _ _ => rfl) 0
      rw [if_pos (by rw [hhalf]; omega), Nat.mul_zero, Nat.xor_self] at hx
      have hr := getD_resize (xorLoop (v.length >>> 1) (v.length >>> 1) 0 v)
        (max ((v.length >>> 1) % 2 ^ 16) nSize) 0 (by omega)
        (by
          rw [length_xorLoop]
          have : (v.length >>> 1) % 2 ^ 16 ≤ v.length / 2 := by
            rw [hhalf]; exact Nat.mod_le _ _
          omega)
      rw [hx] at hr
      have hlen : 0 < (resize (xorLoop (v.length >>> 1) (v.length >>> 1) 0 v)
          (max ((v.length >>> 1) % 2 ^ 16) nSize)).length := by
        rw [length_resize]; omega
      rw [List.getD_eq_getElem?_getD, List.getElem?_eq_getElem hlen, Option.getD_some] at hr
      rw [List.getElem?_eq_getElem hlen, hr]
    · rw [if_neg hc]
      exact hv

/-- C34 (amended): for every buffer longer than `nSize`, `compress_key` is one round followed
by `compress_key` of the result of the round; the round leaves a buffer of
`max((len / 2) mod 2 ^ 16, nSize)` bytes whose byte `j` is `in[j] ^ in[2 * j]` for
`j < len / 2`, computed from the bytes as they were before the round, and `in[j]` from
there on; and for `nSize ≥ 1` the first byte of the output of `compress_key` is zero. -/
theorem compress_round_shape (vData : List Nat) (nSize : Nat) (h : nSize < vData.length) :
    compress_key vData nSize =
      compress_key
        (resize (xorLoop (vData.length >>> 1) (vData.length >>> 1) 0 vData)
          (max ((vData.length >>> 1) % 2 ^ 16) nSize)) nSize ∧
    (resize (xorLoop (vData.length >>> 1) (vData.length >>> 1) 0 vData)
      (max ((vData.length >>> 1) % 2 ^ 16) nSize)).length
      = max ((vData.length / 2) % 2 ^ 16) nSize ∧
    (∀ j, j < max ((vData.length / 2) % 2 ^ 16) nSize →
      (resize (xorLoop (vData.length >>> 1) (vData.length >>> 1) 0 vData)
        (max ((vData.length >>> 1) % 2 ^ 16) nSize)).getD j 0 =
        if j < vData.length / 2 then vData.getD j 0 ^^^ vData.getD (2 * j) 0
        else vData.getD j 0) ∧
    (0 < nSize → (compress_key vData nSize)[0]? = some 0) := by
  have hhalf : vData.length >>> 1 = vData.length / 2 := by
    rw [Nat.shiftRight_eq_div_pow]
  have hmod : (vData.length / 2) % 2 ^ 16 ≤ vData.length / 2 := Nat.mod_le _ _
  have hx := getD_xorLoop (vData.length / 2) vData (by omega) (vData.length / 2) 0 vData
    (by omega) rfl (fun j hj => absurd hj (Nat.not_lt_zero _)) (fun _ _ => rfl)
  refine ⟨compress_key_round vData nSize h, ?_, ?_, ?_⟩
  · rw [length_resize, hhalf]
  · intro j hj
    rw [hhalf, getD_resize _ _ _ hj (by rw [length_xorLoop]; omega)]
    exact hx j
  · intro hpos
    rw [compress_key_round vData nSize h]
    unfold compress_key
    apply compressLoop_head nSize hpos
    have hlen : 0 < (resize (xorLoop (vData.length >>> 1) (vData.length >>> 1) 0 vData)
        (max ((vData.length >>> 1) % 2 ^ 16) nSize)).length := by
      rw [length_resize]; omega
    have hr := getD_resize (xorLoop (vData.length >>> 1) (vData.length >>> 1) 0 vData)
      (max ((vData.length >>> 1) % 2 ^ 16) nSize) 0 (by omega)
      (by rw [length_xorLoop, hhalf]; omega)
    rw [hhalf] at hr hlen ⊢
    rw [hx 0, if_pos (by omega), Nat.mul_zero, Nat.xor_self] at hr
    rw [List.getD_eq_getElem?_getD, List.getElem?_eq_getElem hlen, Option.getD_some] at hr
    rw [List.getElem?_eq_getElem hlen, hr]

/-- Counterexample to C34 as first stated: for `nSize = 0` the key of one byte `0x05` is
longer than `nSize`, and the output of `compress_key` is empty, so it has no first byte. -/
theorem compress_round_shape_counterexample :
    0 < [5].length ∧ compress_key [5] 0 = [] ∧ (compress_key [5] 0)[0]? = none := by
  decide

/-- Witness of the amended C34 on the key of 40 bytes `0xAB` with `nSize = 32`: one round
gives 20 zero bytes followed by 12 bytes `0xAB`, which is the output. -/
theorem compress_round_shape_witness :
    compress_key (List.replicate 40 171) 32 = List.replicate 20 0 ++ List.replicate 12 171 ∧
    resize (xorLoop 20 20 0 (List.replicate 40 171)) 32
      = List.replicate 20 0 ++ List.replicate 12 171 ∧
    (compress_key (List.replicate 40 171) 32 =
      compress_key
        (resize (xorLoop ((List.replicate 40 171).length >>> 1)
          ((List.replicate 40 171).length >>> 1) 0 (List.replicate 40 171))
          (max (((List.replicate 40 171).length >>> 1) % 2 ^ 16) 32)) 32 ∧
    (resize (xorLoop ((List.replicate 40 171).length >>> 1)
      ((List.replicate 40 171).length >>> 1) 0 (List.replicate 40 171))
      (max (((List.replicate 40 171).length >>> 1) % 2 ^ 16) 32)).length
      = max (((List.replicate 40 171).length / 2) % 2 ^ 16) 32 ∧
    (∀ j, j < max (((List.replicate 40 171).length / 2) % 2 ^ 16) 32 →
      (resize (xorLoop ((List.replicate 40 171).length >>> 1)
        ((List.replicate 40 171).length >>> 1) 0 (List.replicate 40 171))
        (max (((List.replicate 40 171).length >>> 1) % 2 ^ 16) 32)).getD j 0 =
        if j < (List.replicate 40 171).length / 2 then
          (List.replicate 40 171).getD j 0 ^^^ (List.replicate 40 171).getD (2 * j) 0
        else (List.replicate 40 171).getD j 0) ∧
    (0 < 32 → (compress_key (List.replicate 40 171) 32)[0]? = some 0)) :=
  ⟨by decide, by decide, compress_round_shape (List.replicate 40 171) 32 (by decide)⟩

/-! ### The bit capacity of a bloom filter -/

theorem roundHalfEven_bounds (a b : Nat) :
    a / b ≤ roundHalfEven a b ∧ roundHalfEven a b ≤ a / b + 1 := by
  unfold roundHalfEven
  split
  · omega
  · split
    · omega
    · split <;> omega

theorem roundHalfEven_one (a : Nat) : roundHalfEven a 1 = a := by
  unfold roundHalfEven
  rw [Nat.mod_one, Nat.div_one, if_pos (by decide)]

theorem log2Floor_le (nFuel : Nat) : ∀ (n k : Nat), n < 2 ^ (k + 1) → log2Floor nFuel n ≤ k := by
  induction nFuel with
  | zero => intro n k _; exact Nat.zero_le _
  | succ f ih =>
    intro n k h
    unfold log2Floor
    split
    · rename_i h2
      cases k with
      | zero => omega
      | succ k2 =>
        have : n / 2 < 2 ^ (k2 + 1) := by
          rw [Nat.div_lt_iff_lt_mul (by decide)]
          rw [Nat.pow_succ] at h
          exact h
        have := ih (n / 2) k2 this
        omega
    · exact Nat.zero_le _

theorem nearestDouble_small (p q : Nat) (h : p / q < 2 ^ 53) :
    ∃ s, nearestDouble p q = (roundHalfEven (p * 2 ^ s) q, 2 ^ s) := by
  unfold nearestDouble
  simp only
  rw [if_pos (log2Floor_le _ _ 52 h)]
  exact ⟨_, rfl⟩

theorem div_scaled (x s q : Nat) : x * 2 ^ s / q / 2 ^ s = x / q := by
  rw [Nat.div_div_eq_div_mul, Nat.mul_div_mul_right _ _ (Nat.two_pow_pos s)]

theorem truncate_nearestDouble (p q : Nat) (h : p / q < 2 ^ 53) :
    p / q ≤ (nearestDouble p q).1 / (nearestDouble p q).2 ∧
    (nearestDouble p q).1 / (nearestDouble p q).2 ≤ p / q + 1 := by
  obtain ⟨s, hs⟩ := nearestDouble_small p q h
  rw [hs]
  simp only
  obtain ⟨h1, h2⟩ := roundHalfEven_bounds (p * 2 ^ s) q
  have hpos := Nat.two_pow_pos s
  constructor
  · rw [← div_scaled p s q]
    exact Nat.div_le_div_right h1
  · calc roundHalfEven (p * 2 ^ s) q / 2 ^ s
        ≤ (p * 2 ^ s / q + 1) / 2 ^ s := Nat.div_le_div_right h2
      _ ≤ p * 2 ^ s / q / 2 ^ s + 1 := by
          rw [Nat.div_le_iff_le_mul_add_pred hpos]
          have := Nat.div_add_mod (p * 2 ^ s / q) (2 ^ s)
          have := Nat.mod_lt (p * 2 ^ s / q) hpos
          rw [Nat.mul_add, Nat.mul_one]
          omega
      _ = p / q + 1 := by rw [div_scaled p s q]

/-- The fraction `LN2_LITERAL` is the `double` nearest to `0.693147`: a multiple of `2 ^ -53`
between `1 / 2` and `1` at less than `2 ^ -54` from it. -/
theorem LN2_LITERAL_nearest :
    LN2_LITERAL.2 = 2 ^ 52 ∧ 2 ^ 51 ≤ LN2_LITERAL.1 ∧ LN2_LITERAL.1 < 2 ^ 52 ∧
    LN2_LITERAL.1 * 1000000 ≤ 693147 * 2 ^ 52 ∧
    4 * (693147 * 2 ^ 52 - LN2_LITERAL.1 * 1000000) < 1000000 := by
  decide

theorem bloomBits_bounds (n : Nat) (hn : 0 < n) (h : n * 3 < 2 ^ 52) :
    n * 3 * 2 ^ 52 / 3121656570912977 ≤ bloomBits n ∧
    bloomBits n ≤ n * 3 * 2 ^ 52 / 3121656570912977 + 1 := by
  unfold bloomBits
  simp only
  have hmod : n * 3 % 2 ^ 64 = n * 3 := Nat.mod_eq_of_lt (by omega)
  rw [hmod, if_neg (by omega)]
  obtain ⟨s, hs⟩ := nearestDouble_small (n * 3) 1 (by rw [Nat.div_one]; omega)
  rw [hs, roundHalfEven_one]
  simp only [LN2_LITERAL]
  have hdiv : n * 3 * 2 ^ s * 2 ^ 52 / (2 ^ s * 3121656570912977) =
      n * 3 * 2 ^ 52 / 3121656570912977 := by
    have e : n * 3 * 2 ^ s * 2 ^ 52 = 2 ^ s * (n * 3 * 2 ^ 52) := by ring
    rw [e, Nat.mul_div_mul_left _ _ (Nat.two_pow_pos s)]
  have hlt : n * 3 * 2 ^ s * 2 ^ 52 / (2 ^ s * 3121656570912977) < 2 ^ 53 := by
    rw [hdiv, Nat.div_lt_iff_lt_mul (by decide)]
    omega
  have := truncate_nearestDouble _ _ hlt
  rw [hdiv] at this
  exact this

theorem bloomBits_valid (n : Nat) (hn : 0 < n) (h : n < 2 ^ 32) :
    0 < bloomBits n ∧ bloomBits n < 2 ^ 38 := by
  obtain ⟨h1, h2⟩ := bloomBits_bounds n hn (by omega)
  have a1 : 1 * 3 * 2 ^ 52 / 3121656570912977 ≤ n * 3 * 2 ^ 52 / 3121656570912977 :=
    Nat.div_le_div_right (by omega)
  have a2 : n * 3 * 2 ^ 52 / 3121656570912977 ≤ 2 ^ 32 * 3 * 2 ^ 52 / 3121656570912977 :=
    Nat.div_le_div_right (by omega)
  have e1 : 1 * 3 * 2 ^ 52 / 3121656570912977 = 4 := by decide
  have e2 : 2 ^ 32 * 3 * 2 ^ 52 / 3121656570912977 = 18588988898 := by decide
  omega

/-- C32 (amended): for every bucket count `n ≥ 1` with `3 * n < 2 ^ 52`, the bit capacity `m`
of `BloomFilter(n)` is the quotient of `3 * n` by the `double` of the literal `0.693147`,
computed in `double` and cut to an integer: it is `floor(3 * n / c)` or that plus one, for
`c = 3121656570912977 / 2 ^ 52`; this `m` is the modulus of each of the three hashes and the
element count of the bit array, which has `m / 64 + 1` registers. -/
theorem bloom_capacity (n : Nat) (hn : 0 < n) (h : n * 3 < 2 ^ 52) :
    (n * 3 * 2 ^ 52 / 3121656570912977 ≤ bloomBits n ∧
      bloomBits n ≤ n * 3 * 2 ^ 52 / 3121656570912977 + 1) ∧
    (BloomFilter.ofBuckets n).HASHMAP_TOTAL_BUCKETS = bloomBits n ∧
    (BloomFilter.ofBuckets n).toBitArray = BitArray.create (bloomBits n) ∧
    (BloomFilter.ofBuckets n).vRegisters.length = bloomBits n / 64 + 1 ∧
    ∀ (XXH64 : List Nat → Nat → Nat) (vKey : List Nat) (nK : Nat),
      BloomFilter.get_bucket XXH64 (BloomFilter.ofBuckets n) vKey nK =
        (XXH64 vKey nK % 2 ^ 64) % bloomBits n :=
  ⟨bloomBits_bounds n hn h, rfl, rfl, by simp [BloomFilter.ofBuckets, BloomFilter.create,
    BitArray.create], fun _ _ _ => rfl⟩

/-- Counterexample to C32 as first stated: `BloomFilter(16)` has the bit capacity `69`, and
`ceil(16 * 3 / ln 2)` is `70`. -/
theorem bloom_capacity_counterexample :
    bloomBits 16 = 69 ∧ (BloomFilter.ofBuckets 16).HASHMAP_TOTAL_BUCKETS = 69 ∧
    ⌈((16 * 3 : Nat) : ℝ) / Real.log 2⌉₊ = 70 := by
  refine ⟨by decide, by decide, ?_⟩
  rw [Nat.ceil_eq_iff (by decide)]
  have h1 := Real.log_two_gt_d9
  have h2 := Real.log_two_lt_d9
  have hpos : (0 : ℝ) < Real.log 2 := by linarith
  constructor
  · rw [lt_div_iff₀ hpos]
    push_cast
    nlinarith
  · rw [div_le_iff₀ hpos]
    push_cast
    nlinarith

/-- Witness of the amended C32 for 16 buckets: the capacity is `69 = floor(48 / c)`, and the
bit array has two registers. -/
theorem bloom_capacity_witness :
    bloomBits 16 = 69 ∧ 16 * 3 * 2 ^ 52 / 3121656570912977 = 69 ∧
    ((16 * 3 * 2 ^ 52 / 3121656570912977 ≤ bloomBits 16 ∧
      bloomBits 16 ≤ 16 * 3 * 2 ^ 52 / 3121656570912977 + 1) ∧
    (BloomFilter.ofBuckets 16).HASHMAP_TOTAL_BUCKETS = bloomBits 16 ∧
    (BloomFilter.ofBuckets 16).toBitArray = BitArray.create (bloomBits 16) ∧
    (BloomFilter.ofBuckets 16).vRegisters.length = bloomBits 16 / 64 + 1 ∧
    ∀ (XXH64 : List Nat → Nat → Nat) (vKey : List Nat) (nK : Nat),
      BloomFilter.get_bucket XXH64 (BloomFilter.ofBuckets 16) vKey nK =
        (XXH64 vKey nK % 2 ^ 64) % bloomBits 16) :=
  ⟨by decide, by decide, bloom_capacity 16 (by decide) (by decide)⟩

/-! ### Every access of the keychain is in range -/

theorem Valid_of_bloomBits (cfg : Config) (hT : 1 ≤ cfg.HASHMAP_TOTAL_BUCKETS)
    (hnw : cfg.NoWrap) (hbits : cfg.BLOOM_BITS = bloomBits cfg.HASHMAP_TOTAL_BUCKETS) :
    cfg.Valid := by
  unfold Config.NoWrap at hnw
  have h45 := key_allocation_eq
  have hlt : cfg.HASHMAP_TOTAL_BUCKETS < 2 ^ 32 := by
    rw [h45] at hnw
    omega
  obtain ⟨h1, h2⟩ := bloomBits_valid cfg.HASHMAP_TOTAL_BUCKETS hT hlt
  exact ⟨hT, hlt, by rw [hbits]; exact h1, by rw [hbits]; exact h2⟩

/-- C37: for a keychain of `T ≥ 1` buckets with `T * HASHMAP_KEY_ALLOCATION < 2 ^ 32`, whose
bloom filters have the bit capacity `m` that the constructor computes, in every state
reached from a freshly initialised keychain (at most `2 ^ 15` hashmap files): the bucket
of a key is below `T`; the window that `Get`, `Put` and `Erase` read ends at or before
`T * HASHMAP_KEY_ALLOCATION`, and every slot of it has an index below `T` and lies inside
these bytes; every file that has filters is on disk with exactly that many bytes, also
after `Put` and after `Erase`; a record is at most `HASHMAP_KEY_ALLOCATION` bytes long;
`Put` writes its record, and `Erase` its zero bytes, into one slot of the window; every
bloom bit index is below `m` and inside the registers of the bloom filter, and every
occupancy bit index of the window is inside the registers of the occupancy filter. -/
theorem keychain_in_range (cfg : Config) (ops : List Op) (k : List Nat) (r : SectorKey)
    (hT : 1 ≤ cfg.HASHMAP_TOTAL_BUCKETS) (hnw : cfg.NoWrap)
    (hbits : cfg.BLOOM_BITS = bloomBits cfg.HASHMAP_TOTAL_BUCKETS)
    (hlen : (Put cfg (run cfg (fresh cfg) ops) r).2.vHashmaps.length ≤ 2 ^ 15) :
    get_bucket cfg k < cfg.HASHMAP_TOTAL_BUCKETS ∧
    filePos (get_bucket cfg k) + (newBucketBuffer cfg (get_bucket cfg k)).length ≤
      cfg.HASHMAP_TOTAL_BUCKETS * HASHMAP_KEY_ALLOCATION ∧
    (∀ nKey, nKey < windowKeys cfg (get_bucket cfg k) →
      get_bucket cfg k + nKey < cfg.HASHMAP_TOTAL_BUCKETS ∧
      filePos (get_bucket cfg k) + nKey * HASHMAP_KEY_ALLOCATION + HASHMAP_KEY_ALLOCATION ≤
        cfg.HASHMAP_TOTAL_BUCKETS * HASHMAP_KEY_ALLOCATION) ∧
    (putRecord r).length ≤ HASHMAP_KEY_ALLOCATION ∧
    WellFormed cfg (run cfg (fresh cfg) ops) ∧
    WellFormed cfg (Put cfg (run cfg (fresh cfg) ops) r).2 ∧
    WellFormed cfg (Erase cfg (run cfg (fresh cfg) ops) k).2 ∧
    (∃ i nKey, nKey < windowKeys cfg (get_bucket cfg r.vKey) ∧
      Written cfg (run cfg (fresh cfg) ops) (Put cfg (run cfg (fresh cfg) ops) r).2 i
        (get_bucket cfg r.vKey + nKey) (putRecord r) true) ∧
    ((Erase cfg (run cfg (fresh cfg) ops) k).2 = run cfg (fresh cfg) ops ∨
      ∃ i nKey, nKey < windowKeys cfg (get_bucket cfg k) ∧
        Written cfg (run cfg (fresh cfg) ops) (Erase cfg (run cfg (fresh cfg) ops) k).2 i
          (get_bucket cfg k + nKey) (List.replicate HASHMAP_KEY_ALLOCATION 0) false) ∧
    (∀ (i : Nat) (p : BloomFilter × HashMapFilter),
      (run cfg (fresh cfg) ops).vHashmaps[i]? = some p →
      0 < p.1.HASHMAP_TOTAL_BUCKETS ∧
      (∀ nK, BloomFilter.get_bucket cfg.XXH64 p.1 k nK < cfg.BLOOM_BITS ∧
        BloomFilter.get_bucket cfg.XXH64 p.1 k nK / 64 < p.1.vRegisters.length) ∧
      (∀ nKey, nKey < windowKeys cfg (get_bucket cfg k) →
        (get_bucket cfg k + nKey) / 64 < p.2.vRegisters.length)) := by
  have hcfg := Valid_of_bloomBits cfg hT hnw hbits
  have hN : (run cfg (fresh cfg) ops).vHashmaps.length ≤ 2 ^ 15 :=
    Nat.le_trans (length_Put_ge cfg _ r) hlen
  have hwf := WellFormed_run cfg ops hcfg hnw hN
  have hb := get_bucket_lt cfg k hcfg.1
  have hwin := windowKeys_add_le cfg _ hb
  have h45 := key_allocation_eq
  obtain ⟨i, nKey, _, _, hk, _, _, hw⟩ := Put_effect cfg _ r hcfg hnw hwf hlen
  have he := Erase_effect cfg _ k hcfg hnw hwf hN
  refine ⟨hb, ?_, ?_, length_putRecord r, hwf, hw.wellFormed, ?_, ⟨i, nKey, hk, hw⟩, ?_, ?_⟩
  · rw [newBucketBuffer_length, filePos_eq cfg _ hnw hb, h45]
    omega
  · intro n hn
    refine ⟨by omega, ?_⟩
    rw [filePos_eq cfg _ hnw hb, h45]
    omega
  · rcases he with ⟨_, h2⟩ | ⟨_, _, _, _, _, _, h3⟩
    · rw [h2]; exact hwf
    · exact h3.wellFormed
  · rcases he with ⟨_, h2⟩ | ⟨i2, n2, _, h1, _, _, h3⟩
    · exact Or.inl h2
    · exact Or.inr ⟨i2, n2, h1, h3⟩
  · intro j p hp
    obtain ⟨⟨s1, s2⟩, s3⟩ := hwf.sized j p hp
    unfold HashMapFilter.Sized at s3
    have hm : 0 < cfg.BLOOM_BITS := hcfg.2.2.1
    refine ⟨by rw [s1]; exact hm, ?_, ?_⟩
    · intro nK
      have hlt : BloomFilter.get_bucket cfg.XXH64 p.1 k nK < cfg.BLOOM_BITS := by
        unfold BloomFilter.get_bucket
        rw [s1]
        exact Nat.mod_lt _ hm
      refine ⟨hlt, ?_⟩
      rw [s2]
      have : BloomFilter.get_bucket cfg.XXH64 p.1 k nK / 64 ≤ cfg.BLOOM_BITS / 64 :=
        Nat.div_le_div_right (Nat.le_of_lt hlt)
      omega
    · intro n hn
      rw [s3]
      have : (get_bucket cfg k + n) / 64 ≤ cfg.HASHMAP_TOTAL_BUCKETS / 64 :=
        Nat.div_le_div_right (by omega)
      omega

/-- Witness of C37 on a keychain of 16 buckets whose bloom filters have the 69 bits that the
constructor computes, after `Put` of the key `[3]`: the key `[3]` and the record of the key
`[6]`, both of bucket 14. -/
theorem keychain_in_range_witness :
    get_bucket (exampleConfig 16 69 2) [3] < (exampleConfig 16 69 2).HASHMAP_TOTAL_BUCKETS ∧
    filePos (get_bucket (exampleConfig 16 69 2) [3]) + (newBucketBuffer (exampleConfig 16 69 2)
        (get_bucket (exampleConfig 16 69 2) [3])).length ≤
      (exampleConfig 16 69 2).HASHMAP_TOTAL_BUCKETS * HASHMAP_KEY_ALLOCATION ∧
    (∀ nKey, nKey < windowKeys (exampleConfig 16 69 2) (get_bucket (exampleConfig 16 69 2) [3]) →
      get_bucket (exampleConfig 16 69 2) [3] + nKey < (exampleConfig 16 69 2).HASHMAP_TOTAL_BUCKETS
          ∧
      filePos (get_bucket (exampleConfig 16 69 2) [3]) + nKey * HASHMAP_KEY_ALLOCATION +
          HASHMAP_KEY_ALLOCATION ≤
        (exampleConfig 16 69 2).HASHMAP_TOTAL_BUCKETS * HASHMAP_KEY_ALLOCATION) ∧
    (putRecord (readyKey [6] 5 100 42)).length ≤ HASHMAP_KEY_ALLOCATION ∧
    WellFormed (exampleConfig 16 69 2) (run (exampleConfig 16 69 2) (fresh (exampleConfig 16 69 2))
        [Op.put (readyKey [3] 5 100 42)]) ∧
    WellFormed (exampleConfig 16 69 2) (Put (exampleConfig 16 69 2) (run (exampleConfig 16 69 2)
        (fresh (exampleConfig 16 69 2)) [Op.put (readyKey [3] 5 100 42)]) (readyKey [6] 5 100
        42)).2 ∧
    WellFormed (exampleConfig 16 69 2) (Erase (exampleConfig 16 69 2) (run (exampleConfig 16 69 2)
        (fresh (exampleConfig 16 69 2)) [Op.put (readyKey [3] 5 100 42)]) [3]).2 ∧
    (∃ i nKey, nKey < windowKeys (exampleConfig 16 69 2) (get_bucket (exampleConfig 16 69 2)
        (readyKey [6] 5 100 42).vKey) ∧
      Written (exampleConfig 16 69 2) (run (exampleConfig 16 69 2) (fresh (exampleConfig 16 69 2))
          [Op.put (readyKey [3] 5 100 42)]) (Put (exampleConfig 16 69 2) (run (exampleConfig 16 69
          2) (fresh (exampleConfig 16 69 2)) [Op.put (readyKey [3] 5 100 42)]) (readyKey [6] 5 100
          42)).2 i
        (get_bucket (exampleConfig 16 69 2) (readyKey [6] 5 100 42).vKey + nKey) (putRecord
            (readyKey [6] 5 100 42)) true) ∧
    ((Erase (exampleConfig 16 69 2) (run (exampleConfig 16 69 2) (fresh (exampleConfig 16 69 2))
        [Op.put (readyKey [3] 5 100 42)]) [3]).2 = run (exampleConfig 16 69 2) (fresh
        (exampleConfig 16 69 2)) [Op.put (readyKey [3] 5 100 42)] ∨
      ∃ i nKey, nKey < windowKeys (exampleConfig 16 69 2) (get_bucket (exampleConfig 16 69 2) [3]) ∧
        Written (exampleConfig 16 69 2) (run (exampleConfig 16 69 2) (fresh (exampleConfig 16 69
            2)) [Op.put (readyKey [3] 5 100 42)]) (Erase (exampleConfig 16 69 2) (run
            (exampleConfig 16 69 2) (fresh (exampleConfig 16 69 2)) [Op.put (readyKey [3] 5 100
            42)]) [3]).2 i
          (get_bucket (exampleConfig 16 69 2) [3] + nKey) (List.replicate HASHMAP_KEY_ALLOCATION 0)
              false) ∧
    (∀ (i : Nat) (p : BloomFilter × HashMapFilter),
      (run (exampleConfig 16 69 2) (fresh (exampleConfig 16 69 2)) [Op.put (readyKey [3] 5 100
          42)]).vHashmaps[i]? = some p →
      0 < p.1.HASHMAP_TOTAL_BUCKETS ∧
      (∀ nK, BloomFilter.get_bucket (exampleConfig 16 69 2).XXH64 p.1 [3] nK < (exampleConfig 16 69
          2).BLOOM_BITS ∧
        BloomFilter.get_bucket (exampleConfig 16 69 2).XXH64 p.1 [3] nK / 64 <
            p.1.vRegisters.length) ∧
      (∀ nKey, nKey < windowKeys (exampleConfig 16 69 2) (get_bucket (exampleConfig 16 69 2) [3]) →
        (get_bucket (exampleConfig 16 69 2) [3] + nKey) / 64 < p.2.vRegisters.length)) :=
  keychain_in_range (exampleConfig 16 69 2) [Op.put (readyKey [3] 5 100 42)] [3]
    (readyKey [6] 5 100 42) (by decide) (by decide) (by decide) (by decide)

/-! ### The in-memory filters after a failed `Put` -/

theorem Streams_extendFiles_open (cfg : Config) (s : BinaryHashMap) :
    Streams.extendFiles cfg s true true = (true, extendFiles cfg s) := by
  unfold Streams.extendFiles extendFiles
  simp only [Bool.not_true, Bool.and_false, Bool.false_eq_true, if_false]
  by_cases h2 : (lookupFile s.hashmapFiles s.vHashmaps.length).isSome = true
  · simp only [h2, if_true]
    by_cases h3 : (lookupFile s.bloomFiles s.vHashmaps.length).isSome = true
    · simp only [h3, if_true]
    · simp only [h3, Bool.false_eq_true, if_false]
  · simp only [h2, Bool.false_eq_true, if_false]
    by_cases h3 : (lookupFile s.bloomFiles s.vHashmaps.length).isSome = true
    · simp only [h3, if_true]
    · simp only [h3, Bool.false_eq_true, if_false]

/-- With both streams open `Streams.Put` is `Put`. -/
theorem Streams_Put_open (cfg : Config) (s : BinaryHashMap) (r : SectorKey) :
    Streams.Put cfg s r true true = Put cfg s r := by
  unfold Streams.Put Put Streams.putNewFile putNewFile
  simp only [Streams_extendFiles_open]

/-- The outcomes of `Streams.extendFiles`. -/
theorem Streams_extendFiles_cases (cfg : Config) (s : BinaryHashMap) (fHashmap fBloom : Bool) :
    Streams.extendFiles cfg s fHashmap fBloom = (false, s) ∨
    (∃ files, Streams.extendFiles cfg s fHashmap fBloom =
      (false, { vHashmaps := s.vHashmaps ++ [(BloomFilter.create cfg.BLOOM_BITS,
                  HashMapFilter.create cfg.HASHMAP_TOTAL_BUCKETS)],
                hashmapFiles := files, bloomFiles := s.bloomFiles })) ∨
    Streams.extendFiles cfg s fHashmap fBloom = (true, extendFiles cfg s) := by
  unfold Streams.extendFiles extendFiles
  simp only
  by_cases h1 : (!(lookupFile s.hashmapFiles s.vHashmaps.length).isSome && !fHashmap) = true
  · left
    rw [if_pos h1]
  · right
    rw [if_neg h1]
    by_cases h2 : (lookupFile s.hashmapFiles s.vHashmaps.length).isSome = true
    · simp only [h2, if_true]
      by_cases h3 : (lookupFile s.bloomFiles s.vHashmaps.length).isSome = true
      · right
        simp only [h3, if_true]
      · simp only [h3, Bool.false_eq_true, if_false]
        cases fBloom
        · left
          exact ⟨_, rfl⟩
        · right
          rfl
    · simp only [h2, Bool.false_eq_true, if_false]
      by_cases h3 : (lookupFile s.bloomFiles s.vHashmaps.length).isSome = true
      · right
        simp only [h3, if_true]
      · simp only [h3, Bool.false_eq_true, if_false]
        cases fBloom
        · left
          exact ⟨_, rfl⟩
        · right
          rfl

/-- C8 (amended): whenever `Put` returns false, whatever the outcome of the two stream
constructions of its last part, the state is in one of four cases.  It is unchanged (a
hashmap file cannot be opened in the overwrite scan, `write_key` fails on the overwrite path,
or the new hashmap file cannot be created).  Or it differs from the state before by the
key inserted into the bloom filter and one occupancy bit set in the filters of the file whose
slot was claimed (`write_key` fails on the append path).  Or one new pair of empty filters
is added at the end and no filter of the state before has changed (the new bloom file cannot
be created).  Or the same insertion is made in the last pair after the new file and its
filters were set up (`write_key` fails in the last part). -/
theorem put_failure_memory (cfg : Config) (s : BinaryHashMap) (r : SectorKey)
    (fHashmap fBloom : Bool) (hfail : (Streams.Put cfg s r fHashmap fBloom).1 = false) :
    (Streams.Put cfg s r fHashmap fBloom).2 = s ∨
    (∃ i nIndex,
      (Streams.Put cfg s r fHashmap fBloom).2 = insertFilters cfg s i r.vKey nIndex) ∨
    ((Streams.Put cfg s r fHashmap fBloom).2.vHashmaps =
        s.vHashmaps ++ [(BloomFilter.create cfg.BLOOM_BITS,
          HashMapFilter.create cfg.HASHMAP_TOTAL_BUCKETS)] ∧
      (Streams.Put cfg s r fHashmap fBloom).2.bloomFiles = s.bloomFiles) ∨
    (∃ i nIndex, (Streams.Put cfg s r fHashmap fBloom).2 =
        insertFilters cfg (extendFiles cfg s) i r.vKey nIndex) := by
  cases hpath : putPath cfg s r with
  | failed =>
    left
    unfold Streams.Put
    simp only [hpath]
  | overwrite i nKey =>
    left
    have hput : Streams.Put cfg s r fHashmap fBloom = write_key s (putRecord r) i
        (filePos (get_bucket cfg r.vKey) + nKey * HASHMAP_KEY_ALLOCATION) := by
      unfold Streams.Put; simp only [hpath]
    rw [hput] at hfail ⊢
    exact write_key_false _ _ _ _ hfail
  | append i nKey =>
    right; left
    have hput : Streams.Put cfg s r fHashmap fBloom = write_key
        (insertFilters cfg s i r.vKey (get_bucket cfg r.vKey + nKey)) (putRecord r) i
        (filePos (get_bucket cfg r.vKey) + nKey * HASHMAP_KEY_ALLOCATION) := by
      unfold Streams.Put; simp only [hpath]
    rw [hput] at hfail ⊢
    exact ⟨i, _, write_key_false _ _ _ _ hfail⟩
  | newFile =>
    have hput : Streams.Put cfg s r fHashmap fBloom =
        Streams.putNewFile cfg s r.vKey (putRecord r) (get_bucket cfg r.vKey) fHashmap
          fBloom := by
      unfold Streams.Put; simp only [hpath]
    rw [hput] at hfail ⊢
    unfold Streams.putNewFile at hfail ⊢
    rcases Streams_extendFiles_cases cfg s fHashmap fBloom with h | ⟨files, h⟩ | h
    · left
      rw [h]
    · right; right; left
      rw [h]
      exact ⟨rfl, rfl⟩
    · right; right; right
      rw [h] at hfail ⊢
      exact ⟨_, _, write_key_false _ _ _ _ hfail⟩

/-- Witness of the amended C8 on a keychain of one bucket in append mode whose file 0 is
full: the new file `_hashmap.00001` is created, the stream on the new bloom file does not
open, and `Put` returns false with a second, empty pair of filters in memory. -/
theorem put_failure_memory_witness :
    (Streams.Put (exampleConfig 1 4 2)
      (run (exampleConfig 1 4 2) (fresh (exampleConfig 1 4 2)) [Op.put (readyKey [1] 5 100 42)])
      (readyKey [1, 2] 7 8 9) true false).1 = false ∧
    (Streams.Put (exampleConfig 1 4 2)
      (run (exampleConfig 1 4 2) (fresh (exampleConfig 1 4 2)) [Op.put (readyKey [1] 5 100 42)])
      (readyKey [1, 2] 7 8 9) true false).2.vHashmaps.length = 2 ∧
    occupied (Streams.Put (exampleConfig 1 4 2)
      (run (exampleConfig 1 4 2) (fresh (exampleConfig 1 4 2)) [Op.put (readyKey [1] 5 100 42)])
      (readyKey [1, 2] 7 8 9) true false).2 1 0 = false ∧
    ((Streams.Put (exampleConfig 1 4 2)
      (run (exampleConfig 1 4 2) (fresh (exampleConfig 1 4 2)) [Op.put (readyKey [1] 5 100 42)])
      (readyKey [1, 2] 7 8 9) true false).2 =
      run (exampleConfig 1 4 2) (fresh (exampleConfig 1 4 2))
        [Op.put (readyKey [1] 5 100 42)] ∨
    (∃ i nIndex, (Streams.Put (exampleConfig 1 4 2)
      (run (exampleConfig 1 4 2) (fresh (exampleConfig 1 4 2)) [Op.put (readyKey [1] 5 100 42)])
      (readyKey [1, 2] 7 8 9) true false).2 =
      insertFilters (exampleConfig 1 4 2)
        (run (exampleConfig 1 4 2) (fresh (exampleConfig 1 4 2))
          [Op.put (readyKey [1] 5 100 42)]) i (readyKey [1, 2] 7 8 9).vKey nIndex) ∨
    ((Streams.Put (exampleConfig 1 4 2)
      (run (exampleConfig 1 4 2) (fresh (exampleConfig 1 4 2)) [Op.put (readyKey [1] 5 100 42)])
      (readyKey [1, 2] 7 8 9) true false).2.vHashmaps =
        (run (exampleConfig 1 4 2) (fresh (exampleConfig 1 4 2))
          [Op.put (readyKey [1] 5 100 42)]).vHashmaps ++
          [(BloomFilter.create (exampleConfig 1 4 2).BLOOM_BITS,
            HashMapFilter.create (exampleConfig 1 4 2).HASHMAP_TOTAL_BUCKETS)] ∧
      (Streams.Put (exampleConfig 1 4 2)
        (run (exampleConfig 1 4 2) (fresh (exampleConfig 1 4 2))
          [Op.put (readyKey [1] 5 100 42)])
        (readyKey [1, 2] 7 8 9) true false).2.bloomFiles =
        (run (exampleConfig 1 4 2) (fresh (exampleConfig 1 4 2))
          [Op.put (readyKey [1] 5 100 42)]).bloomFiles) ∨
    (∃ i nIndex, (Streams.Put (exampleConfig 1 4 2)
      (run (exampleConfig 1 4 2) (fresh (exampleConfig 1 4 2)) [Op.put (readyKey [1] 5 100 42)])
      (readyKey [1, 2] 7 8 9) true false).2 =
      insertFilters (exampleConfig 1 4 2)
        (extendFiles (exampleConfig 1 4 2)
          (run (exampleConfig 1 4 2) (fresh (exampleConfig 1 4 2))
            [Op.put (readyKey [1] 5 100 42)])) i (readyKey [1, 2] 7 8 9).vKey nIndex)) :=
  ⟨by decide, by decide, by decide,
   put_failure_memory (exampleConfig 1 4 2) _ (readyKey [1, 2] 7 8 9) true false (by decide)⟩

/-- C2 fails on the code.  On a keychain of 16 buckets in append mode the keys `[3]` and `[6]`
share bucket 14 and take the slots 14 and 15 of file 0; both records are `READY`.  The
record of `[6]` is followed by two calls of `Erase([3])` only, no `Erase([6])` and no `Put`.
After the first call `Get([6])` returns the record; the second call returns true and clears
the slot of `[6]` (the test `vBucket[nKey] == STATE::EMPTY` reads a byte of the zeroed slot
14), and `Get([6])` returns false. -/
theorem get_after_erase_other_failing_input :
    (readyKey [6] 5 100 42).nState = STATE_READY ∧
    Get (exampleConfig 16 69 2)
      (run (exampleConfig 16 69 2) (fresh (exampleConfig 16 69 2))
        [Op.put (readyKey [3] 5 100 42), Op.put (readyKey [6] 5 100 42), Op.erase [3]])
      [6] blankKey = (true, readyKey [6] 5 100 42) ∧
    (Erase (exampleConfig 16 69 2)
      (run (exampleConfig 16 69 2) (fresh (exampleConfig 16 69 2))
        [Op.put (readyKey [3] 5 100 42), Op.put (readyKey [6] 5 100 42), Op.erase [3]])
      [3]).1 = true ∧
    (Get (exampleConfig 16 69 2)
      (run (exampleConfig 16 69 2) (fresh (exampleConfig 16 69 2))
        [Op.put (readyKey [3] 5 100 42), Op.put (readyKey [6] 5 100 42), Op.erase [3],
         Op.erase [3]])
      [6] blankKey).1 = false := by
  decide

/-- C15 fails on the code.  On a keychain of 16 buckets in append mode the keys `[11]` and
`[20]` share bucket 14 and take the slots 14 and 15 of file 0 with `READY` records.  After
`Erase([11])` no occupied slot of any file holds the key bytes of `compress([11])`: the only
occupied slot is slot 15, whose key bytes start with `20`.  `Erase([11])` returns true all
the same, zero-fills slot 15 and clears its occupancy bit. -/
theorem erase_absent_failing_input :
    compress_key [11] HASHMAP_MAX_KEY_SIZE = [11] ∧
    (run (exampleConfig 16 69 2) (fresh (exampleConfig 16 69 2))
      [Op.put (readyKey [11] 5 100 42), Op.put (readyKey [20] 5 100 42),
       Op.erase [11]]).vHashmaps.length = 1 ∧
    (∀ c, c < 16 →
      (occupied (run (exampleConfig 16 69 2) (fresh (exampleConfig 16 69 2))
        [Op.put (readyKey [11] 5 100 42), Op.put (readyKey [20] 5 100 42), Op.erase [11]]) 0 c
        = true → c = 15)) ∧
    fileByte (run (exampleConfig 16 69 2) (fresh (exampleConfig 16 69 2))
      [Op.put (readyKey [11] 5 100 42), Op.put (readyKey [20] 5 100 42), Op.erase [11]]) 0
      (15 * HASHMAP_KEY_ALLOCATION) = STATE_READY ∧
    fileByte (run (exampleConfig 16 69 2) (fresh (exampleConfig 16 69 2))
      [Op.put (readyKey [11] 5 100 42), Op.put (readyKey [20] 5 100 42), Op.erase [11]]) 0
      (15 * HASHMAP_KEY_ALLOCATION + 13) = 20 ∧
    (Erase (exampleConfig 16 69 2)
      (run (exampleConfig 16 69 2) (fresh (exampleConfig 16 69 2))
        [Op.put (readyKey [11] 5 100 42), Op.put (readyKey [20] 5 100 42), Op.erase [11]])
      [11]).1 = true ∧
    occupied (Erase (exampleConfig 16 69 2)
      (run (exampleConfig 16 69 2) (fresh (exampleConfig 16 69 2))
        [Op.put (readyKey [11] 5 100 42), Op.put (readyKey [20] 5 100 42), Op.erase [11]])
      [11]).2 0 15 = false ∧
    fileByte (Erase (exampleConfig 16 69 2)
      (run (exampleConfig 16 69 2) (fresh (exampleConfig 16 69 2))
        [Op.put (readyKey [11] 5 100 42), Op.put (readyKey [20] 5 100 42), Op.erase [11]])
      [11]).2 0 (15 * HASHMAP_KEY_ALLOCATION) = STATE_EMPTY := by
  decide

/-- C21 fails on the code.  On a keychain of one bucket with the `APPEND` flag unset, after
`Put([1])`, `Erase([1])` and `Put` of a `READY` record for the key `[1, 2]`, the slot holds
the key bytes `1, 2`.  `Put` of a `READY` record for the key `[1]` returns true and takes the
overwrite path on that slot, because the key test compares one byte only; it writes 14
bytes, and the key field of the slot written is `1, 2, 0, ...` and not `compress([1])`
followed by zero bytes. -/
theorem put_padding_failing_input :
    compress_key [1] HASHMAP_MAX_KEY_SIZE = [1] ∧
    (Put (exampleConfig 1 4 0)
      (run (exampleConfig 1 4 0) (fresh (exampleConfig 1 4 0))
        [Op.put (readyKey [1] 5 100 42), Op.erase [1], Op.put (readyKey [1, 2] 7 8 9)])
      (readyKey [1] 9 9 9)).1 = true ∧
    slotHeader (Put (exampleConfig 1 4 0)
      (run (exampleConfig 1 4 0) (fresh (exampleConfig 1 4 0))
        [Op.put (readyKey [1] 5 100 42), Op.erase [1], Op.put (readyKey [1, 2] 7 8 9)])
      (readyKey [1] 9 9 9)).2 0 0 = (readyKey [1] 9 9 9).serialize ∧
    (List.range HASHMAP_MAX_KEY_SIZE).map (fun t =>
      fileByte (Put (exampleConfig 1 4 0)
        (run (exampleConfig 1 4 0) (fresh (exampleConfig 1 4 0))
          [Op.put (readyKey [1] 5 100 42), Op.erase [1], Op.put (readyKey [1, 2] 7 8 9)])
        (readyKey [1] 9 9 9)).2 0 (13 + t)) = [1, 2] ++ List.replicate 30 0 ∧
    compress_key [1] HASHMAP_MAX_KEY_SIZE ++ List.replicate 31 0 ≠
      [1, 2] ++ List.replicate 30 0 := by
  decide

/-! ### A keychain whose slot positions pass `2 ^ 32` -/

/-- The state after `Put` of the key `[0x0B]` on a fresh keychain of 100000000 buckets: one
pair of filters; the occupancy bit of bucket 99187518 is set and no other; the 14 bytes of
the record are at byte `168471014` of `_hashmap.00000`, and every other byte is zero. -/
theorem Put_fresh_wrapped :
    (exampleConfig 100000000 432808625 2).Valid ∧
    (exampleConfig 100000000 432808625 2).AppendMode ∧
    get_bucket (exampleConfig 100000000 432808625 2) [11] = 99187518 ∧
    (Put (exampleConfig 100000000 432808625 2) (fresh (exampleConfig 100000000 432808625 2))
      (readyKey [11] 5 100 42)).1 = true ∧
    (∀ c, occupied (Put (exampleConfig 100000000 432808625 2)
        (fresh (exampleConfig 100000000 432808625 2)) (readyKey [11] 5 100 42)).2 0 c =
      decide (c = 99187518)) ∧
    (∀ p, fileByte (Put (exampleConfig 100000000 432808625 2)
        (fresh (exampleConfig 100000000 432808625 2)) (readyKey [11] 5 100 42)).2 0 p =
      if 168471014 ≤ p ∧ p < 168471014 + 14 then
        [1, 5, 0, 100, 0, 0, 0, 42, 0, 0, 0, 1, 0, 11].getD (p - 168471014) 0
      else 0) ∧
    (∀ c, occupied (fresh (exampleConfig 100000000 432808625 2)) 0 c = false) ∧
    (∀ p, fileByte (fresh (exampleConfig 100000000 432808625 2)) 0 p = 0) := by
  have hv : (exampleConfig 100000000 432808625 2).Valid := by decide
  have hb : get_bucket (exampleConfig 100000000 432808625 2) (readyKey [11] 5 100 42).vKey =
      99187518 := by decide
  have hp : filePos 99187518 = 168471014 := by decide
  have hrec : (readyKey [11] 5 100 42).serialize ++
      compress_key (readyKey [11] 5 100 42).vKey HASHMAP_MAX_KEY_SIZE =
      [1, 5, 0, 100, 0, 0, 0, 42, 0, 0, 0, 1, 0, 11] := by decide
  refine ⟨hv, by decide, hb, ?_, ?_, ?_, ?_, ?_⟩
  · rw [Put_fresh _ hv]
  · intro c
    rw [Put_fresh _ hv, hb]
    unfold occupied
    simp only [List.getElem?_cons_zero]
    have hins := HashMapFilter.Has_Insert
      (exampleConfig 100000000 432808625 2).HASHMAP_TOTAL_BUCKETS
      (HashMapFilter.create (exampleConfig 100000000 432808625 2).HASHMAP_TOTAL_BUCKETS)
      99187518 c (HashMapFilter.Sized_create _) (by decide) (by decide)
    rw [hins, HashMapFilter.Has_create, Bool.or_false]
  · intro p
    rw [Put_fresh _ hv, hb, hp, hrec]
    unfold fileByte
    simp only [lookupFile, List.getD_cons_zero, Option.getD_some]
    rw [getD_writeAt, getD_replicate_zero]
    rfl
  · intro c
    rw [fresh_eq]
    unfold occupied
    simp only [List.getElem?_cons_zero]
    exact HashMapFilter.Has_create _ _
  · intro p
    rw [fresh_eq]
    unfold fileByte
    simp only [lookupFile, List.getD_cons_zero, Option.getD_some]
    exact getD_replicate_zero _ _

/-- C9 fails on the code.  A keychain of 100000000 buckets is one the constructor accepts.
After `Put` of a `READY` record for the key `[0x0B]` (bucket 99187518) on the fresh keychain
the occupancy bit of bucket 99187518 in file 0 is set, while the state byte of the slot of
that bucket on disk, at byte `99187518 * 45`, is `EMPTY`: the `uint32_t` position wrapped and
the record is at byte `168471014`. -/
theorem occupancy_disk_failing_input :
    (readyKey [11] 5 100 42).nState = STATE_READY ∧
    99187518 < (exampleConfig 100000000 432808625 2).HASHMAP_TOTAL_BUCKETS ∧
    occupied (Put (exampleConfig 100000000 432808625 2)
      (fresh (exampleConfig 100000000 432808625 2)) (readyKey [11] 5 100 42)).2 0
      99187518 = true ∧
    fileByte (Put (exampleConfig 100000000 432808625 2)
      (fresh (exampleConfig 100000000 432808625 2)) (readyKey [11] 5 100 42)).2 0
      (99187518 * HASHMAP_KEY_ALLOCATION) = STATE_EMPTY ∧
    ¬ OccupancyAgrees (exampleConfig 100000000 432808625 2)
      (Put (exampleConfig 100000000 432808625 2)
        (fresh (exampleConfig 100000000 432808625 2)) (readyKey [11] 5 100 42)).2 := by
  obtain ⟨_, _, _, _, hocc, hbytes, _, _⟩ := Put_fresh_wrapped
  have h1 : occupied (Put (exampleConfig 100000000 432808625 2)
      (fresh (exampleConfig 100000000 432808625 2)) (readyKey [11] 5 100 42)).2 0
      99187518 = true := by
    rw [hocc]
    decide
  have h2 : fileByte (Put (exampleConfig 100000000 432808625 2)
      (fresh (exampleConfig 100000000 432808625 2)) (readyKey [11] 5 100 42)).2 0
      (99187518 * HASHMAP_KEY_ALLOCATION) = STATE_EMPTY := by
    rw [hbytes, if_neg (by decide)]
    rfl
  refine ⟨rfl, by decide, h1, h2, ?_⟩
  intro hagree
  exact ((hagree 0 99187518 (by decide)).1 h1) h2

/-- C36 fails on the code.  After `Put` of the key `[0x0B]` (bucket 99187518) on a fresh
keychain of 100000000 buckets in append mode, the occupancy bit of bucket 3743800 in file 0
is clear, and byte 14 of the slot of that bucket on disk holds the state byte `READY` of the
record: the `uint32_t` position of bucket 99187518 wrapped to `3743800 * 45 + 14`. -/
theorem free_slot_failing_input :
    (exampleConfig 100000000 432808625 2).AppendMode ∧
    3743800 < (exampleConfig 100000000 432808625 2).HASHMAP_TOTAL_BUCKETS ∧
    occupied (Put (exampleConfig 100000000 432808625 2)
      (fresh (exampleConfig 100000000 432808625 2)) (readyKey [11] 5 100 42)).2 0
      3743800 = false ∧
    fileByte (Put (exampleConfig 100000000 432808625 2)
      (fresh (exampleConfig 100000000 432808625 2)) (readyKey [11] 5 100 42)).2 0
      (3743800 * HASHMAP_KEY_ALLOCATION + 14) = STATE_READY ∧
    ¬ FreeZero (exampleConfig 100000000 432808625 2)
      (Put (exampleConfig 100000000 432808625 2)
        (fresh (exampleConfig 100000000 432808625 2)) (readyKey [11] 5 100 42)).2 := by
  obtain ⟨_, happ, _, _, hocc, hbytes, _, _⟩ := Put_fresh_wrapped
  have h1 : occupied (Put (exampleConfig 100000000 432808625 2)
      (fresh (exampleConfig 100000000 432808625 2)) (readyKey [11] 5 100 42)).2 0
      3743800 = false := by
    rw [hocc]
    decide
  have h2 : fileByte (Put (exampleConfig 100000000 432808625 2)
      (fresh (exampleConfig 100000000 432808625 2)) (readyKey [11] 5 100 42)).2 0
      (3743800 * HASHMAP_KEY_ALLOCATION + 14) = STATE_READY := by
    rw [hbytes, if_pos (by decide)]
    decide
  refine ⟨happ, by decide, h1, h2, ?_⟩
  intro hfree
  have h3 := hfree 0 3743800 (by decide) h1 14 (by decide)
  rw [h2] at h3
  exact absurd h3 (by decide)

/-- C13 fails on the code.  `Put` of the key `[0x0B]` on a fresh keychain of 100000000
buckets returns true.  The probe window of the key is the slots 99187518 to 99187533; every
byte that the call changed on disk lies in the slot of bucket 3743800, and byte
`168471014 = 3743800 * 45 + 14` did change. -/
theorem bucket_window_failing_input :
    get_bucket (exampleConfig 100000000 432808625 2) [11] = 99187518 ∧
    windowKeys (exampleConfig 100000000 432808625 2) 99187518 = 16 ∧
    (Put (exampleConfig 100000000 432808625 2) (fresh (exampleConfig 100000000 432808625 2))
      (readyKey [11] 5 100 42)).1 = true ∧
    (∀ p, fileByte (Put (exampleConfig 100000000 432808625 2)
        (fresh (exampleConfig 100000000 432808625 2)) (readyKey [11] 5 100 42)).2 0 p ≠
      fileByte (fresh (exampleConfig 100000000 432808625 2)) 0 p →
      p / HASHMAP_KEY_ALLOCATION = 3743800) ∧
    fileByte (Put (exampleConfig 100000000 432808625 2)
        (fresh (exampleConfig 100000000 432808625 2)) (readyKey [11] 5 100 42)).2 0 168471014 ≠
      fileByte (fresh (exampleConfig 100000000 432808625 2)) 0 168471014 ∧
    ¬ (99187518 ≤ 3743800) := by
  obtain ⟨_, _, hb, hput, _, hbytes, _, hzero⟩ := Put_fresh_wrapped
  refine ⟨hb, by decide, hput, ?_, ?_, by decide⟩
  · intro p hp
    rw [hbytes, hzero] at hp
    by_cases hin : 168471014 ≤ p ∧ p < 168471014 + 14
    · have h45 := key_allocation_eq
      rw [h45]
      omega
    · rw [if_neg hin] at hp
      exact absurd rfl hp
  · rw [hbytes, hzero, if_pos (by decide)]
    decide

/-- C11 fails on the code.  On a fresh keychain of 100000000 buckets in append mode every
occupancy bit is clear, so the least free pair for the key `[0x0B]` (bucket 99187518) is file
0 at window offset 0.  `Put` returns true and sets that bit, and the slot of bucket 99187518
in file 0 holds 45 zero bytes afterwards: the record, whose first byte is the state `READY`,
is at byte `168471014`. -/
theorem oldest_first_failing_input :
    (exampleConfig 100000000 432808625 2).AppendMode ∧
    get_bucket (exampleConfig 100000000 432808625 2) [11] = 99187518 ∧
    occupied (fresh (exampleConfig 100000000 432808625 2)) 0 (99187518 + 0) = false ∧
    (Put (exampleConfig 100000000 432808625 2) (fresh (exampleConfig 100000000 432808625 2))
      (readyKey [11] 5 100 42)).1 = true ∧
    occupied (Put (exampleConfig 100000000 432808625 2)
      (fresh (exampleConfig 100000000 432808625 2)) (readyKey [11] 5 100 42)).2 0
      (99187518 + 0) = true ∧
    (∀ q, q < HASHMAP_KEY_ALLOCATION →
      fileByte (Put (exampleConfig 100000000 432808625 2)
        (fresh (exampleConfig 100000000 432808625 2)) (readyKey [11] 5 100 42)).2 0
        ((99187518 + 0) * HASHMAP_KEY_ALLOCATION + q) = 0) ∧
    (putRecord (readyKey [11] 5 100 42)).getD 0 0 = STATE_READY ∧
    fileByte (Put (exampleConfig 100000000 432808625 2)
      (fresh (exampleConfig 100000000 432808625 2)) (readyKey [11] 5 100 42)).2 0 168471014 =
      STATE_READY := by
  obtain ⟨_, happ, hb, hput, hocc, hbytes, hfree, _⟩ := Put_fresh_wrapped
  refine ⟨happ, hb, hfree _, hput, by rw [hocc]; decide, ?_, by decide,
    by rw [hbytes, if_pos (by decide)]; decide⟩
  intro q hq
  have h45 := key_allocation_eq
  rw [hbytes, if_neg (by rw [h45]; omega)]

/-- C35 fails on the code.  `Put` of the key `[0x0B]` on a fresh keychain of 100000000
buckets in append mode returns true.  The one occupancy bit it sets is the bit of bucket
99187518 in file 0, and no byte of the slot of that bucket changes; the bytes that change
are bytes of the slot of bucket 3743800, whose occupancy bit is clear before and after the
call. -/
theorem append_put_failing_input :
    (exampleConfig 100000000 432808625 2).AppendMode ∧
    (Put (exampleConfig 100000000 432808625 2) (fresh (exampleConfig 100000000 432808625 2))
      (readyKey [11] 5 100 42)).1 = true ∧
    (∀ c, occupied (Put (exampleConfig 100000000 432808625 2)
        (fresh (exampleConfig 100000000 432808625 2)) (readyKey [11] 5 100 42)).2 0 c ≠
      occupied (fresh (exampleConfig 100000000 432808625 2)) 0 c ↔ c = 99187518) ∧
    (∀ q, q < HASHMAP_KEY_ALLOCATION →
      fileByte (Put (exampleConfig 100000000 432808625 2)
        (fresh (exampleConfig 100000000 432808625 2)) (readyKey [11] 5 100 42)).2 0
        (99187518 * HASHMAP_KEY_ALLOCATION + q) =
      fileByte (fresh (exampleConfig 100000000 432808625 2)) 0
        (99187518 * HASHMAP_KEY_ALLOCATION + q)) ∧
    fileByte (Put (exampleConfig 100000000 432808625 2)
      (fresh (exampleConfig 100000000 432808625 2)) (readyKey [11] 5 100 42)).2 0
      (3743800 * HASHMAP_KEY_ALLOCATION + 14) ≠
    fileByte (fresh (exampleConfig 100000000 432808625 2)) 0
      (3743800 * HASHMAP_KEY_ALLOCATION + 14) ∧
    occupied (fresh (exampleConfig 100000000 432808625 2)) 0 3743800 = false ∧
    occupied (Put (exampleConfig 100000000 432808625 2)
      (fresh (exampleConfig 100000000 432808625 2)) (readyKey [11] 5 100 42)).2 0 3743800 =
      false := by
  obtain ⟨_, happ, _, hput, hocc, hbytes, hfree, hzero⟩ := Put_fresh_wrapped
  have h45 := key_allocation_eq
  refine ⟨happ, hput, ?_, ?_, ?_, hfree _, by rw [hocc]; decide⟩
  · intro c
    rw [hocc, hfree]
    by_cases hc : c = 99187518
    · simp [hc]
    · simp [hc]
  · intro q hq
    rw [hbytes, hzero, if_neg (by rw [h45]; omega)]
  · rw [hbytes, hzero, if_pos (by decide)]
    decide

/-- C19 fails on the code.  Opening an empty base directory with 100000000 buckets, a count
the constructor accepts, writes a file `_hashmap.00000` of 205032704 zero bytes, not of
`100000000 * 45 = 4500000000`: the size of the vector `vSpace` is a 32-bit product. -/
theorem initialize_failing_input :
    lookupFile (Initialize (exampleConfig 100000000 432808625 2) [] []).hashmapFiles 0 =
      some (List.replicate 205032704 0) ∧
    (List.replicate 205032704 0).length = 205032704 ∧
    (exampleConfig 100000000 432808625 2).HASHMAP_TOTAL_BUCKETS * HASHMAP_KEY_ALLOCATION =
      4500000000 := by
  refine ⟨?_, List.length_replicate _ _, by decide⟩
  have h : (100000000 * HASHMAP_KEY_ALLOCATION) % 2 ^ 32 = 205032704 := by decide
  show lookupFile (fresh (exampleConfig 100000000 432808625 2)).hashmapFiles 0 = _
  rw [fresh_eq]
  show some (List.replicate ((100000000 * HASHMAP_KEY_ALLOCATION) % 2 ^ 32) 0) = _
  rw [h]

/-! ### A keychain of one bucket with more files than the file counters hold -/

theorem storeFile_next (d : Directory) (v : List Nat) :
    storeFile d d.length v = d ++ [some v] := by
  unfold storeFile
  have h : d.length + 1 - d.length = 1 := by omega
  rw [h]
  show List.set (d ++ [none]) d.length (some v) = d ++ [some v]
  rw [List.set_append_right _ _ (Nat.le_refl _), Nat.sub_self]
  rfl

theorem storeFile_lt (d : Directory) (i : Nat) (v : List Nat) (h : i < d.length) :
    storeFile d i v = List.set d i (some v) := by
  unfold storeFile
  have h0 : i + 1 - d.length = 0 := by omega
  rw [h0]
  simp

theorem modifyAt_append_last {α : Type} (l : List α) (p : α) (f : α → α) :
    modifyAt (l ++ [p]) l.length f = l ++ [f p] := by
  unfold modifyAt
  have h : (l ++ [p])[l.length]? = some p := by
    rw [List.getElem?_append_right (Nat.le_refl _), Nat.sub_self]
    rfl
  rw [h]
  show List.set (l ++ [p]) l.length (f p) = l ++ [f p]
  rw [List.set_append_right _ _ (Nat.le_refl _), Nat.sub_self]
  rfl

theorem lookupFile_replicate (n i : Nat) (F : List Nat) :
    lookupFile (List.replicate n (some F)) i = if i < n then some F else none := by
  unfold lookupFile
  rw [List.getD_eq_getElem?_getD, List.getElem?_replicate]
  split <;> rfl

theorem appendSlot_full (P : BloomFilter × HashMapFilter) (n : Nat) (d1 d2 : Directory)
    (hP : P.2.Has 0 = true) (l : List Nat) :
    appendSlot (exampleConfig 1 4 2)
      { vHashmaps := List.replicate n P, hashmapFiles := d1, bloomFiles := d2 } 0 l = none := by
  induction l with
  | nil => rfl
  | cons i rest ih =>
    unfold appendSlot
    simp only [List.getElem?_replicate]
    by_cases hi : i < n
    · rw [if_pos hi]
      have hfree : freeSlot P.2 0 (List.range (windowKeys (exampleConfig 1 4 2) 0)) = none := by
        have hw : windowKeys (exampleConfig 1 4 2) 0 = 1 := by decide
        rw [hw]
        show freeSlot P.2 0 [0] = none
        unfold freeSlot
        rw [Nat.add_zero, hP]
        rfl
      simp only [hfree]
      exact ih
    · rw [if_neg hi]
      exact ih

/-- `Put` on a keychain of one bucket in append mode in which every file has the occupancy
bit of the bucket set: a file and a pair of filters are added, the key and the bucket are
inserted in the filters of the last pair, and `write_key` is called with the index of that
pair. -/
theorem Put_full (P : BloomFilter × HashMapFilter) (F B : List Nat) (n : Nat)
    (r : SectorKey) (hP : P.2.Has 0 = true) (hn : n < 2 ^ 32) :
    Put (exampleConfig 1 4 2)
      { vHashmaps := List.replicate n P, hashmapFiles := List.replicate n (some F),
        bloomFiles := List.replicate n (some B) } r =
    write_key
      { vHashmaps := List.replicate n P ++
          [((BloomFilter.create 4).Insert exampleXXH64 r.vKey,
            (HashMapFilter.create 1).Insert 0)],
        hashmapFiles := List.replicate n (some F) ++ [some (List.replicate 45 0)],
        bloomFiles := List.replicate n (some B) ++
          [some ((BloomFilter.create 4).toBitArray.Bytes ++
            (HashMapFilter.create 1).toBitArray.Bytes)] }
      (putRecord r) n (filePos 0) := by
  have hb : get_bucket (exampleConfig 1 4 2) r.vKey = 0 := Nat.mod_one _
  have hpath : putPath (exampleConfig 1 4 2)
      { vHashmaps := List.replicate n P, hashmapFiles := List.replicate n (some F),
        bloomFiles := List.replicate n (some B) } r = PutPath.newFile := by
    unfold putPath
    simp only [hb, appendSlot_full P n _ _ hP]
    rfl
  unfold Put
  simp only [hpath, hb]
  unfold putNewFile extendFiles
  simp only [List.length_replicate, lookupFile_replicate, Nat.lt_irrefl, if_false,
    Option.isSome_none, Bool.false_eq_true]
  have h1 : storeFile (List.replicate n (some F)) n
      (List.replicate ((exampleConfig 1 4 2).HASHMAP_TOTAL_BUCKETS * HASHMAP_KEY_ALLOCATION) 0) =
      List.replicate n (some F) ++ [some (List.replicate 45 0)] := by
    have := storeFile_next (List.replicate n (some F)) (List.replicate 45 0)
    rw [List.length_replicate] at this
    exact this
  have h2 : storeFile (List.replicate n (some B)) n
      ((BloomFilter.create (exampleConfig 1 4 2).BLOOM_BITS).toBitArray.Bytes ++
        (HashMapFilter.create (exampleConfig 1 4 2).HASHMAP_TOTAL_BUCKETS).toBitArray.Bytes) =
      List.replicate n (some B) ++
        [some ((BloomFilter.create 4).toBitArray.Bytes ++
          (HashMapFilter.create 1).toBitArray.Bytes)] := by
    have := storeFile_next (List.replicate n (some B))
      ((BloomFilter.create 4).toBitArray.Bytes ++ (HashMapFilter.create 1).toBitArray.Bytes)
    rw [List.length_replicate] at this
    exact this
  rw [h1, h2]
  have h3 : lastIndex
      { vHashmaps := List.replicate n P ++
          [(BloomFilter.create (exampleConfig 1 4 2).BLOOM_BITS,
            HashMapFilter.create (exampleConfig 1 4 2).HASHMAP_TOTAL_BUCKETS)],
        hashmapFiles := List.replicate n (some F) ++ [some (List.replicate 45 0)],
        bloomFiles := List.replicate n (some B) ++
          [some ((BloomFilter.create 4).toBitArray.Bytes ++
            (HashMapFilter.create 1).toBitArray.Bytes)] } = n := by
    unfold lastIndex
    simp only [List.length_append, List.length_replicate, List.length_singleton]
    exact Nat.mod_eq_of_lt hn
  rw [h3]
  unfold insertFilters
  simp only
  have h4 := modifyAt_append_last (List.replicate n P)
    (BloomFilter.create (exampleConfig 1 4 2).BLOOM_BITS,
      HashMapFilter.create (exampleConfig 1 4 2).HASHMAP_TOTAL_BUCKETS)
    (fun p => (p.1.Insert (exampleConfig 1 4 2).XXH64 r.vKey, p.2.Insert 0))
  rw [List.length_replicate] at h4
  rw [h4]
  rfl

theorem lookupFile_append_last (d : Directory) (x : Option (List Nat)) :
    lookupFile (d ++ [x]) d.length = x := by
  unfold lookupFile
  rw [List.getD_eq_getElem?_getD, List.getElem?_append_right (Nat.le_refl _), Nat.sub_self]
  cases x <;> rfl

theorem storeFile_append_last (d : Directory) (x : Option (List Nat)) (v : List Nat) :
    storeFile (d ++ [x]) d.length v = d ++ [some v] := by
  rw [storeFile_lt _ _ _ (by rw [List.length_append]; exact Nat.lt_succ_self _),
    List.set_append_right _ _ (Nat.le_refl _), Nat.sub_self]
  rfl

/-- The call of `Put_full` while the index of the new file fits the `uint16_t` argument of
`write_key`: the record is written to the new file. -/
theorem Put_full_lt (P : BloomFilter × HashMapFilter) (F B : List Nat) (n : Nat)
    (r : SectorKey) (hP : P.2.Has 0 = true) (hn : n < 2 ^ 16) :
    Put (exampleConfig 1 4 2)
      { vHashmaps := List.replicate n P, hashmapFiles := List.replicate n (some F),
        bloomFiles := List.replicate n (some B) } r =
    (true,
      { vHashmaps := List.replicate n P ++
          [((BloomFilter.create 4).Insert exampleXXH64 r.vKey,
            (HashMapFilter.create 1).Insert 0)],
        hashmapFiles := List.replicate n (some F) ++
          [some (writeAt (List.replicate 45 0) (filePos 0) (putRecord r))],
        bloomFiles := List.replicate n (some B) ++
          [some ((BloomFilter.create 4).toBitArray.Bytes ++
            (HashMapFilter.create 1).toBitArray.Bytes)] }) := by
  rw [Put_full P F B n r hP (Nat.lt_of_lt_of_le hn (by decide))]
  unfold write_key
  simp only
  rw [Nat.mod_eq_of_lt hn]
  have h1 := lookupFile_append_last (List.replicate n (some F)) (some (List.replicate 45 0))
  have h2 := storeFile_append_last (List.replicate n (some F)) (some (List.replicate 45 0))
    (writeAt (List.replicate 45 0) (filePos 0) (putRecord r))
  rw [List.length_replicate] at h1 h2
  rw [h1]
  simp only
  rw [h2]

/-- The call of `Put_full` when the index of the new file is a multiple of `2 ^ 16`: the
`uint16_t` argument of `write_key` is `0`, and the record is written over the start of
`_hashmap.00000`. -/
theorem Put_full_wrap (P : BloomFilter × HashMapFilter) (F B : List Nat) (n : Nat)
    (r : SectorKey) (hP : P.2.Has 0 = true) (hn : n < 2 ^ 32) (h0 : 0 < n)
    (hmod : n % 2 ^ 16 = 0) :
    Put (exampleConfig 1 4 2)
      { vHashmaps := List.replicate n P, hashmapFiles := List.replicate n (some F),
        bloomFiles := List.replicate n (some B) } r =
    (true,
      { vHashmaps := List.replicate n P ++
          [((BloomFilter.create 4).Insert exampleXXH64 r.vKey,
            (HashMapFilter.create 1).Insert 0)],
        hashmapFiles := List.set (List.replicate n (some F) ++ [some (List.replicate 45 0)]) 0
          (some (writeAt F (filePos 0) (putRecord r))),
        bloomFiles := List.replicate n (some B) ++
          [some ((BloomFilter.create 4).toBitArray.Bytes ++
            (HashMapFilter.create 1).toBitArray.Bytes)] }) := by
  rw [Put_full P F B n r hP hn]
  unfold write_key
  simp only
  rw [hmod]
  have h1 : lookupFile (List.replicate n (some F) ++ [some (List.replicate 45 0)]) 0 =
      some F := by
    unfold lookupFile
    rw [List.getD_eq_getElem?_getD,
      List.getElem?_append_left (by rw [List.length_replicate]; exact h0),
      List.getElem?_replicate, if_pos h0]
    rfl
  rw [h1]
  simp only
  rw [storeFile_lt _ _ _ (by rw [List.length_append, List.length_replicate]; omega)]

/-- The keychain of one bucket in append mode after `n` calls of `Put` of one record for the
key `[1]`, for `1 ≤ n ≤ 65536`: `n` files, each with the record at byte 0, and `n` equal pairs
of filters. -/
theorem run_replicate_put (n : Nat) (h1 : 1 ≤ n) (hn : n ≤ 2 ^ 16) :
    run (exampleConfig 1 4 2) (fresh (exampleConfig 1 4 2))
      (List.replicate n (Op.put (readyKey [1] 5 100 42))) =
      { vHashmaps := List.replicate n
          ((BloomFilter.create 4).Insert exampleXXH64 [1], (HashMapFilter.create 1).Insert 0),
        hashmapFiles := List.replicate n
          (some (writeAt (List.replicate 45 0) (filePos 0) (putRecord (readyKey [1] 5 100 42)))),
        bloomFiles := List.replicate n
          (some ((BloomFilter.create 4).toBitArray.Bytes ++
            (HashMapFilter.create 1).toBitArray.Bytes)) } := by
  induction n with
  | zero => omega
  | succ m ih =>
    by_cases hm : m = 0
    · subst hm
      decide
    · rw [List.replicate_succ', run_append, ih (by omega) (by omega)]
      show (Put _ _ _).2 = _
      rw [Put_full_lt _ _ _ m _ (by decide) (by omega)]
      simp only [List.replicate_succ' m]
      rfl

theorem getElem?_replicate_append {α : Type} (n i : Nat) (P Q : α) :
    (List.replicate n P ++ [Q])[i]? =
      if i < n then some P else if i = n then some Q else none := by
  by_cases h : i < n
  · rw [if_pos h, List.getElem?_append_left (by rw [List.length_replicate]; exact h),
      List.getElem?_replicate, if_pos h]
  · rw [if_neg h, List.getElem?_append_right (by rw [List.length_replicate]; omega),
      List.length_replicate]
    by_cases e : i = n
    · rw [if_pos e, e, Nat.sub_self]
      rfl
    · rw [if_neg e]
      have : i - n = (i - n - 1) + 1 := by omega
      rw [this]
      rfl

theorem lookupFile_set_zero (n i : Nat) (F z W : List Nat) (h0 : 0 < n) :
    lookupFile (List.set (List.replicate n (some F) ++ [some z]) 0 (some W)) i =
      if i = 0 then some W else if i < n then some F else if i = n then some z else none := by
  unfold lookupFile
  rw [List.getD_eq_getElem?_getD]
  by_cases e : i = 0
  · subst e
    rw [if_pos rfl, List.getElem?_set_self
      (by rw [List.length_append, List.length_replicate]; omega)]
    rfl
  · rw [if_neg e, List.getElem?_set_ne (fun h => e h.symm), getElem?_replicate_append]
    by_cases h : i < n
    · rw [if_pos h, if_pos h]
      rfl
    · rw [if_neg h, if_neg h]
      by_cases e2 : i = n
      · rw [if_pos e2, if_pos e2]
        rfl
      · rw [if_neg e2, if_neg e2]
        rfl

/-- The keychain of one bucket in append mode after 65536 calls of `Put` of a record for the
key `[1]` and one more `Put` of the record `r`: the last call returns true, there are 65537
pairs of filters, the first 65536 with the key `[1]` only and the last with the key of `r`;
the file `_hashmap.00000` holds the record `r` written over the first record, the files 1 to
65535 hold the first record, and the file 65536 holds zero bytes. -/
theorem Put_file_wrap (r : SectorKey) :
    (Put (exampleConfig 1 4 2)
      (run (exampleConfig 1 4 2) (fresh (exampleConfig 1 4 2))
        (List.replicate 65536 (Op.put (readyKey [1] 5 100 42)))) r).1 = true ∧
    (run (exampleConfig 1 4 2) (fresh (exampleConfig 1 4 2))
      (List.replicate 65536 (Op.put (readyKey [1] 5 100 42)))).vHashmaps.length = 65536 ∧
    (∀ i, (run (exampleConfig 1 4 2) (fresh (exampleConfig 1 4 2))
      (List.replicate 65536 (Op.put (readyKey [1] 5 100 42)))).vHashmaps[i]? =
      if i < 65536 then
        some ((BloomFilter.create 4).Insert exampleXXH64 [1], (HashMapFilter.create 1).Insert 0)
      else none) ∧
    (Put (exampleConfig 1 4 2)
      (run (exampleConfig 1 4 2) (fresh (exampleConfig 1 4 2))
        (List.replicate 65536 (Op.put (readyKey [1] 5 100 42)))) r).2.vHashmaps.length =
      65537 ∧
    (∀ i, (Put (exampleConfig 1 4 2)
      (run (exampleConfig 1 4 2) (fresh (exampleConfig 1 4 2))
        (List.replicate 65536 (Op.put (readyKey [1] 5 100 42)))) r).2.vHashmaps[i]? =
      if i < 65536 then
        some ((BloomFilter.create 4).Insert exampleXXH64 [1], (HashMapFilter.create 1).Insert 0)
      else if i = 65536 then
        some ((BloomFilter.create 4).Insert exampleXXH64 r.vKey,
          (HashMapFilter.create 1).Insert 0)
      else none) ∧
    (∀ i, lookupFile (Put (exampleConfig 1 4 2)
      (run (exampleConfig 1 4 2) (fresh (exampleConfig 1 4 2))
        (List.replicate 65536 (Op.put (readyKey [1] 5 100 42)))) r).2.hashmapFiles i =
      if i = 0 then
        some (writeAt (writeAt (List.replicate 45 0) (filePos 0)
          (putRecord (readyKey [1] 5 100 42))) (filePos 0) (putRecord r))
      else if i < 65536 then
        some (writeAt (List.replicate 45 0) (filePos 0) (putRecord (readyKey [1] 5 100 42)))
      else if i = 65536 then some (List.replicate 45 0)
      else none) := by
  have hrun := run_replicate_put 65536 (by decide) (by decide)
  have hput := Put_full_wrap
    ((BloomFilter.create 4).Insert exampleXXH64 [1], (HashMapFilter.create 1).Insert 0)
    (writeAt (List.replicate 45 0) (filePos 0) (putRecord (readyKey [1] 5 100 42)))
    ((BloomFilter.create 4).toBitArray.Bytes ++ (HashMapFilter.create 1).toBitArray.Bytes)
    65536 r (by decide) (by decide) (by decide) (by decide)
  rw [hrun, hput]
  refine ⟨rfl, List.length_replicate _ _, ?_, ?_, ?_, ?_⟩
  · intro i
    exact List.getElem?_replicate
  · show (List.replicate 65536 _ ++ [_]).length = 65537
    rw [List.length_append, List.length_replicate]
    rfl
  · intro i
    exact getElem?_replicate_append 65536 i _ _
  · intro i
    exact lookupFile_set_zero 65536 i _ _ _ (by decide)

theorem bloomHas_of_getElem? (cfg : Config) (s : BinaryHashMap) (i : Nat) (k : List Nat)
    (p : BloomFilter × HashMapFilter) (h : s.vHashmaps[i]? = some p) :
    bloomHas cfg s i k = p.1.Has cfg.XXH64 k := by
  unfold bloomHas
  rw [h]

theorem occupied_of_getElem? (s : BinaryHashMap) (i c : Nat)
    (p : BloomFilter × HashMapFilter) (h : s.vHashmaps[i]? = some p) :
    occupied s i c = p.2.Has c := by
  unfold occupied
  rw [h]

theorem fileByte_of_lookupFile (s : BinaryHashMap) (i p : Nat) (file : List Nat)
    (h : lookupFile s.hashmapFiles i = some file) : fileByte s i p = file.getD p 0 := by
  unfold fileByte
  rw [h]
  rfl

theorem slotHeader_of_lookupFile (s : BinaryHashMap) (i c : Nat) (file : List Nat)
    (h : lookupFile s.hashmapFiles i = some file) :
    slotHeader s i c =
      (List.range 13).map (fun t => file.getD (c * HASHMAP_KEY_ALLOCATION + t) 0) := by
  unfold slotHeader
  simp only [fileByte_of_lookupFile s i _ file h]

theorem getFiles_one (cfg : Config) (s : BinaryHashMap) (ck : List Nat) (b : Nat)
    (buf : List Nat) (c : SectorKey) (P : BloomFilter × HashMapFilter) (W : List Nat)
    (h1 : s.vHashmaps[0]? = some P) (h2 : lookupFile s.hashmapFiles 0 = some W)
    (h3 : P.1.Has cfg.XXH64 c.vKey = true)
    (h4 : (getSlots P.2 (readAt W (filePos b) buf) ck b
      (List.range ((readAt W (filePos b) buf).length / HASHMAP_KEY_ALLOCATION)) c).1 = true) :
    getFiles cfg s ck b [0] buf c =
      getSlots P.2 (readAt W (filePos b) buf) ck b
        (List.range ((readAt W (filePos b) buf).length / HASHMAP_KEY_ALLOCATION)) c := by
  unfold getFiles
  rw [h1]
  simp only [h3, Bool.not_true, Bool.false_eq_true, if_false, h2, h4, if_true]

/-- C10 fails on the code.  On a keychain of one bucket in append mode, 65536 calls of `Put`
of a record for the key `[1]` fill the files 0 to 65535.  `Put` of a record for the key `[3]`
then returns true and adds the pair of filters number 65536, in which it inserts the key; the
`uint16_t` file argument of `write_key` is `0`, so the record is written into
`_hashmap.00000` and into no other file, and the bloom filter of file 0 answers no for the
key `[3]`. -/
theorem bloom_cover_failing_input :
    (Put (exampleConfig 1 4 2)
      (run (exampleConfig 1 4 2) (fresh (exampleConfig 1 4 2))
        (List.replicate 65536 (Op.put (readyKey [1] 5 100 42))))
      (readyKey [3] 6 200 43)).1 = true ∧
    slotHeader (Put (exampleConfig 1 4 2)
      (run (exampleConfig 1 4 2) (fresh (exampleConfig 1 4 2))
        (List.replicate 65536 (Op.put (readyKey [1] 5 100 42))))
      (readyKey [3] 6 200 43)).2 0 0 = (readyKey [3] 6 200 43).serialize ∧
    fileByte (Put (exampleConfig 1 4 2)
      (run (exampleConfig 1 4 2) (fresh (exampleConfig 1 4 2))
        (List.replicate 65536 (Op.put (readyKey [1] 5 100 42))))
      (readyKey [3] 6 200 43)).2 0 13 = 3 ∧
    (∀ i, i ≠ 0 →
      fileByte (Put (exampleConfig 1 4 2)
        (run (exampleConfig 1 4 2) (fresh (exampleConfig 1 4 2))
          (List.replicate 65536 (Op.put (readyKey [1] 5 100 42))))
        (readyKey [3] 6 200 43)).2 i 13 ≠ 3) ∧
    bloomHas (exampleConfig 1 4 2) (Put (exampleConfig 1 4 2)
      (run (exampleConfig 1 4 2) (fresh (exampleConfig 1 4 2))
        (List.replicate 65536 (Op.put (readyKey [1] 5 100 42))))
      (readyKey [3] 6 200 43)).2 0 [3] = false ∧
    bloomHas (exampleConfig 1 4 2) (Put (exampleConfig 1 4 2)
      (run (exampleConfig 1 4 2) (fresh (exampleConfig 1 4 2))
        (List.replicate 65536 (Op.put (readyKey [1] 5 100 42))))
      (readyKey [3] 6 200 43)).2 65536 [3] = true := by
  obtain ⟨h1, _, _, _, h5, h6⟩ := Put_file_wrap (readyKey [3] 6 200 43)
  have hW := h6 0
  rw [if_pos rfl] at hW
  have hP := h5 0
  rw [if_pos (by decide)] at hP
  have hQ := h5 65536
  rw [if_neg (by decide), if_pos rfl] at hQ
  refine ⟨h1, ?_, ?_, ?_, ?_, ?_⟩
  · rw [slotHeader_of_lookupFile _ _ _ _ hW]
    decide
  · rw [fileByte_of_lookupFile _ _ _ _ hW]
    decide
  · intro i hi
    have hF := h6 i
    rw [if_neg hi] at hF
    by_cases hlt : i < 65536
    · rw [if_pos hlt] at hF
      rw [fileByte_of_lookupFile _ _ _ _ hF]
      decide
    · rw [if_neg hlt] at hF
      by_cases e : i = 65536
      · rw [if_pos e] at hF
        rw [fileByte_of_lookupFile _ _ _ _ hF]
        decide
      · rw [if_neg e] at hF
        unfold fileByte
        rw [hF]
        decide
  · rw [bloomHas_of_getElem? _ _ _ _ _ hP]
    decide
  · rw [bloomHas_of_getElem? _ _ _ _ _ hQ]
    decide

/-- C12 fails on the code.  On a keychain of one bucket in append mode with 65536 files,
every one with the slot of the bucket occupied, `Put` of a record for the key `[4]` returns
true and the number of files grows from 65536 to 65537.  The new last file `_hashmap.65536`
holds zero bytes only: the `uint16_t` file argument of `write_key` is `0`, and the record is
written over the record at bucket 0 of `_hashmap.00000`. -/
theorem file_growth_failing_input :
    (exampleConfig 1 4 2).AppendMode ∧
    (run (exampleConfig 1 4 2) (fresh (exampleConfig 1 4 2))
      (List.replicate 65536 (Op.put (readyKey [1] 5 100 42)))).vHashmaps.length = 65536 ∧
    (∀ i, i < 65536 →
      occupied (run (exampleConfig 1 4 2) (fresh (exampleConfig 1 4 2))
        (List.replicate 65536 (Op.put (readyKey [1] 5 100 42)))) i 0 = true) ∧
    (Put (exampleConfig 1 4 2)
      (run (exampleConfig 1 4 2) (fresh (exampleConfig 1 4 2))
        (List.replicate 65536 (Op.put (readyKey [1] 5 100 42))))
      (readyKey [4] 6 200 43)).1 = true ∧
    (Put (exampleConfig 1 4 2)
      (run (exampleConfig 1 4 2) (fresh (exampleConfig 1 4 2))
        (List.replicate 65536 (Op.put (readyKey [1] 5 100 42))))
      (readyKey [4] 6 200 43)).2.vHashmaps.length = 65537 ∧
    lookupFile (Put (exampleConfig 1 4 2)
      (run (exampleConfig 1 4 2) (fresh (exampleConfig 1 4 2))
        (List.replicate 65536 (Op.put (readyKey [1] 5 100 42))))
      (readyKey [4] 6 200 43)).2.hashmapFiles 65536 = some (List.replicate 45 0) ∧
    (∀ p, fileByte (Put (exampleConfig 1 4 2)
      (run (exampleConfig 1 4 2) (fresh (exampleConfig 1 4 2))
        (List.replicate 65536 (Op.put (readyKey [1] 5 100 42))))
      (readyKey [4] 6 200 43)).2 65536 p = 0) ∧
    slotHeader (Put (exampleConfig 1 4 2)
      (run (exampleConfig 1 4 2) (fresh (exampleConfig 1 4 2))
        (List.replicate 65536 (Op.put (readyKey [1] 5 100 42))))
      (readyKey [4] 6 200 43)).2 0 0 = (readyKey [4] 6 200 43).serialize ∧
    fileByte (Put (exampleConfig 1 4 2)
      (run (exampleConfig 1 4 2) (fresh (exampleConfig 1 4 2))
        (List.replicate 65536 (Op.put (readyKey [1] 5 100 42))))
      (readyKey [4] 6 200 43)).2 0 13 = 4 := by
  obtain ⟨h1, h2, h3, h4, _, h6⟩ := Put_file_wrap (readyKey [4] 6 200 43)
  have hW := h6 0
  rw [if_pos rfl] at hW
  have hN := h6 65536
  rw [if_neg (by decide), if_neg (by decide), if_pos rfl] at hN
  refine ⟨by decide, h2, ?_, h1, h4, hN, ?_, ?_, ?_⟩
  · intro i hi
    have hQ := h3 i
    rw [if_pos hi] at hQ
    rw [occupied_of_getElem? _ _ _ _ hQ]
    decide
  · intro p
    rw [fileByte_of_lookupFile _ _ _ _ hN]
    exact getD_replicate_zero _ _
  · rw [slotHeader_of_lookupFile _ _ _ _ hW]
    decide
  · rw [fileByte_of_lookupFile _ _ _ _ hW]
    decide

/-- C31 fails on the code.  On a keychain of one bucket in append mode, after 65536 calls of
`Put` of a record for the key `[1]` and one `Put` of a second record for it, there are 65537
files; the `int16_t` counter of the loop of `Get` starts at `65536`, cut to `0`, so `Get([1])`
reads file 0 only and returns the record decoded from it, while the files 1 and 65535, which
are newer, answer yes in their bloom filters and hold an occupied slot in the probe window
with the key bytes of `compress([1])` and the state `READY`. -/
theorem get_newest_failing_input :
    (Put (exampleConfig 1 4 2)
      (run (exampleConfig 1 4 2) (fresh (exampleConfig 1 4 2))
        (List.replicate 65536 (Op.put (readyKey [1] 5 100 42))))
      (readyKey [1] 6 200 43)).2.vHashmaps.length = 65537 ∧
    descendingFiles 65537 = [0] ∧
    Get (exampleConfig 1 4 2) (Put (exampleConfig 1 4 2)
      (run (exampleConfig 1 4 2) (fresh (exampleConfig 1 4 2))
        (List.replicate 65536 (Op.put (readyKey [1] 5 100 42))))
      (readyKey [1] 6 200 43)).2 [1] blankKey = (true, readyKey [1] 6 200 43) ∧
    slotHeader (Put (exampleConfig 1 4 2)
      (run (exampleConfig 1 4 2) (fresh (exampleConfig 1 4 2))
        (List.replicate 65536 (Op.put (readyKey [1] 5 100 42))))
      (readyKey [1] 6 200 43)).2 0 0 = (readyKey [1] 6 200 43).serialize ∧
    Stored (exampleConfig 1 4 2) (Put (exampleConfig 1 4 2)
      (run (exampleConfig 1 4 2) (fresh (exampleConfig 1 4 2))
        (List.replicate 65536 (Op.put (readyKey [1] 5 100 42))))
      (readyKey [1] 6 200 43)).2 [1] 1 0 ∧
    Stored (exampleConfig 1 4 2) (Put (exampleConfig 1 4 2)
      (run (exampleConfig 1 4 2) (fresh (exampleConfig 1 4 2))
        (List.replicate 65536 (Op.put (readyKey [1] 5 100 42))))
      (readyKey [1] 6 200 43)).2 [1] 65535 0 ∧
    slotHeader (Put (exampleConfig 1 4 2)
      (run (exampleConfig 1 4 2) (fresh (exampleConfig 1 4 2))
        (List.replicate 65536 (Op.put (readyKey [1] 5 100 42))))
      (readyKey [1] 6 200 43)).2 65535 0 = (readyKey [1] 5 100 42).serialize := by
  obtain ⟨_, _, _, h4, h5, h6⟩ := Put_file_wrap (readyKey [1] 6 200 43)
  have hW := h6 0
  rw [if_pos rfl] at hW
  have hP := h5 0
  rw [if_pos (by decide)] at hP
  have hstored : ∀ i, 0 < i → i < 65536 →
      Stored (exampleConfig 1 4 2) (Put (exampleConfig 1 4 2)
        (run (exampleConfig 1 4 2) (fresh (exampleConfig 1 4 2))
          (List.replicate 65536 (Op.put (readyKey [1] 5 100 42))))
        (readyKey [1] 6 200 43)).2 [1] i 0 := by
    intro i hpos hi
    have hF := h6 i
    rw [if_neg (by omega), if_pos hi] at hF
    have hQ := h5 i
    rw [if_pos hi] at hQ
    unfold Stored
    rw [h4, bloomHas_of_getElem? _ _ _ _ _ hQ, occupied_of_getElem? _ _ _ _ hQ,
      fileByte_of_lookupFile _ _ _ _ hF]
    refine ⟨by omega, by decide, by decide, by decide, by decide, by decide, ?_⟩
    intro t ht
    rw [fileByte_of_lookupFile _ _ _ _ hF]
    have ht1 : t = 0 := by
      have : (compress_key [1] HASHMAP_MAX_KEY_SIZE).length = 1 := by decide
      omega
    subst ht1
    decide
  refine ⟨h4, by decide, ?_, ?_, hstored 1 (by decide) (by decide),
    hstored 65535 (by decide) (by decide), ?_⟩
  · unfold Get
    simp only [h4]
    have hd : descendingFiles 65537 = [0] := by decide
    rw [hd]
    rw [getFiles_one _ _ _ _ _ _ _ _ hP hW (by decide) (by decide)]
    decide
  · rw [slotHeader_of_lookupFile _ _ _ _ hW]
    decide
  · have hF := h6 65535
    rw [if_neg (by decide), if_pos (by decide)] at hF
    rw [slotHeader_of_lookupFile _ _ _ _ hF]
    decide

end LLD

namespace LLP

variable {σ φ : Type}

/-! ### The slot that `AddConnection` takes -/

theorem find_slot_from_shift (l : List (Option (Node σ))) (index : Nat) :
    find_slot_from l index = index + find_slot_from l 0 := by
  induction l generalizing index with
  | nil => simp [find_slot_from]
  | cons a t ih =>
    cases a with
    | none => simp [find_slot_from]
    | some n =>
      simp only [find_slot_from]
      rw [ih (index + 1), ih (0 + 1)]
      omega

theorem find_slot_from_le (l : List (Option (Node σ))) :
    find_slot_from l 0 ≤ l.length := by
  induction l with
  | nil => simp [find_slot_from]
  | cons a t ih =>
    cases a with
    | none => simp [find_slot_from]
    | some n =>
      simp only [find_slot_from, List.length_cons]
      rw [find_slot_from_shift]
      omega

theorem find_slot_from_empty (l : List (Option (Node σ)))
    (h : find_slot_from l 0 < l.length) : l[find_slot_from l 0]? = some none := by
  induction l with
  | nil => simp at h
  | cons a t ih =>
    cases a with
    | none => simp [find_slot_from]
    | some n =>
      simp only [find_slot_from, List.length_cons] at h ⊢
      rw [find_slot_from_shift] at h ⊢
      have h2 : find_slot_from t 0 < t.length := by omega
      have e : 0 + 1 + find_slot_from t 0 = find_slot_from t 0 + 1 := by omega
      rw [e, List.getElem?_cons_succ]
      exact ih h2

theorem find_slot_from_live (l : List (Option (Node σ))) (j : Nat)
    (h : j < find_slot_from l 0) : ∃ m : Node σ, l[j]? = some (some m) := by
  induction l generalizing j with
  | nil => simp [find_slot_from] at h
  | cons a t ih =>
    cases a with
    | none => simp [find_slot_from] at h
    | some n =>
      simp only [find_slot_from] at h
      rw [find_slot_from_shift] at h
      cases j with
      | zero => exact ⟨n, by simp⟩
      | succ k =>
        rw [List.getElem?_cons_succ]
        exact ih k (by omega)

theorem install_fst (s : DataThread σ φ) (node : Node σ) (p : pollfd) :
    (install s node p).1 = find_slot s := rfl

theorem install_CONNECTIONS (s : DataThread σ φ) (node : Node σ) (p : pollfd) :
    (install s node p).2.CONNECTIONS =
      if find_slot s = s.CONNECTIONS.length then s.CONNECTIONS ++ [some node]
      else List.set s.CONNECTIONS (find_slot s) (some node) := by
  unfold install
  by_cases h : find_slot s = s.CONNECTIONS.length
  · simp only [h, if_true]
    simp
  · simp only [h, if_false]

theorem install_POLLFDS (s : DataThread σ φ) (node : Node σ) (p : pollfd)
    (hlen : s.CONNECTIONS.length = s.POLLFDS.length) :
    (install s node p).2.POLLFDS =
      if find_slot s = s.CONNECTIONS.length then
        s.POLLFDS ++ [{ p with fd := node.object.fd, events := node.object.events }]
      else LLD.modifyAt s.POLLFDS (find_slot s)
        (fun p => { p with fd := node.object.fd, events := node.object.events }) := by
  unfold install
  by_cases h : find_slot s = s.CONNECTIONS.length
  · simp only [h, if_true]
    apply List.ext_getElem?
    intro j
    rw [LLD.getElem?_modifyAt]
    by_cases hj : j = s.CONNECTIONS.length
    · subst hj
      rw [if_pos rfl, hlen, List.getElem?_append_right (Nat.le_refl _),
        List.getElem?_append_right (Nat.le_refl _)]
      simp
    · rw [if_neg hj]
      by_cases hlt : j < s.POLLFDS.length
      · rw [List.getElem?_append_left hlt, List.getElem?_append_left hlt]
      · have hge : s.POLLFDS.length < j := by omega
        rw [List.getElem?_eq_none (by simp; omega), List.getElem?_eq_none (by simp; omega)]
  · simp only [h, if_false]

theorem install_other (s : DataThread σ φ) (node : Node σ) (p : pollfd) :
    (install s node p).2.fDDOS = s.fDDOS ∧ (install s node p).2.nConnections = s.nConnections ∧
    (install s node p).2.FILTERS = s.FILTERS ∧ (install s node p).2.DELETED = s.DELETED ∧
    (install s node p).2.pEmpty = s.pEmpty := by
  unfold install
  by_cases h : find_slot s = s.CONNECTIONS.length
  · simp [h]
  · simp [h]

theorem bump_cSCORE_fields (M : Methods σ φ) (s : DataThread σ φ) (DDOS : Nat) :
    (bump_cSCORE M s DDOS).CONNECTIONS = s.CONNECTIONS ∧
    (bump_cSCORE M s DDOS).POLLFDS = s.POLLFDS ∧
    (bump_cSCORE M s DDOS).nConnections = s.nConnections ∧
    (bump_cSCORE M s DDOS).DELETED = s.DELETED := by
  unfold bump_cSCORE
  cases s.fDDOS <;> exact ⟨rfl, rfl, rfl, rfl⟩

theorem install_slot (s : DataThread σ φ) (node : Node σ) (p : pollfd) :
    (install s node p).2.CONNECTIONS[find_slot s]? = some (some node) := by
  rw [install_CONNECTIONS]
  by_cases h : find_slot s = s.CONNECTIONS.length
  · rw [if_pos h, h, List.getElem?_append_right (Nat.le_refl _)]
    simp
  · rw [if_neg h]
    have hle : find_slot s ≤ s.CONNECTIONS.length := find_slot_from_le _
    rw [List.getElem?_set_self (by omega)]

theorem install_length (s : DataThread σ φ) (node : Node σ) (p : pollfd) :
    (install s node p).2.CONNECTIONS.length =
      if find_slot s < s.CONNECTIONS.length then s.CONNECTIONS.length
      else s.CONNECTIONS.length + 1 := by
  rw [install_CONNECTIONS]
  have hle : find_slot s ≤ s.CONNECTIONS.length := find_slot_from_le _
  by_cases h : find_slot s = s.CONNECTIONS.length
  · rw [if_pos h, if_neg (by omega)]
    simp
  · rw [if_neg h, if_pos (by omega)]
    simp

theorem install_length_POLLFDS (s : DataThread σ φ) (node : Node σ) (p : pollfd)
    (hlen : s.CONNECTIONS.length = s.POLLFDS.length) :
    (install s node p).2.POLLFDS.length = (install s node p).2.CONNECTIONS.length := by
  rw [install_CONNECTIONS, install_POLLFDS s node p hlen]
  by_cases h : find_slot s = s.CONNECTIONS.length
  · rw [if_pos h, if_pos h]
    simp [hlen]
  · rw [if_neg h, if_neg h, LLD.length_modifyAt]
    simp [hlen]

theorem install_descriptor (s : DataThread σ φ) (node : Node σ) (p : pollfd)
    (hlen : s.CONNECTIONS.length = s.POLLFDS.length) :
    ∃ q : pollfd, (install s node p).2.POLLFDS[find_slot s]? = some q ∧
      q.fd = node.object.fd ∧ q.events = node.object.events := by
  rw [install_POLLFDS s node p hlen]
  by_cases h : find_slot s = s.CONNECTIONS.length
  · rw [if_pos h, h, hlen, List.getElem?_append_right (Nat.le_refl _)]
    exact ⟨{ p with fd := node.object.fd, events := node.object.events }, by simp, rfl, rfl⟩
  · rw [if_neg h, LLD.getElem?_modifyAt, if_pos rfl]
    have hle : find_slot s ≤ s.CONNECTIONS.length := find_slot_from_le _
    have hlt : find_slot s < s.POLLFDS.length := by omega
    rw [List.getElem?_eq_getElem hlt]
    exact ⟨_, rfl, rfl, rfl⟩

theorem install_others (s : DataThread σ φ) (node : Node σ) (p : pollfd)
    (hlen : s.CONNECTIONS.length = s.POLLFDS.length) (j : Nat) (hj : j ≠ find_slot s) :
    (install s node p).2.CONNECTIONS[j]? = s.CONNECTIONS[j]? ∧
    (install s node p).2.POLLFDS[j]? = s.POLLFDS[j]? := by
  rw [install_CONNECTIONS, install_POLLFDS s node p hlen]
  by_cases h : find_slot s = s.CONNECTIONS.length
  · rw [if_pos h, if_pos h]
    rw [h] at hj
    by_cases hlt : j < s.CONNECTIONS.length
    · rw [List.getElem?_append_left hlt, List.getElem?_append_left (by omega)]
      exact ⟨rfl, rfl⟩
    · have hgt : s.CONNECTIONS.length < j := by omega
      have e1 : (s.CONNECTIONS ++ [some node])[j]? = none :=
        List.getElem?_eq_none (by simp; omega)
      have e2 : (s.POLLFDS ++
          [{ p with fd := node.object.fd, events := node.object.events }])[j]? = none :=
        List.getElem?_eq_none (by simp; omega)
      have e3 : s.CONNECTIONS[j]? = none := List.getElem?_eq_none (by omega)
      have e4 : s.POLLFDS[j]? = none := List.getElem?_eq_none (by omega)
      rw [e1, e2, e3, e4]
      exact ⟨rfl, rfl⟩
  · rw [if_neg h, if_neg h, LLD.getElem?_modifyAt, if_neg hj,
      List.getElem?_set_ne (fun e => hj e.symm)]
    exact ⟨rfl, rfl⟩

theorem increment_lt (n : Nat) (h : n + 1 < 2 ^ 32) : increment n = n + 1 := by
  unfold increment
  exact Nat.mod_eq_of_lt h

theorem Installed_AddConnection (M : Methods σ φ) (s : DataThread σ φ) (node : ProtocolType σ)
    (DDOS : Nat) (p : pollfd) (hlen : s.CONNECTIONS.length = s.POLLFDS.length)
    (hcount : s.nConnections + 1 < 2 ^ 32) :
    Installed s (AddConnection M s node DDOS p)
      { object := { M.call node Call.EVENT_CONNECT with fCONNECTED := true },
        calls := [Call.EVENT_CONNECT] }
      (M.call node Call.EVENT_CONNECT).fd (M.call node Call.EVENT_CONNECT).events := by
  have hc : (AddConnection M s node DDOS p).CONNECTIONS =
      (install s { object := { M.call node Call.EVENT_CONNECT with fCONNECTED := true },
                   calls := [Call.EVENT_CONNECT] } p).2.CONNECTIONS := by
    unfold AddConnection
    simp only [(bump_cSCORE_fields M _ DDOS).1]
    rfl
  have hp : (AddConnection M s node DDOS p).POLLFDS =
      (install s { object := { M.call node Call.EVENT_CONNECT with fCONNECTED := true },
                   calls := [Call.EVENT_CONNECT] } p).2.POLLFDS := by
    unfold AddConnection
    simp only [(bump_cSCORE_fields M _ DDOS).2.1]
    rfl
  have hn : (AddConnection M s node DDOS p).nConnections = s.nConnections + 1 := by
    unfold AddConnection
    simp only [(bump_cSCORE_fields M _ DDOS).2.2.1, (install_other s _ p).2.1]
    exact increment_lt _ hcount
  refine ⟨fun j hj => find_slot_from_live _ j hj, fun h => find_slot_from_empty _ h,
    find_slot_from_le _, ?_, ?_, ?_, ?_, ?_, by simp, hn⟩
  · rw [hc]; exact install_length s _ p
  · rw [hc, hp]; exact install_length_POLLFDS s _ p hlen
  · rw [hc]; exact install_slot s _ p
  · rw [hp]; exact install_descriptor s _ p hlen
  · intro j hj
    rw [hc, hp]; exact install_others s _ p hlen j hj

theorem modifyAt_modifyAt {α : Type} (l : List α) (i : Nat) (f g : α → α) :
    LLD.modifyAt (LLD.modifyAt l i f) i g = LLD.modifyAt l i (fun x => g (f x)) := by
  apply List.ext_getElem?
  intro j
  simp only [LLD.getElem?_modifyAt]
  by_cases h : j = i
  · simp [h, Function.comp_def]
  · simp [h]

theorem Installed_AddConnectionAddress (M : Methods σ φ) (s : DataThread σ φ)
    (node : ProtocolType σ) (strAddress : List Nat) (nPort DDOS : Nat) (p : pollfd)
    (hlen : s.CONNECTIONS.length = s.POLLFDS.length)
    (hcount : s.nConnections + 1 < 2 ^ 32)
    (hConnect : M.Connect node strAddress nPort = true) :
    (AddConnectionAddress M s node strAddress nPort DDOS p).1 = true ∧
    Installed s (AddConnectionAddress M s node strAddress nPort DDOS p).2
      { object := M.call { M.call node (Call.Connect strAddress nPort) with fOUTGOING := true }
                    Call.EVENT_CONNECT,
        calls := [Call.Connect strAddress nPort, Call.EVENT_CONNECT] }
      (M.call node (Call.Connect strAddress nPort)).fd
      (M.call node (Call.Connect strAddress nPort)).events := by
  let n1 : Node σ := { object := M.call node (Call.Connect strAddress nPort),
                       calls := [Call.Connect strAddress nPort] }
  have hc : (AddConnectionAddress M s node strAddress nPort DDOS p).2.CONNECTIONS =
      LLD.modifyAt (install s n1 p).2.CONNECTIONS (find_slot s)
        (fun x => Option.map (fun n => n.call M Call.EVENT_CONNECT)
          (Option.map (fun n : Node σ => { n with object := { n.object with fOUTGOING := true } })
            x)) := by
    unfold AddConnectionAddress
    simp only [hConnect, Bool.not_true, Bool.false_eq_true, if_false,
      (bump_cSCORE_fields M _ DDOS).1, install_fst, modifyAt_modifyAt]
    rfl
  have hp : (AddConnectionAddress M s node strAddress nPort DDOS p).2.POLLFDS =
      (install s n1 p).2.POLLFDS := by
    unfold AddConnectionAddress
    simp only [hConnect, Bool.not_true, Bool.false_eq_true, if_false,
      (bump_cSCORE_fields M _ DDOS).2.1]
    rfl
  have hn : (AddConnectionAddress M s node strAddress nPort DDOS p).2.nConnections =
      s.nConnections + 1 := by
    unfold AddConnectionAddress
    simp only [hConnect, Bool.not_true, Bool.false_eq_true, if_false,
      (bump_cSCORE_fields M _ DDOS).2.2.1, (install_other s _ p).2.1]
    exact increment_lt _ hcount
  have h1 : (AddConnectionAddress M s node strAddress nPort DDOS p).1 = true := by
    unfold AddConnectionAddress
    simp only [hConnect, Bool.not_true, Bool.false_eq_true, if_false]
  refine ⟨h1, fun j hj => find_slot_from_live _ j hj, fun h => find_slot_from_empty _ h,
    find_slot_from_le _, ?_, ?_, ?_, ?_, ?_, by simp, hn⟩
  · rw [hc, LLD.length_modifyAt]; exact install_length s _ p
  · rw [hc, hp, LLD.length_modifyAt]; exact install_length_POLLFDS s _ p hlen
  · rw [hc, LLD.getElem?_modifyAt, if_pos rfl, install_slot s n1 p]
    rfl
  · rw [hp]; exact install_descriptor s n1 p hlen
  · intro j hj
    rw [hc, hp, LLD.getElem?_modifyAt, if_neg hj]
    exact install_others s _ p hlen j hj

theorem remove_live (s : DataThread σ φ) (index : Nat) (node : Node σ)
    (h : s.CONNECTIONS[index]? = some (some node)) :
    remove s index =
      { s with
        DELETED := s.DELETED ++ [node],
        CONNECTIONS := List.set s.CONNECTIONS index none,
        POLLFDS := LLD.modifyAt s.POLLFDS index (fun p => { p with fd := INVALID_SOCKET }),
        nConnections := decrement s.nConnections } := by
  unfold remove
  rw [h]

theorem remove_empty (s : DataThread σ φ) (index : Nat)
    (h : ∀ node : Node σ, s.CONNECTIONS[index]? ≠ some (some node)) :
    remove s index = s := by
  unfold remove
  split
  · rename_i node hn
    exact absurd hn (h node)
  · rfl

theorem lt_of_getElem?_some {α : Type} (l : List α) (i : Nat) (a : α) (h : l[i]? = some a) :
    i < l.length := by
  by_contra hc
  rw [List.getElem?_eq_none (by omega)] at h
  cases h

theorem disconnect_remove_event_live (M : Methods σ φ) (s : DataThread σ φ) (index : Nat)
    (reason : Reason) (node : Node σ) (h : s.CONNECTIONS[index]? = some (some node)) :
    disconnect_remove_event M s index reason =
      { s with
        DELETED := s.DELETED ++ [node.call M (Call.EVENT_DISCONNECT reason)],
        CONNECTIONS := List.set s.CONNECTIONS index none,
        POLLFDS := LLD.modifyAt s.POLLFDS index (fun p => { p with fd := INVALID_SOCKET }),
        nConnections := decrement s.nConnections } := by
  have hlt := lt_of_getElem?_some _ _ _ h
  unfold disconnect_remove_event
  simp only [h]
  rw [remove_live _ index (node.call M (Call.EVENT_DISCONNECT reason))
    (by simp [List.getElem?_set_self hlt])]
  simp [List.set_set]

theorem disconnect_remove_event_empty (M : Methods σ φ) (s : DataThread σ φ) (index : Nat)
    (reason : Reason) (h : s.CONNECTIONS[index]? = some none) :
    disconnect_remove_event M s index reason =
      { s with pEmpty := s.pEmpty.call M (Call.EVENT_DISCONNECT reason) } := by
  unfold disconnect_remove_event
  simp only [h]
  apply remove_empty
  intro node
  simp [h]

theorem disconnect_remove_event_none (M : Methods σ φ) (s : DataThread σ φ) (index : Nat)
    (reason : Reason) (h : s.CONNECTIONS[index]? = none) :
    disconnect_remove_event M s index reason = s := by
  unfold disconnect_remove_event
  simp only [h]
  apply remove_empty
  intro node
  simp [h]

/-! ### The slot table and the poll descriptors agree -/

theorem SlotIntegrity_congr (s t : DataThread σ φ) (hC : t.CONNECTIONS = s.CONNECTIONS)
    (hP : t.POLLFDS = s.POLLFDS) (h : SlotIntegrity s) : SlotIntegrity t := by
  unfold SlotIntegrity at h ⊢
  rw [hC, hP]
  exact h

theorem SlotIntegrity_set (s t : DataThread σ φ) (i : Nat) (c : Option (Node σ))
    (f : pollfd → pollfd) (hC : t.CONNECTIONS = List.set s.CONNECTIONS i c)
    (hP : t.POLLFDS = LLD.modifyAt s.POLLFDS i f)
    (hlive : ∀ (n : Node σ) (p : pollfd), c = some n → (f p).fd = n.object.fd)
    (hempty : ∀ p : pollfd, c = none → (f p).fd = INVALID_SOCKET)
    (h : SlotIntegrity s) : SlotIntegrity t := by
  obtain ⟨h1, h2, h3⟩ := h
  have key : ∀ j : Nat, j = i → ∀ x, t.CONNECTIONS[j]? = some x →
      x = c ∧ ∃ p : pollfd, s.POLLFDS[i]? = some p ∧ t.POLLFDS[j]? = some (f p) := by
    intro j hj x hx
    subst hj
    rw [hC] at hx
    have hlt : j < s.CONNECTIONS.length := by
      have := lt_of_getElem?_some _ _ _ hx
      simpa using this
    rw [List.getElem?_set_self hlt] at hx
    have hpl : j < s.POLLFDS.length := by omega
    obtain ⟨p, hp⟩ : ∃ p : pollfd, s.POLLFDS[j]? = some p :=
      ⟨_, List.getElem?_eq_getElem hpl⟩
    refine ⟨(Option.some.inj hx).symm, p, hp, ?_⟩
    rw [hP, LLD.getElem?_modifyAt, if_pos rfl, hp]
    rfl
  refine ⟨?_, ?_, ?_⟩
  · rw [hC, hP, LLD.length_modifyAt, List.length_set, h1]
  · intro j node hj
    by_cases e : j = i
    · obtain ⟨hx, p, _, hp⟩ := key j e _ hj
      exact ⟨f p, hp, hlive node p hx.symm⟩
    · rw [hC, List.getElem?_set_ne (fun x => e x.symm)] at hj
      rw [hP, LLD.getElem?_modifyAt, if_neg e]
      exact h2 j node hj
  · intro j hj
    by_cases e : j = i
    · obtain ⟨hx, p, _, hp⟩ := key j e _ hj
      exact ⟨f p, hp, hempty p hx.symm⟩
    · rw [hC, List.getElem?_set_ne (fun x => e x.symm)] at hj
      rw [hP, LLD.getElem?_modifyAt, if_neg e]
      exact h3 j hj

theorem SlotIntegrity_append (s t : DataThread σ φ) (n : Node σ) (q : pollfd)
    (hC : t.CONNECTIONS = s.CONNECTIONS ++ [some n]) (hP : t.POLLFDS = s.POLLFDS ++ [q])
    (hq : q.fd = n.object.fd) (h : SlotIntegrity s) : SlotIntegrity t := by
  obtain ⟨h1, h2, h3⟩ := h
  refine ⟨?_, ?_, ?_⟩
  · rw [hC, hP]
    simp [h1]
  · intro j node hj
    rw [hC] at hj
    rw [hP]
    by_cases hlt : j < s.CONNECTIONS.length
    · rw [List.getElem?_append_left hlt] at hj
      rw [List.getElem?_append_left (by omega)]
      exact h2 j node hj
    · have hlt2 := lt_of_getElem?_some _ _ _ hj
      have e : j = s.CONNECTIONS.length := by
        simp at hlt2
        omega
      subst e
      rw [List.getElem?_append_right (Nat.le_refl _)] at hj
      simp at hj
      rw [h1, List.getElem?_append_right (Nat.le_refl _)]
      refine ⟨q, by simp, ?_⟩
      rw [hq, hj]
  · intro j hj
    rw [hC] at hj
    rw [hP]
    by_cases hlt : j < s.CONNECTIONS.length
    · rw [List.getElem?_append_left hlt] at hj
      rw [List.getElem?_append_left (by omega)]
      exact h3 j hj
    · have hlt2 := lt_of_getElem?_some _ _ _ hj
      have e : j = s.CONNECTIONS.length := by
        simp at hlt2
        omega
      subst e
      rw [List.getElem?_append_right (Nat.le_refl _)] at hj
      simp at hj

theorem SlotIntegrity_modify (s t : DataThread σ φ) (i : Nat) (g : Node σ → Node σ)
    (hC : t.CONNECTIONS = LLD.modifyAt s.CONNECTIONS i (Option.map g))
    (hP : t.POLLFDS = s.POLLFDS) (hg : ∀ n : Node σ, (g n).object.fd = n.object.fd)
    (h : SlotIntegrity s) : SlotIntegrity t := by
  obtain ⟨h1, h2, h3⟩ := h
  refine ⟨?_, ?_, ?_⟩
  · rw [hC, hP, LLD.length_modifyAt, h1]
  · intro j node hj
    rw [hC, LLD.getElem?_modifyAt] at hj
    rw [hP]
    by_cases e : j = i
    · subst e
      rw [if_pos rfl] at hj
      cases hx : s.CONNECTIONS[j]? with
      | none => rw [hx] at hj; cases hj
      | some x =>
        rw [hx] at hj
        cases x with
        | none => simp at hj
        | some n =>
          simp at hj
          obtain ⟨p, hp, hfd⟩ := h2 j n hx
          refine ⟨p, hp, ?_⟩
          rw [hfd, ← hj, hg]
    · rw [if_neg e] at hj
      exact h2 j node hj
  · intro j hj
    rw [hC, LLD.getElem?_modifyAt] at hj
    rw [hP]
    by_cases e : j = i
    · subst e
      rw [if_pos rfl] at hj
      cases hx : s.CONNECTIONS[j]? with
      | none => rw [hx] at hj; cases hj
      | some x =>
        rw [hx] at hj
        cases x with
        | none => exact h3 j hx
        | some n => simp at hj
    · rw [if_neg e] at hj
      exact h3 j hj

theorem SlotIntegrity_install (s : DataThread σ φ) (node : Node σ) (p : pollfd)
    (h : SlotIntegrity s) : SlotIntegrity (install s node p).2 := by
  have hlen := h.1
  by_cases e : find_slot s = s.CONNECTIONS.length
  · apply SlotIntegrity_append s _ node
      { p with fd := node.object.fd, events := node.object.events } _ _ rfl h
    · rw [install_CONNECTIONS, if_pos e]
    · rw [install_POLLFDS s node p hlen, if_pos e]
  · apply SlotIntegrity_set s _ (find_slot s) (some node)
      (fun p => { p with fd := node.object.fd, events := node.object.events }) _ _ _ _ h
    · rw [install_CONNECTIONS, if_neg e]
    · rw [install_POLLFDS s node p hlen, if_neg e]
    · intro n q hn
      cases hn
      rfl
    · intro q hn
      cases hn

theorem SlotIntegrity_remove (s : DataThread σ φ) (index : Nat) (h : SlotIntegrity s) :
    SlotIntegrity (remove s index) := by
  cases hx : s.CONNECTIONS[index]? with
  | none =>
    rw [remove_empty s index (by intro node; simp [hx])]
    exact h
  | some x =>
    cases x with
    | none =>
      rw [remove_empty s index (by intro node; simp [hx])]
      exact h
    | some node =>
      rw [remove_live s index node hx]
      apply SlotIntegrity_set s _ index none (fun p => { p with fd := INVALID_SOCKET }) rfl rfl _ _ h
      · intro n q hn
        cases hn
      · intro q _
        rfl

theorem SlotIntegrity_disconnect_remove_event (M : Methods σ φ) (s : DataThread σ φ)
    (index : Nat) (reason : Reason) (h : SlotIntegrity s) :
    SlotIntegrity (disconnect_remove_event M s index reason) := by
  cases hx : s.CONNECTIONS[index]? with
  | none =>
    rw [disconnect_remove_event_none M s index reason hx]
    exact h
  | some x =>
    cases x with
    | none =>
      rw [disconnect_remove_event_empty M s index reason hx]
      exact SlotIntegrity_congr s _ rfl rfl h
    | some node =>
      rw [disconnect_remove_event_live M s index reason node hx]
      apply SlotIntegrity_set s _ index none (fun p => { p with fd := INVALID_SOCKET }) rfl rfl _ _ h
      · intro n q hn
        cases hn
      · intro q _
        rfl

theorem SlotIntegrity_foldl_remove (l : List Nat) (s : DataThread σ φ) (h : SlotIntegrity s) :
    SlotIntegrity (l.foldl remove s) := by
  induction l generalizing s with
  | nil => exact h
  | cons a t ih => exact ih _ (SlotIntegrity_remove s a h)

theorem SlotIntegrity_AddConnection (M : Methods σ φ) (s : DataThread σ φ)
    (node : ProtocolType σ) (DDOS : Nat) (p : pollfd) (h : SlotIntegrity s) :
    SlotIntegrity (AddConnection M s node DDOS p) := by
  apply SlotIntegrity_congr _ _ _ _ (SlotIntegrity_install s
    { object := { M.call node Call.EVENT_CONNECT with fCONNECTED := true },
      calls := [Call.EVENT_CONNECT] } p h)
  · unfold AddConnection
    simp only [(bump_cSCORE_fields M _ DDOS).1]
    rfl
  · unfold AddConnection
    simp only [(bump_cSCORE_fields M _ DDOS).2.1]
    rfl

theorem SlotIntegrity_AddConnectionAddress (M : Methods σ φ)
    (hEvent : ∀ x : ProtocolType σ, (M.call x Call.EVENT_CONNECT).fd = x.fd)
    (s : DataThread σ φ) (node : ProtocolType σ) (strAddress : List Nat) (nPort DDOS : Nat)
    (p : pollfd) (h : SlotIntegrity s) :
    SlotIntegrity (AddConnectionAddress M s node strAddress nPort DDOS p).2 := by
  cases hConnect : M.Connect node strAddress nPort with
  | false =>
    apply SlotIntegrity_congr s _ _ _ h
    · unfold AddConnectionAddress
      simp only [hConnect, Bool.not_false, if_true]
    · unfold AddConnectionAddress
      simp only [hConnect, Bool.not_false, if_true]
  | true =>
    apply SlotIntegrity_modify
      (install s { object := M.call node (Call.Connect strAddress nPort),
                   calls := [Call.Connect strAddress nPort] } p).2 _ (find_slot s)
      (fun n => ({ n with object := { n.object with fOUTGOING := true } } : Node σ).call M
        Call.EVENT_CONNECT) _ _ _ (SlotIntegrity_install s _ p h)
    · unfold AddConnectionAddress
      simp only [hConnect, Bool.not_true, Bool.false_eq_true, if_false,
        (bump_cSCORE_fields M _ DDOS).1, install_fst, modifyAt_modifyAt]
      congr 1
      funext x
      cases x <;> rfl
    · unfold AddConnectionAddress
      simp only [hConnect, Bool.not_true, Bool.false_eq_true, if_false,
        (bump_cSCORE_fields M _ DDOS).2.1]
      rfl
    · intro n
      exact hEvent _

theorem SlotIntegrity_request (M : Methods σ φ)
    (hEvent : ∀ x : ProtocolType σ, (M.call x Call.EVENT_CONNECT).fd = x.fd)
    (s : DataThread σ φ) (r : Request σ) (h : SlotIntegrity s) :
    SlotIntegrity (request M s r) := by
  cases r with
  | AddConnection node DDOS p => exact SlotIntegrity_AddConnection M s node DDOS p h
  | AddConnectionAddress node strAddress nPort DDOS p =>
    exact SlotIntegrity_AddConnectionAddress M hEvent s node strAddress nPort DDOS p h
  | remove index => exact SlotIntegrity_remove s index h
  | disconnect_remove_event index reason =>
    exact SlotIntegrity_disconnect_remove_event M s index reason h
  | DisconnectAll => exact SlotIntegrity_foldl_remove _ s h

theorem SlotIntegrity_requests (M : Methods σ φ)
    (hEvent : ∀ x : ProtocolType σ, (M.call x Call.EVENT_CONNECT).fd = x.fd)
    (l : List (Request σ)) (s : DataThread σ φ) (h : SlotIntegrity s) :
    SlotIntegrity (requests M s l) := by
  induction l generalizing s with
  | nil => exact h
  | cons r t ih => exact ih _ (SlotIntegrity_request M hEvent s r h)

theorem SlotIntegrity_create (isDDOS : Bool) (rScore cScore nTimeout : Nat) (fMeter : Bool)
    (pEmpty : ProtocolType σ) (FILTERS : List (DDOS_Filter φ)) :
    SlotIntegrity (DataThread.create isDDOS rScore cScore nTimeout fMeter pEmpty FILTERS) := by
  refine ⟨rfl, ?_, ?_⟩
  · intro i node h
    simp [DataThread.create] at h
  · intro i h
    simp [DataThread.create] at h

/-! ### What the worker leaves alone -/

theorem Frame_refl (nIndex : Nat) (s : DataThread σ φ) : Frame nIndex s s :=
  ⟨fun _ _ => ⟨Eq.refl _, Eq.refl _⟩, Eq.refl _, Eq.refl _, [], by simp⟩

theorem Frame_trans (nIndex : Nat) (s t u : DataThread σ φ) (h1 : Frame nIndex s t)
    (h2 : Frame nIndex t u) : Frame nIndex s u := by
  obtain ⟨a1, a2, a3, l1, a4⟩ := h1
  obtain ⟨b1, b2, b3, l2, b4⟩ := h2
  refine ⟨fun j hj => ⟨(b1 j hj).1.trans (a1 j hj).1, (b1 j hj).2.trans (a1 j hj).2⟩,
    b2.trans a2, b3.trans a3, l1 ++ l2, ?_⟩
  rw [b4, a4, List.append_assoc]

theorem Frame_disconnect_remove_event (M : Methods σ φ) (s : DataThread σ φ) (index : Nat)
    (reason : Reason) : Frame index s (disconnect_remove_event M s index reason) := by
  cases hx : s.CONNECTIONS[index]? with
  | none =>
    rw [disconnect_remove_event_none M s index reason hx]
    exact Frame_refl _ _
  | some x =>
    cases x with
    | none =>
      rw [disconnect_remove_event_empty M s index reason hx]
      exact ⟨fun j _ => ⟨rfl, rfl⟩, rfl, rfl, [], by simp⟩
    | some node =>
      rw [disconnect_remove_event_live M s index reason node hx]
      refine ⟨fun j hj => ⟨?_, ?_⟩, rfl, rfl, _, rfl⟩
      · exact List.getElem?_set_ne (fun e => hj e.symm)
      · show (LLD.modifyAt s.POLLFDS index _)[j]? = _
        rw [LLD.getElem?_modifyAt, if_neg hj]

theorem Frame_store (s : DataThread σ φ) (nIndex : Nat) (node : Node σ) :
    Frame nIndex s (store s nIndex node) :=
  ⟨fun _ hj => ⟨List.getElem?_set_ne (fun e => hj e.symm), rfl⟩, rfl, rfl, [], by simp [store]⟩

theorem map_nBan_modifyAt (l : List (DDOS_Filter φ)) (k : Nat) (f : φ → φ) :
    (LLD.modifyAt l k (fun d => { d with filter := f d.filter })).map DDOS_Filter.nBan
      = l.map DDOS_Filter.nBan := by
  apply List.ext_getElem?
  intro j
  simp only [List.getElem?_map, LLD.getElem?_modifyAt]
  by_cases e : j = k
  · subst e
    rw [if_pos rfl]
    cases l[j]? <;> rfl
  · rw [if_neg e]

theorem Frame_count_packet (M : Methods σ φ) (s : DataThread σ φ) (nIndex DDOS : Nat) :
    Frame nIndex s (count_packet M s DDOS) := by
  unfold count_packet
  cases h1 : s.fMETER <;> cases h2 : s.fDDOS <;>
    simp only [h1, h2, if_true, if_false, Bool.false_eq_true] <;>
    exact ⟨fun _ _ => ⟨rfl, rfl⟩, rfl, by first | rfl | exact map_nBan_modifyAt _ _ _, [],
      by simp⟩

theorem Frame_serve (M : Methods σ φ) (s : DataThread σ φ) (nIndex : Nat) (node : Node σ) :
    Frame nIndex s (serve M s nIndex node) := by
  unfold serve
  simp only []
  split
  · split
    · exact Frame_trans _ _ _ _ (Frame_trans _ _ _ _ (Frame_trans _ _ _ _ (Frame_store _ _ _)
        (Frame_count_packet M _ _ _)) (Frame_store _ _ _))
        (Frame_disconnect_remove_event M _ _ _)
    · exact Frame_trans _ _ _ _ (Frame_trans _ _ _ _ (Frame_trans _ _ _ _ (Frame_store _ _ _)
        (Frame_count_packet M _ _ _)) (Frame_store _ _ _)) (Frame_store _ _ _)
  · exact Frame_store _ _ _

/-- The worker on the slot `nIndex` changes no other slot and no other descriptor, keeps the
timeout, and only adds to the deleted connections. -/
theorem examine_frame (M : Methods σ φ) (s : DataThread σ φ) (nIndex : Nat) :
    (∀ j : Nat, j ≠ nIndex →
      (examine M s nIndex).CONNECTIONS[j]? = s.CONNECTIONS[j]? ∧
      (examine M s nIndex).POLLFDS[j]? = s.POLLFDS[j]?) ∧
    (examine M s nIndex).TIMEOUT = s.TIMEOUT ∧
    (∃ l : List (Node σ), (examine M s nIndex).DELETED = s.DELETED ++ l) := by
  have weaken : ∀ t : DataThread σ φ, Frame nIndex s t →
      (∀ j : Nat, j ≠ nIndex →
        t.CONNECTIONS[j]? = s.CONNECTIONS[j]? ∧ t.POLLFDS[j]? = s.POLLFDS[j]?) ∧
      t.TIMEOUT = s.TIMEOUT ∧ (∃ l : List (Node σ), t.DELETED = s.DELETED ++ l) :=
    fun t h => ⟨h.slots, h.timeout, h.deleted⟩
  have weaken2 : ∀ (t : DataThread σ φ) (F : List (DDOS_Filter φ)),
      Frame nIndex ({ s with FILTERS := F } : DataThread σ φ) t →
      (∀ j : Nat, j ≠ nIndex →
        t.CONNECTIONS[j]? = s.CONNECTIONS[j]? ∧ t.POLLFDS[j]? = s.POLLFDS[j]?) ∧
      t.TIMEOUT = s.TIMEOUT ∧ (∃ l : List (Node σ), t.DELETED = s.DELETED ++ l) :=
    fun t F h => ⟨h.slots, h.timeout, h.deleted⟩
  unfold examine
  split
  · split
    · exact weaken _ (Frame_refl _ _)
    · split
      · exact weaken _ (Frame_disconnect_remove_event M _ _ _)
      · split
        · exact weaken _ (Frame_disconnect_remove_event M _ _ _)
        · split
          · exact weaken _ (Frame_disconnect_remove_event M _ _ _)
          · split
            · split
              · simp only []
                split
                · exact weaken2 _ _ (Frame_disconnect_remove_event M _ _ _)
                · exact weaken2 _ _ (Frame_serve M _ _ _)
              · exact weaken _ (Frame_refl _ _)
            · exact weaken _ (Frame_serve M _ _ _)
  · exact weaken _ (Frame_refl _ _)

/-! ### The checks of the worker on a slot -/

theorem examine_timeout (M : Methods σ φ) (s : DataThread σ φ) (nIndex : Nat) (node : Node σ)
    (hslot : s.CONNECTIONS[nIndex]? = some (some node))
    (hconn : M.Connected node.object = true)
    (hrev : reventsAt s nIndex ≠ POLLERR ∧ reventsAt s nIndex ≠ POLLNVAL)
    (herr : M.Errors node.object = false)
    (htime : M.Timeout node.object s.TIMEOUT = true) :
    examine M s nIndex = disconnect_remove_event M s nIndex Reason.DISCONNECT_TIMEOUT := by
  unfold examine
  simp only [hslot, hconn, herr, htime, Bool.not_true, Bool.false_eq_true, if_false, if_true,
    hrev.1, hrev.2, or_self]

theorem examine_ddos (M : Methods σ φ) (s : DataThread σ φ) (nIndex : Nat) (node : Node σ)
    (d : DDOS_Filter φ)
    (hslot : s.CONNECTIONS[nIndex]? = some (some node))
    (hconn : M.Connected node.object = true)
    (hrev : reventsAt s nIndex ≠ POLLERR ∧ reventsAt s nIndex ≠ POLLNVAL)
    (herr : M.Errors node.object = false)
    (htime : M.Timeout node.object s.TIMEOUT = false)
    (hddos : s.fDDOS = true)
    (hfilter : s.FILTERS[node.object.DDOS]? = some d) :
    examine M s nIndex =
      if M.Banned (ban_check M s d).filter then
        disconnect_remove_event M
          { s with FILTERS := List.set s.FILTERS node.object.DDOS (ban_check M s d) }
          nIndex Reason.DISCONNECT_DDOS
      else
        serve M { s with FILTERS := List.set s.FILTERS node.object.DDOS (ban_check M s d) }
          nIndex node := by
  unfold examine
  simp only [hslot, hconn, herr, htime, hddos, hfilter, Bool.not_true, Bool.false_eq_true,
    if_false, if_true, hrev.1, hrev.2, or_self]

theorem reventsAt_congr (s t : DataThread σ φ) (j : Nat) (h : t.POLLFDS[j]? = s.POLLFDS[j]?) :
    reventsAt t j = reventsAt s j := by
  unfold reventsAt
  rw [h]

theorem sweep_succ (M : Methods σ φ) (s : DataThread σ φ) (n : Nat) :
    sweep M s (n + 1) = examine M (sweep M s n) n := by
  unfold sweep
  rw [List.range_succ, List.foldl_append]
  rfl

theorem sweep_timeout (M : Methods σ φ) (s : DataThread σ φ) (j : Nat) (node : Node σ)
    (hslot : s.CONNECTIONS[j]? = some (some node))
    (hp : j < s.POLLFDS.length)
    (hconn : M.Connected node.object = true)
    (hrev : reventsAt s j ≠ POLLERR ∧ reventsAt s j ≠ POLLNVAL)
    (herr : M.Errors node.object = false)
    (htime : M.Timeout node.object s.TIMEOUT = true) (n : Nat) :
    (sweep M s n).TIMEOUT = s.TIMEOUT ∧
    (n ≤ j → (sweep M s n).CONNECTIONS[j]? = s.CONNECTIONS[j]? ∧
      (sweep M s n).POLLFDS[j]? = s.POLLFDS[j]?) ∧
    (j < n → (sweep M s n).CONNECTIONS[j]? = some none ∧
      (∃ p : pollfd, (sweep M s n).POLLFDS[j]? = some p ∧ p.fd = INVALID_SOCKET) ∧
      node.call M (Call.EVENT_DISCONNECT Reason.DISCONNECT_TIMEOUT) ∈ (sweep M s n).DELETED) := by
  induction n with
  | zero =>
    refine ⟨rfl, fun _ => ⟨rfl, rfl⟩, fun h => absurd h (Nat.not_lt_zero _)⟩
  | succ n ih =>
    obtain ⟨i1, i2, i3⟩ := ih
    rw [sweep_succ]
    obtain ⟨f1, f2, l, f3⟩ := examine_frame M (sweep M s n) n
    refine ⟨f2.trans i1, ?_, ?_⟩
    · intro hle
      have hne : j ≠ n := by omega
      obtain ⟨a, b⟩ := i2 (by omega)
      exact ⟨(f1 j hne).1.trans a, (f1 j hne).2.trans b⟩
    · intro hlt
      by_cases e : j = n
      · subst e
        obtain ⟨a, b⟩ := i2 (Nat.le_refl _)
        have hs : (sweep M s j).CONNECTIONS[j]? = some (some node) := a.trans hslot
        have hr : reventsAt (sweep M s j) j = reventsAt s j := reventsAt_congr _ _ _ b
        rw [examine_timeout M (sweep M s j) j node hs hconn (by rw [hr]; exact hrev) herr
          (by rw [i1]; exact htime)]
        rw [disconnect_remove_event_live M _ j _ node hs]
        have hlt2 : j < (sweep M s j).CONNECTIONS.length := lt_of_getElem?_some _ _ _ hs
        refine ⟨List.getElem?_set_self hlt2, ?_, by simp⟩
        show ∃ p : pollfd, (LLD.modifyAt (sweep M s j).POLLFDS j _)[j]? = some p ∧ _
        rw [LLD.getElem?_modifyAt, if_pos rfl, b, List.getElem?_eq_getElem hp]
        exact ⟨_, rfl, rfl⟩
      · have hne : j ≠ n := e
        obtain ⟨a, ⟨p, b, c⟩, d⟩ := i3 (by omega)
        refine ⟨(f1 j hne).1.trans a, ⟨p, (f1 j hne).2.trans b, c⟩, ?_⟩
        rw [f3]
        exact List.mem_append_left _ d

/-! ### The head of a pass of the worker -/

theorem getElem?_clear_revents (l : List pollfd) (nSize j : Nat) :
    (clear_revents l nSize)[j]? =
      (l[j]?).map (fun p => if j < nSize then { p with revents := 0 } else p) := by
  unfold clear_revents
  rw [List.getElem?_mapIdx]

theorem getElem?_polled (l : List pollfd) (nSize j : Nat) (vRevents : List Nat) :
    (polled l nSize vRevents)[j]? =
      (l[j]?).map (fun p =>
        if j < nSize then { p with revents := vRevents.getD j 0 } else p) := by
  unfold polled
  rw [List.getElem?_mapIdx]

theorem fHasValidConnections_iff (l : List pollfd) (nSize : Nat) :
    fHasValidConnections l nSize = true ↔
      ∃ (j : Nat) (p : pollfd), j < nSize ∧ l[j]? = some p ∧ p.fd ≠ INVALID_SOCKET := by
  unfold fHasValidConnections
  rw [List.any_eq_true]
  constructor
  · rintro ⟨p, hp, hfd⟩
    obtain ⟨j, hj⟩ := List.mem_iff_getElem?.1 hp
    rw [List.getElem?_take] at hj
    by_cases hlt : j < nSize
    · rw [if_pos hlt] at hj
      exact ⟨j, p, hlt, hj, by simpa using hfd⟩
    · rw [if_neg hlt] at hj
      cases hj
  · rintro ⟨j, p, hlt, hj, hfd⟩
    refine ⟨p, List.mem_iff_getElem?.2 ⟨j, ?_⟩, by simpa using hfd⟩
    rw [List.getElem?_take, if_pos hlt]
    exact hj

theorem fHasValidConnections_clear_revents (l : List pollfd) (nSize : Nat)
    (h : fHasValidConnections l nSize = true) :
    fHasValidConnections (clear_revents l nSize) nSize = true := by
  rw [fHasValidConnections_iff] at h ⊢
  obtain ⟨j, p, hlt, hj, hfd⟩ := h
  refine ⟨j, { p with revents := 0 }, hlt, ?_, hfd⟩
  rw [getElem?_clear_revents, hj]
  simp [hlt]

theorem pass_swept (M : Methods σ φ) (s : DataThread σ φ) (vRevents : List Nat) (nPoll : Int)
    (hrun : s.fDestruct = false) (hcount : s.nConnections ≠ 0)
    (hvalid : fHasValidConnections s.POLLFDS s.CONNECTIONS.length = true)
    (hpoll : 0 < nPoll) :
    pass M s false vRevents nPoll =
      (Outcome.swept,
       sweep M
         { s with
           POLLFDS :=
             polled (clear_revents s.POLLFDS s.CONNECTIONS.length) s.CONNECTIONS.length vRevents }
         s.CONNECTIONS.length) := by
  have hsize : s.CONNECTIONS.length ≠ 0 := by
    intro h0
    rw [fHasValidConnections_iff] at hvalid
    obtain ⟨j, _, hlt, _, _⟩ := hvalid
    omega
  unfold pass
  simp only [hrun, Bool.or_self, Bool.false_eq_true, if_false, hcount, hsize,
    fHasValidConnections_clear_revents _ _ hvalid, Bool.not_true, Int.not_le.2 hpoll]

set_option maxRecDepth 100000

/-! ### The claims on the data thread -/

/-- C25, slot integrity: in every state reached from a newly constructed data thread by
inbound `AddConnection`, outbound `AddConnection` (successful or failed), `remove`,
`disconnect_remove_event` and `DisconnectAll`, the vectors `CONNECTIONS` and `POLLFDS` are
equally long, the descriptor of every live slot holds the socket handle of its connection
and the descriptor of every empty slot holds `INVALID_SOCKET`.  The handler of
`EVENT_CONNECT`, which the outbound path calls after it has copied the handle, is taken not
to change the handle. -/
theorem slot_integrity (M : Methods σ φ)
    (hEvent : ∀ x : ProtocolType σ, (M.call x Call.EVENT_CONNECT).fd = x.fd)
    (isDDOS : Bool) (rScore cScore nTimeout : Nat) (fMeter : Bool) (pEmpty : ProtocolType σ)
    (FILTERS : List (DDOS_Filter φ)) (l : List (Request σ)) :
    SlotIntegrity
      (requests M (DataThread.create isDDOS rScore cScore nTimeout fMeter pEmpty FILTERS) l) :=
  SlotIntegrity_requests M hEvent l _
    (SlotIntegrity_create isDDOS rScore cScore nTimeout fMeter pEmpty FILTERS)

/-- Witness of C25 on the connection type of the examples: after seven requests the slots
hold the connections on the sockets `10` and `8` and an empty slot, and the table agrees
with the descriptors. -/
theorem slot_integrity_witness :
    (∀ x : ProtocolType ExampleState, (exampleMethods.call x Call.EVENT_CONNECT).fd = x.fd) ∧
    (requests exampleMethods (exampleThread false 0) exampleRequests).POLLFDS.map pollfd.fd
      = [10, 8, INVALID_SOCKET] ∧
    SlotIntegrity (requests exampleMethods (exampleThread false 0) exampleRequests) :=
  ⟨fun _ => rfl, by decide,
   slot_integrity exampleMethods (fun _ => rfl) false 100 100 60 false exampleEmpty
     [{ filter := { rSCORE := 0, cSCORE := 0, fBanned := false }, nBan := 0 }] exampleRequests⟩

/-- Failing input of C26: a connection installed by `AddConnection` and removed by
`DisconnectAll` is deleted without having got any `EVENT_DISCONNECT`; the only call made on
it is `Event(EVENT_CONNECT)`. -/
theorem disconnect_all_failing_input :
    (exampleIdle false).CONNECTIONS.map (Option.map Node.calls) = [some [Call.EVENT_CONNECT]] ∧
    (DisconnectAll (exampleIdle false)).CONNECTIONS = [none] ∧
    (DisconnectAll (exampleIdle false)).DELETED.map Node.calls = [[Call.EVENT_CONNECT]] ∧
    (disconnect_remove_event exampleMethods (exampleIdle false) 0
        Reason.DISCONNECT_FORCE).DELETED.map Node.calls
      = [[Call.EVENT_CONNECT, Call.EVENT_DISCONNECT Reason.DISCONNECT_FORCE]] := by
  decide

/-- C27, slot selection of `AddConnection`: on a data thread whose two vectors are equally
long and whose connection count is below `2 ^ 32 - 1`, the inbound `AddConnection` and an
outbound one whose `Connect` succeeds install the connection in the lowest slot that holds
`pEmpty`, or in one new slot at the end when there is none; they copy `fd` and `events` of
the connection into the descriptor of that slot, leave every other slot and descriptor as
it was, deliver one `EVENT_CONNECT` to the connection and raise the connection count by
one. -/
theorem add_connection_slot (M : Methods σ φ) (s : DataThread σ φ)
    (node nodeOut : ProtocolType σ) (strAddress : List Nat) (nPort DDOS : Nat) (p : pollfd)
    (hlen : s.CONNECTIONS.length = s.POLLFDS.length)
    (hcount : s.nConnections + 1 < 2 ^ 32)
    (hConnect : M.Connect nodeOut strAddress nPort = true) :
    Installed s (AddConnection M s node DDOS p)
      { object := { M.call node Call.EVENT_CONNECT with fCONNECTED := true },
        calls := [Call.EVENT_CONNECT] }
      (M.call node Call.EVENT_CONNECT).fd (M.call node Call.EVENT_CONNECT).events ∧
    (AddConnectionAddress M s nodeOut strAddress nPort DDOS p).1 = true ∧
    Installed s (AddConnectionAddress M s nodeOut strAddress nPort DDOS p).2
      { object :=
          M.call { M.call nodeOut (Call.Connect strAddress nPort) with fOUTGOING := true }
            Call.EVENT_CONNECT,
        calls := [Call.Connect strAddress nPort, Call.EVENT_CONNECT] }
      (M.call nodeOut (Call.Connect strAddress nPort)).fd
      (M.call nodeOut (Call.Connect strAddress nPort)).events :=
  ⟨Installed_AddConnection M s node DDOS p hlen hcount,
   Installed_AddConnectionAddress M s nodeOut strAddress nPort DDOS p hlen hcount hConnect⟩

/-- Witness of C27 on a table of two slots whose first slot is empty: both `AddConnection`
take the slot `0` and leave the connection on the socket `8` in the slot `1`. -/
theorem add_connection_slot_witness :
    find_slot exampleSlots = 0 ∧
    (AddConnection exampleMethods exampleSlots (exampleNode 9 false) 0
      ⟨0, 0, 0⟩).POLLFDS.map pollfd.fd = [9, 8] ∧
    (AddConnectionAddress exampleMethods exampleSlots (exampleNode 10 false) [127, 0, 0, 1]
      8080 0 ⟨0, 0, 0⟩).2.POLLFDS.map pollfd.fd = [10, 8] ∧
    (Installed exampleSlots
      (AddConnection exampleMethods exampleSlots (exampleNode 9 false) 0 ⟨0, 0, 0⟩)
      { object :=
          { exampleMethods.call (exampleNode 9 false) Call.EVENT_CONNECT with
            fCONNECTED := true },
        calls := [Call.EVENT_CONNECT] }
      9 POLLIN ∧
     (AddConnectionAddress exampleMethods exampleSlots (exampleNode 10 false) [127, 0, 0, 1]
       8080 0 ⟨0, 0, 0⟩).1 = true ∧
     Installed exampleSlots
      (AddConnectionAddress exampleMethods exampleSlots (exampleNode 10 false) [127, 0, 0, 1]
        8080 0 ⟨0, 0, 0⟩).2
      { object :=
          exampleMethods.call
            { exampleMethods.call (exampleNode 10 false) (Call.Connect [127, 0, 0, 1] 8080) with
              fOUTGOING := true }
            Call.EVENT_CONNECT,
        calls := [Call.Connect [127, 0, 0, 1] 8080, Call.EVENT_CONNECT] }
      10 POLLIN) :=
  ⟨by decide, by decide, by decide,
   add_connection_slot exampleMethods exampleSlots (exampleNode 9 false) (exampleNode 10 false)
     [127, 0, 0, 1] 8080 0 ⟨0, 0, 0⟩ (by decide) (by decide) rfl⟩

/-- C28 as amended, timeout sweep: in a pass of the worker that reaches `poll` and in which
`poll` returns a positive count, every slot that holds a live, connected connection whose
`revents` is neither `POLLERR` nor `POLLNVAL`, whose `Errors()` is false and whose
`Timeout(TIMEOUT)` is true gets `Event(EVENT_DISCONNECT, DISCONNECT_TIMEOUT)` and is deleted,
and at the end of the pass its slot holds `pEmpty` and its descriptor `INVALID_SOCKET`. -/
theorem timeout_sweep (M : Methods σ φ) (s : DataThread σ φ) (vRevents : List Nat)
    (nPoll : Int) (j : Nat) (node : Node σ)
    (hrun : s.fDestruct = false) (hcount : s.nConnections ≠ 0)
    (hvalid : fHasValidConnections s.POLLFDS s.CONNECTIONS.length = true)
    (hlen : s.CONNECTIONS.length = s.POLLFDS.length)
    (hpoll : 0 < nPoll)
    (hslot : s.CONNECTIONS[j]? = some (some node))
    (hconn : M.Connected node.object = true)
    (hrev : vRevents.getD j 0 ≠ POLLERR ∧ vRevents.getD j 0 ≠ POLLNVAL)
    (herr : M.Errors node.object = false)
    (htime : M.Timeout node.object s.TIMEOUT = true) :
    (pass M s false vRevents nPoll).1 = Outcome.swept ∧
    (pass M s false vRevents nPoll).2.CONNECTIONS[j]? = some none ∧
    (∃ p : pollfd, (pass M s false vRevents nPoll).2.POLLFDS[j]? = some p ∧
      p.fd = INVALID_SOCKET) ∧
    node.call M (Call.EVENT_DISCONNECT Reason.DISCONNECT_TIMEOUT) ∈
      (pass M s false vRevents nPoll).2.DELETED := by
  have hj : j < s.CONNECTIONS.length := lt_of_getElem?_some _ _ _ hslot
  have hjp : j < s.POLLFDS.length := by omega
  rw [pass_swept M s vRevents nPoll hrun hcount hvalid hpoll]
  have hq : (polled (clear_revents s.POLLFDS s.CONNECTIONS.length) s.CONNECTIONS.length
      vRevents)[j]? =
      some { (s.POLLFDS[j]) with revents := vRevents.getD j 0 } := by
    rw [getElem?_polled, getElem?_clear_revents, List.getElem?_eq_getElem hjp]
    simp [hj]
  have hr : reventsAt
      ({ s with
         POLLFDS :=
           polled (clear_revents s.POLLFDS s.CONNECTIONS.length) s.CONNECTIONS.length vRevents }
        : DataThread σ φ) j = vRevents.getD j 0 := by
    unfold reventsAt
    rw [hq]
    rfl
  obtain ⟨_, _, h3⟩ := sweep_timeout M
    ({ s with
       POLLFDS :=
         polled (clear_revents s.POLLFDS s.CONNECTIONS.length) s.CONNECTIONS.length vRevents }
      : DataThread σ φ) j node hslot
    (by
      have := lt_of_getElem?_some _ _ _ hq
      exact this)
    hconn (by rw [hr]; exact hrev) herr htime s.CONNECTIONS.length
  exact ⟨rfl, h3 hj⟩

/-- Counterexample to C28 as first stated: a pass of the worker reaches `poll` with one
live, connected connection whose `Timeout(TIMEOUT)` is true; `poll` returns `-1` (or `0`),
the pass goes back to the head of the loop, and the connection is still in its slot and has
got no `EVENT_DISCONNECT`. -/
theorem timeout_sweep_counterexample :
    (exampleIdle true).CONNECTIONS.map (Option.map Node.calls) = [some [Call.EVENT_CONNECT]] ∧
    (exampleIdle true).CONNECTIONS.map
        (Option.map (fun n =>
          (exampleMethods.Connected n.object, exampleMethods.Errors n.object,
            exampleMethods.Timeout n.object (exampleIdle true).TIMEOUT)))
      = [some (true, false, true)] ∧
    (pass exampleMethods (exampleIdle true) false [0] (-1)).1 = Outcome.unready ∧
    (pass exampleMethods (exampleIdle true) false [0] (-1)).2.CONNECTIONS
      = (exampleIdle true).CONNECTIONS ∧
    (pass exampleMethods (exampleIdle true) false [0] (-1)).2.POLLFDS.map pollfd.fd = [7] ∧
    (pass exampleMethods (exampleIdle true) false [0] (-1)).2.DELETED = [] ∧
    (pass exampleMethods (exampleIdle true) false [0] 0).1 = Outcome.unready ∧
    (pass exampleMethods (exampleIdle true) false [0] 0).2.CONNECTIONS
      = (exampleIdle true).CONNECTIONS ∧
    (pass exampleMethods (exampleIdle true) false [0] 0).2.DELETED = [] := by
  decide

/-- Witness of the amended C28: with one connection whose `Timeout(TIMEOUT)` is true and a
`poll` that returns `1`, the pass empties the slot and the connection has got
`EVENT_DISCONNECT` with the reason `DISCONNECT_TIMEOUT`. -/
theorem timeout_sweep_witness :
    (pass exampleMethods (exampleIdle true) false [POLLIN] 1).2.DELETED.map Node.calls
      = [[Call.EVENT_CONNECT, Call.EVENT_DISCONNECT Reason.DISCONNECT_TIMEOUT]] ∧
    ((pass exampleMethods (exampleIdle true) false [POLLIN] 1).1 = Outcome.swept ∧
     (pass exampleMethods (exampleIdle true) false [POLLIN] 1).2.CONNECTIONS[0]? = some none ∧
     (∃ p : pollfd, (pass exampleMethods (exampleIdle true) false [POLLIN] 1).2.POLLFDS[0]?
        = some p ∧ p.fd = INVALID_SOCKET) ∧
     ({ object := { exampleNode 7 true with fCONNECTED := true },
        calls := [Call.EVENT_CONNECT] } : Node ExampleState).call exampleMethods
          (Call.EVENT_DISCONNECT Reason.DISCONNECT_TIMEOUT) ∈
       (pass exampleMethods (exampleIdle true) false [POLLIN] 1).2.DELETED) :=
  ⟨by decide,
   timeout_sweep exampleMethods (exampleIdle true) [POLLIN] 1 0
     { object := { exampleNode 7 true with fCONNECTED := true }, calls := [Call.EVENT_CONNECT] }
     (by decide) (by decide) (by decide) (by decide) (by decide) (by decide) (by decide)
     (by decide) (by decide) (by decide)⟩

theorem map_nBan_set (l : List (DDOS_Filter φ)) (k : Nat) (d : DDOS_Filter φ) :
    (List.set l k d).map DDOS_Filter.nBan = List.set (l.map DDOS_Filter.nBan) k d.nBan := by
  apply List.ext_getElem?
  intro j
  by_cases e : k = j
  · subst e
    by_cases hlt : k < l.length
    · rw [List.getElem?_map, List.getElem?_set_self hlt,
        List.getElem?_set_self (by simpa using hlt)]
      rfl
    · rw [List.getElem?_eq_none (by simp; omega), List.getElem?_eq_none (by simp; omega)]
  · rw [List.getElem?_map, List.getElem?_set_ne e, List.getElem?_set_ne e, List.getElem?_map]

theorem ban_check_nBan (M : Methods σ φ) (s : DataThread σ φ) (d : DDOS_Filter φ) :
    (ban_check M s d).nBan =
      d.nBan + if M.rScore d.filter > s.DDOS_rSCORE ∨ M.cScore d.filter > s.DDOS_cSCORE
        then 1 else 0 := by
  unfold ban_check
  split <;> rfl

/-- C29, DDOS ban in the sweep: when the worker examines a live, connected slot with DDOS
protection on, `revents` neither `POLLERR` nor `POLLNVAL`, `Errors()` false and
`Timeout(TIMEOUT)` false, the number of calls of `Ban` on the filter of the connection goes
up by one if `rSCORE.Score() > DDOS_rSCORE` or `cSCORE.Score() > DDOS_cSCORE` and stays as
it is otherwise, and no other filter is banned; and when the filter then answers
`Banned()`, the connection gets `Event(EVENT_DISCONNECT, DISCONNECT_DDOS)` and no other
call, it is deleted, its slot holds `pEmpty` and its descriptor `INVALID_SOCKET`. -/
theorem ddos_ban (M : Methods σ φ) (s : DataThread σ φ) (nIndex : Nat) (node : Node σ)
    (d : DDOS_Filter φ)
    (hslot : s.CONNECTIONS[nIndex]? = some (some node))
    (hconn : M.Connected node.object = true)
    (hrev : reventsAt s nIndex ≠ POLLERR ∧ reventsAt s nIndex ≠ POLLNVAL)
    (herr : M.Errors node.object = false)
    (htime : M.Timeout node.object s.TIMEOUT = false)
    (hddos : s.fDDOS = true)
    (hfilter : s.FILTERS[node.object.DDOS]? = some d) :
    (examine M s nIndex).FILTERS.map DDOS_Filter.nBan =
      List.set (s.FILTERS.map DDOS_Filter.nBan) node.object.DDOS
        (d.nBan + if M.rScore d.filter > s.DDOS_rSCORE ∨ M.cScore d.filter > s.DDOS_cSCORE
          then 1 else 0) ∧
    (M.Banned (ban_check M s d).filter = true →
      (examine M s nIndex).CONNECTIONS = List.set s.CONNECTIONS nIndex none ∧
      (examine M s nIndex).POLLFDS =
        LLD.modifyAt s.POLLFDS nIndex (fun p => { p with fd := INVALID_SOCKET }) ∧
      (examine M s nIndex).DELETED =
        s.DELETED ++ [node.call M (Call.EVENT_DISCONNECT Reason.DISCONNECT_DDOS)]) := by
  rw [examine_ddos M s nIndex node d hslot hconn hrev herr htime hddos hfilter,
    ← ban_check_nBan, ← map_nBan_set]
  constructor
  · split
    · exact (Frame_disconnect_remove_event M _ nIndex _).bans
    · exact (Frame_serve M _ nIndex node).bans
  · intro hb
    rw [if_pos hb, disconnect_remove_event_live M
      ({ s with FILTERS := List.set s.FILTERS node.object.DDOS (ban_check M s d) }
        : DataThread σ φ) nIndex _ node hslot]
    exact ⟨rfl, rfl, rfl⟩

/-- Witness of C29: a connection whose filter has the request score `1000` under the
threshold `100` is banned once and gets `EVENT_DISCONNECT` with the reason
`DISCONNECT_DDOS`. -/
theorem ddos_ban_witness :
    exampleFlood.FILTERS.map (fun d => (d.filter.rSCORE, d.nBan)) = [(1000, 0)] ∧
    exampleFlood.DDOS_rSCORE = 100 ∧
    (examine exampleMethods exampleFlood 0).FILTERS.map DDOS_Filter.nBan = [1] ∧
    (examine exampleMethods exampleFlood 0).CONNECTIONS = [none] ∧
    (examine exampleMethods exampleFlood 0).POLLFDS.map pollfd.fd = [INVALID_SOCKET] ∧
    (examine exampleMethods exampleFlood 0).DELETED.map Node.calls
      = [[Call.EVENT_CONNECT, Call.EVENT_DISCONNECT Reason.DISCONNECT_DDOS]] ∧
    (exampleMethods.Banned
        (ban_check exampleMethods exampleFlood
          { filter := { rSCORE := 1000, cSCORE := 1, fBanned := false }, nBan := 0 }).filter
        = true →
      (examine exampleMethods exampleFlood 0).CONNECTIONS
        = List.set exampleFlood.CONNECTIONS 0 none ∧
      (examine exampleMethods exampleFlood 0).POLLFDS =
        LLD.modifyAt exampleFlood.POLLFDS 0 (fun p => { p with fd := INVALID_SOCKET }) ∧
      (examine exampleMethods exampleFlood 0).DELETED =
        exampleFlood.DELETED ++
          [({ object := { exampleNode 7 false with fCONNECTED := true },
              calls := [Call.EVENT_CONNECT] } : Node ExampleState).call exampleMethods
            (Call.EVENT_DISCONNECT Reason.DISCONNECT_DDOS)]) :=
  ⟨by decide, by decide, by decide, by decide, by decide, by decide,
   (ddos_ban exampleMethods exampleFlood 0
     { object := { exampleNode 7 false with fCONNECTED := true }, calls := [Call.EVENT_CONNECT] }
     { filter := { rSCORE := 1000, cSCORE := 1, fBanned := false }, nBan := 0 }
     (by decide) (by decide) (by decide) (by decide) (by decide) (by decide) (by decide)).2⟩

/-- Failing input of C30: `poll` answers `POLLERR | POLLIN` (the value `9`) for a live,
connected connection.  The worker does not take this for a polling error: the connection
gets `Event(EVENT_GENERIC)`, `Flush()` and `ReadPacket()`, stays in its slot and gets no
`EVENT_DISCONNECT`, while for `revents = POLLERR` it is disconnected. -/
theorem poll_error_failing_input :
    POLLERR ||| POLLIN = 9 ∧
    (pass exampleMethods (exampleIdle false) false [POLLERR ||| POLLIN] 1).1 = Outcome.swept ∧
    (pass exampleMethods (exampleIdle false) false
        [POLLERR ||| POLLIN] 1).2.CONNECTIONS.map (Option.map Node.calls)
      = [some [Call.EVENT_CONNECT, Call.EVENT_GENERIC, Call.Flush, Call.ReadPacket]] ∧
    (pass exampleMethods (exampleIdle false) false [POLLERR ||| POLLIN] 1).2.POLLFDS
      = [⟨7, POLLIN, 9⟩] ∧
    (pass exampleMethods (exampleIdle false) false [POLLERR ||| POLLIN] 1).2.DELETED = [] ∧
    (pass exampleMethods (exampleIdle false) false [POLLERR] 1).2.CONNECTIONS = [none] ∧
    (pass exampleMethods (exampleIdle false) false
        [POLLERR] 1).2.DELETED.map Node.calls
      = [[Call.EVENT_CONNECT, Call.EVENT_DISCONNECT Reason.DISCONNECT_ERRORS]] := by
  decide

/-! ### The connection count and the live slots -/

theorem live_append_some {α : Type} (l : List (Option α)) (n : α) :
    ((l ++ [some n]).filter Option.isSome).length = (l.filter Option.isSome).length + 1 := by
  simp [List.filter_append]

theorem live_set_some {α : Type} (l : List (Option α)) (k : Nat) (n : α)
    (h : l[k]? = some none) :
    ((List.set l k (some n)).filter Option.isSome).length =
      (l.filter Option.isSome).length + 1 := by
  induction l generalizing k with
  | nil => simp at h
  | cons x t ih =>
    cases k with
    | zero =>
      simp only [List.getElem?_cons_zero, Option.some.injEq] at h
      subst h
      simp [List.filter_cons]
    | succ j =>
      rw [List.getElem?_cons_succ] at h
      rw [List.set_cons_succ, List.filter_cons, List.filter_cons]
      split
      · simp only [List.length_cons, ih j h]
      · exact ih j h

theorem live_set_none {α : Type} (l : List (Option α)) (k : Nat) (m : α)
    (h : l[k]? = some (some m)) :
    ((List.set l k none).filter Option.isSome).length + 1 =
      (l.filter Option.isSome).length := by
  induction l generalizing k with
  | nil => simp at h
  | cons x t ih =>
    cases k with
    | zero =>
      simp only [List.getElem?_cons_zero, Option.some.injEq] at h
      subst h
      simp [List.filter_cons]
    | succ j =>
      rw [List.getElem?_cons_succ] at h
      rw [List.set_cons_succ, List.filter_cons, List.filter_cons]
      split
      · simp only [List.length_cons, ← ih j h]
      · exact ih j h

theorem live_modifyAt_map {α : Type} (l : List (Option α)) (k : Nat) (g : α → α) :
    ((LLD.modifyAt l k (Option.map g)).filter Option.isSome).length =
      (l.filter Option.isSome).length := by
  unfold LLD.modifyAt
  cases h : l[k]? with
  | none => rfl
  | some x =>
    simp only
    induction l generalizing k with
    | nil => simp at h
    | cons y t ih =>
      cases k with
      | zero =>
        simp only [List.getElem?_cons_zero, Option.some.injEq] at h
        subst h
        cases y <;> simp [List.filter_cons]
      | succ j =>
        rw [List.getElem?_cons_succ] at h
        rw [List.set_cons_succ, List.filter_cons, List.filter_cons]
        split
        · simp only [List.length_cons, ih j h]
        · exact ih j h

theorem live_le_length {α : Type} (l : List (Option α)) :
    (l.filter Option.isSome).length ≤ l.length :=
  List.length_filter_le _ _

theorem liveSlots_install (s : DataThread σ φ) (node : Node σ) (p : pollfd) :
    liveSlots (install s node p).2 = liveSlots s + 1 := by
  unfold liveSlots
  rw [install_CONNECTIONS]
  by_cases h : find_slot s = s.CONNECTIONS.length
  · rw [if_pos h]
    exact live_append_some _ _
  · rw [if_neg h]
    have hle : find_slot s ≤ s.CONNECTIONS.length := find_slot_from_le _
    exact live_set_some _ _ _ (find_slot_from_empty _ (by unfold find_slot at h hle; omega))

theorem increment_live (n len : Nat) (h1 : n + 1 ≤ len) (h2 : len < 2 ^ 32) :
    increment n = n + 1 := increment_lt n (by omega)

theorem counted_AddConnection (M : Methods σ φ) (s : DataThread σ φ) (node : ProtocolType σ)
    (DDOS : Nat) (p : pollfd) (h : s.nConnections = liveSlots s)
    (hsize : (AddConnection M s node DDOS p).CONNECTIONS.length < 2 ^ 32) :
    (AddConnection M s node DDOS p).nConnections = liveSlots (AddConnection M s node DDOS p) := by
  have hc : (AddConnection M s node DDOS p).CONNECTIONS =
      (install s { object := { M.call node Call.EVENT_CONNECT with fCONNECTED := true },
                   calls := [Call.EVENT_CONNECT] } p).2.CONNECTIONS := by
    unfold AddConnection
    simp only [(bump_cSCORE_fields M _ DDOS).1]
    rfl
  have hn : (AddConnection M s node DDOS p).nConnections = increment s.nConnections := by
    unfold AddConnection
    simp only [(bump_cSCORE_fields M _ DDOS).2.2.1, (install_other s _ p).2.1]
  have hl : liveSlots (AddConnection M s node DDOS p) = liveSlots s + 1 := by
    unfold liveSlots
    rw [hc]
    exact liveSlots_install s _ p
  have hle : liveSlots (AddConnection M s node DDOS p) ≤
      (AddConnection M s node DDOS p).CONNECTIONS.length := live_le_length _
  rw [hn, hl, h]
  exact increment_lt _ (by omega)

theorem counted_AddConnectionAddress (M : Methods σ φ) (s : DataThread σ φ)
    (node : ProtocolType σ) (strAddress : List Nat) (nPort DDOS : Nat) (p : pollfd)
    (h : s.nConnections = liveSlots s)
    (hsize : (AddConnectionAddress M s node strAddress nPort DDOS p).2.CONNECTIONS.length
      < 2 ^ 32) :
    (AddConnectionAddress M s node strAddress nPort DDOS p).2.nConnections =
      liveSlots (AddConnectionAddress M s node strAddress nPort DDOS p).2 := by
  cases hConnect : M.Connect node strAddress nPort with
  | false =>
    have e : (AddConnectionAddress M s node strAddress nPort DDOS p).2 =
        { s with DELETED := s.DELETED ++
            [(({ object := node, calls := [] } : Node σ).call M
              (Call.Connect strAddress nPort)).call M Call.Disconnect] } := by
      unfold AddConnectionAddress
      simp only [hConnect, Bool.not_false, if_true]
    rw [e]
    exact h
  | true =>
    have hc : (AddConnectionAddress M s node strAddress nPort DDOS p).2.CONNECTIONS =
        LLD.modifyAt (install s { object := M.call node (Call.Connect strAddress nPort),
                                  calls := [Call.Connect strAddress nPort] } p).2.CONNECTIONS
          (find_slot s)
          (Option.map (fun n => (({ n with object := { n.object with fOUTGOING := true } }
            : Node σ)).call M Call.EVENT_CONNECT)) := by
      unfold AddConnectionAddress
      simp only [hConnect, Bool.not_true, Bool.false_eq_true, if_false,
        (bump_cSCORE_fields M _ DDOS).1, install_fst, modifyAt_modifyAt]
      congr 1
      funext x
      cases x <;> rfl
    have hn : (AddConnectionAddress M s node strAddress nPort DDOS p).2.nConnections =
        increment s.nConnections := by
      unfold AddConnectionAddress
      simp only [hConnect, Bool.not_true, Bool.false_eq_true, if_false,
        (bump_cSCORE_fields M _ DDOS).2.2.1, (install_other s _ p).2.1]
    have hl : liveSlots (AddConnectionAddress M s node strAddress nPort DDOS p).2 =
        liveSlots s + 1 := by
      unfold liveSlots
      rw [hc, live_modifyAt_map]
      exact liveSlots_install s _ p
    have hle : liveSlots (AddConnectionAddress M s node strAddress nPort DDOS p).2 ≤
        (AddConnectionAddress M s node strAddress nPort DDOS p).2.CONNECTIONS.length :=
      live_le_length _
    rw [hn, hl, h]
    exact increment_lt _ (by omega)

theorem decrement_live {α : Type} (l : List (Option α)) (k : Nat) (m : α)
    (h : l[k]? = some (some m)) :
    decrement (l.filter Option.isSome).length =
      ((List.set l k none).filter Option.isSome).length := by
  rw [← live_set_none l k m h]
  rfl

theorem counted_remove (s : DataThread σ φ) (index : Nat) (h : s.nConnections = liveSlots s) :
    (remove s index).nConnections = liveSlots (remove s index) := by
  cases hx : s.CONNECTIONS[index]? with
  | none =>
    rw [remove_empty s index (by intro node; simp [hx])]
    exact h
  | some x =>
    cases x with
    | none =>
      rw [remove_empty s index (by intro node; simp [hx])]
      exact h
    | some node =>
      rw [remove_live s index node hx]
      unfold liveSlots at h ⊢
      simp only
      rw [h]
      exact decrement_live _ _ _ hx

theorem counted_disconnect_remove_event (M : Methods σ φ) (s : DataThread σ φ) (index : Nat)
    (reason : Reason) (h : s.nConnections = liveSlots s) :
    (disconnect_remove_event M s index reason).nConnections =
      liveSlots (disconnect_remove_event M s index reason) := by
  cases hx : s.CONNECTIONS[index]? with
  | none =>
    rw [disconnect_remove_event_none M s index reason hx]
    exact h
  | some x =>
    cases x with
    | none =>
      rw [disconnect_remove_event_empty M s index reason hx]
      exact h
    | some node =>
      rw [disconnect_remove_event_live M s index reason node hx]
      unfold liveSlots at h ⊢
      simp only
      rw [h]
      exact decrement_live _ _ _ hx

theorem counted_foldl_remove (l : List Nat) (s : DataThread σ φ)
    (h : s.nConnections = liveSlots s) :
    (l.foldl remove s).nConnections = liveSlots (l.foldl remove s) := by
  induction l generalizing s with
  | nil => exact h
  | cons a t ih => exact ih _ (counted_remove s a h)

theorem counted_request (M : Methods σ φ) (s : DataThread σ φ) (r : Request σ)
    (h : s.nConnections = liveSlots s)
    (hsize : (request M s r).CONNECTIONS.length < 2 ^ 32) :
    (request M s r).nConnections = liveSlots (request M s r) := by
  cases r with
  | AddConnection node DDOS p => exact counted_AddConnection M s node DDOS p h hsize
  | AddConnectionAddress node strAddress nPort DDOS p =>
    exact counted_AddConnectionAddress M s node strAddress nPort DDOS p h hsize
  | remove index => exact counted_remove s index h
  | disconnect_remove_event index reason =>
    exact counted_disconnect_remove_event M s index reason h
  | DisconnectAll => exact counted_foldl_remove _ s h

theorem remove_CONNECTIONS (s : DataThread σ φ) (index : Nat) :
    (remove s index).CONNECTIONS = List.set s.CONNECTIONS index none := by
  cases hx : s.CONNECTIONS[index]? with
  | none =>
    rw [remove_empty s index (by intro node; simp [hx])]
    rw [List.getElem?_eq_none_iff] at hx
    exact (List.set_eq_of_length_le hx).symm
  | some x =>
    cases x with
    | none =>
      rw [remove_empty s index (by intro node; simp [hx])]
      apply List.ext_getElem?
      intro j
      by_cases e : index = j
      · subst e
        have hlt := lt_of_getElem?_some _ _ _ hx
        rw [List.getElem?_set_self hlt, hx]
      · rw [List.getElem?_set_ne e]
    | some node =>
      rw [remove_live s index node hx]

theorem length_remove (s : DataThread σ φ) (index : Nat) :
    (remove s index).CONNECTIONS.length = s.CONNECTIONS.length := by
  rw [remove_CONNECTIONS, List.length_set]

theorem length_foldl_remove (l : List Nat) (s : DataThread σ φ) :
    (l.foldl remove s).CONNECTIONS.length = s.CONNECTIONS.length := by
  induction l generalizing s with
  | nil => rfl
  | cons a t ih => rw [List.foldl_cons, ih, length_remove]

theorem getElem?_foldl_remove (l : List Nat) (s : DataThread σ φ) (j : Nat) :
    (l.foldl remove s).CONNECTIONS[j]? =
      if j ∈ l then (s.CONNECTIONS[j]?).map (fun _ => none) else s.CONNECTIONS[j]? := by
  induction l generalizing s with
  | nil => simp
  | cons a t ih =>
    rw [List.foldl_cons, ih, remove_CONNECTIONS]
    by_cases e : a = j
    · subst e
      simp only [List.mem_cons, true_or, if_true]
      by_cases hlt : a < s.CONNECTIONS.length
      · rw [List.getElem?_set_self hlt, List.getElem?_eq_getElem hlt]
        split <;> rfl
      · rw [List.getElem?_eq_none (by simp; omega), List.getElem?_eq_none (by omega)]
        split <;> rfl
    · rw [List.getElem?_set_ne e]
      have : (j ∈ a :: t) ↔ j ∈ t := by
        simp only [List.mem_cons]
        constructor
        · rintro (h | h)
          · exact absurd h.symm e
          · exact h
        · exact Or.inr
      simp only [this]

theorem length_request_ge (M : Methods σ φ) (s : DataThread σ φ) (r : Request σ) :
    s.CONNECTIONS.length ≤ (request M s r).CONNECTIONS.length := by
  cases r with
  | AddConnection node DDOS p =>
    have hc : (AddConnection M s node DDOS p).CONNECTIONS =
        (install s { object := { M.call node Call.EVENT_CONNECT with fCONNECTED := true },
                     calls := [Call.EVENT_CONNECT] } p).2.CONNECTIONS := by
      unfold AddConnection
      simp only [(bump_cSCORE_fields M _ DDOS).1]
      rfl
    show _ ≤ (AddConnection M s node DDOS p).CONNECTIONS.length
    rw [hc, install_length]
    split <;> omega
  | AddConnectionAddress node strAddress nPort DDOS p =>
    show _ ≤ (AddConnectionAddress M s node strAddress nPort DDOS p).2.CONNECTIONS.length
    cases hConnect : M.Connect node strAddress nPort with
    | false =>
      unfold AddConnectionAddress
      simp only [hConnect, Bool.not_false, if_true]
      exact Nat.le_refl _
    | true =>
      unfold AddConnectionAddress
      simp only [hConnect, Bool.not_true, Bool.false_eq_true, if_false,
        (bump_cSCORE_fields M _ DDOS).1, LLD.length_modifyAt, install_length]
      split <;> omega
  | remove index =>
    show _ ≤ (remove s index).CONNECTIONS.length
    rw [length_remove]
  | disconnect_remove_event index reason =>
    show _ ≤ (disconnect_remove_event M s index reason).CONNECTIONS.length
    unfold disconnect_remove_event
    rw [length_remove]
    split
    · simp
    · exact Nat.le_refl _
    · exact Nat.le_refl _
  | DisconnectAll =>
    show _ ≤ (DisconnectAll s).CONNECTIONS.length
    unfold DisconnectAll
    rw [length_foldl_remove]

theorem length_requests_ge (M : Methods σ φ) (l : List (Request σ)) (s : DataThread σ φ) :
    s.CONNECTIONS.length ≤ (requests M s l).CONNECTIONS.length := by
  induction l generalizing s with
  | nil => exact Nat.le_refl _
  | cons r t ih => exact Nat.le_trans (length_request_ge M s r) (ih _)

theorem counted_requests (M : Methods σ φ) (l : List (Request σ)) (s : DataThread σ φ)
    (h : s.nConnections = liveSlots s)
    (hsize : (requests M s l).CONNECTIONS.length < 2 ^ 32) :
    (requests M s l).nConnections = liveSlots (requests M s l) := by
  induction l generalizing s with
  | nil => exact h
  | cons r t ih =>
    apply ih (request M s r) _ hsize
    apply counted_request M s r h
    exact Nat.lt_of_le_of_lt (length_requests_ge M t _) hsize

/-- C38: in every state reached from a newly constructed data thread by `AddConnection`
(inbound, or outbound with or without success), `remove`, `disconnect_remove_event` and
`DisconnectAll`, with fewer than `2 ^ 32` slots, `nConnections` is the number of slots that
do not hold `pEmpty`; `remove` of a slot that holds `pEmpty` leaves the data thread as it is;
and after `DisconnectAll` the table has the same slots, every one of them holds `pEmpty`,
and `nConnections` is `0`. -/
theorem connection_count (M : Methods σ φ) (isDDOS : Bool) (rScore cScore nTimeout : Nat)
    (fMeter : Bool) (pEmpty : ProtocolType σ) (FILTERS : List (DDOS_Filter φ))
    (l : List (Request σ))
    (hsize : (requests M (DataThread.create isDDOS rScore cScore nTimeout fMeter pEmpty FILTERS)
      l).CONNECTIONS.length < 2 ^ 32) :
    (requests M (DataThread.create isDDOS rScore cScore nTimeout fMeter pEmpty FILTERS)
      l).nConnections =
      liveSlots (requests M (DataThread.create isDDOS rScore cScore nTimeout fMeter pEmpty
        FILTERS) l) ∧
    (∀ index : Nat,
      (requests M (DataThread.create isDDOS rScore cScore nTimeout fMeter pEmpty FILTERS)
        l).CONNECTIONS[index]? = some none →
      remove (requests M (DataThread.create isDDOS rScore cScore nTimeout fMeter pEmpty FILTERS)
        l) index =
        requests M (DataThread.create isDDOS rScore cScore nTimeout fMeter pEmpty FILTERS) l) ∧
    (DisconnectAll (requests M (DataThread.create isDDOS rScore cScore nTimeout fMeter pEmpty
      FILTERS) l)).CONNECTIONS =
      List.replicate (requests M (DataThread.create isDDOS rScore cScore nTimeout fMeter pEmpty
        FILTERS) l).CONNECTIONS.length none ∧
    (DisconnectAll (requests M (DataThread.create isDDOS rScore cScore nTimeout fMeter pEmpty
      FILTERS) l)).nConnections = 0 := by
  have h0 : (DataThread.create isDDOS rScore cScore nTimeout fMeter pEmpty FILTERS
      : DataThread σ φ).nConnections =
      liveSlots (DataThread.create isDDOS rScore cScore nTimeout fMeter pEmpty FILTERS
        : DataThread σ φ) := rfl
  have hc := counted_requests M l _ h0 hsize
  have hall : (DisconnectAll (requests M (DataThread.create isDDOS rScore cScore nTimeout fMeter
      pEmpty FILTERS) l)).CONNECTIONS =
      List.replicate (requests M (DataThread.create isDDOS rScore cScore nTimeout fMeter pEmpty
        FILTERS) l).CONNECTIONS.length none := by
    apply List.ext_getElem?
    intro j
    unfold DisconnectAll
    rw [getElem?_foldl_remove]
    by_cases hj : j < (requests M (DataThread.create isDDOS rScore cScore nTimeout fMeter pEmpty
        FILTERS) l).CONNECTIONS.length
    · rw [if_pos (List.mem_range.2 hj), List.getElem?_eq_getElem hj,
        List.getElem?_replicate, if_pos hj]
      rfl
    · rw [if_neg (by rw [List.mem_range]; exact hj), List.getElem?_eq_none (by omega),
        List.getElem?_replicate, if_neg hj]
  refine ⟨hc, ?_, hall, ?_⟩
  · intro index hx
    exact remove_empty _ index (by intro node; simp [hx])
  · have := counted_foldl_remove
      (List.range (requests M (DataThread.create isDDOS rScore cScore nTimeout fMeter pEmpty
        FILTERS) l).CONNECTIONS.length) _ hc
    unfold DisconnectAll at hall ⊢
    rw [this]
    unfold liveSlots
    rw [hall]
    simp

/-- Witness of C38 on the requests of the examples: two of the three slots are live, and
`DisconnectAll` leaves three empty slots and the count `0`. -/
theorem connection_count_witness :
    (requests exampleMethods (exampleThread false 0) exampleRequests).nConnections = 2 ∧
    liveSlots (requests exampleMethods (exampleThread false 0) exampleRequests) = 2 ∧
    ((requests exampleMethods
        (DataThread.create false 100 100 60 false exampleEmpty
          [{ filter := { rSCORE := 0, cSCORE := 0, fBanned := false }, nBan := 0 }])
        exampleRequests).nConnections =
      liveSlots (requests exampleMethods
        (DataThread.create false 100 100 60 false exampleEmpty
          [{ filter := { rSCORE := 0, cSCORE := 0, fBanned := false }, nBan := 0 }])
        exampleRequests) ∧
    (∀ index : Nat,
      (requests exampleMethods
        (DataThread.create false 100 100 60 false exampleEmpty
          [{ filter := { rSCORE := 0, cSCORE := 0, fBanned := false }, nBan := 0 }])
        exampleRequests).CONNECTIONS[index]? = some none →
      remove (requests exampleMethods
        (DataThread.create false 100 100 60 false exampleEmpty
          [{ filter := { rSCORE := 0, cSCORE := 0, fBanned := false }, nBan := 0 }])
        exampleRequests) index =
        requests exampleMethods
          (DataThread.create false 100 100 60 false exampleEmpty
            [{ filter := { rSCORE := 0, cSCORE := 0, fBanned := false }, nBan := 0 }])
          exampleRequests) ∧
    (DisconnectAll (requests exampleMethods
        (DataThread.create false 100 100 60 false exampleEmpty
          [{ filter := { rSCORE := 0, cSCORE := 0, fBanned := false }, nBan := 0 }])
        exampleRequests)).CONNECTIONS =
      List.replicate (requests exampleMethods
        (DataThread.create false 100 100 60 false exampleEmpty
          [{ filter := { rSCORE := 0, cSCORE := 0, fBanned := false }, nBan := 0 }])
        exampleRequests).CONNECTIONS.length none ∧
    (DisconnectAll (requests exampleMethods
        (DataThread.create false 100 100 60 false exampleEmpty
          [{ filter := { rSCORE := 0, cSCORE := 0, fBanned := false }, nBan := 0 }])
        exampleRequests)).nConnections = 0) :=
  ⟨by decide, by decide,
   connection_count exampleMethods false 100 100 60 false exampleEmpty
     [{ filter := { rSCORE := 0, cSCORE := 0, fBanned := false }, nBan := 0 }] exampleRequests
     (by decide)⟩

end LLP

namespace Util

set_option maxRecDepth 100000

/-! ### The range of the page-locking macros -/

theorem or_pow_two_sub_one (x k : Nat) : x ||| (2 ^ k - 1) = 2 ^ k * (x / 2 ^ k) + (2 ^ k - 1) := by
  apply Nat.eq_of_testBit_eq
  intro i
  rw [Nat.testBit_or, Nat.testBit_two_pow_sub_one,
    Nat.testBit_mul_pow_two_add _ (by have := Nat.two_pow_pos k; omega),
    Nat.testBit_two_pow_sub_one, ← Nat.shiftRight_eq_div_pow, Nat.testBit_shiftRight]
  by_cases h : i < k
  · simp [h]
  · have e : k + (i - k) = i := by omega
    simp [h, e]

theorem and_pageMask (a k : Nat) (hk : k ≤ 64) (ha : a < 2 ^ 64) :
    a &&& pageMask (2 ^ k) = 2 ^ k * (a / 2 ^ k) := by
  have hP : 2 ^ k * 2 ^ (64 - k) = 2 ^ 64 := by
    rw [← Nat.pow_add]
    congr 1
    omega
  have hpos := Nat.two_pow_pos k
  have hpos2 := Nat.two_pow_pos (64 - k)
  have hmask : pageMask (2 ^ k) = 2 ^ k * (2 ^ (64 - k) - 1) + 0 := by
    unfold pageMask
    rw [Nat.mul_sub, Nat.mul_one, hP]
    omega
  apply Nat.eq_of_testBit_eq
  intro i
  rw [Nat.testBit_and, hmask, Nat.testBit_mul_pow_two_add _ hpos,
    Nat.testBit_two_pow_sub_one]
  have hr : 2 ^ k * (a / 2 ^ k) = 2 ^ k * (a / 2 ^ k) + 0 := rfl
  rw [hr, Nat.testBit_mul_pow_two_add _ hpos, ← Nat.shiftRight_eq_div_pow,
    Nat.testBit_shiftRight]
  by_cases h : i < k
  · simp [h]
  · have e : k + (i - k) = i := by omega
    rw [if_neg h, if_neg h, e]
    by_cases h64 : i < 64
    · have : i - k < 64 - k := by omega
      simp [this]
    · have hlt : a < 2 ^ i :=
        Nat.lt_of_lt_of_le ha (Nat.pow_le_pow_right (by decide) (by omega))
      rw [Nat.testBit_lt_two_pow hlt]
      rfl

/-- The two components of `mlock` when the page-aligned cover of the range is not the whole
address space: the start is the page of `a`, and the length reaches the end of the page of
the last byte. -/
theorem mlock_eq (k a b : Nat) (hk : k < 64) (ha : a < 2 ^ 64) (hb : 1 ≤ b)
    (hab : a + b ≤ 2 ^ 64) (hfit : 2 ^ k ≤ a ∨ a + b ≤ 2 ^ 64 - 2 ^ k) :
    mlock (2 ^ k) a b =
      (2 ^ k * (a / 2 ^ k),
       2 ^ k * ((a + b - 1) / 2 ^ k + 1) - 2 ^ k * (a / 2 ^ k)) ∧
    2 ^ k * (a / 2 ^ k) ≤ 2 ^ k * ((a + b - 1) / 2 ^ k + 1) ∧
    2 ^ k * ((a + b - 1) / 2 ^ k + 1) ≤ 2 ^ 64 := by
  have hP : 2 ^ k * 2 ^ (64 - k) = 2 ^ 64 := by
    rw [← Nat.pow_add]
    congr 1
    omega
  have hpos := Nat.two_pow_pos k
  have hS1 : 2 ^ k * (a / 2 ^ k) ≤ a := Nat.mul_div_le a (2 ^ k)
  have hS2 : a < 2 ^ k * (a / 2 ^ k) + 2 ^ k := Nat.lt_mul_div_succ a hpos
  have hE1 : 2 ^ k * ((a + b - 1) / 2 ^ k) ≤ a + b - 1 := Nat.mul_div_le _ (2 ^ k)
  have hE2 : a + b - 1 < 2 ^ k * ((a + b - 1) / 2 ^ k) + 2 ^ k := Nat.lt_mul_div_succ _ hpos
  have hm : (a + b - 1) / 2 ^ k < 2 ^ (64 - k) := by
    rw [Nat.div_lt_iff_lt_mul hpos, Nat.mul_comm, hP]
    omega
  have hE3 : 2 ^ k * ((a + b - 1) / 2 ^ k + 1) ≤ 2 ^ 64 := by
    rw [← hP]
    exact Nat.mul_le_mul_left _ hm
  have hE4 : 2 ^ k * ((a + b - 1) / 2 ^ k + 1) = 2 ^ k * ((a + b - 1) / 2 ^ k) + 2 ^ k := by
    rw [Nat.mul_add, Nat.mul_one]
  have hlast : ((a + b) % 2 ^ 64 + 2 ^ 64 - 1) % 2 ^ 64 = a + b - 1 := by
    by_cases h : a + b = 2 ^ 64
    · rw [h]
      decide
    · have e1 : (a + b) % 2 ^ 64 = a + b := Nat.mod_eq_of_lt (by omega)
      have e2 : a + b + 2 ^ 64 - 1 = (a + b - 1) + 2 ^ 64 := by omega
      have e3 : (a + b - 1) % 2 ^ 64 = a + b - 1 := Nat.mod_eq_of_lt (by omega)
      rw [e1, e2, Nat.add_mod_right, e3]
  refine ⟨?_, by omega, hE3⟩
  show (a &&& pageMask (2 ^ k),
      ((((((a + b) % 2 ^ 64 + 2 ^ 64 - 1) % 2 ^ 64) ||| (2 ^ k - 1)) + 1) % 2 ^ 64 + 2 ^ 64 -
        (a &&& pageMask (2 ^ k))) % 2 ^ 64) = _
  rw [and_pageMask a k (Nat.le_of_lt hk) ha, hlast, or_pow_two_sub_one]
  rw [hE4] at hE3 ⊢
  refine congrArg (Prod.mk (2 ^ k * (a / 2 ^ k))) ?_
  have hend : 2 ^ k * ((a + b - 1) / 2 ^ k) + (2 ^ k - 1) + 1 =
      2 ^ k * ((a + b - 1) / 2 ^ k) + 2 ^ k := by omega
  rw [hend]
  by_cases h : 2 ^ k * ((a + b - 1) / 2 ^ k) + 2 ^ k = 2 ^ 64
  · have e1 : (2 ^ 64 - 2 ^ k * (a / 2 ^ k)) % 2 ^ 64 = 2 ^ 64 - 2 ^ k * (a / 2 ^ k) :=
      Nat.mod_eq_of_lt (by omega)
    rw [h, Nat.mod_self, Nat.zero_add, e1]
  · have e1 : (2 ^ k * ((a + b - 1) / 2 ^ k) + 2 ^ k) % 2 ^ 64 =
        2 ^ k * ((a + b - 1) / 2 ^ k) + 2 ^ k := Nat.mod_eq_of_lt (by omega)
    have e2 : 2 ^ k * ((a + b - 1) / 2 ^ k) + 2 ^ k + 2 ^ 64 - 2 ^ k * (a / 2 ^ k) =
        (2 ^ k * ((a + b - 1) / 2 ^ k) + 2 ^ k - 2 ^ k * (a / 2 ^ k)) + 2 ^ 64 := by omega
    have e3 : (2 ^ k * ((a + b - 1) / 2 ^ k) + 2 ^ k - 2 ^ k * (a / 2 ^ k)) % 2 ^ 64 =
        2 ^ k * ((a + b - 1) / 2 ^ k) + 2 ^ k - 2 ^ k * (a / 2 ^ k) :=
      Nat.mod_eq_of_lt (by omega)
    rw [e1, e2, Nat.add_mod_right, e3]

/-- C33, amended: for every page size `2 ^ k` below `2 ^ 64`, every address `a` and every
byte count `b ≥ 1` with `a + b ≤ 2 ^ 64`, such that the range does not touch both the
first and the last page of the address space (`2 ^ k ≤ a` or `a + b ≤ 2 ^ 64 - 2 ^ k`),
the start and the length that `mlock` and `munlock` pass on satisfy: `start ≤ a`, `a` is
less than a page after `start`, `start` and `length` are multiples of the page size,
`a + b ≤ start + length`, and `start + length - (a + b)` is less than the page size; and
every page-aligned range `[s, s + l)` that covers `[a, a + b)` covers
`[start, start + length)`. -/
theorem mlock_range (k a b : Nat) (hk : k < 64) (ha : a < 2 ^ 64) (hb : 1 ≤ b)
    (hab : a + b ≤ 2 ^ 64) (hfit : 2 ^ k ≤ a ∨ a + b ≤ 2 ^ 64 - 2 ^ k) :
    munlock (2 ^ k) a b = mlock (2 ^ k) a b ∧
    (mlock (2 ^ k) a b).1 ≤ a ∧
    a < (mlock (2 ^ k) a b).1 + 2 ^ k ∧
    (mlock (2 ^ k) a b).1 % 2 ^ k = 0 ∧
    (mlock (2 ^ k) a b).2 % 2 ^ k = 0 ∧
    a + b ≤ (mlock (2 ^ k) a b).1 + (mlock (2 ^ k) a b).2 ∧
    (mlock (2 ^ k) a b).1 + (mlock (2 ^ k) a b).2 - (a + b) < 2 ^ k ∧
    (∀ s l : Nat, s % 2 ^ k = 0 → l % 2 ^ k = 0 → s ≤ a → a + b ≤ s + l →
      s ≤ (mlock (2 ^ k) a b).1 ∧
      (mlock (2 ^ k) a b).1 + (mlock (2 ^ k) a b).2 ≤ s + l) := by
  obtain ⟨he, hle, _⟩ := mlock_eq k a b hk ha hb hab hfit
  have hpos := Nat.two_pow_pos k
  have hS1 : 2 ^ k * (a / 2 ^ k) ≤ a := Nat.mul_div_le a (2 ^ k)
  have hS2 : a < 2 ^ k * (a / 2 ^ k) + 2 ^ k := Nat.lt_mul_div_succ a hpos
  have hE1 : 2 ^ k * ((a + b - 1) / 2 ^ k) ≤ a + b - 1 := Nat.mul_div_le _ (2 ^ k)
  have hE2 : a + b - 1 < 2 ^ k * ((a + b - 1) / 2 ^ k) + 2 ^ k := Nat.lt_mul_div_succ _ hpos
  have hE4 : 2 ^ k * ((a + b - 1) / 2 ^ k + 1) = 2 ^ k * ((a + b - 1) / 2 ^ k) + 2 ^ k := by
    rw [Nat.mul_add, Nat.mul_one]
  refine ⟨rfl, ?_⟩
  rw [he]
  simp only
  refine ⟨hS1, hS2, Nat.mul_mod_right _ _, ?_, by omega, by omega, ?_⟩
  · rw [← Nat.mul_sub]
    exact Nat.mul_mod_right _ _
  · intro s l hs hl hsa hcov
    obtain ⟨c, hc⟩ := Nat.dvd_of_mod_eq_zero hs
    obtain ⟨d, hd⟩ := Nat.dvd_of_mod_eq_zero hl
    constructor
    · rw [hc]
      apply Nat.mul_le_mul_left
      rw [Nat.le_div_iff_mul_le hpos, Nat.mul_comm, ← hc]
      exact hsa
    · rw [Nat.add_sub_cancel' hle, hc, hd, ← Nat.mul_add]
      apply Nat.mul_le_mul_left
      have h1 : a + b - 1 < 2 ^ k * (c + d) := by
        rw [Nat.mul_add, ← hc, ← hd]
        omega
      have h2 : (a + b - 1) / 2 ^ k < c + d := by
        rw [Nat.div_lt_iff_lt_mul hpos, Nat.mul_comm]
        exact h1
      omega

/-- Counterexample to C33 as stated: with pages of `4096` bytes, the address `1` and
`2 ^ 64 - 4096` bytes (the sum does not overflow), the end of the covering range wraps to
`0`, and the macro passes the start `0` and the length `0`, which does not cover the
range. -/
theorem mlock_range_counterexample :
    1 + (2 ^ 64 - 4096) < 2 ^ 64 ∧
    mlock (2 ^ 12) 1 (2 ^ 64 - 4096) = (0, 0) ∧
    ¬ (1 + (2 ^ 64 - 4096) ≤
      (mlock (2 ^ 12) 1 (2 ^ 64 - 4096)).1 + (mlock (2 ^ 12) 1 (2 ^ 64 - 4096)).2) := by
  decide

/-- Witness of C33, amended, with pages of `4096` bytes: the `100` bytes at the address
`5000` lie in the page that starts at `4096`. -/
theorem mlock_range_witness :
    mlock (2 ^ 12) 5000 100 = (4096, 4096) ∧
    (munlock (2 ^ 12) 5000 100 = mlock (2 ^ 12) 5000 100 ∧
    (mlock (2 ^ 12) 5000 100).1 ≤ 5000 ∧
    5000 < (mlock (2 ^ 12) 5000 100).1 + 2 ^ 12 ∧
    (mlock (2 ^ 12) 5000 100).1 % 2 ^ 12 = 0 ∧
    (mlock (2 ^ 12) 5000 100).2 % 2 ^ 12 = 0 ∧
    5000 + 100 ≤ (mlock (2 ^ 12) 5000 100).1 + (mlock (2 ^ 12) 5000 100).2 ∧
    (mlock (2 ^ 12) 5000 100).1 + (mlock (2 ^ 12) 5000 100).2 - (5000 + 100) < 2 ^ 12 ∧
    (∀ s l : Nat, s % 2 ^ 12 = 0 → l % 2 ^ 12 = 0 → s ≤ 5000 → 5000 + 100 ≤ s + l →
      s ≤ (mlock (2 ^ 12) 5000 100).1 ∧
      (mlock (2 ^ 12) 5000 100).1 + (mlock (2 ^ 12) 5000 100).2 ≤ s + l)) :=
  ⟨by decide, mlock_range 12 5000 100 (by decide) (by decide) (by decide) (by decide)
    (Or.inl (by decide))⟩

end Util

namespace TAO.API

set_option maxRecDepth 100000

/-! ### The paging of `Objects::List` -/

theorem passing_cons_skip (F : Filter) (state : Register) (rest : List Register)
    (h : verdict F state = Verdict.skip) : passing F (state :: rest) = passing F rest := by
  unfold passing
  rw [List.filterMap_cons]
  simp only [h]

theorem passing_cons_pass (F : Filter) (state : Register) (rest : List Register) (c : Bool)
    (h : verdict F state = Verdict.pass c) :
    passing F (state :: rest) = (state, c) :: passing F rest := by
  unfold passing
  rw [List.filterMap_cons]
  simp only [h]

theorem listLoop_skip (F : Filter) (P L : Nat) (state : Register) (rest : List Register)
    (t : Nat) (ret : List (Register × Bool)) (h : verdict F state = Verdict.skip) :
    listLoop F P L (state :: rest) t ret = listLoop F P L rest t ret := by
  rw [listLoop]
  simp only [h]

theorem listLoop_fail (F : Filter) (P L : Nat) (state : Register) (rest : List Register)
    (t : Nat) (ret : List (Register × Bool)) (h : verdict F state = Verdict.fail) :
    listLoop F P L (state :: rest) t ret = Result.exception (-36) := by
  rw [listLoop]
  simp only [h]

theorem listLoop_pass (F : Filter) (P L : Nat) (state : Register) (rest : List Register)
    (t : Nat) (ret : List (Register × Bool)) (c : Bool) (h : verdict F state = Verdict.pass c) :
    listLoop F P L (state :: rest) t ret =
      if L = 0 then Result.undefined
      else if t / L < P then listLoop F P L rest ((t + 1) % 2 ^ 32) ret
      else if t / L > P then Result.response ret
      else if ((t + 1) % 2 ^ 32 + 2 ^ 32 - (P * L) % 2 ^ 32) % 2 ^ 32 > L then
        Result.response ret
      else listLoop F P L rest ((t + 1) % 2 ^ 32) (ret ++ [(state, c)]) := by
  rw [listLoop]
  simp only [h]

/-- The loop from the counter `t` on: either it throws at a register that fails to parse, or
it appends the passing registers of ranks `P * L ≤ t + i < (P + 1) * L`. -/
theorem listLoop_eq (F : Filter) (P L : Nat) (hL : 0 < L) (l : List Register) :
    ∀ (t : Nat) (ret : List (Register × Bool)), t + (passing F l).length < 2 ^ 32 →
      listLoop F P L l t ret =
        Result.response (ret ++ ((passing F l).drop (P * L - t)).take
          ((P + 1) * L - max t (P * L))) ∨
      (listLoop F P L l t ret = Result.exception (-36) ∧
        ∃ state, state ∈ l ∧ verdict F state = Verdict.fail) := by
  induction l with
  | nil =>
    intro t ret _
    left
    simp [listLoop, passing]
  | cons state rest ih =>
    intro t ret ht
    cases hv : verdict F state with
    | skip =>
      rw [listLoop_skip F P L state rest t ret hv, passing_cons_skip F state rest hv]
      rw [passing_cons_skip F state rest hv] at ht
      rcases ih t ret ht with h | ⟨h, x, hx, hf⟩
      · exact Or.inl h
      · exact Or.inr ⟨h, x, List.mem_cons_of_mem _ hx, hf⟩
    | fail =>
      right
      exact ⟨listLoop_fail F P L state rest t ret hv, state, List.mem_cons_self _ _, hv⟩
    | pass c =>
      rw [listLoop_pass F P L state rest t ret c hv, passing_cons_pass F state rest c hv]
      rw [passing_cons_pass F state rest c hv, List.length_cons] at ht
      have hnext : (t + 1) % 2 ^ 32 = t + 1 := Nat.mod_eq_of_lt (by omega)
      rw [if_neg (by omega), hnext]
      have hmul : (P + 1) * L = P * L + L := by ring
      by_cases h1 : t / L < P
      · rw [if_pos h1]
        have h1m : t < P * L := (Nat.div_lt_iff_lt_mul hL).1 h1
        have e1 : P * L - t = (P * L - (t + 1)) + 1 := by omega
        have e2 : max t (P * L) = max (t + 1) (P * L) := by
          rw [max_eq_right (by omega), max_eq_right (by omega)]
        rw [e1, List.drop_succ_cons, e2]
        rcases ih (t + 1) ret (by omega) with h | ⟨h, x, hx, hf⟩
        · exact Or.inl h
        · exact Or.inr ⟨h, x, List.mem_cons_of_mem _ hx, hf⟩
      · rw [if_neg h1]
        have h1m : P * L ≤ t := by
          by_contra hcon
          exact h1 ((Nat.div_lt_iff_lt_mul hL).2 (by omega))
        by_cases h2 : t / L > P
        · rw [if_pos h2]
          left
          have h2m : (P + 1) * L ≤ t := (Nat.le_div_iff_mul_le hL).1 h2
          rw [max_eq_left h1m, Nat.sub_eq_zero_of_le h2m, List.take_zero, List.append_nil]
        · rw [if_neg h2]
          have h2m : t < (P + 1) * L := by
            by_contra hcon
            exact h2 ((Nat.le_div_iff_mul_le hL).2 (Nat.le_of_not_lt hcon))
          have hPL : (P * L) % 2 ^ 32 = P * L := Nat.mod_eq_of_lt (by omega)
          have h3 : (t + 1 + 2 ^ 32 - (P * L) % 2 ^ 32) % 2 ^ 32 = t + 1 - P * L := by
            rw [hPL]
            have : t + 1 + 2 ^ 32 - P * L = (t + 1 - P * L) + 2 ^ 32 := by omega
            rw [this, Nat.add_mod_right]
            exact Nat.mod_eq_of_lt (by omega)
          rw [h3, if_neg (by omega)]
          have e0 : P * L - t = 0 := by omega
          have e1 : P * L - (t + 1) = 0 := by omega
          have e2 : (P + 1) * L - max t (P * L) = ((P + 1) * L - max (t + 1) (P * L)) + 1 := by
            rw [max_eq_left h1m, max_eq_left (by omega)]
            omega
          rw [e0, List.drop_zero, e2, List.take_succ_cons]
          rcases ih (t + 1) (ret ++ [(state, c)]) (by omega) with h | ⟨h, x, hx, hf⟩
          · left
            rw [h, e1, List.drop_zero, List.append_assoc, List.singleton_append]
          · exact Or.inr ⟨h, x, List.mem_cons_of_mem _ hx, hf⟩

theorem getElem?_page {α : Type} (l : List α) (P L j : Nat) :
    ((l.drop (P * L)).take L)[j]? = if j < L then l[P * L + j]? else none := by
  rw [List.getElem?_take]
  split
  · rw [List.getElem?_drop]
  · rfl

/-- The property of C39 within the machine limits: for every `page` and every `limit ≥ 1` that
fit the 32 bits of `nPage` and `nLimit` (absent parameters count as page `0` and limit `100`),
and fewer than `2 ^ 32` passing registers, a response of `Objects::List` is the sublist of the
registers that pass the type and template filters, in the order of the register list, with the
ranks `page * limit ≤ r < (page + 1) * limit`; the method does return this response when no
register fails to parse; the response holds at most `limit` entries; and the passing register of
rank `r` is entry `r % limit` of page `r / limit`, so consecutive pages partition the passing
registers. -/
theorem list_paging (F : Filter) (page limit : Option Nat) (vRegisters : List Register)
    (hlimit : 1 ≤ limit.getD 100) (hl : limit.getD 100 < 2 ^ 32) (hp : page.getD 0 < 2 ^ 32)
    (hn : (passing F vRegisters).length < 2 ^ 32) :
    (∀ ret : List (Register × Bool),
      Objects.List F page limit vRegisters = Result.response ret →
      ret = ((passing F vRegisters).drop (page.getD 0 * limit.getD 100)).take
        (limit.getD 100)) ∧
    ((∀ state : Register, state ∈ vRegisters → verdict F state ≠ Verdict.fail) →
      Objects.List F page limit vRegisters =
        Result.response (((passing F vRegisters).drop (page.getD 0 * limit.getD 100)).take
          (limit.getD 100))) ∧
    (∀ j : Nat,
      (((passing F vRegisters).drop (page.getD 0 * limit.getD 100)).take (limit.getD 100))[j]? =
        if j < limit.getD 100 then (passing F vRegisters)[page.getD 0 * limit.getD 100 + j]?
        else none) ∧
    (((passing F vRegisters).drop (page.getD 0 * limit.getD 100)).take
      (limit.getD 100)).length ≤ limit.getD 100 ∧
    (∀ r : Nat,
      (((passing F vRegisters).drop (r / limit.getD 100 * limit.getD 100)).take
        (limit.getD 100))[r % limit.getD 100]? = (passing F vRegisters)[r]?) := by
  have hloop : Objects.List F page limit vRegisters =
      listLoop F (page.getD 0) (limit.getD 100) vRegisters 0 [] := by
    unfold Objects.List
    cases page with
    | none =>
      cases limit with
      | none => rfl
      | some m =>
        simp only [Option.getD_some] at hl
        simp only [Option.getD_some, Option.getD_none, Nat.mod_eq_of_lt hl]
    | some n =>
      simp only [Option.getD_some] at hp
      cases limit with
      | none => simp only [Option.getD_some, Option.getD_none, Nat.mod_eq_of_lt hp]
      | some m =>
        simp only [Option.getD_some] at hl
        simp only [Option.getD_some, Nat.mod_eq_of_lt hl, Nat.mod_eq_of_lt hp]
  have hform := listLoop_eq F (page.getD 0) (limit.getD 100) hlimit vRegisters 0 []
    (by omega)
  have hsub : (page.getD 0 + 1) * limit.getD 100 - max 0 (page.getD 0 * limit.getD 100) =
      limit.getD 100 := by
    rw [max_eq_right (Nat.zero_le _), Nat.add_mul, Nat.one_mul, Nat.add_sub_cancel_left]
  rw [hsub, Nat.sub_zero, List.nil_append] at hform
  refine ⟨?_, ?_, ?_, ?_, ?_⟩
  · intro ret hret
    rw [hloop] at hret
    rcases hform with h | ⟨h, _⟩
    · rw [h] at hret
      exact (Result.response.inj hret).symm
    · rw [h] at hret
      cases hret
  · intro hno
    rw [hloop]
    rcases hform with h | ⟨_, x, hx, hf⟩
    · exact h
    · exact absurd hf (hno x hx)
  · intro j
    exact getElem?_page _ _ _ _
  · rw [List.length_take]
    exact Nat.min_le_left _ _
  · intro r
    rw [getElem?_page, if_pos (Nat.mod_lt _ hlimit), Nat.mul_comm, Nat.div_add_mod]

/-- An instance of `list_paging` on the seven registers of the examples, five of which pass:
page `1` with limit `2` is the pair of the passing registers of ranks `2` and `3`. -/
theorem list_paging_witness :
    Objects.List exampleFilter (some 1) (some 2) exampleRegisters =
      Result.response [(exampleRegister 13, false), (exampleRegister 15, false)] ∧
    Objects.List exampleFilter (some 2) (some 2) exampleRegisters =
      Result.response [(exampleRegister 16, false)] ∧
    ((∀ ret : List (Register × Bool),
      Objects.List exampleFilter (some 1) (some 2) exampleRegisters = Result.response ret →
      ret = ((passing exampleFilter exampleRegisters).drop
        ((some 1).getD 0 * (some 2).getD 100)).take ((some 2).getD 100)) ∧
    ((∀ state : Register, state ∈ exampleRegisters →
        verdict exampleFilter state ≠ Verdict.fail) →
      Objects.List exampleFilter (some 1) (some 2) exampleRegisters =
        Result.response (((passing exampleFilter exampleRegisters).drop
          ((some 1).getD 0 * (some 2).getD 100)).take ((some 2).getD 100))) ∧
    (∀ j : Nat,
      (((passing exampleFilter exampleRegisters).drop
        ((some 1).getD 0 * (some 2).getD 100)).take ((some 2).getD 100))[j]? =
        if j < (some 2).getD 100 then
          (passing exampleFilter exampleRegisters)[(some 1).getD 0 * (some 2).getD 100 + j]?
        else none) ∧
    (((passing exampleFilter exampleRegisters).drop
      ((some 1).getD 0 * (some 2).getD 100)).take ((some 2).getD 100)).length ≤
        (some 2).getD 100 ∧
    (∀ r : Nat,
      (((passing exampleFilter exampleRegisters).drop
        (r / (some 2).getD 100 * (some 2).getD 100)).take
        ((some 2).getD 100))[r % (some 2).getD 100]? =
          (passing exampleFilter exampleRegisters)[r]?)) :=
  ⟨by decide, by decide,
   list_paging exampleFilter (some 1) (some 2) exampleRegisters (by decide) (by decide)
     (by decide) (by decide)⟩

/-- C39 fails on the code.  The parameter `limit = 4294967296` is at least 1; `std::stoul`
reads it and the assignment to the `uint32_t nLimit` cuts it to `0`, so the first register
that passes the filters reaches the division `nTotal / nLimit` by zero.  The parameter
`page = 4294967296` is cut to `0` in the same way: with limit `2` the response holds the
passing registers of ranks `0` and `1`, while no register has a rank from `2 * 4294967296`
on. -/
theorem list_paging_failing_input :
    Objects.List exampleFilter none (some 4294967296) exampleRegisters = Result.undefined ∧
    Objects.List exampleFilter (some 4294967296) (some 2) exampleRegisters =
      Result.response [(exampleRegister 10, false), (exampleRegister 11, false)] ∧
    ((passing exampleFilter exampleRegisters).drop (4294967296 * 2)).take 2 = [] ∧
    Objects.List exampleFilter (some 0) (some 2) exampleRegisters =
      Result.response [(exampleRegister 10, false), (exampleRegister 11, false)] := by
  decide

end TAO.API
